import Mathlib

/-!
spright: definition interpreter and sprite deduction

A shallow embedding of `src/common.cpp` (tokenizer) and `src/InputParser.cpp`
(scope stack interpreter, sprite finalisation and deduction).

Conventions
* `std::string`, `std::string_view` and `std::filesystem::path` are `List Char`
  (one `Char` per byte); string literals are written `"...".toList`.
* `int` is `Int`, and its arithmetic is exact. A signed overflow is undefined
  behaviour in C++; a statement about a sum or a product of `int` values carries the
  hypothesis that the result fits `int` (`fits_int`), under which the exact result is
  the result of the code.
* `utf8_to_path` and `path_to_utf8` keep the characters of a path: paths are written in
  the generic format, with single separators.
* A C++ exception is a value of `Exn`; a function that can throw returns
  `Except Exn _`, and a member function of `InputParser` runs in the monad `M`,
  which keeps the members as they were at the `throw`.
* `std::vector<State> scope_stack` is a `List State` whose head is `back()`.
-/

namespace Spright

/-! ## Exceptions -/

/-- The exceptions that can leave the embedded functions. -/
inductive Exn where
  /-- Thrown by `InputParser::error`: `std::runtime_error(what)`. -/
  | runtime_error (what : List Char)
  /-- A `std::out_of_range`: thrown by `std::string_view::substr` when `pos > size()`
  and by `std::stof` when the value is outside of the range of `float`. -/
  | out_of_range
  /-- A `std::invalid_argument`: thrown by `std::stof` when no conversion can be
  performed. -/
  | invalid_argument
  /-- Thrown by the `Image` constructor when the file cannot be loaded. -/
  | image_load (file : List Char)
  /-- Not an exception: the execution has reached undefined behaviour. -/
  | undefined
  /-- Not an exception: the bounded model of an unbounded loop ran out of steps. -/
  | out_of_fuel
  deriving DecidableEq, Repr

instance instDecidableEqExcept {ε α : Type} [DecidableEq ε] [DecidableEq α] :
    DecidableEq (Except ε α)
  | .ok a, .ok b =>
    if h : a = b then isTrue (by rw [h]) else isFalse (fun h2 => by cases h2; exact h rfl)
  | .error a, .error b =>
    if h : a = b then isTrue (by rw [h]) else isFalse (fun h2 => by cases h2; exact h rfl)
  | .ok _, .error _ => isFalse (fun h => by cases h)
  | .error _, .ok _ => isFalse (fun h => by cases h)

/-! ## common.cpp -/

/-- `is_space`: `std::isspace` in the "C" locale. -/
def is_space (c : Char) : Bool :=
  c = ' ' || c = '\t' || c = '\n' || c = '\x0b' || c = '\x0c' || c = '\r'

/-- `ltrim`: drops leading white space. -/
def ltrim : List Char → List Char
  | [] => []
  | c :: cs => if is_space c then ltrim cs else c :: cs

/-- `starts_with(str, with)`. -/
def starts_with (str w : List Char) : Bool :=
  decide (str.length ≥ w.length) && decide (str.take w.length = w)

/-- `std::string_view::substr(pos)`: throws `std::out_of_range` if `pos > size()`. -/
def substr_from (str : List Char) (pos : Nat) : Except Exn (List Char) :=
  if pos > str.length then .error .out_of_range else .ok (str.drop pos)

/-- `std::string_view::substr(pos, count)`: throws `std::out_of_range` if `pos > size()`. -/
def substr (str : List Char) (pos count : Nat) : Except Exn (List Char) :=
  if pos > str.length then .error .out_of_range else .ok ((str.drop pos).take count)

/-- `std::string_view::find(ch, pos)`: the first index `≥ pos` holding `ch`;
`none` is `npos`. -/
def find_from (str : List Char) (ch : Char) (pos : Nat) : Option Nat :=
  match (str.drop pos).indexOf? ch with
  | some i => some (pos + i)
  | none => none

/-- The inner `while (i < str.size() && !is_space(str[i])) ++i` of `split_arguments`. -/
def scan_word : List Char → Nat
  | [] => 0
  | c :: cs => if is_space c then 0 else scan_word cs + 1

/-- The `for (;;)` loop of `split_arguments`; every round removes at least one
character of `str`, `fuel` bounds the number of rounds. -/
def split_loop : Nat → List Char → List (List Char) → Except Exn (List (List Char))
  | 0, _, _ => .error .out_of_fuel
  | fuel + 1, str, result =>
    match ltrim str with
    | [] => .ok result
    | c :: cs =>
      if c = '"' ∨ c = '\'' then
        let e := (find_from (c :: cs) c 1).getD (c :: cs).length
        match substr (c :: cs) 1 (e - 1), substr_from (c :: cs) (e + 1) with
        | .ok tok, .ok rest => split_loop fuel rest (result ++ [tok])
        | .error x, _ => .error x
        | _, .error x => .error x
      else
        let i := scan_word (c :: cs)
        match substr (c :: cs) 0 i, substr_from (c :: cs) i with
        | .ok tok, .ok rest => split_loop fuel rest (result ++ [tok])
        | .error x, _ => .error x
        | _, .error x => .error x

/-- `split_arguments(str, result)`: `result` is cleared and refilled. -/
def split_arguments (str : List Char) : Except Exn (List (List Char)) :=
  split_loop (str.length + 1) str []

/-- `std::string_view::npos`, the largest value of `size_t` (64 bit). -/
def npos : Nat := 2 ^ 64 - 1

/-- Index of the first character of `str` that occurs in `w`, counted from `i`;
`none` when there is none. -/
def first_of_from (w : List Char) : List Char → Nat → Option Nat
  | [], _ => none
  | c :: cs, i => if w.contains c then some i else first_of_from w cs (i + 1)

/-- Index of the last character of `str` that occurs in `w`, counted from `i`;
`none` when there is none. -/
def last_of_from (w : List Char) : List Char → Nat → Option Nat
  | [], _ => none
  | c :: cs, i =>
    match last_of_from w cs (i + 1) with
    | some j => some j
    | none => if w.contains c then some i else none

/-- `std::string_view::find_first_of(with)`: a `size_t`, `npos` when no character of
`with` occurs. -/
def find_first_of (str w : List Char) : Nat := (first_of_from w str 0).getD npos

/-- `std::string_view::find_last_of(with)`: a `size_t`, `npos` when no character of
`with` occurs. -/
def find_last_of (str w : List Char) : Nat := (last_of_from w str 0).getD npos

/-- `starts_with_any(str, with)`: `str.find_first_of(with) == 0`. -/
def starts_with_any (str w : List Char) : Bool := find_first_of str w = 0

/-- `ends_with_any(str, with)`: `str.find_last_of(with) == str.size() - 1`, the
subtraction being one of `size_t` (modulo `2 ^ 64`). -/
def ends_with_any (str w : List Char) : Bool :=
  find_last_of str w = (str.length + 2 ^ 64 - 1) % 2 ^ 64

/-- A `std::string_view` into a line: `data()` is the address of the character with
index `pos` of the line. -/
structure View where
  pos : Nat
  size : Nat
  deriving DecidableEq, Repr

/-- The characters of a view into the line `str`. -/
def View.chars (str : List Char) (v : View) : List Char := (str.drop v.pos).take v.size

/-- The view that `join_expressions` assigns to `args[i]`: from `args[i].data()` to the
end of `args[i + 1]`; distance and sum are `size_t` values. -/
def View.join (a b : View) : View :=
  ⟨a.pos, ((((b.pos : Int) - (a.pos : Int)) % 2 ^ 64).toNat + b.size) % 2 ^ 64⟩

/-- The loop of `join_expressions` with `args[i] = a` and the views behind it; the views
before `args[i]` are final. -/
def join_from (str : List Char) (a : View) : List View → List View
  | [] => [a]
  | b :: rest =>
    if ends_with_any (a.chars str) "+-".toList || starts_with_any (b.chars str) "+-".toList then
      join_from str (a.join b) rest
    else a :: join_from str b rest

/-- `join_expressions(arguments)`, for views into the line `str`. -/
def join_expressions (str : List Char) : List View → List View
  | [] => []
  | a :: rest => join_from str a rest

/-- The character class `[0-9]` (`is_digit`, and the digits `std::from_chars` accepts). -/
def is_digit (c : Char) : Bool := decide ('0'.toNat ≤ c.toNat) && decide (c.toNat ≤ '9'.toNat)

/-- Value of a run of decimal digits. -/
def decimal_value (ds : List Char) : Nat :=
  ds.foldl (fun acc c => 10 * acc + (c.toNat - '0'.toNat)) 0

/-- `std::from_chars(first, last, int&)` in base 10: an optional `-` and the
longest run of digits that follows; `none` stands for an error code
(`invalid_argument` when there is no digit, `result_out_of_range` when the
value does not fit `int`), `some v` for `std::errc()` with the value `v`. The
characters behind the digits are not looked at. -/
def from_chars_int (str : List Char) : Option Int :=
  let neg := str.head? = some '-'
  let ds := (if neg then str.drop 1 else str).takeWhile is_digit
  if ds = [] then none
  else
    let v : Int := if neg then -(decimal_value ds : Int) else (decimal_value ds : Int)
    if -2147483648 ≤ v ∧ v ≤ 2147483647 then some v else none

/-- `std::to_string(int)` and `ostream << int`. -/
def to_string (n : Int) : List Char :=
  if n < 0 then '-' :: Nat.toDigits 10 n.natAbs else Nat.toDigits 10 n.natAbs

/-! ## Plain data (common.h, image.h, FilenameSequence.h, InputParser.h) -/

structure Point where
  x : Int
  y : Int
  deriving DecidableEq, Repr

structure Size where
  x : Int
  y : Int
  deriving DecidableEq, Repr

structure Rect where
  x : Int
  y : Int
  w : Int
  h : Int
  deriving DecidableEq, Repr

/-- `Rect::x1()`. -/
def Rect.x1 (r : Rect) : Int := r.x + r.w

/-- `Rect::y1()`. -/
def Rect.y1 (r : Rect) : Int := r.y + r.h

/-- The value fits `int` (32 bit). Within this range the exact arithmetic of the
embedding is the arithmetic of the code. -/
def fits_int (z : Int) : Prop := -2147483648 ≤ z ∧ z ≤ 2147483647

instance instDecidableFitsInt (z : Int) : Decidable (fits_int z) := by
  unfold fits_int
  exact inferInstance

/-- Modelled from the spec: `empty(const Size&)` is declared in common.h, which is not
part of the sources; a size is empty when one of its components is zero. -/
def Size.empty (s : Size) : Bool := s.x = 0 || s.y = 0

/-- Modelled from the spec: `empty(const Rect&)` is declared in common.h, which is not
part of the sources; a rectangle is empty ("no explicit rectangle was set") when its
width or its height is zero. -/
def Rect.empty (r : Rect) : Bool := r.w = 0 || r.h = 0

/-- Modelled from the spec: `floor(v, q)` of common.h (absent) rounds `v` down to a
multiple of the cell stride `q` (C++ integer division). -/
def floor (v q : Int) : Int := (v.tdiv q) * q

/-- Modelled from the spec: `ceil(v, q)` of common.h (absent) rounds `v` up to a
multiple of the cell stride `q` (C++ integer division). -/
def ceil (v q : Int) : Int := ((v + q - 1).tdiv q) * q

/-- A `float`: the embedding does not interpret IEEE arithmetic, a value is only
carried around. -/
structure Float32 where
  bits : Nat
  deriving DecidableEq, Repr

/-- The outcome of `std::stof`: the value, or one of the two exceptions that it
throws. -/
inductive Stof where
  | value (f : Float32)
  /-- `std::invalid_argument`: no conversion could be performed. -/
  | invalid_argument
  /-- `std::out_of_range`: the value is outside of the range of `float`. -/
  | out_of_range
  deriving DecidableEq, Repr

structure PointF where
  x : Float32
  y : Float32
  deriving DecidableEq, Repr

/-- `RGBA` of common.h: the four channels; its 32 bit view `rgba` is the field
`Env.rgba_of_bits` below. -/
structure RGBA where
  r : Nat
  g : Nat
  b : Nat
  a : Nat
  deriving DecidableEq, Repr

/-- `RGBA{ }`. -/
def RGBA.zero : RGBA := ⟨0, 0, 0, 0⟩

/-- The enumerators of `Definition`, `none` included. -/
inductive Definition where
  | none | texture | width | height | max_width | max_height | power_of_two | square
  | align_width | allow_rotate | padding | deduplicate | alpha | begin | path | sheet
  | colorkey | tag | grid | grid_offset | grid_spacing | offset | sprite | skip | span
  | rect | pivot | trim | trim_threshold | trim_margin | extrude | common_divisor
  deriving DecidableEq, Repr

/-- `Alpha`, in the order of the word list of `apply_definition`
(`static_cast<Alpha>(index)`). -/
inductive Alpha where
  | keep | clear | bleed | premultiply | colorkey
  deriving DecidableEq, Repr

/-- `PivotX`: the three words of the list in `apply_definition`, and `custom`. -/
inductive PivotX where
  | left | center | right | custom
  deriving DecidableEq, Repr

/-- `PivotY`: the three words of the list in `apply_definition`, and `custom`. -/
inductive PivotY where
  | top | middle | bottom | custom
  deriving DecidableEq, Repr

/-- `Trim`, in the order of the word list of `apply_definition`. -/
inductive Trim where
  | none | trim | crop
  deriving DecidableEq, Repr

structure Pivot where
  x : PivotX
  y : PivotY
  deriving DecidableEq, Repr

/-- Modelled from the spec: `FilenameSequence` (FilenameSequence.h is absent) is "a
filename pattern with an index placeholder and an optional bounded or unbounded
count". `filename` is the pattern as written; when `sequence` holds, the placeholder
stands between `pre` and `post`, indices start at `first`, and `bound` is the count
(`none`: unbounded). -/
structure FilenameSequence where
  filename : List Char
  sequence : Bool
  pre : List Char
  post : List Char
  first : Nat
  bound : Option Nat
  deriving DecidableEq, Repr

namespace FilenameSequence

/-- `FilenameSequence::empty()`. -/
def empty (f : FilenameSequence) : Bool := f.filename.isEmpty

/-- `FilenameSequence::is_sequence()`. -/
def is_sequence (f : FilenameSequence) : Bool := f.sequence

/-- `FilenameSequence::is_infinite_sequence()`. -/
def is_infinite_sequence (f : FilenameSequence) : Bool := f.sequence && f.bound.isNone

/-- `FilenameSequence::count()`: one file when the name is no sequence; the count of
an unbounded sequence is not defined before `set_count` and is taken as `0`. -/
def count (f : FilenameSequence) : Int :=
  if f.sequence then ((f.bound.getD 0 : Nat) : Int) else 1

/-- `FilenameSequence::set_count(count)`. -/
def set_count (f : FilenameSequence) (n : Int) : FilenameSequence :=
  { f with bound := some n.toNat }

/-- `FilenameSequence::get_nth_filename(index)`: "produces the Nth filename in the
series". -/
def get_nth_filename (f : FilenameSequence) (index : Int) : List Char :=
  if f.sequence then f.pre ++ to_string ((f.first : Int) + index) ++ f.post else f.filename

/-- The part of a pattern behind `{`: `first` `-` [`last`] `}` and the rest of the name. -/
def parse_placeholder (s : List Char) : Option (Nat × Option Nat × List Char) :=
  let ds := s.takeWhile is_digit
  match s.dropWhile is_digit with
  | '-' :: r =>
    let es := r.takeWhile is_digit
    match r.dropWhile is_digit with
    | '}' :: post =>
      if ds = [] then none
      else if es = [] then some (decimal_value ds, none, post)
      else some (decimal_value ds, some (decimal_value es + 1 - decimal_value ds), post)
    | _ => none
  | _ => none

/-- Looks for the first well-formed placeholder; `pre` collects (reversed) what was
passed over. -/
def parse_from (whole : List Char) : List Char → List Char → FilenameSequence
  | _, [] => ⟨whole, false, [], [], 0, none⟩
  | pre, c :: cs =>
    if c = '{' then
      match parse_placeholder cs with
      | some (first, bound, post) => ⟨whole, true, pre.reverse, post, first, bound⟩
      | none => parse_from whole (c :: pre) cs
    else parse_from whole (c :: pre) cs

/-- Modelled from the spec: the constructor `FilenameSequence(filename)`; the index
placeholder is written `{first-}` (unbounded) or `{first-last}`, as in the default
texture name `spright-{0-}.png` of InputParser.cpp. -/
def mk_from (filename : List Char) : FilenameSequence := parse_from filename [] filename

end FilenameSequence

/-- `State` (InputParser.h is absent): the members that InputParser.cpp reads or
writes. -/
structure State where
  definition : Definition
  level : Int
  indent : List Char
  texture : List Char
  width : Int
  height : Int
  max_width : Int
  max_height : Int
  power_of_two : Bool
  square : Bool
  align_width : Int
  allow_rotate : Bool
  border_padding : Int
  shape_padding : Int
  deduplicate : Bool
  alpha : Alpha
  alpha_colorkey : RGBA
  path : List Char
  sheet : FilenameSequence
  colorkey : RGBA
  tags : List (List Char × List Char)
  grid : Size
  grid_offset : Size
  grid_spacing : Size
  span : Size
  sprite : List Char
  rect : Rect
  pivot : Pivot
  pivot_point : PointF
  trim : Trim
  trim_margin : Int
  trim_threshold : Int
  extrude : Int
  common_divisor : Size
  deriving DecidableEq, Repr

/-- `Texture`: the members that `get_texture` initialises. -/
structure Texture where
  filename : FilenameSequence
  width : Int
  height : Int
  max_width : Int
  max_height : Int
  power_of_two : Bool
  square : Bool
  align_width : Int
  allow_rotate : Bool
  border_padding : Int
  shape_padding : Int
  deduplicate : Bool
  alpha : Alpha
  colorkey : RGBA
  deriving DecidableEq, Repr

/-- `Image` (image.h): `m_width`, `m_height` and the pixels `m_data`, row by row. -/
structure Image where
  m_width : Int
  m_height : Int
  m_data : List RGBA
  deriving DecidableEq, Repr

namespace Image

def width (i : Image) : Int := i.m_width

def height (i : Image) : Int := i.m_height

/-- `Image::bounds()`. -/
def bounds (i : Image) : Rect := ⟨0, 0, i.m_width, i.m_height⟩

/-- `Image::rgba_at(p)`: `m_data[p.y * m_width + p.x]`; reading outside of `m_data`
is undefined in C++ and yields `RGBA{ }` here. -/
def rgba_at (i : Image) (p : Point) : RGBA :=
  i.m_data.getD (p.y * i.m_width + p.x).toNat RGBA.zero

end Image

/-- The integers `a, a+1, ..., b-1` of `for (auto i = a; i < b; ++i)`. -/
def int_range (a b : Int) : List Int :=
  (List.range (b - a).toNat).map fun (i : Nat) => a + (i : Int)

/-- Modelled from the spec: `is_fully_transparent(image, rect)` (image.cpp is absent)
"operates over a rectangle by scanning the alpha channel": every pixel of `rect` has
alpha 0. -/
def is_fully_transparent (image : Image) (rect : Rect) : Bool :=
  (int_range rect.y rect.y1).all fun y =>
    (int_range rect.x rect.x1).all fun x => (image.rgba_at ⟨x, y⟩).a = 0

/-- Modelled from the spec: `is_opaque(image)` (image.cpp is absent), the full-opacity
test over the whole image: every pixel has alpha 255. -/
def is_opaque (image : Image) : Bool :=
  (int_range 0 image.m_height).all fun y =>
    (int_range 0 image.m_width).all fun x => (image.rgba_at ⟨x, y⟩).a = 255

/-- Modelled from the spec: `replace_color(image, original, color)` (image.cpp is
absent) gives every pixel of colour `original` the colour `color`. -/
def replace_color (image : Image) (original color : RGBA) : Image :=
  { image with m_data := image.m_data.map fun c => if c = original then color else c }

/-- The columns of the image that hold a non-transparent pixel, ascending. -/
def used_columns (image : Image) : List Int :=
  (int_range 0 image.m_width).filter fun x =>
    (int_range 0 image.m_height).any fun y => (image.rgba_at ⟨x, y⟩).a ≠ 0

/-- The rows of the image that hold a non-transparent pixel, ascending. -/
def used_rows (image : Image) : List Int :=
  (int_range 0 image.m_height).filter fun y =>
    (int_range 0 image.m_width).any fun x => (image.rgba_at ⟨x, y⟩).a ≠ 0

/-- Modelled from the spec: `get_used_bounds(image)` (image.cpp is absent) "returns the
minimal rectangle enclosing all non-transparent pixels (empty rectangle if none)". -/
def get_used_bounds (image : Image) : Rect :=
  match used_columns image, used_rows image with
  | c :: cs, r :: rs =>
    ⟨c, r, (c :: cs).getLast (List.cons_ne_nil c cs) + 1 - c,
           (r :: rs).getLast (List.cons_ne_nil r rs) + 1 - r⟩
  | _, _ => ⟨0, 0, 0, 0⟩

/-- `Sprite`: the members that `sprite_ends` fills. The shared pointers `texture` and
`source` are the keys of `m_textures` and `m_sheets`. -/
structure Sprite where
  id : List Char
  texture : List Char
  source : List Char
  source_rect : Rect
  pivot : Pivot
  pivot_point : PointF
  trim : Trim
  trim_margin : Int
  trim_threshold : Int
  extrude : Int
  common_divisor : Size
  tags : List (List Char × List Char)
  deriving DecidableEq, Repr

/-- What the interpreter takes from its collaborators and from declarations that are
not part of the sources. -/
structure Env where
  /-- The file system: the decoded image stored under a path, if there is one. -/
  fs : List Char → Option Image
  /-- `std::filesystem::weakly_canonical`. -/
  weakly_canonical : List Char → List Char
  /-- `guess_colorkey(image)` (image.cpp is absent). -/
  guess_colorkey : Image → RGBA
  /-- `find_islands(image)` (image.cpp is absent). -/
  find_islands : Image → List Rect
  /-- `std::stof`. -/
  stof : List Char → Stof
  /-- `static_cast<int>(f * static_cast<float>(n))`. -/
  scale : Float32 → Int → Int
  /-- The `RGBA` whose 32 bit member `rgba` holds the given value (the layout of
  `RGBA` is declared in common.h, which is absent). -/
  rgba_of_bits : Nat → RGBA
  /-- A value-initialised `State{ }` (its member initialisers are declared in
  InputParser.h, which is absent). -/
  state0 : State

/-- `operator/` of `std::filesystem::path` (POSIX): an absolute right operand
replaces the left one, otherwise a separator is put between the two. -/
def path_join (p f : List Char) : List Char :=
  if f.head? = some '/' then f
  else if p = [] ∨ p.getLast? = some '/' then p ++ f
  else p ++ '/' :: f

/-! ## InputParser.cpp: members and exceptions -/

/-- The members of `InputParser`. `autocomplete` is `m_settings.autocomplete`; an entry
`(key, none)` of `m_sheets` is a null pointer left behind by a failed load. -/
structure InputParser where
  autocomplete : Bool
  m_line_number : Int
  m_textures : List (List Char × Texture)
  m_sheets : List (List Char × Option Image)
  m_sprites : List Sprite
  m_autocomplete_output : List Char
  m_sprites_in_current_sheet : Int
  m_current_offset : Point
  m_current_sequence_index : Int
  deriving DecidableEq, Repr

/-- A member function: from the members before the call to the result (or the
exception) and the members after the call (or at the `throw`). -/
def M (α : Type) : Type := InputParser → Except Exn α × InputParser

namespace M

def pure {α : Type} (a : α) : M α := fun p => (.ok a, p)

def bind {α β : Type} (x : M α) (f : α → M β) : M β := fun p =>
  match x p with
  | (.ok a, q) => f a q
  | (.error e, q) => (.error e, q)

instance : Monad M where
  pure := M.pure
  bind := M.bind

/-- Reads the members. -/
def get : M InputParser := fun p => (.ok p, p)

/-- Updates the members. -/
def modify (f : InputParser → InputParser) : M Unit := fun p => (.ok (), f p)

/-- `throw`. -/
def throw {α : Type} (e : Exn) : M α := fun p => (.error e, p)

/-- Calls a function that is no member and may throw. -/
def lift {α : Type} (x : Except Exn α) : M α := fun p => (x, p)

/-- `if (condition) action;` -/
def when (condition : Bool) (action : M Unit) : M Unit :=
  if condition then action else pure ()

/-- `m_autocomplete_output << text`. -/
def output (text : List Char) : M Unit :=
  modify fun p => { p with m_autocomplete_output := p.m_autocomplete_output ++ text }

end M

/-- The text that `InputParser::error` throws for `message`. -/
def error_text (line_number : Int) (message : List Char) : List Char :=
  if line_number ≠ 0 then message ++ " in line ".toList ++ to_string line_number else message

/-- `InputParser::error`. -/
def error {α : Type} (message : List Char) : M α := fun p =>
  (.error (.runtime_error (error_text p.m_line_number message)), p)

/-- `InputParser::check`. -/
def check (condition : Bool) (message : List Char) : M Unit :=
  if condition then pure () else error message

/-- The keyword table `s_map` of `get_definition`. -/
def s_map : List (List Char × Definition) :=
  [ ("texture".toList, .texture), ("width".toList, .width), ("height".toList, .height),
    ("max-width".toList, .max_width), ("max-height".toList, .max_height),
    ("power-of-two".toList, .power_of_two), ("square".toList, .square),
    ("align-width".toList, .align_width), ("allow-rotate".toList, .allow_rotate),
    ("padding".toList, .padding), ("deduplicate".toList, .deduplicate),
    ("alpha".toList, .alpha), ("begin".toList, .begin), ("path".toList, .path),
    ("sheet".toList, .sheet), ("colorkey".toList, .colorkey), ("tag".toList, .tag),
    ("grid".toList, .grid), ("grid-offset".toList, .grid_offset),
    ("grid-spacing".toList, .grid_spacing), ("offset".toList, .offset),
    ("sprite".toList, .sprite), ("skip".toList, .skip), ("span".toList, .span),
    ("rect".toList, .rect), ("pivot".toList, .pivot), ("trim".toList, .trim),
    ("trim-threshold".toList, .trim_threshold), ("trim-margin".toList, .trim_margin),
    ("extrude".toList, .extrude), ("common-divisor".toList, .common_divisor),
    ("in".toList, .sheet), ("out".toList, .texture) ]

/-- `get_definition`. -/
def get_definition (command : List Char) : Definition :=
  (s_map.lookup command).getD .none

/-- The loop of `index_of`, `i` being the running index. -/
def index_from (string : List Char) : List (List Char) → Int → Int
  | [], _ => -1
  | s :: strings, i => if string = s then i else index_from string strings (i + 1)

/-- `index_of(string, strings)`. -/
def index_of (string : List Char) (strings : List (List Char)) : Int :=
  index_from string strings 0

/-- `default_texture_name`. -/
def default_texture_name : List Char := "spright-{0-}.png".toList

/-- Assignment through `map[key]`: the entry of `key` is replaced or added. -/
def map_set {β : Type} (m : List (List Char × β)) (key : List Char) (v : β) :
    List (List Char × β) :=
  m.filter (fun e => e.1 ≠ key) ++ [(key, v)]

/-- The `Texture` that `get_texture` creates from a state; `path_to_utf8` keeps the
characters of a path in the generic format (see the conventions). -/
def texture_of (state : State) : Texture :=
  { filename := FilenameSequence.mk_from state.texture
    width := state.width
    height := state.height
    max_width := state.max_width
    max_height := state.max_height
    power_of_two := state.power_of_two
    square := state.square
    align_width := state.align_width
    allow_rotate := state.allow_rotate
    border_padding := state.border_padding
    shape_padding := state.shape_padding
    deduplicate := state.deduplicate
    alpha := state.alpha
    colorkey := state.alpha_colorkey }

/-- `InputParser::get_texture`: returns the key of the (possibly new) texture. -/
def get_texture (env : Env) (state : State) : M (List Char) := fun p =>
  let key := env.weakly_canonical state.texture
  match p.m_textures.lookup key with
  | some _ => (.ok key, p)
  | none => (.ok key, { p with m_textures := map_set p.m_textures key (texture_of state) })

/-- `InputParser::get_sheet(path, filename, colorkey)`: returns the key of the sheet
and the cached image. -/
def get_sheet_file (env : Env) (path filename : List Char) (colorkey : RGBA) :
    M (List Char × Image) := fun p =>
  let key := env.weakly_canonical (path_join path filename)
  match p.m_sheets.lookup key with
  | some (some sheet) => (.ok (key, sheet), p)
  | _ =>
    match env.fs (path_join path filename) with
    | none =>
      (.error (.image_load (path_join path filename)),
        { p with m_sheets := map_set p.m_sheets key none })
    | some image =>
      let image :=
        if is_opaque image then
          replace_color image (if colorkey.a = 0 then env.guess_colorkey image else colorkey)
            RGBA.zero
        else image
      (.ok (key, image), { p with m_sheets := map_set p.m_sheets key (some image) })

/-- `InputParser::get_sheet(state, index)`. -/
def get_sheet_at (env : Env) (state : State) (index : Int) : M (List Char × Image) :=
  get_sheet_file env state.path (state.sheet.get_nth_filename index) state.colorkey

/-- `InputParser::get_sheet(state)`. -/
def get_sheet (env : Env) (state : State) : M (List Char × Image) := do
  let p ← M.get
  get_sheet_at env state p.m_current_sequence_index

/-- `InputParser::sprite_ends`; the result is `state` after the call. The products and
the sum of "generate rect from grid" are exact (see the conventions on `int`). -/
def sprite_ends (env : Env) (state : State) : M State := do
  check (!state.sheet.empty) "sprite not on sheet".toList
  let p ← M.get
  let state ←
    (if state.rect.empty && !state.grid.empty then do
      M.modify fun q => { q with m_current_offset :=
        ⟨q.m_current_offset.x + state.grid.x * state.span.x, q.m_current_offset.y⟩ }
      pure { state with rect :=
        ⟨p.m_current_offset.x, p.m_current_offset.y,
         state.grid.x * state.span.x, state.grid.y * state.span.y⟩ }
    else pure state)
  let id :=
    if !state.sprite.isEmpty then state.sprite
    else "sprite_".toList ++ to_string (p.m_sprites.length : Int)
  let texture ← get_texture env state
  let (source, sheet) ← get_sheet env state
  let sprite : Sprite :=
    { id := id
      texture := texture
      source := source
      source_rect := if !state.rect.empty then state.rect else sheet.bounds
      pivot := state.pivot
      pivot_point := state.pivot_point
      trim := state.trim
      trim_margin := state.trim_margin
      trim_threshold := state.trim_threshold
      extrude := state.extrude
      common_divisor := state.common_divisor
      tags := state.tags }
  M.modify fun q => { q with m_sprites := q.m_sprites ++ [sprite] }
  M.when state.sheet.is_sequence
    (M.modify fun q => { q with m_current_sequence_index := q.m_current_sequence_index + 1 })
  M.modify fun q => { q with m_sprites_in_current_sheet := q.m_sprites_in_current_sheet + 1 }
  pure state

/-- The probing loop of `deduce_sequence_sprites`: the first index from `i` on whose
file does not exist; `fuel` bounds the number of probes. -/
def probe_sequence (env : Env) (state : State) : Nat → Int → Option Int
  | 0, _ => none
  | fuel + 1, i =>
    if (env.fs (path_join state.path (state.sheet.get_nth_filename i))).isNone then some i
    else probe_sequence env state fuel (i + 1)

/-- The second loop of `deduce_sequence_sprites`, over the remaining indices. -/
def deduce_sequence_loop (env : Env) : List Int → State → M State
  | [], state => pure state
  | i :: rest, state => do
    let (_, sheet) ← get_sheet_at env state i
    let state := { state with rect := sheet.bounds }
    let p ← M.get
    M.when p.autocomplete (M.output (state.indent ++ "sprite\n".toList))
    let state ← sprite_ends env state
    deduce_sequence_loop env rest state

/-- `InputParser::deduce_sequence_sprites`. -/
def deduce_sequence_sprites (env : Env) (fuel : Nat) (state : State) : M State := do
  let state ←
    (if state.sheet.is_infinite_sequence then
      match probe_sequence env state fuel 0 with
      | some i => pure { state with sheet := state.sheet.set_count i }
      | none => M.throw .out_of_fuel
    else pure state)
  deduce_sequence_loop env (int_range 0 state.sheet.count) state

/-- The inner loop of `deduce_grid_sprites` over the remaining columns of row `y`;
it carries `state`, `output_offset` and `skipped`. -/
def deduce_grid_row (env : Env) (sheet : Image) (grid : Size) (x0 y : Int) :
    List Int → State × Bool × Int → M (State × Bool × Int)
  | [], acc => pure acc
  | x :: rest, (state, output_offset, skipped) => do
    let state := { state with rect :=
      ⟨state.grid_offset.x + x * grid.x, state.grid_offset.y + y * grid.y,
       state.grid.x, state.grid.y⟩ }
    if is_fully_transparent sheet state.rect then
      deduce_grid_row env sheet grid x0 y rest (state, output_offset, skipped + 1)
    else do
      let p ← M.get
      M.when (p.autocomplete && !output_offset && (decide (x0 ≠ 0) || decide (y ≠ 0)))
        (M.output (state.indent ++ "offset ".toList ++ to_string x0 ++ " ".toList
          ++ to_string y ++ "\n".toList))
      M.when (p.autocomplete && decide (skipped > 0))
        (M.output (state.indent ++ "skip".toList
          ++ (if skipped > 1 then " ".toList ++ to_string skipped else []) ++ "\n".toList))
      let skipped := if p.autocomplete && decide (skipped > 0) then 0 else skipped
      M.when p.autocomplete (M.output (state.indent ++ "sprite\n".toList))
      let output_offset := if p.autocomplete then true else output_offset
      let state ← sprite_ends env state
      deduce_grid_row env sheet grid x0 y rest (state, output_offset, skipped)

/-- The outer loop of `deduce_grid_sprites` over the remaining rows. -/
def deduce_grid_rows (env : Env) (sheet : Image) (grid : Size) (x0 x1 : Int) :
    List Int → State → M State
  | [], state => pure state
  | y :: rest, state => do
    let (state, _, _) ← deduce_grid_row env sheet grid x0 y (int_range x0 x1) (state, false, 0)
    deduce_grid_rows env sheet grid x0 x1 rest state

/-- `InputParser::deduce_grid_sprites`; a division by zero is undefined behaviour. The
sum of the cell size and the spacing and the products are exact (see the conventions
on `int`). -/
def deduce_grid_sprites (env : Env) (state : State) : M State := do
  let (_, sheet) ← get_sheet env state
  let bounds := get_used_bounds sheet
  let grid : Size := ⟨state.grid.x + state.grid_spacing.x, state.grid.y + state.grid_spacing.y⟩
  if grid.x = 0 ∨ grid.y = 0 then M.throw .undefined
  else
    let x0 := (floor bounds.x grid.x).tdiv grid.x
    let y0 := (floor bounds.y grid.y).tdiv grid.y
    let x1 := (min (ceil bounds.x1 grid.x) sheet.width).tdiv grid.x
    let y1 := (min (ceil bounds.y1 grid.y) sheet.height).tdiv grid.y
    deduce_grid_rows env sheet grid x0 x1 (int_range y0 y1) state

/-- The loop of `deduce_unaligned_sprites` over the remaining islands. -/
def deduce_unaligned_loop (env : Env) (sheet : Image) : List Rect → State → M State
  | [], state => pure state
  | rect :: rest, state => do
    let p ← M.get
    M.when p.autocomplete (M.output (state.indent ++ "sprite \n".toList))
    M.when (p.autocomplete && decide (rect ≠ sheet.bounds))
      (M.output (state.indent ++ "  rect ".toList ++ to_string rect.x ++ " ".toList
        ++ to_string rect.y ++ " ".toList ++ to_string rect.w ++ " ".toList
        ++ to_string rect.h ++ "\n".toList))
    let state ← sprite_ends env { state with rect := rect }
    deduce_unaligned_loop env sheet rest state

/-- `InputParser::deduce_unaligned_sprites`. -/
def deduce_unaligned_sprites (env : Env) (state : State) : M State := do
  let (_, sheet) ← get_sheet env state
  deduce_unaligned_loop env sheet (env.find_islands sheet) state

/-- `InputParser::texture_ends`. -/
def texture_ends (env : Env) (state : State) : M State := do
  let _ ← get_texture env state
  pure state

/-- `InputParser::sheet_ends`. -/
def sheet_ends (env : Env) (fuel : Nat) (state : State) : M State := do
  let p ← M.get
  let state ←
    (if p.m_sprites_in_current_sheet = 0 then
      if state.sheet.is_sequence then deduce_sequence_sprites env fuel state
      else if !state.grid.empty then deduce_grid_sprites env state
      else deduce_unaligned_sprites env state
    else pure state)
  M.modify fun q => { q with m_sprites_in_current_sheet := 0 }
  pure state

/-- `InputParser::has_implicit_scope`. -/
def has_implicit_scope (definition : Definition) : Bool :=
  definition = .texture || definition = .sheet || definition = .sprite

/-- `InputParser::scope_ends`. -/
def scope_ends (env : Env) (fuel : Nat) (state : State) : M State :=
  match state.definition with
  | .texture => texture_ends env state
  | .sheet => sheet_ends env fuel state
  | .sprite => sprite_ends env state
  | _ => pure state

/-! ## InputParser.cpp: apply_definition

The lambdas of `apply_definition` take the arguments that are left
(`arguments` from `argument_index` on) and return them without what they consumed. -/

/-- The lambda `check_string`. -/
def check_string (arguments : List (List Char)) : M (List Char × List (List Char)) :=
  match arguments with
  | [] => error "invalid argument count".toList
  | a :: rest => pure (a, rest)

/-- The lambda `check_path` (`utf8_to_path` keeps the bytes). -/
def check_path (arguments : List (List Char)) : M (List Char × List (List Char)) :=
  check_string arguments

/-- The lambda `is_number_following`. -/
def is_number_following (arguments : List (List Char)) : Bool :=
  match arguments with
  | [] => false
  | str :: _ => (from_chars_int str).isSome

/-- The lambda `check_uint`. -/
def check_uint (arguments : List (List Char)) : M (Int × List (List Char)) := do
  let (str, rest) ← check_string arguments
  match from_chars_int str with
  | some result =>
    if result ≥ 0 then pure (result, rest) else error "invalid number".toList
  | none => error "invalid number".toList

/-- The lambda `check_bool`. -/
def check_bool (default_to_true : Bool) (arguments : List (List Char)) :
    M (Bool × List (List Char)) :=
  if default_to_true && arguments.isEmpty then pure (true, arguments)
  else do
    let (str, rest) ← check_string arguments
    if str = "true".toList then pure (true, rest)
    else if str = "false".toList then pure (false, rest)
    else error ("invalid boolean value '".toList ++ str ++ "'".toList)

/-- The lambda `check_float`: `std::stof` throws `std::invalid_argument` or
`std::out_of_range`. -/
def check_float (env : Env) (arguments : List (List Char)) : M (Float32 × List (List Char)) := do
  let (str, rest) ← check_string arguments
  match env.stof str with
  | .value f => pure (f, rest)
  | .invalid_argument => M.throw .invalid_argument
  | .out_of_range => M.throw .out_of_range

/-- The lambda `check_size`. -/
def check_size (default_to_square : Bool) (arguments : List (List Char)) :
    M (Size × List (List Char)) := do
  let (x, rest) ← check_uint arguments
  if !rest.isEmpty || !default_to_square then
    let (y, rest) ← check_uint rest
    pure (⟨x, y⟩, rest)
  else pure (⟨x, x⟩, rest)

/-- The lambda `check_rect`. -/
def check_rect (arguments : List (List Char)) : M (Rect × List (List Char)) := do
  let (x, rest) ← check_uint arguments
  let (y, rest) ← check_uint rest
  let (w, rest) ← check_uint rest
  let (h, rest) ← check_uint rest
  pure (⟨x, y, w, h⟩, rest)

/-- Value of a hexadecimal digit. -/
def hex_digit (c : Char) : Option Nat :=
  if is_digit c then some (c.toNat - '0'.toNat)
  else if 'a'.toNat ≤ c.toNat ∧ c.toNat ≤ 'f'.toNat then some (c.toNat - 'a'.toNat + 10)
  else if 'A'.toNat ≤ c.toNat ∧ c.toNat ≤ 'F'.toNat then some (c.toNat - 'A'.toNat + 10)
  else none

/-- `stream >> value` for a 32 bit unsigned `value` and a stream in `std::hex` mode
that holds `s`: white space is skipped, a sign and a `0x` are accepted, the digits
that follow are read; no digit stores `0`, a value that does not fit stores the
largest value. -/
def istream_hex (s : List Char) : Nat :=
  let s := ltrim s
  let neg := s.head? = some '-'
  let s := if s.head? = some '-' ∨ s.head? = some '+' then s.drop 1 else s
  let s :=
    match s with
    | '0' :: x :: d :: r =>
      if (x = 'x' ∨ x = 'X') ∧ (hex_digit d).isSome then d :: r else s
    | _ => s
  let v := (s.takeWhile fun c => (hex_digit c).isSome).foldl
    (fun acc c => 16 * acc + (hex_digit c).getD 0) 0
  if v > 4294967295 then 4294967295
  else if neg then (4294967296 - v) % 4294967296 else v

/-- The lambda `check_color`. -/
def check_color (env : Env) (arguments : List (List Char)) : M (RGBA × List (List Char)) := do
  let (str, rest) ← check_string arguments
  check (str.head? = some '#') "color in HTML notation expected".toList
  let color := env.rgba_of_bits (istream_hex (str.drop 1))
  pure (if color.a = 0 then { color with a := 255 } else color, rest)

/-- `static_cast<Alpha>(index)` for an index of the word list. -/
def Alpha.of_index (i : Int) : Alpha :=
  if i = 0 then .keep else if i = 1 then .clear else if i = 2 then .bleed
  else if i = 3 then .premultiply else .colorkey

/-- `static_cast<PivotX>(index)` for an index of the word list. -/
def PivotX.of_index (i : Int) : PivotX :=
  if i = 0 then .left else if i = 1 then .center else .right

/-- `static_cast<PivotY>(index)` for an index of the word list. -/
def PivotY.of_index (i : Int) : PivotY :=
  if i = 0 then .top else if i = 1 then .middle else .bottom

/-- `static_cast<Trim>(index)` for an index of the word list. -/
def Trim.of_index (i : Int) : Trim :=
  if i = 0 then .none else if i = 1 then .trim else .crop

/-- One round of the `for (auto i = 0; i < 2; ++i)` loop of the `pivot` case. -/
def pivot_word (state : State) (arguments : List (List Char)) :
    M (State × List (List Char)) := do
  let (string, rest) ← check_string arguments
  let ix := index_of string ["left".toList, "center".toList, "right".toList]
  if ix ≥ 0 then
    pure ({ state with pivot := { state.pivot with x := PivotX.of_index ix } }, rest)
  else
    let iy := index_of string ["top".toList, "middle".toList, "bottom".toList]
    if iy ≥ 0 then
      pure ({ state with pivot := { state.pivot with y := PivotY.of_index iy } }, rest)
    else error ("invalid pivot value '".toList ++ string ++ "'".toList)

/-- The `switch` of `apply_definition`: the state after it and the arguments that it
has not consumed. The sum and the product of the `skip` case are exact (see the
conventions on `int`); `path_to_utf8` in the `sheet` case keeps the characters of a path
in the generic format. -/
def apply_switch (env : Env) (state : State) (definition : Definition)
    (arguments : List (List Char)) : M (State × List (List Char)) :=
  match definition with
  | .begin => pure (state, arguments)
  | .texture => do
    let (v, rest) ← check_path arguments
    pure ({ state with texture := v }, rest)
  | .width => do
    let (v, rest) ← check_uint arguments
    pure ({ state with width := v }, rest)
  | .height => do
    let (v, rest) ← check_uint arguments
    pure ({ state with height := v }, rest)
  | .max_width => do
    let (v, rest) ← check_uint arguments
    pure ({ state with max_width := v }, rest)
  | .max_height => do
    let (v, rest) ← check_uint arguments
    pure ({ state with max_height := v }, rest)
  | .power_of_two => do
    let (v, rest) ← check_bool true arguments
    pure ({ state with power_of_two := v }, rest)
  | .square => do
    let (v, rest) ← check_bool true arguments
    pure ({ state with square := v }, rest)
  | .align_width => do
    let (v, rest) ← check_uint arguments
    pure ({ state with align_width := v }, rest)
  | .allow_rotate => do
    let (v, rest) ← check_bool true arguments
    pure ({ state with allow_rotate := v }, rest)
  | .padding => do
    let (shape, rest) ← (if !arguments.isEmpty then check_uint arguments else pure (1, arguments))
    let (border, rest) ← (if !rest.isEmpty then check_uint rest else pure (shape, rest))
    pure ({ state with shape_padding := shape, border_padding := border }, rest)
  | .deduplicate => do
    let (v, rest) ← check_bool true arguments
    pure ({ state with deduplicate := v }, rest)
  | .alpha => do
    let (string, rest) ← check_string arguments
    let index := index_of string
      ["keep".toList, "clear".toList, "bleed".toList, "premultiply".toList, "colorkey".toList]
    if index ≥ 0 then
      let state := { state with alpha := Alpha.of_index index }
      if state.alpha = .colorkey then
        let (c, rest) ← check_color env rest
        pure ({ state with alpha_colorkey := c }, rest)
      else pure (state, rest)
    else error ("invalid alpha value '".toList ++ string ++ "'".toList)
  | .path => do
    let (v, rest) ← check_path arguments
    pure ({ state with path := v }, rest)
  | .sheet => do
    let (v, rest) ← check_path arguments
    M.modify fun q => { q with m_current_offset := ⟨0, 0⟩, m_current_sequence_index := 0 }
    pure ({ state with sheet := FilenameSequence.mk_from v }, rest)
  | .colorkey => do
    let (c, rest) ← check_color env arguments
    pure ({ state with colorkey := c }, rest)
  | .tag => do
    let (key, rest) ← check_string arguments
    let (value, rest) ← (if !rest.isEmpty then check_string rest else pure ([], rest))
    pure ({ state with tags := map_set state.tags key value }, rest)
  | .grid => do
    let (v, rest) ← check_size true arguments
    pure ({ state with grid := v }, rest)
  | .grid_offset => do
    let (v, rest) ← check_size true arguments
    pure ({ state with grid_offset := v }, rest)
  | .grid_spacing => do
    let (v, rest) ← check_size true arguments
    pure ({ state with grid_spacing := v }, rest)
  | .offset => do
    check (!state.grid.empty) "offset is only valid in grid".toList
    let (fx, rest) ← check_float env arguments
    M.modify fun q => { q with m_current_offset := ⟨env.scale fx state.grid.x, q.m_current_offset.y⟩ }
    let (fy, rest) ← check_float env rest
    M.modify fun q => { q with m_current_offset := ⟨q.m_current_offset.x, env.scale fy state.grid.y⟩ }
    pure (state, rest)
  | .skip => do
    check (!state.grid.empty) "skip is only valid in grid".toList
    let (n, rest) ← (if !arguments.isEmpty then check_uint arguments else pure (1, arguments))
    M.modify fun q => { q with m_current_offset :=
      ⟨q.m_current_offset.x + n * state.grid.x, q.m_current_offset.y⟩ }
    pure (state, rest)
  | .span => do
    let (v, rest) ← check_size false arguments
    check (decide (v.x > 0) && decide (v.y > 0)) "invalid span".toList
    pure ({ state with span := v }, rest)
  | .sprite =>
    if !arguments.isEmpty then do
      let (v, rest) ← check_string arguments
      pure ({ state with sprite := v }, rest)
    else pure (state, arguments)
  | .rect => do
    let (v, rest) ← check_rect arguments
    pure ({ state with rect := v }, rest)
  | .pivot =>
    if is_number_following arguments then do
      let state := { state with pivot := ⟨.custom, .custom⟩ }
      let (fx, rest) ← check_float env arguments
      let (fy, rest) ← check_float env rest
      pure ({ state with pivot_point := ⟨fx, fy⟩ }, rest)
    else do
      let (state, rest) ← pivot_word state arguments
      pivot_word state rest
  | .trim =>
    if arguments.isEmpty then pure ({ state with trim := .trim }, arguments)
    else do
      let (string, rest) ← check_string arguments
      let index := index_of string ["none".toList, "trim".toList, "crop".toList]
      if index ≥ 0 then pure ({ state with trim := Trim.of_index index }, rest)
      else error ("invalid trim value '".toList ++ string ++ "'".toList)
  | .trim_margin => do
    let (v, rest) ← check_uint arguments
    pure ({ state with trim_margin := v }, rest)
  | .trim_threshold => do
    let (v, rest) ← check_uint arguments
    check (decide (v ≥ 1) && decide (v ≤ 255)) "invalid threshold".toList
    pure ({ state with trim_threshold := v }, rest)
  | .extrude => do
    let (v, rest) ← (if !arguments.isEmpty then check_uint arguments else pure (1, arguments))
    pure ({ state with extrude := v }, rest)
  | .common_divisor => do
    let (v, rest) ← check_size true arguments
    check (decide (v.x ≥ 1) && decide (v.y ≥ 1)) "invalid divisor".toList
    pure ({ state with common_divisor := v }, rest)
  | .none => pure (state, arguments)

/-- `InputParser::apply_definition`; the result is `state` after the call. -/
def apply_definition (env : Env) (state : State) (definition : Definition)
    (arguments : List (List Char)) : M State := do
  let (state, rest) ← apply_switch env state definition arguments
  check rest.isEmpty "invalid argument count".toList
  pure state

/-! ## InputParser.cpp: parse -/

/-- The local variables of `parse` that live across lines. The head of `scope_stack`
is `scope_stack.back()`. -/
structure Locals where
  detected_indetation : List Char
  scope_stack : List State
  autocomplete_space : List Char
  deriving DecidableEq, Repr

/-- The `for (auto last = scope_stack.rbegin(); ; ++last)` loop of the lambda
`pop_scope_stack`. `above` holds the records that `last` has passed, `back()` first,
and `last` points at the head of the third list. Running past `rend()` is undefined
behaviour. The result is the stack after the `erase`. -/
def pop_loop (env : Env) (fuel : Nat) (detected_indetation : List Char) (level : Int) :
    List State → List State → M (List State)
  | _, [] => M.throw .undefined
  | above, last :: below =>
    if has_implicit_scope last.definition && decide (level ≤ last.level) then
      match above with
      | [] => do
        -- `&*last == &scope_stack.back()`
        let state := { last with definition := last.definition,
                                 indent := last.indent ++ detected_indetation }
        let state ← scope_ends env fuel state
        pop_loop env fuel detected_indetation level [state] below
      | back :: mid => do
        let state := { back with definition := last.definition }
        let state ← scope_ends env fuel state
        pop_loop env fuel detected_indetation level (state :: mid ++ [last]) below
    else if level ≥ last.level then
      -- `top = last.base()` is the record above `last`, if there is one
      match above.getLast? with
      | some top =>
        if top.definition = .texture then pure ({ last with texture := top.texture } :: below)
        else pure (last :: below)
      | none => pure (last :: below)
    else pop_loop env fuel detected_indetation level (above ++ [last]) below

/-- The lambda `pop_scope_stack` of `parse`. -/
def pop_scope_stack (env : Env) (fuel : Nat) (detected_indetation : List Char) (level : Int)
    (scope_stack : List State) : M (List State) :=
  pop_loop env fuel detected_indetation level [] scope_stack

/-- The body of the `for` loop of `parse` for the line `buffer` that `std::getline` has
read; `eof` is `input.eof()` after that read. -/
def parse_line (env : Env) (fuel : Nat) (buffer : List Char) (eof : Bool) (loc : Locals) :
    M Locals := do
  let line := ltrim buffer
  let p ← M.get
  if line.isEmpty || starts_with line "#".toList then
    if p.autocomplete then
      if eof then do
        M.output loc.autocomplete_space
        pure loc
      else pure { loc with autocomplete_space := loc.autocomplete_space ++ buffer ++ ['\n'] }
    else pure loc
  else do
    let arguments ← M.lift (split_arguments line)
    match arguments with
    | [] => M.throw .undefined
    | keyword :: arguments =>
      let definition := get_definition keyword
      if definition = .none then
        error ("invalid definition '".toList ++ keyword ++ "'".toList)
      else do
        let level : Int := (buffer.length : Int) - (line.length : Int)
        let scope_stack ← pop_scope_stack env fuel loc.detected_indetation level loc.scope_stack
        match scope_stack with
        | [] => M.throw .undefined
        | back :: below =>
          let scope_stack :=
            if decide (level > back.level) || has_implicit_scope definition then
              back :: back :: below
            else back :: below
          match scope_stack with
          | [] => M.throw .undefined
          | state :: below =>
            let state := { state with definition := definition, level := level,
                                      indent := buffer.take level.toNat }
            let detected :=
              if loc.detected_indetation.isEmpty && !state.indent.isEmpty then state.indent
              else loc.detected_indetation
            let state ← apply_definition env state definition arguments
            if p.autocomplete then do
              M.output (loc.autocomplete_space ++ buffer ++ ['\n'])
              pure ⟨detected, state :: below, []⟩
            else pure ⟨detected, state :: below, loc.autocomplete_space⟩

/-- The lines that successive `std::getline` calls read from a stream holding the
given text: the pieces between the `'\n'`, each with the value of `input.eof()`
after the call. Only the last piece (possibly empty) is read up to the end of the
stream and sets `eof`. -/
def getlines : List Char → List (List Char × Bool)
  | [] => [([], true)]
  | c :: cs =>
    if c = '\n' then ([], false) :: getlines cs
    else
      match getlines cs with
      | [] => [([c], true)]
      | (l, e) :: ls => (c :: l, e) :: ls

/-- The `for (m_line_number = 1; !input.eof(); ++m_line_number)` loop of `parse` over
the lines that are left, `n` being the number of the first of them. The result also
holds the value of `m_line_number` when the loop is left. -/
def parse_loop (env : Env) (fuel : Nat) :
    List (List Char × Bool) → Int → Locals → M (Locals × Int)
  | [], n, loc => pure (loc, n)
  | (buffer, eof) :: rest, n, loc => do
    M.modify fun q => { q with m_line_number := n }
    let loc ← parse_line env fuel buffer eof loc
    parse_loop env fuel rest (n + 1) loc

/-- The scope stack with which `parse` starts: the sentinel record. -/
def initial_locals (env : Env) : Locals :=
  { detected_indetation := "  ".toList
    scope_stack := [{ env.state0 with level := -1, texture := default_texture_name }]
    autocomplete_space := [] }

/-- `InputParser::parse`; `fuel` bounds the probes of a sequence deduction. The result
is the scope stack that is left at the end. -/
def parse (env : Env) (fuel : Nat) (input : List Char) : M (List State) := do
  M.modify fun q => { q with
    m_autocomplete_output := []
    m_sprites_in_current_sheet := 0
    m_current_offset := ⟨0, 0⟩
    m_current_sequence_index := 0 }
  let (loc, n) ← parse_loop env fuel (getlines input) 1 (initial_locals env)
  M.modify fun q => { q with m_line_number := n }
  let scope_stack ← pop_scope_stack env fuel loc.detected_indetation (-1) loc.scope_stack
  M.modify fun q => { q with m_line_number := 0 }
  pure scope_stack

/-- A freshly constructed `InputParser`. -/
def InputParser.new (autocomplete : Bool) : InputParser :=
  { autocomplete := autocomplete
    m_line_number := 0
    m_textures := []
    m_sheets := []
    m_sprites := []
    m_autocomplete_output := []
    m_sprites_in_current_sheet := 0
    m_current_offset := ⟨0, 0⟩
    m_current_sequence_index := 0 }


/-! ## output_texture.cpp

The `Sprite` and the `Texture` that the compositor reads are declared in packing.h,
which is not part of the sources; the structures below hold the members that
output_texture.cpp uses. -/

namespace Output

/-- The member `extrude` of a sprite: `count` and `mode`. -/
structure Extrude where
  count : Int
  mode : Nat
  deriving DecidableEq, Repr

/-- The members of `Sprite` that output_texture.cpp reads. The pointer `source` and the
pointers in `maps` may be null (`none`), and so may `maps` itself. -/
structure Sprite where
  id : List Char
  source : Option Image
  maps : Option (List (Option Image))
  rotated : Bool
  vertices : List PointF
  source_rect : Rect
  trimmed_source_rect : Rect
  trimmed_rect : Rect
  extrude : Extrude
  deriving DecidableEq, Repr

/-- The members of `Texture` that output_texture.cpp reads; `output` is the texture
of the input description. -/
structure Texture where
  width : Int
  height : Int
  sprites : List Sprite
  output : Spright.Texture
  deriving DecidableEq, Repr

/-- What the compositor takes from image.cpp and common.h, which are not part of the
sources. An operation on the target returns the target as it has left it, also when
it throws. -/
structure Ops where
  /-- `copy_rect(source, source_rect, dest, dx, dy)`. -/
  copy_rect : Image → Rect → Image → Int → Int → Except Exn Unit × Image
  /-- `copy_rect(source, source_rect, dest, dx, dy, mask_vertices)`. -/
  copy_rect_vertices : Image → Rect → Image → Int → Int → List PointF → Except Exn Unit × Image
  /-- `copy_rect_rotated_cw(source, source_rect, dest, dx, dy)`. -/
  copy_rect_rotated_cw : Image → Rect → Image → Int → Int → Except Exn Unit × Image
  /-- `copy_rect_rotated_cw(source, source_rect, dest, dx, dy, mask_vertices)`. -/
  copy_rect_rotated_cw_vertices :
    Image → Rect → Image → Int → Int → List PointF → Except Exn Unit × Image
  /-- `extrude_rect(image, rect, count, mode, left, top, right, bottom)`. -/
  extrude_rect : Image → Rect → Int → Nat → Bool → Bool → Bool → Bool → Except Exn Unit × Image
  /-- `clear_alpha(image)`. -/
  clear_alpha : Image → Image
  /-- `bleed_alpha(image)`. -/
  bleed_alpha : Image → Image
  /-- `premultiply_alpha(image)`. -/
  premultiply_alpha : Image → Image
  /-- `make_opaque(image, background)`. -/
  make_opaque : Image → RGBA → Image
  /-- `PointF(x, y)` for two `int` values. -/
  point_of : Int → Int → PointF
  /-- `operator==` of `PointF`. -/
  point_eq : PointF → PointF → Bool
  /-- `defined(NDEBUG)`. -/
  ndebug : Bool

/-- `Rect::x0()`. -/
def x0 (r : Rect) : Int := r.x

/-- `Rect::y0()`. -/
def y0 (r : Rect) : Int := r.y

/-- `get_source`: the image that `copy_sprite` copies from, `none` for `nullptr`. -/
def get_source (sprite : Sprite) (map_index : Int) : Option Image :=
  if map_index < 0 then sprite.source
  else
    match sprite.maps with
    | some maps =>
      if map_index.toNat < maps.length then
        match maps[map_index.toNat]? with
        | some image => image
        | none => none
      else none
    | none => none

/-- `has_rect_vertices`. -/
def has_rect_vertices (ops : Ops) (sprite : Sprite) : Bool :=
  match sprite.vertices with
  | [v0, v1, v2, v3] =>
    ops.point_eq v0 (ops.point_of 0 0) &&
    ops.point_eq v1 (ops.point_of sprite.trimmed_rect.w 0) &&
    ops.point_eq v2 (ops.point_of sprite.trimmed_rect.w sprite.trimmed_rect.h) &&
    ops.point_eq v3 (ops.point_of 0 sprite.trimmed_rect.h)
  | _ => false

/-- The `if (sprite.extrude.count)` block of `copy_sprite`: the arguments with which
`extrude_rect` is called on the target (`rect`, `count`, `mode`, `left`, `top`, `right`,
`bottom`), `none` when it is not called. -/
def extrude_request (sprite : Sprite) : Option (Rect × Int × Nat × Bool × Bool × Bool × Bool) :=
  if sprite.extrude.count ≠ 0 then
    let left := decide (x0 sprite.source_rect = x0 sprite.trimmed_source_rect)
    let top := decide (y0 sprite.source_rect = y0 sprite.trimmed_source_rect)
    let right := decide (sprite.source_rect.x1 = sprite.trimmed_source_rect.x1)
    let bottom := decide (sprite.source_rect.y1 = sprite.trimmed_source_rect.y1)
    if left || top || right || bottom then
      let rect := sprite.trimmed_rect
      let rect := if sprite.rotated then { rect with w := rect.h, h := rect.w } else rect
      some (rect, sprite.extrude.count, sprite.extrude.mode, left, top, right, bottom)
    else none
  else none

/-- The `try` block of `copy_sprite`: the value that it returns or the exception that
it throws, and the target afterwards. -/
def copy_sprite_try (ops : Ops) (target : Image) (sprite : Sprite) (map_index : Int) :
    Except Exn Bool × Image :=
  match get_source sprite map_index with
  | none => (.ok false, target)
  | some source =>
    let copied :=
      if sprite.rotated then
        if has_rect_vertices ops sprite then
          ops.copy_rect_rotated_cw source sprite.trimmed_source_rect target
            sprite.trimmed_rect.x sprite.trimmed_rect.y
        else
          ops.copy_rect_rotated_cw_vertices source sprite.trimmed_source_rect target
            sprite.trimmed_rect.x sprite.trimmed_rect.y sprite.vertices
      else
        if has_rect_vertices ops sprite then
          ops.copy_rect source sprite.trimmed_source_rect target
            sprite.trimmed_rect.x sprite.trimmed_rect.y
        else
          ops.copy_rect_vertices source sprite.trimmed_source_rect target
            sprite.trimmed_rect.x sprite.trimmed_rect.y sprite.vertices
    match copied with
    | (.error e, target) => (.error e, target)
    | (.ok _, target) =>
      match extrude_request sprite with
      | none => (.ok true, target)
      | some (rect, count, mode, left, top, right, bottom) =>
        match ops.extrude_rect target rect count mode left top right bottom with
        | (.error e, target) => (.error e, target)
        | (.ok _, target) => (.ok true, target)

end Output
/-! ## Concrete collaborators for the examples -/

/-- A `State{ }` with every number zero, every text empty, span `1 1`. -/
def demo_state : State :=
  { definition := .none, level := 0, indent := [], texture := [], width := 0, height := 0,
    max_width := 0, max_height := 0, power_of_two := false, square := false,
    align_width := 0, allow_rotate := false, border_padding := 0, shape_padding := 0,
    deduplicate := false, alpha := .keep, alpha_colorkey := RGBA.zero, path := [],
    sheet := FilenameSequence.mk_from [], colorkey := RGBA.zero, tags := [],
    grid := ⟨0, 0⟩, grid_offset := ⟨0, 0⟩, grid_spacing := ⟨0, 0⟩, span := ⟨1, 1⟩,
    sprite := [], rect := ⟨0, 0, 0, 0⟩, pivot := ⟨.center, .middle⟩,
    pivot_point := ⟨⟨0⟩, ⟨0⟩⟩, trim := .none, trim_margin := 0, trim_threshold := 1,
    extrude := 0, common_divisor := ⟨1, 1⟩ }

/-- The number of halvings that bring `n` below 2: the position of its highest bit;
`fuel` bounds the number of steps. -/
def highest_bit : Nat → Nat → Nat
  | 0, _ => 0
  | fuel + 1, n => if n < 2 then 0 else highest_bit fuel (n / 2) + 1

/-- The bits of the `float` (IEEE 754 binary32) that is nearest to `num / den`, ties
going to the even mantissa, with the sign bit set for `negative`; `none` when the
conversion reports a range error: the rounded magnitude is too large for a `float`,
or it is below the smallest normal number and not exact. -/
def float_bits (negative : Bool) (num den : Nat) : Option Nat :=
  let sign := if negative then 2 ^ 31 else 0
  if num = 0 then some sign
  else
    -- the exponent `e` with `2 ^ e ≤ num / den < 2 ^ (e + 1)`, not below that of the
    -- smallest normal number
    let e0 : Int := (highest_bit num num : Int) - (highest_bit den den : Int)
    let below : Bool :=
      if 0 ≤ e0 then decide (num < den * 2 ^ e0.toNat) else decide (num * 2 ^ (-e0).toNat < den)
    let e : Int := max (if below then e0 - 1 else e0) (-126)
    -- the mantissa: `num / den` in units of `2 ^ (e - 23)`, rounded
    let n := if e < 23 then num * 2 ^ (23 - e).toNat else num
    let d := if e < 23 then den else den * 2 ^ (e - 23).toNat
    let m := n / d
    let r := n % d
    let m := if 2 * r > d ∨ (2 * r = d ∧ m % 2 = 1) then m + 1 else m
    let bits := (e + 126).toNat * 2 ^ 23 + m
    if bits ≥ 255 * 2 ^ 23 then none
    else if bits < 2 ^ 23 ∧ r ≠ 0 then none
    else some (sign + bits)

/-- The value of a finite `float` with the given bits: sign, numerator and
denominator. -/
def float_value (f : Float32) : Bool × Nat × Nat :=
  let field := f.bits / 2 ^ 23 % 256
  let m := f.bits % 2 ^ 23
  let negative := decide (f.bits / 2 ^ 31 % 2 = 1)
  if field = 0 then (negative, m, 2 ^ 149)
  else if field < 150 then (negative, 2 ^ 23 + m, 2 ^ (150 - field))
  else (negative, (2 ^ 23 + m) * 2 ^ (field - 150), 1)

/-- The decimal number at the start of a text, as `std::stof` reads it: white space,
an optional sign, digits with an optional point, and an optional exponent. The result
is the sign, the digits without the point as a number, and the power of ten by which it
is to be multiplied; `none` when no digit is found. -/
def decimal_number (str : List Char) : Option (Bool × Nat × Int) :=
  let s := ltrim str
  let negative := s.head? = some '-'
  let s := if s.head? = some '-' ∨ s.head? = some '+' then s.drop 1 else s
  let whole := s.takeWhile is_digit
  let s := s.drop whole.length
  let fraction := if s.head? = some '.' then (s.drop 1).takeWhile is_digit else []
  let s := if s.head? = some '.' then s.drop (1 + fraction.length) else s
  if whole = [] ∧ fraction = [] then none
  else
    let exponent : Int :=
      if s.head? = some 'e' ∨ s.head? = some 'E' then
        let t := s.drop 1
        let minus := t.head? = some '-'
        let t := if t.head? = some '-' ∨ t.head? = some '+' then t.drop 1 else t
        let ds := t.takeWhile is_digit
        if minus then -(decimal_value ds : Int) else (decimal_value ds : Int)
      else 0
    some (negative, decimal_value (whole ++ fraction), exponent - (fraction.length : Int))

/-- Modelled from the C++ standard: `std::stof` for a text in decimal notation. It
throws `std::invalid_argument` when the text does not start with a number, and
`std::out_of_range` when the conversion reports a range error. Texts in another notation (hexadecimal, `inf`, `nan`) are not among the
examples and count as no number here. -/
def demo_stof (str : List Char) : Stof :=
  match decimal_number str with
  | none => .invalid_argument
  | some (negative, digits, power) =>
    let bits :=
      if 0 ≤ power then float_bits negative (digits * 10 ^ power.toNat) 1
      else float_bits negative digits (10 ^ (-power).toNat)
    match bits with
    | some b => .value ⟨b⟩
    | none => .out_of_range

/-- Modelled from the C++ standard: `static_cast<int>(f * static_cast<float>(n))` for a
finite `f`. The conversion of `n` and the product are rounded to `float`, the cast
drops the fraction. Where the product does not fit `int` the cast is undefined; the
value `INT_MIN` that the x86 conversion gives is taken then. -/
def demo_scale (f : Float32) (n : Int) : Int :=
  match float_bits (decide (n < 0)) n.natAbs 1 with
  | none => -2147483648
  | some g =>
    let (s1, n1, d1) := float_value f
    let (s2, n2, d2) := float_value ⟨g⟩
    match float_bits (s1 != s2) (n1 * n2) (d1 * d2) with
    | none => -2147483648
    | some h =>
      let (s3, n3, d3) := float_value ⟨h⟩
      let v : Int := if s3 then -((n3 / d3 : Nat) : Int) else ((n3 / d3 : Nat) : Int)
      if fits_int v then v else -2147483648

/-- An environment whose file system holds the listed images; paths are canonical
as they are, no island is found, `std::stof` and the cast of the scaled cursor follow
the rules of binary32 arithmetic for decimal numbers, and the `rgba` member has the
red channel in its lowest byte. -/
def demo_env (files : List (List Char × Image)) : Env :=
  { fs := fun path => files.lookup path
    weakly_canonical := id
    guess_colorkey := fun _ => RGBA.zero
    find_islands := fun _ => []
    stof := demo_stof
    scale := demo_scale
    rgba_of_bits := fun v => ⟨v % 256, v / 256 % 256, v / 65536 % 256, v / 16777216 % 256⟩
    state0 := demo_state }

/-- A transparent pixel. -/
def px_clear : RGBA := ⟨0, 0, 0, 0⟩

/-- An opaque pixel. -/
def px_solid : RGBA := ⟨9, 9, 9, 255⟩

/-- A sheet of 4 x 1 pixels: solid, clear, solid, clear. -/
def sheet_4x1 : Image := ⟨4, 1, [px_solid, px_clear, px_solid, px_clear]⟩

/-- A sheet of 32 x 16 pixels: the left tile of 16 x 16 is clear, the right one solid. -/
def sheet_32x16 : Image :=
  ⟨32, 16, (List.replicate 16 (List.replicate 16 px_clear ++ List.replicate 16 px_solid)).flatten⟩

/-- A fully transparent sheet of 32 x 16 pixels. -/
def sheet_32x16_clear : Image := ⟨32, 16, List.replicate 512 px_clear⟩

/-! ## The steps of `sprite_ends` -/

/-- The record with which `sprite_ends` goes on after "generate rect from grid". -/
def sprite_state (s : State) (p : InputParser) : State :=
  if s.rect.empty && !s.grid.empty then
    { s with rect := ⟨p.m_current_offset.x, p.m_current_offset.y,
                      s.grid.x * s.span.x, s.grid.y * s.span.y⟩ }
  else s

/-- The members after "generate rect from grid". -/
def sprite_cursor (s : State) (p : InputParser) : InputParser :=
  if s.rect.empty && !s.grid.empty then
    { p with m_current_offset :=
        ⟨p.m_current_offset.x + s.grid.x * s.span.x, p.m_current_offset.y⟩ }
  else p

/-- The sprite that `sprite_ends` appends for the record `s`, `count` being
`m_sprites.size()`. -/
def sprite_of (s : State) (count : Nat) (texture source : List Char) (sheet : Image) : Sprite :=
  { id := if !s.sprite.isEmpty then s.sprite else "sprite_".toList ++ to_string (count : Int)
    texture := texture
    source := source
    source_rect := if !s.rect.empty then s.rect else sheet.bounds
    pivot := s.pivot
    pivot_point := s.pivot_point
    trim := s.trim
    trim_margin := s.trim_margin
    trim_threshold := s.trim_threshold
    extrude := s.extrude
    common_divisor := s.common_divisor
    tags := s.tags }

/-- The members after `get_texture`. -/
def with_texture (env : Env) (s : State) (p : InputParser) : InputParser :=
  (get_texture env s p).2

/-- What a scope-close handler may change in the record it is given: the rectangle
and the count of the sheet sequence. -/
def State.closed_from (s s' : State) : Prop :=
  s' = { s with rect := s'.rect, sheet := s'.sheet }

/-- The key under which `get_sheet(state, index)` caches the sheet. -/
def sheet_key (env : Env) (s : State) (index : Int) : List Char :=
  env.weakly_canonical (path_join s.path (s.sheet.get_nth_filename index))

/-- The source rectangle of the grid cell in column `x` and row `y`. -/
def cell_rect (grid : Size) (x y : Int) : Rect := ⟨x * grid.x, y * grid.y, grid.x, grid.y⟩

/-- The cells (column, row) of a grid of `cols` x `rows` cells in row-major order: rows
top to bottom, columns left to right inside a row. -/
def grid_cells (cols rows : Int) : List (Int × Int) :=
  (int_range 0 rows).flatMap fun y => (int_range 0 cols).map fun x => (x, y)

/-- Between the members `p` and `q` the sprites `new` have been appended, while the
sheet cache, the sequence index and the settings are the same. -/
def appends (p q : InputParser) (new : List Sprite) : Prop :=
  q.m_sprites = p.m_sprites ++ new ∧ q.m_sheets = p.m_sheets ∧
    q.m_current_sequence_index = p.m_current_sequence_index ∧ q.autocomplete = p.autocomplete

/-- The rectangle that `deduce_grid_sprites` tests in column `x` and row `y`; `grid` is
the cell size plus the spacing. -/
def scan_rect (s : State) (grid : Size) (x y : Int) : Rect :=
  ⟨s.grid_offset.x + x * grid.x, s.grid_offset.y + y * grid.y, s.grid.x, s.grid.y⟩

/-- The rectangles of the cells that are not fully transparent, among the columns `xs`
of the rows `ys`, row by row. -/
def scan_result (s : State) (sheet : Image) (grid : Size) (xs ys : List Int) : List Rect :=
  ys.flatMap fun y =>
    (xs.filter fun x => !is_fully_transparent sheet (scan_rect s grid x y)).map
      fun x => scan_rect s grid x y

/-- Every image of the cache `a` is still in the cache `b`, under the same key. -/
def cache_kept (a b : List (List Char × Option Image)) : Prop :=
  ∀ k image, a.lookup k = some (some image) → b.lookup k = some (some image)

/-- The image that `get_sheet` puts into the cache for a file it loads. -/
def loaded (env : Env) (colorkey : RGBA) (image : Image) : Image :=
  if is_opaque image then
    replace_color image (if colorkey.a = 0 then env.guess_colorkey image else colorkey) RGBA.zero
  else image

/-! ## Properties of the scope stack -/

/-- The indentation level of a line: `buffer.size() - line.size()`. -/
def line_level (buffer : List Char) : Int :=
  (buffer.length : Int) - ((ltrim buffer).length : Int)

/-- The loop of `pop_scope_stack` stops at the record `r`: the first branch is not
taken and the second one is. -/
def stops_at (level : Int) (r : State) : Prop :=
  ¬ (has_implicit_scope r.definition = true ∧ level ≤ r.level) ∧ level ≥ r.level

/-- "keep texture set on same level": the record at which the loop stops, given the
definition and the texture path of the record above it, if there is one. -/
def keep_texture (top : Option (Definition × List Char)) (r : State) : State :=
  match top with
  | some (definition, texture) => if definition = .texture then { r with texture := texture } else r
  | none => r

/-- Definition and texture path of the last record of a list (the bottom one). -/
def top_key (above : List State) : Option (Definition × List Char) :=
  above.getLast?.map fun t => (t.definition, t.texture)

/-- The push phase of `parse` opens a new record. -/
def opens_scope (level : Int) (back : State) (definition : Definition) : Bool :=
  decide (level > back.level) || has_implicit_scope definition

/-- The line is skipped by `parse`: it is blank or a comment. -/
def is_inert (buffer : List Char) : Bool :=
  (ltrim buffer).isEmpty || starts_with (ltrim buffer) "#".toList

/-- The record that `parse` hands to `apply_definition`: the record `back` (or its
copy) with `definition`, `level` and `indent` of the line. -/
def line_state (buffer : List Char) (definition : Definition) (back : State) : State :=
  { back with definition := definition, level := line_level buffer,
              indent := buffer.take (line_level buffer).toNat }

/-- The value of `detected_indetation` after a line. -/
def line_detected (buffer : List Char) (loc : Locals) : List Char :=
  if loc.detected_indetation.isEmpty && !(buffer.take (line_level buffer).toNat).isEmpty then
    buffer.take (line_level buffer).toNat
  else loc.detected_indetation

/-- The record `p` with the members that a line of the given definition sets taken
from `child`. A record `child` is equal to `set_by d child p` exactly if it agrees
with `p` on every other member. -/
def set_by (d : Definition) (child p : State) : State :=
  match d with
  | .none => p
  | .begin => p
  | .texture => { p with texture := child.texture }
  | .width => { p with width := child.width }
  | .height => { p with height := child.height }
  | .max_width => { p with max_width := child.max_width }
  | .max_height => { p with max_height := child.max_height }
  | .power_of_two => { p with power_of_two := child.power_of_two }
  | .square => { p with square := child.square }
  | .align_width => { p with align_width := child.align_width }
  | .allow_rotate => { p with allow_rotate := child.allow_rotate }
  | .padding => { p with shape_padding := child.shape_padding,
                         border_padding := child.border_padding }
  | .deduplicate => { p with deduplicate := child.deduplicate }
  | .alpha => { p with alpha := child.alpha, alpha_colorkey := child.alpha_colorkey }
  | .path => { p with path := child.path }
  | .sheet => { p with sheet := child.sheet }
  | .colorkey => { p with colorkey := child.colorkey }
  | .tag => { p with tags := child.tags }
  | .grid => { p with grid := child.grid }
  | .grid_offset => { p with grid_offset := child.grid_offset }
  | .grid_spacing => { p with grid_spacing := child.grid_spacing }
  | .offset => p
  | .sprite => { p with sprite := child.sprite }
  | .skip => p
  | .span => { p with span := child.span }
  | .rect => { p with rect := child.rect }
  | .pivot => { p with pivot := child.pivot, pivot_point := child.pivot_point }
  | .trim => { p with trim := child.trim }
  | .trim_threshold => { p with trim_threshold := child.trim_threshold }
  | .trim_margin => { p with trim_margin := child.trim_margin }
  | .extrude => { p with extrude := child.extrude }
  | .common_divisor => { p with common_divisor := child.common_divisor }

/-- The record `parent` with `definition`, `level`, `indent` and the members that a
line of the given definition sets taken from `child`. A record `child` is equal to
`inherit d child parent` exactly if it agrees with `parent` on every other member. -/
def inherit (d : Definition) (child parent : State) : State :=
  set_by d child { parent with definition := child.definition, level := child.level,
                               indent := child.indent }

/-- The nesting levels never decrease from the bottom of the stack to its top, and two
neighbours have the same level only if the upper one is a texture, sheet or sprite
record and the lower one is not. -/
def levels_nested : List State → Prop
  | upper :: lower :: rest =>
    (lower.level < upper.level ∨
      (lower.level = upper.level ∧ has_implicit_scope lower.definition = false ∧
        has_implicit_scope upper.definition = true)) ∧ levels_nested (lower :: rest)
  | _ => True

/-- The definition of a line: that of its first token (`none` for a line without
tokens). -/
def line_definition (buffer : List Char) : Definition :=
  match split_arguments (ltrim buffer) with
  | .ok (keyword :: _) => get_definition keyword
  | _ => .none

/-- The line lies in a scope below the record `parent`: it is indented more deeply,
or it is a texture, sheet or sprite line at the indentation of a `parent` that is
none of these (such a line opens a child of `parent` at the same indentation). -/
def child_line (parent : State) (buffer : List Char) : Prop :=
  parent.level < line_level buffer ∨
    (parent.level = line_level buffer ∧ has_implicit_scope parent.definition = false ∧
      has_implicit_scope (line_definition buffer) = true)

/-- The members after the four assignments at the start of `parse`. -/
def parse_start (p : InputParser) : InputParser :=
  { p with
    m_autocomplete_output := []
    m_sprites_in_current_sheet := 0
    m_current_offset := ⟨0, 0⟩
    m_current_sequence_index := 0 }

/-- The nesting levels strictly increase from the bottom of the stack to its top
(the head of the list is the top). -/
def levels_strict : List State → Prop
  | upper :: lower :: rest => lower.level < upper.level ∧ levels_strict (lower :: rest)
  | _ => True

instance levels_strict_decidable : (scope_stack : List State) → Decidable (levels_strict scope_stack)
  | [] => isTrue trivial
  | [_] => isTrue trivial
  | upper :: lower :: rest =>
    @instDecidableAnd _ _ _ (levels_strict_decidable (lower :: rest))

/-- A sheet of 2 x 1 pixels: solid, clear. -/
def sheet_2x1 : Image := ⟨2, 1, [px_solid, px_clear]⟩

/-- A sheet of 1 x 1 pixel: solid. -/
def sheet_1x1 : Image := ⟨1, 1, [px_solid]⟩

/-- The three files of the sequence `seq-{0-}.png`. -/
def seq_files : List (List Char × Image) :=
  [("seq-0.png".toList, sheet_4x1), ("seq-1.png".toList, sheet_2x1),
   ("seq-2.png".toList, sheet_1x1)]
/-- The sentinel record with which the scope stack of `parse` starts. -/
def sentinel (env : Env) : State :=
  { env.state0 with level := -1, texture := default_texture_name }

/-- The record that `parse` pushes for a `sheet` line with the argument `name`, read in
`buffer` while only the sentinel is on the stack. -/
def sheet_record (env : Env) (buffer name : List Char) : State :=
  { line_state buffer .sheet (sentinel env) with sheet := FilenameSequence.mk_from name }

/-- The path of the file with index `i` of the sequence `name`, in the default
directory. -/
def sequence_file (env : Env) (name : List Char) (i : Int) : List Char :=
  path_join env.state0.path ((FilenameSequence.mk_from name).get_nth_filename i)

/-- A grid of 1 x 1 cells with a horizontal spacing of one pixel, on the sheet `a.png`. -/
def spaced_grid_input : List Char :=
  "grid 1 1\ngrid-spacing 1 0\nsheet \"a.png\"\n".toList

/-- The autocomplete output for `spaced_grid_input` on the sheet `sheet_4x1`. -/
def spaced_grid_output : List Char :=
  "grid 1 1\ngrid-spacing 1 0\nsheet \"a.png\"\n  sprite\n  sprite\n".toList

/-- Between the members `p` and `q` sprites have been appended, all of the texture `t`. -/
def sprites_added (t : List Char) (p q : InputParser) : Prop :=
  ∃ new, q.m_sprites = p.m_sprites ++ new ∧ ∀ sprite ∈ new, sprite.texture = t

/-- The first line of the texture scenario. -/
def texture_line : List Char := "texture \"a.png\"".toList

/-- The second line of the texture scenario, at the indentation of the first one. -/
def sheet_line : List Char := "sheet \"s.png\"".toList

/-- The record that `parse` pushes for `texture_line` on the sentinel. -/
def texture_record (env : Env) : State :=
  { line_state texture_line .texture (sentinel env) with texture := "a.png".toList }

/-- The sentinel after the texture scope has been closed on it. -/
def kept_sentinel (env : Env) : State :=
  { sentinel env with texture := "a.png".toList }

/-- The record that `parse` pushes for `sheet_line` on `kept_sentinel`. -/
def sibling_sheet_record (env : Env) : State :=
  { line_state sheet_line .sheet (kept_sentinel env) with
    sheet := FilenameSequence.mk_from "s.png".toList }

/-- An environment like `demo_env` in which every image is one island. -/
def island_env (files : List (List Char × Image)) : Env :=
  { demo_env files with find_islands := fun image => [image.bounds] }

/-- The largest number of arguments that the `switch` of `apply_definition` consumes
for a definition: its required and optional arguments. -/
def max_arguments : Definition → Nat
  | .none => 0
  | .begin => 0
  | .padding => 2
  | .alpha => 2
  | .tag => 2
  | .grid => 2
  | .grid_offset => 2
  | .grid_spacing => 2
  | .offset => 2
  | .span => 2
  | .rect => 4
  | .pivot => 2
  | .common_divisor => 2
  | _ => 1

/-- The number of required arguments of a definition. -/
def min_arguments : Definition → Nat
  | .none => 0
  | .begin => 0
  | .power_of_two => 0
  | .square => 0
  | .allow_rotate => 0
  | .padding => 0
  | .deduplicate => 0
  | .skip => 0
  | .sprite => 0
  | .trim => 0
  | .extrude => 0
  | .offset => 2
  | .span => 2
  | .rect => 4
  | .pivot => 2
  | _ => 1

/-- The message of `error("invalid argument count")` when the members are `p`. -/
def count_error (p : InputParser) : Exn :=
  .runtime_error (error_text p.m_line_number "invalid argument count".toList)

/-- What a reader of arguments has done when it has returned: it has consumed between
`lo` and `hi` arguments from the front and has not changed the line number. -/
def consumed (lo hi : Nat) (args rest : List (List Char)) (p q : InputParser) : Prop :=
  rest.length + lo ≤ args.length ∧ args.length ≤ rest.length + hi ∧
    q.m_line_number = p.m_line_number

/-- The value that `check_uint` reads from an argument, if it accepts it. -/
def uint_value (str : List Char) : Option Int :=
  match from_chars_int str with
  | some result => if result ≥ 0 then some result else none
  | none => none

/-- The message of `error("invalid number")` when the members are `p`. -/
def number_error (p : InputParser) : Exn :=
  .runtime_error (error_text p.m_line_number "invalid number".toList)

/-- The `switch` accepts the arguments, consuming all of them, or throws the error of
the argument count. -/
def accepted_or_count (env : Env) (s : State) (d : Definition) (args : List (List Char))
    (p : InputParser) : Prop :=
  (∃ s' q, apply_switch env s d args p = (.ok (s', []), q)) ∨
    ∃ q, apply_switch env s d args p = (.error (count_error p), q)

/-- The line `a "" b`. -/
def empty_token_line : List Char := "a \"\" b".toList

/-- The views that `split_arguments` returns for `empty_token_line`: `a`, the empty
token between the quotes, and `b`. -/
def empty_token_views : List View := [⟨0, 1⟩, ⟨3, 0⟩, ⟨5, 1⟩]

/-- The byte with index `i` of a 32 bit word, counted from the lowest one. -/
def byte_of (v i : Nat) : Nat := v / 256 ^ i % 256

/-- The channels of `RGBA` are the four bytes of its member `rgba`, in some order. -/
def byte_layout (env : Env) : Prop :=
  ∃ ir ig ib ia, ir < 4 ∧ ig < 4 ∧ ib < 4 ∧ ia < 4 ∧
    ∀ v, env.rgba_of_bits v = ⟨byte_of v ir, byte_of v ig, byte_of v ib, byte_of v ia⟩

/-- The horizontal axis words of `pivot`, in the order of the list in `apply_definition`. -/
def x_words : List (List Char) := ["left".toList, "center".toList, "right".toList]

/-- The vertical axis words of `pivot`, in the order of the list in `apply_definition`. -/
def y_words : List (List Char) := ["top".toList, "middle".toList, "bottom".toList]

/-- The error of `error("invalid pivot value '" + string + "'")`. -/
def pivot_error (w : List Char) (p : InputParser) : Exn :=
  .runtime_error (error_text p.m_line_number
    ("invalid pivot value '".toList ++ w ++ "'".toList))

/-- The error of `check(!empty(state.grid), "offset is only valid in grid")`. -/
def offset_grid_error (p : InputParser) : Exn :=
  .runtime_error (error_text p.m_line_number "offset is only valid in grid".toList)

/-- The error of `check(!empty(state.grid), "skip is only valid in grid")`. -/
def skip_grid_error (p : InputParser) : Exn :=
  .runtime_error (error_text p.m_line_number "skip is only valid in grid".toList)

/-- A sheet of 3 x 1 pixels: clear, clear, solid. -/
def sheet_3x1 : Image := ⟨3, 1, [px_clear, px_clear, px_solid]⟩

/-- A rectangle holds the pixel `(x, y)`. -/
def Rect.holds (r : Rect) (x y : Int) : Prop := r.x ≤ x ∧ x < r.x1 ∧ r.y ≤ y ∧ y < r.y1

/-- The error of `check(!state.sheet.empty(), "sprite not on sheet")`. -/
def sheet_error (p : InputParser) : Exn :=
  .runtime_error (error_text p.m_line_number "sprite not on sheet".toList)

/-- The record that `parse` pushes for a `sprite` line without name, read in `buffer`
while only the sentinel is on the stack. -/
def lone_sprite_record (env : Env) (buffer : List Char) : State :=
  line_state buffer .sprite (sentinel env)

/-- The members after a `sprite_ends` that appended `sprite` for the record `s`. -/
def sprite_closed (s : State) (p q : InputParser) (sprite : Sprite) : Prop :=
  q = { p with
    m_textures := q.m_textures
    m_sheets := q.m_sheets
    m_sprites := p.m_sprites ++ [sprite]
    m_current_offset := (sprite_cursor s p).m_current_offset
    m_current_sequence_index :=
      if s.sheet.is_sequence then p.m_current_sequence_index + 1
      else p.m_current_sequence_index
    m_sprites_in_current_sheet := p.m_sprites_in_current_sheet + 1 }

/-- A `sprite` line at the indentation `level`, with or without a name. -/
def sprite_line (level : Int) (buffer : List Char) : Prop :=
  is_inert buffer = false ∧ line_level buffer = level ∧
    (split_arguments (ltrim buffer) = .ok ["sprite".toList] ∨
      ∃ name, split_arguments (ltrim buffer) = .ok ["sprite".toList, name])

/-- The record `B` of a `sprite` line at the indentation `level` directly in the scope
of the record `S`: sheet and placement members are those of `S`. -/
def placed_in (S : State) (level : Int) (B : State) : Prop :=
  B.definition = .sprite ∧ B.level = level ∧ B.sheet = S.sheet ∧ B.path = S.path ∧
    B.rect = S.rect ∧ B.grid = S.grid ∧ B.span = S.span

/-- The record `S` of a sheet for sequential placement: a single file that exists, no
rectangle, a grid and the span 1 x 1. -/
def grid_sheet (env : Env) (S : State) : Prop :=
  S.definition = .sheet ∧ S.sheet.empty = false ∧ S.sheet.is_sequence = false ∧
    S.rect.empty = true ∧ S.grid.empty = false ∧ S.span = ⟨1, 1⟩ ∧
    (env.fs (path_join S.path S.sheet.filename)).isSome = true

/-- The cells of `n` sprites of the size `g` placed in a row from the point `c` on. -/
def row_rects (g : Size) : Nat → Point → List Rect
  | 0, _ => []
  | n + 1, c => ⟨c.x, c.y, g.x, g.y⟩ :: row_rects g n ⟨c.x + g.x, c.y⟩

/-- The record of a `grid` line with the cell size `w` x `h`, read in `buffer` while
only the sentinel is on the stack. -/
def grid_record (env : Env) (buffer : List Char) (w h : Int) : State :=
  { line_state buffer .grid (sentinel env) with grid := ⟨w, h⟩ }

/-- The record of a `sheet` line with the argument `name`, read in `buffer` on top of
the record `G`. -/
def sheet_on (G : State) (buffer name : List Char) : State :=
  { line_state buffer .sheet G with sheet := FilenameSequence.mk_from name }

/-- Between the members `p` and `q` at most the placement cursor and the sequence
index have changed. -/
def only_cursor (p q : InputParser) : Prop :=
  q = { p with m_current_offset := q.m_current_offset,
               m_current_sequence_index := q.m_current_sequence_index }

/-- An action that, when it returns, has changed at most the placement cursor and the
sequence index. -/
def quiet {α : Type} (x : M α) : Prop :=
  ∀ (p : InputParser) (a : α) (q : InputParser), x p = (.ok a, q) → only_cursor p q

/-- The arguments of a line: its tokens after the keyword. -/
def line_arguments (l : List Char) : List (List Char) :=
  match split_arguments (ltrim l) with
  | .ok (_ :: arguments) => arguments
  | _ => []

/-- The name that a `sprite` line declares. -/
def declared_name (l : List Char) : Option (List Char) :=
  match line_arguments l with
  | [name] => some name
  | _ => none

/-- The rectangle that a `rect` line declares. -/
def declared_rect (l : List Char) : Option Rect :=
  match line_arguments l with
  | [x, y, w, h] =>
    match uint_value x, uint_value y, uint_value w, uint_value h with
    | some x, some y, some w, some h => some ⟨x, y, w, h⟩
    | _, _, _, _ => none
  | _ => none

/-- The sprites that the lines declare, each with the name of its `sprite` line and the
rectangle of its last `rect` line; `cur` is the declaration that is open. -/
def declarations (cur : Option (List Char) × Option Rect) :
    List (List Char × Bool) → List (Option (List Char) × Option Rect)
  | [] => [cur]
  | (l, _) :: rest =>
    if is_inert l then declarations cur rest
    else if line_definition l = .sprite then cur :: declarations (declared_name l, none) rest
    else if line_definition l = .rect then declarations (cur.1, declared_rect l) rest
    else declarations cur rest

/-- The sprite has the name and the rectangle of the declaration, as far as the
declaration gives a name that is not empty and a rectangle that is not empty. -/
def declared_as (d : Option (List Char) × Option Rect) (sprite : Sprite) : Prop :=
  (∀ name, d.1 = some name → name ≠ [] → sprite.id = name) ∧
    (∀ r, d.2 = some r → r.empty = false → sprite.source_rect = r)

/-- A `sprite` line at the indentation `level`. -/
def sprite_header (level : Int) (l : List Char) : Prop :=
  is_inert l = false ∧ line_level l = level ∧ line_definition l = .sprite

/-- An attribute line at the indentation `level`: a line with a keyword of the table
that is not `texture`, `sheet` or `sprite`. -/
def attribute_line (level : Int) (l : List Char) : Prop :=
  is_inert l = false ∧ line_level l = level ∧ line_definition l ≠ .none ∧
    has_implicit_scope (line_definition l) = false

/-- The record `H` holds what the open declaration `cur` declares. -/
def holds_declaration (H : State) (cur : Option (List Char) × Option Rect) : Prop :=
  (∀ name, cur.1 = some name → H.sprite = name) ∧ (∀ r, cur.2 = some r → H.rect = r)

/-- The records `pend` of an open `sprite` scope at the level `L1` on top of the scope
stack: the record of the `sprite` line, and above it possibly the record of its
attribute lines at the level `L2`. The upper one holds the declaration `cur`. -/
def open_sprite (L1 L2 : Int) (cur : Option (List Char) × Option Rect)
    (pend : List State) : Prop :=
  (∃ B, pend = [B] ∧ B.definition = .sprite ∧ B.level = L1 ∧ holds_declaration B cur) ∨
    ∃ A B, pend = [A, B] ∧ has_implicit_scope A.definition = false ∧ A.level = L2 ∧
      B.definition = .sprite ∧ B.level = L1 ∧ holds_declaration A cur

/-- The number of `sprite` lines among the lines. -/
def sprite_lines (lines : List (List Char × Bool)) : Nat :=
  (lines.filter fun l => !is_inert l.1 && decide (line_definition l.1 = .sprite)).length

/-- The deduction that `sheet_ends` runs for a sheet without declared sprites. -/
def deduction (env : Env) (fuel : Nat) (s : State) : M State :=
  if s.sheet.is_sequence then deduce_sequence_sprites env fuel s
  else if !s.grid.empty then deduce_grid_sprites env s
  else deduce_unaligned_sprites env s

/-- A sprite that the packer has rotated: its source rectangle is (0, 0, 4, 4), the
trimmed source rectangle (0, 1, 2, 1) touches it on the left only, it is placed at
(10, 20), and it is extruded by one pixel. -/
def rotated_sprite (source : Image) : Output.Sprite :=
  { id := "s".toList, source := some source, maps := none, rotated := true, vertices := [],
    source_rect := ⟨0, 0, 4, 4⟩, trimmed_source_rect := ⟨0, 1, 2, 1⟩,
    trimmed_rect := ⟨10, 20, 2, 1⟩, extrude := ⟨1, 0⟩ }

/-- The sides `left`, `top`, `right`, `bottom` of a call of `extrude_rect`. -/
def request_sides (r : Option (Rect × Int × Nat × Bool × Bool × Bool × Bool)) :
    Option (Bool × Bool × Bool × Bool) :=
  r.map fun x => x.2.2.2

/-- The loop of `pop_scope_stack` with the behaviour left open where `last` would run
past `rend()`: there the action `k` is taken. It is `pop_loop` in every other
respect. -/
def pop_loop_from (env : Env) (fuel : Nat) (detected_indetation : List Char) (level : Int)
    (k : M (List State)) : List State → List State → M (List State)
  | _, [] => k
  | above, last :: below =>
    if has_implicit_scope last.definition && decide (level ≤ last.level) then
      match above with
      | [] => do
        let state := { last with definition := last.definition,
                                 indent := last.indent ++ detected_indetation }
        let state ← scope_ends env fuel state
        pop_loop_from env fuel detected_indetation level k [state] below
      | back :: mid => do
        let state := { back with definition := last.definition }
        let state ← scope_ends env fuel state
        pop_loop_from env fuel detected_indetation level k (state :: mid ++ [last]) below
    else if level ≥ last.level then
      match above.getLast? with
      | some top =>
        if top.definition = .texture then pure ({ last with texture := top.texture } :: below)
        else pure (last :: below)
      | none => pure (last :: below)
    else pop_loop_from env fuel detected_indetation level k (above ++ [last]) below

/-- The scope stack holds the sentinel at its bottom, with the texture path as the
only member that may have changed, and above it only records of a level that is not
negative. -/
def sentinel_kept (env : Env) (scope_stack : List State) : Prop :=
  ∃ above bottom, scope_stack = above ++ [bottom] ∧
    bottom = { sentinel env with texture := bottom.texture } ∧ ∀ r ∈ above, 0 ≤ r.level

/-- The cell size plus the spacing: the stride of `deduce_grid_sprites`. -/
def grid_stride (s : State) : Size :=
  ⟨s.grid.x + s.grid_spacing.x, s.grid.y + s.grid_spacing.y⟩

/-- The value `x0` of `deduce_grid_sprites` on the sheet. -/
def scan_x0 (s : State) (sheet : Image) : Int :=
  (floor (get_used_bounds sheet).x (grid_stride s).x).tdiv (grid_stride s).x

/-- The value `x1` of `deduce_grid_sprites` on the sheet. -/
def scan_x1 (s : State) (sheet : Image) : Int :=
  (min (ceil (get_used_bounds sheet).x1 (grid_stride s).x) sheet.width).tdiv (grid_stride s).x

/-- The columns `x0 .. x1 - 1` that `deduce_grid_sprites` scans on the sheet. -/
def scan_columns (s : State) (sheet : Image) : List Int :=
  int_range (scan_x0 s sheet) (scan_x1 s sheet)

/-- The rows `y0 .. y1 - 1` that `deduce_grid_sprites` scans on the sheet. -/
def scan_rows (s : State) (sheet : Image) : List Int :=
  int_range ((floor (get_used_bounds sheet).y (grid_stride s).y).tdiv (grid_stride s).y)
    ((min (ceil (get_used_bounds sheet).y1 (grid_stride s).y) sheet.height).tdiv
      (grid_stride s).y)

/-- The rectangle lies inside the image. -/
def Rect.inside (r : Rect) (image : Image) : Prop :=
  0 ≤ r.x ∧ 0 ≤ r.y ∧ r.x + r.w ≤ image.width ∧ r.y + r.h ≤ image.height

/-- The record of the sheet `a.png` with the cell size 1 x 1 and the spacing 1 x 0. -/
def spaced_state : State :=
  { demo_state with sheet := FilenameSequence.mk_from "a.png".toList,
                    grid := ⟨1, 1⟩, grid_spacing := ⟨1, 0⟩ }

/-- Every texture that is on file in the members `p` is still on file in the members
`q`, under its key and with its value. -/
def textures_kept (p q : InputParser) : Prop :=
  ∀ k t, p.m_textures.lookup k = some t → q.m_textures.lookup k = some t

/-- The record of the line `  width 64` nested in the texture scope of the scenario. -/
def nested_width_record (env : Env) : State :=
  { texture_record env with definition := .width, level := 2, indent := "  ".toList,
                            width := 64 }

/-! ## Theorems -/

/-! ### The monad -/

theorem run_pure {α : Type} (a : α) (p : InputParser) : (pure a : M α) p = (.ok a, p) := rfl

theorem run_bind {α β : Type} (x : M α) (f : α → M β) (p : InputParser) :
    (x >>= f) p = match x p with
      | (.ok a, q) => f a q
      | (.error e, q) => (.error e, q) := rfl

theorem bind_eq_ok {α β : Type} {x : M α} {f : α → M β} {p q : InputParser} {b : β} :
    (x >>= f) p = (.ok b, q) ↔ ∃ a r, x p = (.ok a, r) ∧ f a r = (.ok b, q) := by
  rw [run_bind]
  rcases hx : x p with ⟨_ | a, r⟩
  · simp
  · constructor
    · intro h; exact ⟨a, r, rfl, h⟩
    · rintro ⟨a', r', h1, h2⟩
      cases h1; exact h2

theorem run_get (p : InputParser) : M.get p = (.ok p, p) := rfl

theorem run_modify (f : InputParser → InputParser) (p : InputParser) :
    M.modify f p = (.ok (), f p) := rfl

theorem run_output (t : List Char) (p : InputParser) :
    M.output t p =
      (.ok (), { p with m_autocomplete_output := p.m_autocomplete_output ++ t }) := rfl

theorem run_when (c : Bool) (x : M Unit) (p : InputParser) :
    M.when c x p = if c then x p else (.ok (), p) := by
  unfold M.when; split <;> rfl

theorem run_throw {α : Type} (e : Exn) (p : InputParser) :
    (M.throw e : M α) p = (.error e, p) := rfl

theorem run_lift {α : Type} (x : Except Exn α) (p : InputParser) : M.lift x p = (x, p) := rfl

theorem run_error {α : Type} (m : List Char) (p : InputParser) :
    (error m : M α) p = (.error (.runtime_error (error_text p.m_line_number m)), p) := rfl

theorem run_check (c : Bool) (m : List Char) (p : InputParser) :
    check c m p = if c then (.ok (), p)
      else (.error (.runtime_error (error_text p.m_line_number m)), p) := by
  unfold check; split <;> rfl

/-! ### sprite_ends, step by step -/

theorem get_texture_eq (env : Env) (s : State) (p : InputParser) :
    get_texture env s p = (.ok (env.weakly_canonical s.texture), with_texture env s p) := by
  unfold with_texture get_texture
  dsimp only
  split <;> rfl

theorem sprite_ends_eq (env : Env) (s : State) (p : InputParser) :
    sprite_ends env s p =
      if s.sheet.empty then
        (.error (.runtime_error (error_text p.m_line_number "sprite not on sheet".toList)), p)
      else
        match get_sheet env (sprite_state s p)
            (with_texture env (sprite_state s p) (sprite_cursor s p)) with
        | (.error e, q) => (.error e, q)
        | (.ok (source, sheet), q) =>
          (.ok (sprite_state s p),
            { q with
              m_sprites := q.m_sprites ++
                [sprite_of (sprite_state s p) p.m_sprites.length
                  (env.weakly_canonical s.texture) source sheet]
              m_current_sequence_index :=
                if s.sheet.is_sequence then q.m_current_sequence_index + 1
                else q.m_current_sequence_index
              m_sprites_in_current_sheet := q.m_sprites_in_current_sheet + 1 }) := by
  unfold sprite_ends
  by_cases hs : s.sheet.empty = true
  · simp [run_bind, run_check, hs]
  · by_cases hg : (s.rect.empty && !s.grid.empty) = true <;>
    by_cases hq : s.sheet.is_sequence = true <;>
    · simp only [run_bind, run_check, run_get, run_modify, run_pure, run_when,
        get_texture_eq, hs, hg, hq, sprite_state, sprite_cursor, sprite_of, Bool.not_eq_true,
        Bool.not_false, Bool.false_eq_true, if_true, if_false]
      generalize get_sheet env _ _ = r
      rcases r with ⟨_ | ⟨source, sheet⟩, q⟩ <;> rfl

/-! ### What the scope-close handlers leave of a record -/

theorem closed_from_refl (s : State) : s.closed_from s := by
  cases s; rfl

theorem closed_from_trans {a b c : State} (h1 : a.closed_from b) (h2 : b.closed_from c) :
    a.closed_from c := by
  unfold State.closed_from at *
  rw [h2, h1]

theorem closed_from_rect (s : State) (r : Rect) : s.closed_from { s with rect := r } := by
  cases s; rfl

theorem closed_from_sheet (s : State) (f : FilenameSequence) :
    s.closed_from { s with sheet := f } := by
  cases s; rfl

theorem sprite_state_closed (s : State) (p : InputParser) : s.closed_from (sprite_state s p) := by
  unfold sprite_state
  split
  · exact closed_from_rect s _
  · exact closed_from_refl s

theorem sprite_ends_ok {env : Env} {s s' : State} {p q : InputParser}
    (h : sprite_ends env s p = (.ok s', q)) : s' = sprite_state s p := by
  rw [sprite_ends_eq] at h
  split at h
  · cases h
  · split at h
    · cases h
    · cases h; rfl

theorem sprite_ends_closed {env : Env} {s s' : State} {p q : InputParser}
    (h : sprite_ends env s p = (.ok s', q)) : s.closed_from s' := by
  rw [sprite_ends_ok h]; exact sprite_state_closed s p

theorem deduce_sequence_loop_closed {env : Env} (l : List Int) :
    ∀ {s s' : State} {p q : InputParser},
      deduce_sequence_loop env l s p = (.ok s', q) → s.closed_from s' := by
  induction l with
  | nil =>
    intro s s' p q h
    simp only [deduce_sequence_loop, run_pure] at h
    cases h; exact closed_from_refl s
  | cons i rest ih =>
    intro s s' p q h
    simp only [deduce_sequence_loop] at h
    obtain ⟨⟨key, sheet⟩, p1, -, h⟩ := bind_eq_ok.1 h
    obtain ⟨p2, p3, -, h⟩ := bind_eq_ok.1 h
    obtain ⟨u, p4, -, h⟩ := bind_eq_ok.1 h
    obtain ⟨s1, p5, h1, h⟩ := bind_eq_ok.1 h
    exact closed_from_trans (closed_from_trans (closed_from_rect s _) (sprite_ends_closed h1)) (ih h)

theorem deduce_sequence_sprites_closed {env : Env} {fuel : Nat} {s s' : State}
    {p q : InputParser} (h : deduce_sequence_sprites env fuel s p = (.ok s', q)) :
    s.closed_from s' := by
  unfold deduce_sequence_sprites at h
  obtain ⟨s1, p1, h1, h⟩ := bind_eq_ok.1 h
  refine closed_from_trans ?_ (deduce_sequence_loop_closed _ h)
  split at h1
  · cases hp : probe_sequence env s fuel 0 with
    | some i =>
      rw [hp] at h1
      simp only [run_pure] at h1
      cases h1; exact closed_from_sheet s _
    | none => rw [hp] at h1; cases h1
  · simp only [run_pure] at h1
    cases h1; exact closed_from_refl s

theorem deduce_grid_row_closed {env : Env} {sheet : Image} {grid : Size} {x0 y : Int}
    (l : List Int) :
    ∀ {s s' : State} {b b' : Bool} {k k' : Int} {p q : InputParser},
      deduce_grid_row env sheet grid x0 y l (s, b, k) p = (.ok (s', b', k'), q) →
      s.closed_from s' := by
  induction l with
  | nil =>
    intro s s' b b' k k' p q h
    simp only [deduce_grid_row, run_pure] at h
    cases h; exact closed_from_refl s
  | cons x rest ih =>
    intro s s' b b' k k' p q h
    simp only [deduce_grid_row] at h
    split at h
    · exact closed_from_trans (closed_from_rect s _) (ih h)
    · obtain ⟨p2, p3, -, h⟩ := bind_eq_ok.1 h
      obtain ⟨u, p4, -, h⟩ := bind_eq_ok.1 h
      obtain ⟨u, p5, -, h⟩ := bind_eq_ok.1 h
      obtain ⟨u, p6, -, h⟩ := bind_eq_ok.1 h
      obtain ⟨s1, p7, h1, h⟩ := bind_eq_ok.1 h
      exact closed_from_trans
        (closed_from_trans (closed_from_rect s _) (sprite_ends_closed h1)) (ih h)

theorem deduce_grid_rows_closed {env : Env} {sheet : Image} {grid : Size} {x0 x1 : Int}
    (l : List Int) :
    ∀ {s s' : State} {p q : InputParser},
      deduce_grid_rows env sheet grid x0 x1 l s p = (.ok s', q) → s.closed_from s' := by
  induction l with
  | nil =>
    intro s s' p q h
    simp only [deduce_grid_rows, run_pure] at h
    cases h; exact closed_from_refl s
  | cons y rest ih =>
    intro s s' p q h
    simp only [deduce_grid_rows] at h
    obtain ⟨⟨s1, b1, k1⟩, p1, h1, h⟩ := bind_eq_ok.1 h
    exact closed_from_trans (deduce_grid_row_closed _ h1) (ih h)

theorem deduce_grid_sprites_closed {env : Env} {s s' : State} {p q : InputParser}
    (h : deduce_grid_sprites env s p = (.ok s', q)) : s.closed_from s' := by
  unfold deduce_grid_sprites at h
  obtain ⟨⟨key, sheet⟩, p1, -, h⟩ := bind_eq_ok.1 h
  dsimp only at h
  split at h
  · cases h
  · exact deduce_grid_rows_closed _ h

theorem deduce_unaligned_loop_closed {env : Env} {sheet : Image} (l : List Rect) :
    ∀ {s s' : State} {p q : InputParser},
      deduce_unaligned_loop env sheet l s p = (.ok s', q) → s.closed_from s' := by
  induction l with
  | nil =>
    intro s s' p q h
    simp only [deduce_unaligned_loop, run_pure] at h
    cases h; exact closed_from_refl s
  | cons r rest ih =>
    intro s s' p q h
    simp only [deduce_unaligned_loop] at h
    obtain ⟨p2, p3, -, h⟩ := bind_eq_ok.1 h
    obtain ⟨u, p4, -, h⟩ := bind_eq_ok.1 h
    obtain ⟨u, p5, -, h⟩ := bind_eq_ok.1 h
    obtain ⟨s1, p6, h1, h⟩ := bind_eq_ok.1 h
    exact closed_from_trans
      (closed_from_trans (closed_from_rect s _) (sprite_ends_closed h1)) (ih h)

theorem deduce_unaligned_sprites_closed {env : Env} {s s' : State} {p q : InputParser}
    (h : deduce_unaligned_sprites env s p = (.ok s', q)) : s.closed_from s' := by
  unfold deduce_unaligned_sprites at h
  obtain ⟨⟨key, sheet⟩, p1, -, h⟩ := bind_eq_ok.1 h
  exact deduce_unaligned_loop_closed _ h

theorem sheet_ends_closed {env : Env} {fuel : Nat} {s s' : State} {p q : InputParser}
    (h : sheet_ends env fuel s p = (.ok s', q)) : s.closed_from s' := by
  unfold sheet_ends at h
  obtain ⟨p1, p2, -, h⟩ := bind_eq_ok.1 h
  obtain ⟨s1, p3, h1, h⟩ := bind_eq_ok.1 h
  obtain ⟨u, p4, -, h⟩ := bind_eq_ok.1 h
  simp only [run_pure] at h
  cases h
  split at h1
  · split at h1
    · exact deduce_sequence_sprites_closed h1
    · split at h1
      · exact deduce_grid_sprites_closed h1
      · exact deduce_unaligned_sprites_closed h1
  · simp only [run_pure] at h1
    cases h1; exact closed_from_refl s

theorem scope_ends_closed {env : Env} {fuel : Nat} {s s' : State} {p q : InputParser}
    (h : scope_ends env fuel s p = (.ok s', q)) : s.closed_from s' := by
  unfold scope_ends at h
  cases hd : s.definition <;> rw [hd] at h <;> dsimp only at h
  case texture =>
    unfold texture_ends at h
    obtain ⟨k, p1, -, h⟩ := bind_eq_ok.1 h
    simp only [run_pure] at h
    cases h; exact closed_from_refl s
  case sheet => exact sheet_ends_closed h
  case sprite => exact sprite_ends_closed h
  all_goals
    simp only [run_pure] at h
    cases h; exact closed_from_refl s

theorem closed_from_texture {s s' : State} (h : s.closed_from s') : s'.texture = s.texture := by
  unfold State.closed_from at h; rw [h]

theorem closed_from_definition {s s' : State} (h : s.closed_from s') :
    s'.definition = s.definition := by
  unfold State.closed_from at h; rw [h]

theorem closed_from_level {s s' : State} (h : s.closed_from s') : s'.level = s.level := by
  unfold State.closed_from at h; rw [h]

/-! ### pop_scope_stack -/

theorem top_key_append_singleton (l : List State) (s : State) :
    top_key (l ++ [s]) = some (s.definition, s.texture) := by
  simp [top_key]

theorem keep_texture_top_key (above : List State) (r : State) :
    (match above.getLast? with
      | some top => if top.definition = .texture then { r with texture := top.texture } else r
      | none => r) = keep_texture (top_key above) r := by
  unfold top_key keep_texture
  cases above.getLast? <;> rfl

theorem pop_loop_cons (env : Env) (fuel : Nat) (det : List Char) (level : Int)
    (above : List State) (last : State) (below : List State) :
    pop_loop env fuel det level above (last :: below) =
      if has_implicit_scope last.definition && decide (level ≤ last.level) then
        match above with
        | [] => do
          let state ← scope_ends env fuel
            { last with definition := last.definition, indent := last.indent ++ det }
          pop_loop env fuel det level [state] below
        | back :: mid => do
          let state ← scope_ends env fuel { back with definition := last.definition }
          pop_loop env fuel det level (state :: mid ++ [last]) below
      else if level ≥ last.level then
        match above.getLast? with
        | some top =>
          if top.definition = .texture then pure ({ last with texture := top.texture } :: below)
          else pure (last :: below)
        | none => pure (last :: below)
      else pop_loop env fuel det level (above ++ [last]) below := by
  cases above <;> rw [pop_loop]

theorem pop_loop_ok {env : Env} {fuel : Nat} {det : List Char} {level : Int}
    (rest : List State) :
    ∀ {above above0 : List State} {p q : InputParser} {result : List State},
      top_key above = top_key above0 →
      pop_loop env fuel det level above rest p = (.ok result, q) →
      ∃ closed r below, rest = closed ++ r :: below ∧
        (∀ x ∈ closed, ¬ stops_at level x) ∧ stops_at level r ∧
        result = keep_texture (top_key (above0 ++ closed)) r :: below ∧
        (closed = [] → q = p) := by
  induction rest with
  | nil =>
    intro above above0 p q result _ h
    simp only [pop_loop, run_throw] at h
    cases h
  | cons last below ih =>
    intro above above0 p q result hk h
    rw [pop_loop_cons] at h
    by_cases hA : (has_implicit_scope last.definition && decide (level ≤ last.level)) = true
    · have hns : ¬ stops_at level last := by
        intro hs
        apply hs.1
        simpa using hA
      rw [if_pos hA] at h
      cases above with
      | nil =>
        dsimp only at h
        obtain ⟨state, p1, h1, h⟩ := bind_eq_ok.1 h
        have hc := scope_ends_closed h1
        have hk' : top_key [state] = top_key (above0 ++ [last]) := by
          rw [top_key_append_singleton]
          simp [top_key, closed_from_definition hc, closed_from_texture hc]
        obtain ⟨closed, r, below', e1, e2, e3, e4, -⟩ := ih hk' h
        refine ⟨last :: closed, r, below', by rw [e1]; rfl, ?_, e3, ?_, by intro hh; cases hh⟩
        · intro x hx
          rcases List.mem_cons.1 hx with rfl | hx
          · exact hns
          · exact e2 x hx
        · rw [e4]; simp
      | cons back mid =>
        dsimp only at h
        obtain ⟨state, p1, h1, h⟩ := bind_eq_ok.1 h
        have hk' : top_key (state :: mid ++ [last]) = top_key (above0 ++ [last]) := by
          rw [top_key_append_singleton, top_key_append_singleton]
        obtain ⟨closed, r, below', e1, e2, e3, e4, -⟩ := ih hk' h
        refine ⟨last :: closed, r, below', by rw [e1]; rfl, ?_, e3, ?_, by intro hh; cases hh⟩
        · intro x hx
          rcases List.mem_cons.1 hx with rfl | hx
          · exact hns
          · exact e2 x hx
        · rw [e4]; simp
    · rw [if_neg hA] at h
      by_cases hB : level ≥ last.level
      · rw [if_pos hB] at h
        have hs : stops_at level last := by
          refine ⟨?_, hB⟩
          intro hh
          apply hA
          simpa using hh
        have hr : result = keep_texture (top_key above) last :: below ∧ q = p := by
          rw [← keep_texture_top_key]
          cases hl : above.getLast? with
          | none => rw [hl] at h; simp only [run_pure] at h; cases h; exact ⟨rfl, rfl⟩
          | some top =>
            rw [hl] at h
            dsimp only at h
            split at h <;> simp only [run_pure] at h <;> cases h
            · rename_i ht; simp [ht]
            · rename_i ht; simp [ht]
        refine ⟨[], last, below, rfl, by simp, hs, ?_, fun _ => hr.2⟩
        rw [hr.1, hk]; simp
      · rw [if_neg hB] at h
        have hns : ¬ stops_at level last := fun hs => hB hs.2
        have hk' : top_key (above ++ [last]) = top_key (above0 ++ [last]) := by
          rw [top_key_append_singleton, top_key_append_singleton]
        obtain ⟨closed, r, below', e1, e2, e3, e4, -⟩ := ih hk' h
        refine ⟨last :: closed, r, below', by rw [e1]; rfl, ?_, e3, ?_, by intro hh; cases hh⟩
        · intro x hx
          rcases List.mem_cons.1 hx with rfl | hx
          · exact hns
          · exact e2 x hx
        · rw [e4]; simp

/-- The pop phase: the records `closed` above the record `r` at which the loop stops
are erased, `r` takes the texture path of the record above it if that is a texture
record, and nothing else of what is left changes. -/
theorem pop_scope_stack_ok {env : Env} {fuel : Nat} {det : List Char} {level : Int}
    {scope_stack result : List State} {p q : InputParser}
    (h : pop_scope_stack env fuel det level scope_stack p = (.ok result, q)) :
    ∃ closed r below, scope_stack = closed ++ r :: below ∧
      (∀ x ∈ closed, ¬ stops_at level x) ∧ stops_at level r ∧
      result = keep_texture (top_key closed) r :: below ∧
      (closed = [] → q = p) := by
  have := @pop_loop_ok _ _ _ _ scope_stack [] [] _ _ _ rfl h
  simpa using this

/-! ### One line -/

/-- What `parse` does with a line that is not skipped and starts with a keyword of the
table: the pop phase, the push phase, `apply_definition`, the echo. -/
theorem parse_line_eq {env : Env} {fuel : Nat} {buffer : List Char} {eof : Bool}
    {loc : Locals} {p : InputParser} {keyword : List Char} {arguments : List (List Char)}
    (hb : is_inert buffer = false)
    (htok : split_arguments (ltrim buffer) = .ok (keyword :: arguments))
    (hdef : get_definition keyword ≠ .none) :
    parse_line env fuel buffer eof loc p =
      match pop_scope_stack env fuel loc.detected_indetation (line_level buffer)
          loc.scope_stack p with
      | (.error e, q) => (.error e, q)
      | (.ok [], q) => (.error .undefined, q)
      | (.ok (back :: below), q1) =>
        match apply_definition env (line_state buffer (get_definition keyword) back)
            (get_definition keyword) arguments q1 with
        | (.error e, q) => (.error e, q)
        | (.ok state, q2) =>
          (.ok ⟨line_detected buffer loc,
                if opens_scope (line_level buffer) back (get_definition keyword) then
                  state :: back :: below
                else state :: below,
                if p.autocomplete then [] else loc.autocomplete_space⟩,
            if p.autocomplete then
              { q2 with m_autocomplete_output :=
                  q2.m_autocomplete_output ++ (loc.autocomplete_space ++ buffer ++ ['\n']) }
            else q2) := by
  unfold parse_line
  unfold is_inert at hb
  simp only [run_bind, run_get, run_lift, hb, htok, hdef, Bool.false_eq_true, if_false,
    line_level, opens_scope, line_state, line_detected]
  generalize pop_scope_stack env fuel _ _ _ p = r
  rcases r with ⟨_ | ⟨_ | ⟨back, below⟩⟩, q1⟩
  · rfl
  · rfl
  · dsimp only
    by_cases ho : (decide ((buffer.length : Int) - ((ltrim buffer).length : Int) > back.level) ||
        has_implicit_scope (get_definition keyword)) = true
    · simp only [ho, if_true, run_bind]
      rcases apply_definition env _ (get_definition keyword) arguments q1 with ⟨_ | state, q2⟩
      · rfl
      · by_cases ha : p.autocomplete = true
        · simp only [ha, if_true, run_bind, run_output, run_pure]
        · simp only [ha, if_false, run_pure, Bool.false_eq_true]
    · simp only [ho, if_false, run_bind, Bool.false_eq_true]
      rcases apply_definition env _ (get_definition keyword) arguments q1 with ⟨_ | state, q2⟩
      · rfl
      · by_cases ha : p.autocomplete = true
        · simp only [ha, if_true, run_bind, run_output, run_pure]
        · simp only [ha, if_false, run_pure, Bool.false_eq_true]

/-- A blank line or a comment leaves the scope stack and the members as they are,
apart from what is recorded for the autocomplete output. -/
theorem parse_line_inert {env : Env} {fuel : Nat} {buffer : List Char} {eof : Bool}
    {loc : Locals} {p : InputParser} (hb : is_inert buffer = true) :
    parse_line env fuel buffer eof loc p =
      (.ok (if p.autocomplete && !eof then
              { loc with autocomplete_space := loc.autocomplete_space ++ buffer ++ ['\n'] }
            else loc),
        if p.autocomplete && eof then
          { p with m_autocomplete_output := p.m_autocomplete_output ++ loc.autocomplete_space }
        else p) := by
  unfold parse_line
  unfold is_inert at hb
  simp only [run_bind, run_get, hb, if_true]
  by_cases ha : p.autocomplete = true <;> by_cases he : eof = true <;>
    simp [ha, he, run_bind, run_output, run_pure]

theorem parse_line_split_error {env : Env} {fuel : Nat} {buffer : List Char} {eof : Bool}
    {loc : Locals} {p : InputParser} {e : Exn} (hb : is_inert buffer = false)
    (htok : split_arguments (ltrim buffer) = .error e) :
    parse_line env fuel buffer eof loc p = (.error e, p) := by
  unfold parse_line
  unfold is_inert at hb
  simp only [run_bind, run_get, run_lift, hb, htok, Bool.false_eq_true, if_false]

theorem parse_line_split_nil {env : Env} {fuel : Nat} {buffer : List Char} {eof : Bool}
    {loc : Locals} {p : InputParser} (hb : is_inert buffer = false)
    (htok : split_arguments (ltrim buffer) = .ok []) :
    parse_line env fuel buffer eof loc p = (.error .undefined, p) := by
  unfold parse_line
  unfold is_inert at hb
  simp only [run_bind, run_get, run_lift, hb, htok, Bool.false_eq_true, if_false, run_throw]

/-- A line whose first token is not in the keyword table: `parse` throws before the
pop phase, the members are as they were. -/
theorem parse_line_unknown {env : Env} {fuel : Nat} {buffer : List Char} {eof : Bool}
    {loc : Locals} {p : InputParser} {keyword : List Char} {arguments : List (List Char)}
    (hb : is_inert buffer = false)
    (htok : split_arguments (ltrim buffer) = .ok (keyword :: arguments))
    (hdef : get_definition keyword = .none) :
    parse_line env fuel buffer eof loc p =
      (.error (.runtime_error (error_text p.m_line_number
        ("invalid definition '".toList ++ keyword ++ "'".toList))), p) := by
  unfold parse_line
  unfold is_inert at hb
  simp only [run_bind, run_get, run_lift, hb, htok, hdef, Bool.false_eq_true, if_false,
    if_true, run_error]

/-- What `parse` has done with a line that is not skipped, when it has not thrown. -/
theorem parse_line_ok {env : Env} {fuel : Nat} {buffer : List Char} {eof : Bool}
    {loc loc' : Locals} {p q : InputParser}
    (h : parse_line env fuel buffer eof loc p = (.ok loc', q)) (hb : is_inert buffer = false) :
    ∃ keyword arguments back below state q1 q2,
      split_arguments (ltrim buffer) = .ok (keyword :: arguments) ∧
      get_definition keyword ≠ .none ∧
      pop_scope_stack env fuel loc.detected_indetation (line_level buffer) loc.scope_stack p
        = (.ok (back :: below), q1) ∧
      apply_definition env (line_state buffer (get_definition keyword) back)
          (get_definition keyword) arguments q1 = (.ok state, q2) ∧
      loc'.scope_stack =
        (if opens_scope (line_level buffer) back (get_definition keyword) then
          state :: back :: below
        else state :: below) := by
  rcases htok : split_arguments (ltrim buffer) with e | (_ | ⟨keyword, arguments⟩)
  · rw [parse_line_split_error hb htok] at h; cases h
  · rw [parse_line_split_nil hb htok] at h; cases h
  · by_cases hdef : get_definition keyword = .none
    · rw [parse_line_unknown hb htok hdef] at h; cases h
    · rw [parse_line_eq hb htok hdef] at h
      rcases hpop : pop_scope_stack env fuel loc.detected_indetation (line_level buffer)
          loc.scope_stack p with ⟨_ | ⟨_ | ⟨back, below⟩⟩, q1⟩
      · rw [hpop] at h; cases h
      · rw [hpop] at h; cases h
      · rw [hpop] at h
        dsimp only at h
        rcases happ : apply_definition env (line_state buffer (get_definition keyword) back)
            (get_definition keyword) arguments q1 with ⟨_ | state, q2⟩
        · rw [happ] at h; cases h
        · rw [happ] at h
          cases h
          exact ⟨keyword, arguments, back, below, state, q1, q2, rfl, hdef, rfl, happ, rfl⟩

/-! ### What a definition sets -/

theorem pivot_word_frame {s s' : State} {args rest : List (List Char)} {p q : InputParser}
    (h : pivot_word s args p = (.ok (s', rest), q)) : s' = { s with pivot := s'.pivot } := by
  unfold pivot_word at h
  obtain ⟨⟨v, r⟩, p1, -, h⟩ := bind_eq_ok.1 h
  dsimp only at h
  split at h
  · simp only [run_pure, Prod.mk.injEq, Except.ok.injEq] at h
    obtain ⟨⟨rfl, rfl⟩, rfl⟩ := h
    rfl
  · split at h
    · simp only [run_pure, Prod.mk.injEq, Except.ok.injEq] at h
      obtain ⟨⟨rfl, rfl⟩, rfl⟩ := h
      rfl
    · cases h

theorem apply_switch_frame {env : Env} {s s' : State} {d : Definition}
    {args rest : List (List Char)} {p q : InputParser}
    (h : apply_switch env s d args p = (.ok (s', rest), q)) : s' = set_by d s' s := by
  cases d <;> simp only [apply_switch] at h
  all_goals
    try
      first
      | (simp only [run_pure, Prod.mk.injEq, Except.ok.injEq] at h
         obtain ⟨⟨rfl, rfl⟩, rfl⟩ := h
         rfl)
      | (obtain ⟨⟨v, r⟩, p1, -, h⟩ := bind_eq_ok.1 h
         simp only [run_pure, Prod.mk.injEq, Except.ok.injEq] at h
         obtain ⟨⟨rfl, rfl⟩, rfl⟩ := h
         rfl)
      | (obtain ⟨⟨v, r⟩, p1, -, h⟩ := bind_eq_ok.1 h
         obtain ⟨u, p2, -, h⟩ := bind_eq_ok.1 h
         simp only [run_pure, Prod.mk.injEq, Except.ok.injEq] at h
         obtain ⟨⟨rfl, rfl⟩, rfl⟩ := h
         rfl)
      | (obtain ⟨⟨v, r⟩, p1, -, h⟩ := bind_eq_ok.1 h
         obtain ⟨⟨v2, r2⟩, p2, -, h⟩ := bind_eq_ok.1 h
         simp only [run_pure, Prod.mk.injEq, Except.ok.injEq] at h
         obtain ⟨⟨rfl, rfl⟩, rfl⟩ := h
         rfl)
  case alpha =>
    obtain ⟨⟨v, r⟩, p1, -, h⟩ := bind_eq_ok.1 h
    dsimp only at h
    split at h
    · split at h
      · obtain ⟨⟨c, r2⟩, p2, -, h⟩ := bind_eq_ok.1 h
        simp only [run_pure, Prod.mk.injEq, Except.ok.injEq] at h
        obtain ⟨⟨rfl, rfl⟩, rfl⟩ := h
        rfl
      · simp only [run_pure, Prod.mk.injEq, Except.ok.injEq] at h
        obtain ⟨⟨rfl, rfl⟩, rfl⟩ := h
        rfl
    · cases h
  case offset =>
    obtain ⟨u, p1, -, h⟩ := bind_eq_ok.1 h
    obtain ⟨⟨fx, r1⟩, p2, -, h⟩ := bind_eq_ok.1 h
    obtain ⟨u, p3, -, h⟩ := bind_eq_ok.1 h
    obtain ⟨⟨fy, r2⟩, p4, -, h⟩ := bind_eq_ok.1 h
    obtain ⟨u, p5, -, h⟩ := bind_eq_ok.1 h
    simp only [run_pure, Prod.mk.injEq, Except.ok.injEq] at h
    obtain ⟨⟨rfl, rfl⟩, rfl⟩ := h
    rfl
  case sprite =>
    split at h
    · obtain ⟨⟨v, r⟩, p1, -, h⟩ := bind_eq_ok.1 h
      simp only [run_pure, Prod.mk.injEq, Except.ok.injEq] at h
      obtain ⟨⟨rfl, rfl⟩, rfl⟩ := h
      rfl
    · simp only [run_pure, Prod.mk.injEq, Except.ok.injEq] at h
      obtain ⟨⟨rfl, rfl⟩, rfl⟩ := h
      rfl
  case pivot =>
    split at h
    · obtain ⟨⟨fx, r1⟩, p2, -, h⟩ := bind_eq_ok.1 h
      obtain ⟨⟨fy, r2⟩, p4, -, h⟩ := bind_eq_ok.1 h
      simp only [run_pure, Prod.mk.injEq, Except.ok.injEq] at h
      obtain ⟨⟨rfl, rfl⟩, rfl⟩ := h
      rfl
    · obtain ⟨⟨s1, r1⟩, p2, h1, h⟩ := bind_eq_ok.1 h
      have e1 := pivot_word_frame h1
      have e2 := pivot_word_frame h
      rw [e2, e1]
      rfl
  case trim =>
    split at h
    · simp only [run_pure, Prod.mk.injEq, Except.ok.injEq] at h
      obtain ⟨⟨rfl, rfl⟩, rfl⟩ := h
      rfl
    · obtain ⟨⟨v, r⟩, p1, -, h⟩ := bind_eq_ok.1 h
      dsimp only at h
      split at h
      · simp only [run_pure, Prod.mk.injEq, Except.ok.injEq] at h
        obtain ⟨⟨rfl, rfl⟩, rfl⟩ := h
        rfl
      · cases h

theorem apply_definition_frame {env : Env} {s s' : State} {d : Definition}
    {args : List (List Char)} {p q : InputParser}
    (h : apply_definition env s d args p = (.ok s', q)) : s' = set_by d s' s := by
  unfold apply_definition at h
  obtain ⟨⟨s1, rest⟩, p1, h1, h⟩ := bind_eq_ok.1 h
  obtain ⟨u, p2, -, h⟩ := bind_eq_ok.1 h
  simp only [run_pure, Prod.mk.injEq, Except.ok.injEq] at h
  obtain ⟨rfl, rfl⟩ := h
  exact apply_switch_frame h1

theorem set_by_definition (d : Definition) (c s : State) :
    (set_by d c s).definition = s.definition := by
  cases d <;> rfl

theorem set_by_level (d : Definition) (c s : State) : (set_by d c s).level = s.level := by
  cases d <;> rfl

theorem set_by_indent (d : Definition) (c s : State) : (set_by d c s).indent = s.indent := by
  cases d <;> rfl

theorem apply_definition_definition {env : Env} {s s' : State} {d : Definition}
    {args : List (List Char)} {p q : InputParser}
    (h : apply_definition env s d args p = (.ok s', q)) : s'.definition = s.definition := by
  rw [apply_definition_frame h, set_by_definition]

theorem apply_definition_level {env : Env} {s s' : State} {d : Definition}
    {args : List (List Char)} {p q : InputParser}
    (h : apply_definition env s d args p = (.ok s', q)) : s'.level = s.level := by
  rw [apply_definition_frame h, set_by_level]

theorem apply_definition_inherit {env : Env} {buffer : List Char} {back s' : State}
    {d : Definition} {args : List (List Char)} {p q : InputParser}
    (h : apply_definition env (line_state buffer d back) d args p = (.ok s', q)) :
    s' = inherit d s' back := by
  have e := apply_definition_frame h
  have e1 : s'.definition = d := by rw [apply_definition_definition h]; rfl
  have e2 : s'.level = line_level buffer := by rw [apply_definition_level h]; rfl
  have e3 : s'.indent = buffer.take (line_level buffer).toNat := by
    rw [e, set_by_indent]; rfl
  unfold inherit
  rw [e1, e2, e3]
  exact e

/-! ### The levels on the scope stack -/

theorem levels_nested_tail {a : State} {l : List State} (h : levels_nested (a :: l)) :
    levels_nested l := by
  cases l with
  | nil => trivial
  | cons b l => exact h.2

theorem levels_nested_drop (c : List State) {l : List State}
    (h : levels_nested (c ++ l)) : levels_nested l := by
  induction c with
  | nil => exact h
  | cons a c ih => exact ih (levels_nested_tail h)

theorem levels_nested_head {a a' : State} {l : List State} (hl : a'.level = a.level)
    (hd : a'.definition = a.definition) (h : levels_nested (a :: l)) :
    levels_nested (a' :: l) := by
  cases l with
  | nil => trivial
  | cons b l =>
    refine ⟨?_, h.2⟩
    rw [hl, hd]
    exact h.1

theorem keep_texture_level (k : Option (Definition × List Char)) (r : State) :
    (keep_texture k r).level = r.level := by
  unfold keep_texture
  split
  · split <;> rfl
  · rfl

theorem keep_texture_definition (k : Option (Definition × List Char)) (r : State) :
    (keep_texture k r).definition = r.definition := by
  unfold keep_texture
  split
  · split <;> rfl
  · rfl

/-- One line keeps the levels nested. -/
theorem parse_line_levels {env : Env} {fuel : Nat} {buffer : List Char} {eof : Bool}
    {loc loc' : Locals} {p q : InputParser}
    (h : parse_line env fuel buffer eof loc p = (.ok loc', q))
    (hn : levels_nested loc.scope_stack) : levels_nested loc'.scope_stack := by
  by_cases hb : is_inert buffer = true
  · rw [parse_line_inert hb] at h
    cases h
    split <;> exact hn
  · have hb' : is_inert buffer = false := by simpa using hb
    obtain ⟨keyword, arguments, back, below, state, q1, q2, -, -, hpop, happ, hs⟩ :=
      parse_line_ok h hb'
    obtain ⟨closed, r, below', e1, -, hstop, e4, -⟩ := pop_scope_stack_ok hpop
    rw [e1] at hn
    have hr : levels_nested (r :: below') := levels_nested_drop closed hn
    cases e4
    have hback : levels_nested (keep_texture (top_key closed) r :: below) :=
      levels_nested_head (keep_texture_level _ _) (keep_texture_definition _ _) hr
    have hl : state.level = line_level buffer := by rw [apply_definition_level happ]; rfl
    have hd : state.definition = get_definition keyword := by
      rw [apply_definition_definition happ]; rfl
    rw [hs]
    by_cases ho : opens_scope (line_level buffer) (keep_texture (top_key closed) r)
        (get_definition keyword) = true
    · rw [if_pos ho]
      refine ⟨?_, hback⟩
      rw [hl, hd, keep_texture_level, keep_texture_definition]
      unfold opens_scope at ho
      rw [keep_texture_level] at ho
      unfold stops_at at hstop
      rcases lt_or_eq_of_le hstop.2 with hlt | heq
      · exact Or.inl hlt
      · right
        refine ⟨heq, ?_, ?_⟩
        · by_contra hi
          exact hstop.1 ⟨by simpa using hi, le_of_eq heq.symm⟩
        · have : ¬ (line_level buffer > r.level) := by omega
          simpa [this] using ho
    · rw [if_neg ho]
      unfold opens_scope at ho
      rw [keep_texture_level] at ho
      simp only [Bool.or_eq_true, decide_eq_true_eq, not_or, not_lt] at ho
      have heq : r.level = line_level buffer := le_antisymm hstop.2 ho.1
      cases below with
      | nil => trivial
      | cons b l =>
        refine ⟨?_, hr.2⟩
        rw [hl, hd]
        rcases hr.1 with hlt | ⟨-, -, hi⟩
        · left; omega
        · exfalso
          exact hstop.1 ⟨hi, le_of_eq heq.symm⟩

theorem parse_loop_levels {env : Env} {fuel : Nat} (lines : List (List Char × Bool)) :
    ∀ {n n' : Int} {loc loc' : Locals} {p q : InputParser},
      parse_loop env fuel lines n loc p = (.ok (loc', n'), q) →
      levels_nested loc.scope_stack → levels_nested loc'.scope_stack := by
  induction lines with
  | nil =>
    intro n n' loc loc' p q h hn
    simp only [parse_loop, run_pure, Prod.mk.injEq, Except.ok.injEq] at h
    obtain ⟨⟨rfl, -⟩, -⟩ := h
    exact hn
  | cons line rest ih =>
    intro n n' loc loc' p q h hn
    obtain ⟨buffer, eof⟩ := line
    simp only [parse_loop] at h
    obtain ⟨u, p1, -, h⟩ := bind_eq_ok.1 h
    obtain ⟨loc1, p2, h1, h⟩ := bind_eq_ok.1 h
    exact ih h (parse_line_levels h1 hn)

/-- C6 (amended): after every line that `parse` has processed, the levels on the scope
stack never decrease from the bottom (the sentinel) to the top, and two neighbouring
records have the same level only if the upper one is a texture, sheet or sprite record
and the lower one is not. -/
theorem levels_nested_after_lines (env : Env) (fuel : Nat) (lines : List (List Char × Bool))
    (p q : InputParser) (loc : Locals) (n : Int)
    (h : parse_loop env fuel lines 1 (initial_locals env) p = (.ok (loc, n), q)) :
    levels_nested loc.scope_stack :=
  parse_loop_levels lines h trivial

set_option maxRecDepth 100000 in
/-- C6 (witness): the two lines `grid 16`, `sheet "a.png"` in column 0 are processed and
leave nested levels. -/
theorem levels_nested_after_lines_witness :
    ∃ r, (parse_loop (demo_env []) 0 (getlines "grid 16\nsheet \"a.png\"".toList) 1
            (initial_locals (demo_env [])) (InputParser.new false)).1 = .ok r ∧
      levels_nested r.1.scope_stack := by
  have h : (match (parse_loop (demo_env []) 0 (getlines "grid 16\nsheet \"a.png\"".toList) 1
            (initial_locals (demo_env [])) (InputParser.new false)).1 with
      | .ok _ => true
      | .error _ => false) = true := by decide!
  rcases hx : parse_loop (demo_env []) 0 (getlines "grid 16\nsheet \"a.png\"".toList) 1
            (initial_locals (demo_env [])) (InputParser.new false) with ⟨_ | ⟨loc, n⟩, q⟩
  · rw [hx] at h; cases h
  · exact ⟨(loc, n), rfl, levels_nested_after_lines _ _ _ _ _ _ _ hx⟩


/-! ### Inheritance and its frame -/

theorem keep_texture_frame (k : Option (Definition × List Char)) (r : State) :
    keep_texture k r = { r with texture := (keep_texture k r).texture } := by
  unfold keep_texture
  split
  · split <;> rfl
  · rfl

theorem line_definition_eq {buffer keyword : List Char} {arguments : List (List Char)}
    (htok : split_arguments (ltrim buffer) = .ok (keyword :: arguments)) :
    line_definition buffer = get_definition keyword := by
  unfold line_definition; rw [htok]

theorem child_line_stops {parent : State} {buffer : List Char} (h : child_line parent buffer) :
    stops_at (line_level buffer) parent := by
  unfold stops_at
  rcases h with h | ⟨h1, h2, -⟩
  · exact ⟨fun hh => (by have := hh.2; omega), by omega⟩
  · exact ⟨fun hh => (by rw [h2] at hh; cases hh.1), by omega⟩

/-- One line in a scope below `parent` leaves `parent` on the stack, with everything
below it, and changes at most its texture path. -/
theorem parse_line_parent {env : Env} {fuel : Nat} {buffer : List Char} {eof : Bool}
    {loc loc' : Locals} {p q : InputParser} {above below : List State} {parent : State}
    (h : parse_line env fuel buffer eof loc p = (.ok loc', q))
    (hs : loc.scope_stack = above ++ parent :: below)
    (hc : is_inert buffer = true ∨ child_line parent buffer) :
    ∃ above' parent', loc'.scope_stack = above' ++ parent' :: below ∧
      parent' = { parent with texture := parent'.texture } := by
  by_cases hb : is_inert buffer = true
  · rw [parse_line_inert hb] at h
    cases h
    refine ⟨above, parent, ?_, rfl⟩
    split <;> exact hs
  · have hb' : is_inert buffer = false := by simpa using hb
    have hc' : child_line parent buffer := hc.resolve_left hb
    obtain ⟨keyword, arguments, back, below1, state, q1, q2, htok, -, hpop, happ, hst⟩ :=
      parse_line_ok h hb'
    obtain ⟨closed, r, below', e1, e2, -, e4, -⟩ := pop_scope_stack_ok hpop
    cases e4
    rw [hs] at e1
    have ho : ∀ k, opens_scope (line_level buffer) (keep_texture k parent)
        (get_definition keyword) = true := by
      intro k
      unfold opens_scope
      rw [keep_texture_level]
      rcases hc' with hlt | ⟨-, -, hi⟩
      · simp [hlt]
      · rw [line_definition_eq htok] at hi
        simp [hi]
    rcases List.append_eq_append_iff.1 e1 with ⟨a', hcl, hr⟩ | ⟨c', -, hr⟩
    · cases a' with
      | nil =>
        simp only [List.nil_append, List.cons.injEq] at hr
        obtain ⟨hr1, hr2⟩ := hr
        subst hr1 hr2
        rw [hst, if_pos (ho _)]
        exact ⟨[state], keep_texture (top_key closed) parent, rfl, keep_texture_frame _ _⟩
      | cons x a'' =>
        exfalso
        simp only [List.cons_append, List.cons.injEq] at hr
        obtain ⟨hr1, -⟩ := hr
        subst hr1
        exact e2 parent (by rw [hcl]; simp) (child_line_stops hc')
    · cases c' with
      | nil =>
        simp only [List.nil_append, List.cons.injEq] at hr
        obtain ⟨hr1, hr2⟩ := hr
        subst hr1 hr2
        rw [hst, if_pos (ho _)]
        exact ⟨[state], keep_texture (top_key closed) r, rfl, keep_texture_frame _ _⟩
      | cons x c'' =>
        simp only [List.cons_append, List.cons.injEq] at hr
        obtain ⟨hr1, hr2⟩ := hr
        subst hr1 hr2
        rw [hst]
        split
        · exact ⟨state :: keep_texture (top_key closed) r :: c'', parent, rfl, rfl⟩
        · exact ⟨state :: c'', parent, rfl, rfl⟩

theorem parse_loop_parent {env : Env} {fuel : Nat} (lines : List (List Char × Bool)) :
    ∀ {n n' : Int} {loc loc' : Locals} {p q : InputParser} {above below : List State}
      {parent : State},
      parse_loop env fuel lines n loc p = (.ok (loc', n'), q) →
      loc.scope_stack = above ++ parent :: below →
      (∀ line ∈ lines, is_inert line.1 = true ∨ child_line parent line.1) →
      ∃ above' parent', loc'.scope_stack = above' ++ parent' :: below ∧
        parent' = { parent with texture := parent'.texture } := by
  induction lines with
  | nil =>
    intro n n' loc loc' p q above below parent h hs _
    simp only [parse_loop, run_pure, Prod.mk.injEq, Except.ok.injEq] at h
    obtain ⟨⟨rfl, -⟩, -⟩ := h
    exact ⟨above, parent, hs, rfl⟩
  | cons line rest ih =>
    intro n n' loc loc' p q above below parent h hs hc
    obtain ⟨buffer, eof⟩ := line
    simp only [parse_loop] at h
    obtain ⟨u, p1, -, h⟩ := bind_eq_ok.1 h
    obtain ⟨loc1, p2, h1, h⟩ := bind_eq_ok.1 h
    obtain ⟨above1, parent1, hs1, hp1⟩ :=
      parse_line_parent h1 hs (hc (buffer, eof) (List.mem_cons_self _ _))
    have hc1 : ∀ line ∈ rest, is_inert line.1 = true ∨ child_line parent1 line.1 := by
      intro line hl
      have := hc line (List.mem_cons_of_mem _ hl)
      rw [hp1]
      exact this
    obtain ⟨above2, parent2, hs2, hp2⟩ := ih h hs1 hc1
    refine ⟨above2, parent2, hs2, ?_⟩
    rw [hp2, hp1]

/-- C1: when `parse` processes a line that is not skipped, the pop phase leaves records
of the stack as they were, the new top `parent` up to its texture path (so whatever a
scope-close handler changed in the record it ran on is erased with that record). If
the line opens a new scope, the pushed record `child` agrees with `parent` except for
`definition`, `level`, `indent` and the members that the definition of the line sets;
and after any number of further lines that lie in scopes below `parent` (they may
close `child` and open other children), `parent` is still on the stack, above the
same records, and differs from what it was at most in its texture path. -/
theorem scope_inheritance {env : Env} {fuel : Nat} {buffer : List Char} {eof : Bool}
    {loc loc1 : Locals} {p q1 : InputParser}
    (hline : parse_line env fuel buffer eof loc p = (.ok loc1, q1))
    (hb : is_inert buffer = false) :
    ∃ closed r parent below q0,
      pop_scope_stack env fuel loc.detected_indetation (line_level buffer) loc.scope_stack p
        = (.ok (parent :: below), q0) ∧
      loc.scope_stack = closed ++ r :: below ∧ parent = { r with texture := parent.texture } ∧
      (opens_scope (line_level buffer) parent (line_definition buffer) = true →
        (∃ child, loc1.scope_stack = child :: parent :: below ∧
          child = inherit (line_definition buffer) child parent) ∧
        ∀ (lines : List (List Char × Bool)) (n n2 : Int) (loc2 : Locals) (q2 : InputParser),
          parse_loop env fuel lines n loc1 q1 = (.ok (loc2, n2), q2) →
          (∀ line ∈ lines, is_inert line.1 = true ∨ child_line parent line.1) →
          ∃ above parent', loc2.scope_stack = above ++ parent' :: below ∧
            parent' = { parent with texture := parent'.texture }) := by
  obtain ⟨keyword, arguments, back, below, state, q0, q2, htok, -, hpop, happ, hst⟩ :=
    parse_line_ok hline hb
  obtain ⟨closed, r, below', e1, -, -, e4, -⟩ := pop_scope_stack_ok hpop
  cases e4
  refine ⟨closed, r, _, _, q0, hpop, e1, keep_texture_frame _ _, ?_⟩
  intro ho
  rw [line_definition_eq htok] at ho ⊢
  rw [if_pos ho] at hst
  refine ⟨⟨state, hst, apply_definition_inherit happ⟩, ?_⟩
  intro lines n n2 loc2 q2 hloop hlines
  exact @parse_loop_parent _ _ lines _ _ _ _ _ _ [state] _ _ hloop hst hlines

set_option maxRecDepth 100000 in
/-- C1 (witness): the line `grid 16` read by a fresh parser opens a scope below the
sentinel; the pushed record differs from the sentinel in `definition`, `level`,
`indent` and `grid` only. -/
theorem scope_inheritance_witness :
    ∃ loc1 q1, parse_line (demo_env []) 0 "grid 16".toList false (initial_locals (demo_env []))
        (InputParser.new false) = (.ok loc1, q1) ∧ is_inert "grid 16".toList = false ∧
      ∃ child parent below, loc1.scope_stack = child :: parent :: below ∧
        child = inherit .grid child parent := by
  have h : (match (parse_line (demo_env []) 0 "grid 16".toList false
      (initial_locals (demo_env [])) (InputParser.new false)).1 with
      | .ok _ => true
      | .error _ => false) = true := by decide!
  rcases hx : parse_line (demo_env []) 0 "grid 16".toList false
      (initial_locals (demo_env [])) (InputParser.new false) with ⟨_ | loc1, q1⟩
  · rw [hx] at h; cases h
  · refine ⟨loc1, q1, rfl, by decide, ?_⟩
    obtain ⟨closed, r, parent, below, q0, hpop, -, -, hopen⟩ :=
      scope_inheritance hx (by decide)
    have hd : line_definition "grid 16".toList = .grid := by decide
    rw [hd] at hopen
    have hpar : parent.level = -1 := by
      have h2 : (match (pop_scope_stack (demo_env []) 0
            (initial_locals (demo_env [])).detected_indetation (line_level "grid 16".toList)
            (initial_locals (demo_env [])).scope_stack (InputParser.new false)).1 with
          | .ok (s :: _) => decide (s.level = -1)
          | _ => false) = true := by decide!
      rw [hpop] at h2
      exact of_decide_eq_true h2
    have ho : opens_scope (line_level "grid 16".toList) parent .grid = true := by
      unfold opens_scope
      rw [hpar]
      decide
    obtain ⟨⟨child, hc1, hc2⟩, -⟩ := hopen ho
    exact ⟨child, parent, below, hc1, hc2⟩

/-! ### The loop over the lines -/

theorem parse_loop_append {env : Env} {fuel : Nat} (pre post : List (List Char × Bool)) :
    ∀ (n : Int) (loc : Locals) (p : InputParser),
      parse_loop env fuel (pre ++ post) n loc p =
        match parse_loop env fuel pre n loc p with
        | (.ok (loc1, n1), q) => parse_loop env fuel post n1 loc1 q
        | (.error e, q) => (.error e, q) := by
  induction pre with
  | nil => intro n loc p; rfl
  | cons line rest ih =>
    intro n loc p
    obtain ⟨buffer, eof⟩ := line
    simp only [List.cons_append, parse_loop, run_bind, run_modify]
    rcases parse_line env fuel buffer eof loc _ with ⟨_ | loc1, q⟩
    · rfl
    · exact ih (n + 1) loc1 q

theorem parse_loop_number {env : Env} {fuel : Nat} (lines : List (List Char × Bool)) :
    ∀ {n n' : Int} {loc loc' : Locals} {p q : InputParser},
      parse_loop env fuel lines n loc p = (.ok (loc', n'), q) → n' = n + lines.length := by
  induction lines with
  | nil =>
    intro n n' loc loc' p q h
    simp only [parse_loop, run_pure, Prod.mk.injEq, Except.ok.injEq] at h
    obtain ⟨⟨-, rfl⟩, -⟩ := h
    simp
  | cons line rest ih =>
    intro n n' loc loc' p q h
    obtain ⟨buffer, eof⟩ := line
    simp only [parse_loop] at h
    obtain ⟨u, p1, -, h⟩ := bind_eq_ok.1 h
    obtain ⟨loc1, p2, -, h⟩ := bind_eq_ok.1 h
    rw [ih h]
    simp only [List.length_cons, Nat.cast_add, Nat.cast_one]
    omega

theorem parse_eq (env : Env) (fuel : Nat) (input : List Char) (p : InputParser) :
    parse env fuel input p =
      match parse_loop env fuel (getlines input) 1 (initial_locals env) (parse_start p) with
      | (.error e, q) => (.error e, q)
      | (.ok (loc, n), q) =>
        match pop_scope_stack env fuel loc.detected_indetation (-1) loc.scope_stack
            { q with m_line_number := n } with
        | (.error e, r) => (.error e, r)
        | (.ok scope_stack, r) => (.ok scope_stack, { r with m_line_number := 0 }) := by
  unfold parse
  simp only [run_bind, run_modify, parse_start]
  rcases parse_loop env fuel (getlines input) 1 (initial_locals env) _ with ⟨_ | ⟨loc, n⟩, q⟩
  · rfl
  · dsimp only
    rcases pop_scope_stack env fuel loc.detected_indetation (-1) loc.scope_stack _
      with ⟨_ | st, r⟩
    · rfl
    · rfl

/-- The unknown keyword on a line that `split_arguments` accepts: if the lines before
the `k`-th line of the input are processed without error and the `k`-th line is not
skipped and its first token `t` is not in the keyword table, `parse` throws
`invalid definition 't' in line k`; the members are then what they were after line
`k - 1` (apart from `m_line_number`), so no scope has been closed for line `k`. -/
theorem unknown_keyword_error (env : Env) (fuel : Nat) (input : List Char) (p q : InputParser)
    (pre post : List (List Char × Bool)) (buffer : List Char) (eof : Bool) (loc : Locals)
    (n : Int) (t : List Char) (arguments : List (List Char))
    (hlines : getlines input = pre ++ (buffer, eof) :: post)
    (hpre : parse_loop env fuel pre 1 (initial_locals env) (parse_start p) = (.ok (loc, n), q))
    (hb : is_inert buffer = false)
    (htok : split_arguments (ltrim buffer) = .ok (t :: arguments))
    (hdef : get_definition t = .none) :
    parse env fuel input p =
      (.error (.runtime_error ("invalid definition '".toList ++ t ++ "'".toList
          ++ " in line ".toList ++ to_string ((pre.length : Int) + 1))),
        { q with m_line_number := (pre.length : Int) + 1 }) := by
  have hn : n = 1 + (pre.length : Int) := parse_loop_number pre hpre
  rw [parse_eq, hlines, parse_loop_append, hpre]
  simp only [parse_loop, run_bind, run_modify]
  rw [parse_line_unknown hb htok hdef]
  have hk : (1 : Int) + (pre.length : Int) ≠ 0 := by omega
  simp only [hn, error_text, hk, ne_eq, not_false_eq_true, if_true]
  rw [add_comm (1 : Int)]

set_option maxRecDepth 100000 in
/-- An example: the unknown keyword `foo` on line 5, behind a blank line and a
comment, gives the message `invalid definition 'foo' in line 5`. -/
theorem unknown_keyword_error_witness :
    (parse (demo_env []) 0 "grid 16\n\n# note\nwidth 4\nfoo 1\n".toList
        (InputParser.new false)).1 =
      .error (.runtime_error "invalid definition 'foo' in line 5".toList) := by
  have h : (match (parse_loop (demo_env []) 0
      [("grid 16".toList, false), ([], false), ("# note".toList, false),
        ("width 4".toList, false)] 1
      (initial_locals (demo_env [])) (parse_start (InputParser.new false))).1 with
      | .ok _ => true
      | .error _ => false) = true := by decide!
  rcases hx : parse_loop (demo_env []) 0
      [("grid 16".toList, false), ([], false), ("# note".toList, false),
        ("width 4".toList, false)] 1
      (initial_locals (demo_env [])) (parse_start (InputParser.new false)) with ⟨_ | ⟨loc, n⟩, q⟩
  · rw [hx] at h; cases h
  · rw [unknown_keyword_error (demo_env []) 0 _ (InputParser.new false) q
      [("grid 16".toList, false), ([], false), ("# note".toList, false),
        ("width 4".toList, false)] [([], true)] "foo 1".toList false loc n
      "foo".toList ["1".toList] (by decide) hx (by decide) (by decide) (by decide)]
    dsimp only
    decide

set_option maxRecDepth 100000 in
/-- C8: an unknown keyword on a line with a quote that is not closed. For the input
`foo "x` the call of `split_arguments` in `parse` throws `std::out_of_range` before the
keyword is looked up, so `parse` does not end in `invalid definition 'foo' in line 1`;
the same holds on line 5 of a longer input. With the quote closed, the message with
the line number is thrown. -/
theorem unknown_keyword_unclosed_quote :
    split_arguments "foo \"x".toList = .error .out_of_range ∧
    parse (demo_env []) 0 "foo \"x".toList (InputParser.new false) =
      (.error .out_of_range, { InputParser.new false with m_line_number := 1 }) ∧
    (parse (demo_env []) 0 "grid 16\n\n# note\nwidth 4\nfoo \"x\n".toList
        (InputParser.new false)).1 = .error .out_of_range ∧
    (parse (demo_env []) 0 "foo \"x\"".toList (InputParser.new false)).1 =
      .error (.runtime_error "invalid definition 'foo' in line 1".toList) ∧
    (parse (demo_env []) 0 "grid 16\n\n# note\nwidth 4\nfoo \"x\"\n".toList
        (InputParser.new false)).1 =
      .error (.runtime_error "invalid definition 'foo' in line 5".toList) := by
  refine ⟨by decide!, by decide!, by decide!, by decide!, by decide!⟩

/-! ### The sheet cache -/

theorem lookup_map_set_self {β : Type} (m : List (List Char × β)) (key : List Char) (v : β) :
    (map_set m key v).lookup key = some v := by
  unfold map_set
  induction m with
  | nil => simp [List.lookup]
  | cons e m ih =>
    obtain ⟨k, w⟩ := e
    by_cases hk : k = key
    · simp only [List.filter, hk, ne_eq, not_true_eq_false, decide_False]
      exact ih
    · have hk' : (key == k) = false := by simpa using fun h => hk h.symm
      simp only [List.filter, ne_eq, hk, not_false_eq_true, decide_True, List.cons_append,
        List.lookup, hk']
      exact ih

theorem lookup_map_set_ne {β : Type} (m : List (List Char × β)) {key key' : List Char} (v : β)
    (h : key' ≠ key) : (map_set m key v).lookup key' = m.lookup key' := by
  unfold map_set
  induction m with
  | nil =>
    have : (key' == key) = false := by simpa using h
    simp [List.lookup, this]
  | cons e m ih =>
    obtain ⟨k, w⟩ := e
    by_cases hk : k = key
    · subst hk
      have hk' : (key' == k) = false := by simpa using h
      simp only [List.filter, ne_eq, not_true_eq_false, decide_False, List.lookup, hk']
      exact ih
    · simp only [List.filter, ne_eq, hk, not_false_eq_true, decide_True, List.cons_append,
        List.lookup]
      cases key' == k
      · exact ih
      · rfl

theorem get_sheet_file_cached {env : Env} {path filename : List Char} {colorkey : RGBA}
    {p : InputParser} {sheet : Image}
    (h : p.m_sheets.lookup (env.weakly_canonical (path_join path filename)) = some (some sheet)) :
    get_sheet_file env path filename colorkey p =
      (.ok (env.weakly_canonical (path_join path filename), sheet), p) := by
  unfold get_sheet_file
  simp only [h]

/-- A successful `get_sheet` returns its key and the image that is cached under this
key afterwards; it changes only the cache, and there only the entry of this key. -/
theorem get_sheet_file_ok {env : Env} {path filename : List Char} {colorkey : RGBA}
    {p q : InputParser} {key : List Char} {sheet : Image}
    (h : get_sheet_file env path filename colorkey p = (.ok (key, sheet), q)) :
    key = env.weakly_canonical (path_join path filename) ∧
      q.m_sheets.lookup key = some (some sheet) ∧
      q = { p with m_sheets := q.m_sheets } ∧
      ∀ k, k ≠ key → q.m_sheets.lookup k = p.m_sheets.lookup k := by
  unfold get_sheet_file at h
  dsimp only at h
  split at h
  · rename_i sh hl
    simp only [Prod.mk.injEq, Except.ok.injEq] at h
    obtain ⟨⟨rfl, rfl⟩, rfl⟩ := h
    exact ⟨rfl, hl, rfl, fun _ _ => rfl⟩
  · split at h
    · cases h
    · simp only [Prod.mk.injEq, Except.ok.injEq] at h
      obtain ⟨⟨rfl, rfl⟩, rfl⟩ := h
      exact ⟨rfl, lookup_map_set_self _ _ _, rfl, fun k hk => lookup_map_set_ne _ _ hk⟩

theorem with_texture_eq (env : Env) (s : State) (p : InputParser) :
    with_texture env s p = { p with m_textures := (with_texture env s p).m_textures } := by
  unfold with_texture get_texture
  dsimp only
  split <;> rfl

theorem sprite_cursor_eq (s : State) (p : InputParser) :
    sprite_cursor s p = { p with m_current_offset := (sprite_cursor s p).m_current_offset } := by
  unfold sprite_cursor
  split <;> rfl

theorem sprite_state_path (s : State) (p : InputParser) : (sprite_state s p).path = s.path := by
  unfold sprite_state; split <;> rfl

theorem sprite_state_sheet (s : State) (p : InputParser) :
    (sprite_state s p).sheet = s.sheet := by
  unfold sprite_state; split <;> rfl

theorem sprite_state_colorkey (s : State) (p : InputParser) :
    (sprite_state s p).colorkey = s.colorkey := by
  unfold sprite_state; split <;> rfl

theorem sprite_state_texture (s : State) (p : InputParser) :
    (sprite_state s p).texture = s.texture := by
  unfold sprite_state; split <;> rfl

/-- `sprite_ends` on a record whose sheet is in the cache. -/
theorem sprite_ends_cached {env : Env} {s : State} {p : InputParser} {sheet : Image}
    (hs : s.sheet.empty = false)
    (hc : p.m_sheets.lookup (sheet_key env s p.m_current_sequence_index) = some (some sheet)) :
    sprite_ends env s p =
      (.ok (sprite_state s p),
        { with_texture env (sprite_state s p) (sprite_cursor s p) with
          m_sprites := p.m_sprites ++
            [sprite_of (sprite_state s p) p.m_sprites.length (env.weakly_canonical s.texture)
              (sheet_key env s p.m_current_sequence_index) sheet]
          m_current_sequence_index :=
            if s.sheet.is_sequence then p.m_current_sequence_index + 1
            else p.m_current_sequence_index
          m_sprites_in_current_sheet := p.m_sprites_in_current_sheet + 1 }) := by
  rw [sprite_ends_eq, hs]
  simp only [Bool.false_eq_true, if_false]
  have hg : get_sheet env (sprite_state s p)
      (with_texture env (sprite_state s p) (sprite_cursor s p)) =
      (.ok (sheet_key env s p.m_current_sequence_index, sheet),
        with_texture env (sprite_state s p) (sprite_cursor s p)) := by
    unfold get_sheet get_sheet_at
    simp only [run_bind, run_get]
    rw [with_texture_eq, sprite_cursor_eq]
    dsimp only
    rw [sprite_state_path, sprite_state_sheet, sprite_state_colorkey]
    exact get_sheet_file_cached hc
  rw [hg]
  dsimp only
  rw [with_texture_eq, sprite_cursor_eq]

/-! ### Grid deduction -/

theorem run_when_output (c : Bool) (text : List Char) (p : InputParser) :
    M.when c (M.output text) p =
      (.ok (), { p with m_autocomplete_output :=
        p.m_autocomplete_output ++ (if c then text else []) }) := by
  rw [run_when]
  cases c
  · simp
  · simp [run_output]

theorem appends_refl (p : InputParser) : appends p p [] := by
  simp [appends]

theorem appends_trans {p q r : InputParser} {a b : List Sprite} (h1 : appends p q a)
    (h2 : appends q r b) : appends p r (a ++ b) := by
  obtain ⟨a1, a2, a3, a4⟩ := h1
  obtain ⟨b1, b2, b3, b4⟩ := h2
  refine ⟨?_, ?_, ?_, ?_⟩
  · rw [b1, a1, List.append_assoc]
  · rw [b2, a2]
  · rw [b3, a3]
  · rw [b4, a4]

/-- `sprite_ends` on a record with a rectangle, whose sheet is no sequence and is in the
cache: the record is unchanged and one sprite with this rectangle is appended. -/
theorem sprite_ends_rect {env : Env} {s : State} {p : InputParser} {sheet : Image}
    (hs : s.sheet.empty = false) (hq : s.sheet.is_sequence = false)
    (hr : s.rect.empty = false)
    (hc : p.m_sheets.lookup (sheet_key env s p.m_current_sequence_index) = some (some sheet)) :
    ∃ q sprite, sprite_ends env s p = (.ok s, q) ∧ appends p q [sprite] ∧
      sprite.source_rect = s.rect ∧
      q.m_sprites_in_current_sheet = p.m_sprites_in_current_sheet + 1 := by
  have e1 : sprite_state s p = s := by simp [sprite_state, hr]
  have e2 : sprite_cursor s p = p := by simp [sprite_cursor, hr]
  rw [sprite_ends_cached hs hc, e1, e2, hq]
  refine ⟨_, _, rfl, ⟨rfl, ?_, rfl, ?_⟩, ?_, rfl⟩
  · show (with_texture env s p).m_sheets = p.m_sheets
    rw [with_texture_eq]
  · show (with_texture env s p).autocomplete = p.autocomplete
    rw [with_texture_eq]
  · simp [sprite_of, hr]

theorem deduce_grid_row_run {env : Env} {s : State} {sheet : Image} {grid : Size}
    {x0 y : Int} (hs : s.sheet.empty = false) (hq : s.sheet.is_sequence = false)
    (hgx : s.grid.x ≠ 0) (hgy : s.grid.y ≠ 0) (xs : List Int) :
    ∀ (r : Rect) (b : Bool) (k : Int) (p : InputParser),
      p.m_sheets.lookup (sheet_key env s p.m_current_sequence_index) = some (some sheet) →
      ∃ r2 b2 k2 q new,
        deduce_grid_row env sheet grid x0 y xs ({ s with rect := r }, b, k) p
          = (.ok ({ s with rect := r2 }, b2, k2), q) ∧
        appends p q new ∧
        new.map (fun x => x.source_rect) =
          (xs.filter fun x => !is_fully_transparent sheet (scan_rect s grid x y)).map
            fun x => scan_rect s grid x y := by
  induction xs with
  | nil =>
    intro r b k p _
    exact ⟨r, b, k, p, [], rfl, appends_refl p, rfl⟩
  | cons x rest ih =>
    intro r b k p hc
    simp only [deduce_grid_row, scan_rect] at ih ⊢
    by_cases ht : is_fully_transparent sheet ⟨s.grid_offset.x + x * grid.x,
        s.grid_offset.y + y * grid.y, s.grid.x, s.grid.y⟩ = true
    · simp only [ht, if_true]
      obtain ⟨r2, b2, k2, q, new, e1, e3, e4⟩ := ih _ b (k + 1) p hc
      refine ⟨r2, b2, k2, q, new, e1, e3, ?_⟩
      rw [e4, List.filter_cons]
      simp [ht]
    · simp only [ht, Bool.false_eq_true, if_false, run_bind, run_get, run_when_output]
      have hr : ({ s with rect := ⟨s.grid_offset.x + x * grid.x,
          s.grid_offset.y + y * grid.y, s.grid.x, s.grid.y⟩ } : State).rect.empty = false := by
        simp [Rect.empty, hgx, hgy]
      generalize hP : ({ p with m_autocomplete_output := _ } : InputParser) = P
      have hP0 : appends p P [] := by rw [← hP]; exact ⟨by simp, rfl, rfl, rfl⟩
      obtain ⟨q1, sprite, e1, e2, e3, -⟩ := @sprite_ends_rect env
        { s with rect := ⟨s.grid_offset.x + x * grid.x,
          s.grid_offset.y + y * grid.y, s.grid.x, s.grid.y⟩ }
        P sheet hs hq hr (by rw [hP0.2.1, hP0.2.2.1]; exact hc)
      rw [e1]
      dsimp only
      obtain ⟨r2, b2, k2, q, new, f1, f3, f4⟩ := ih _ (if p.autocomplete then true else b)
        (if p.autocomplete && decide (k > 0) then 0 else k) q1 (by
          rw [e2.2.1, e2.2.2.1, hP0.2.1, hP0.2.2.1]; exact hc)
      refine ⟨r2, b2, k2, q, sprite :: new, f1, ?_, ?_⟩
      · exact appends_trans (appends_trans hP0 e2) f3
      · rw [List.filter_cons]
        simp only [ht, Bool.not_false, if_true, List.map_cons, f4, e3]

theorem deduce_grid_rows_run {env : Env} {s : State} {sheet : Image} {grid : Size}
    {x0 x1 : Int} (hs : s.sheet.empty = false) (hq : s.sheet.is_sequence = false)
    (hgx : s.grid.x ≠ 0) (hgy : s.grid.y ≠ 0) (ys : List Int) :
    ∀ (r : Rect) (p : InputParser),
      p.m_sheets.lookup (sheet_key env s p.m_current_sequence_index) = some (some sheet) →
      ∃ r2 q new,
        deduce_grid_rows env sheet grid x0 x1 ys { s with rect := r } p
          = (.ok { s with rect := r2 }, q) ∧
        appends p q new ∧
        new.map (fun x => x.source_rect) = scan_result s sheet grid (int_range x0 x1) ys := by
  induction ys with
  | nil =>
    intro r p _
    exact ⟨r, p, [], rfl, appends_refl p, rfl⟩
  | cons y rest ih =>
    intro r p hc
    obtain ⟨r1, b1, k1, q1, new1, e1, e2, e3⟩ :=
      @deduce_grid_row_run env s sheet grid x0 y hs hq hgx hgy (int_range x0 x1)
        r false 0 p hc
    obtain ⟨r2, q2, new2, f1, f2, f3⟩ := ih r1 q1 (by rw [e2.2.1, e2.2.2.1]; exact hc)
    refine ⟨r2, q2, new1 ++ new2, ?_, appends_trans e2 f2, ?_⟩
    · simp only [deduce_grid_rows, run_bind]
      rw [e1]
      exact f1
    · rw [List.map_append, e3, f3]
      simp [scan_result, List.flatMap_cons]

/-- `deduce_grid_sprites` on a record whose sheet can be loaded and is no sequence:
it returns, and the sprites that it appends have the rectangles of the scanned cells
that are not fully transparent, row by row. -/
theorem deduce_grid_sprites_run {env : Env} {s : State} {p p1 : InputParser}
    {key : List Char} {sheet : Image}
    (hload : get_sheet env s p = (.ok (key, sheet), p1))
    (hs : s.sheet.empty = false) (hq : s.sheet.is_sequence = false)
    (hgx : s.grid.x ≠ 0) (hgy : s.grid.y ≠ 0)
    (hx : s.grid.x + s.grid_spacing.x ≠ 0) (hy : s.grid.y + s.grid_spacing.y ≠ 0) :
    ∃ s' q new, deduce_grid_sprites env s p = (.ok s', q) ∧
      q.m_sprites = p.m_sprites ++ new ∧
      new.map (fun x => x.source_rect) =
        scan_result s sheet ⟨s.grid.x + s.grid_spacing.x, s.grid.y + s.grid_spacing.y⟩
          (int_range
            ((floor (get_used_bounds sheet).x (s.grid.x + s.grid_spacing.x)).tdiv
              (s.grid.x + s.grid_spacing.x))
            ((min (ceil (get_used_bounds sheet).x1 (s.grid.x + s.grid_spacing.x))
              sheet.width).tdiv (s.grid.x + s.grid_spacing.x)))
          (int_range
            ((floor (get_used_bounds sheet).y (s.grid.y + s.grid_spacing.y)).tdiv
              (s.grid.y + s.grid_spacing.y))
            ((min (ceil (get_used_bounds sheet).y1 (s.grid.y + s.grid_spacing.y))
              sheet.height).tdiv (s.grid.y + s.grid_spacing.y))) := by
  have hl := hload
  unfold get_sheet at hl
  simp only [run_bind, run_get] at hl
  unfold get_sheet_at at hl
  obtain ⟨hk, hc, hp1, -⟩ := get_sheet_file_ok hl
  have hi : p1.m_current_sequence_index = p.m_current_sequence_index := by rw [hp1]
  have hsp : p1.m_sprites = p.m_sprites := by rw [hp1]
  have hc1 : p1.m_sheets.lookup (sheet_key env s p1.m_current_sequence_index)
      = some (some sheet) := by
    rw [hi]
    unfold sheet_key
    rw [← hk]
    exact hc
  obtain ⟨r2, q, new, e1, e2, e3⟩ := @deduce_grid_rows_run env s sheet
    ⟨s.grid.x + s.grid_spacing.x, s.grid.y + s.grid_spacing.y⟩
    ((floor (get_used_bounds sheet).x (s.grid.x + s.grid_spacing.x)).tdiv
              (s.grid.x + s.grid_spacing.x))
    ((min (ceil (get_used_bounds sheet).x1 (s.grid.x + s.grid_spacing.x))
              sheet.width).tdiv (s.grid.x + s.grid_spacing.x)) hs hq hgx hgy
    (int_range
            ((floor (get_used_bounds sheet).y (s.grid.y + s.grid_spacing.y)).tdiv
              (s.grid.y + s.grid_spacing.y))
            ((min (ceil (get_used_bounds sheet).y1 (s.grid.y + s.grid_spacing.y))
              sheet.height).tdiv (s.grid.y + s.grid_spacing.y))) s.rect p1 hc1
  refine ⟨{ s with rect := r2 }, q, new, ?_, ?_, e3⟩
  · unfold deduce_grid_sprites
    simp only [run_bind]
    rw [hload]
    simp only [hx, hy, or_self, if_false]
    exact e1
  · rw [e2.1, hsp]

/-! ### Ranges, transparency and the used bounds -/

theorem mem_int_range {a b x : Int} : x ∈ int_range a b ↔ a ≤ x ∧ x < b := by
  unfold int_range
  simp only [List.mem_map, List.mem_range]
  constructor
  · rintro ⟨i, hi, rfl⟩
    omega
  · rintro ⟨h1, h2⟩
    refine ⟨(x - a).toNat, ?_, ?_⟩ <;> omega

theorem int_range_append {a m b : Int} (h1 : a ≤ m) (h2 : m ≤ b) :
    int_range a b = int_range a m ++ int_range m b := by
  unfold int_range
  have hn : (b - a).toNat = (m - a).toNat + (b - m).toNat := by omega
  rw [hn, List.range_add, List.map_append, List.map_map]
  congr 1
  apply List.map_congr_left
  intro i _
  simp only [Function.comp]
  omega

theorem int_range_pairwise (a b : Int) : (int_range a b).Pairwise (· < ·) := by
  unfold int_range
  rw [List.pairwise_map]
  exact (List.pairwise_lt_range _).imp (by intro i j h; omega)

theorem filter_eq_nil_of_forall {α : Type} {l : List α} {f : α → Bool}
    (h : ∀ x ∈ l, f x = false) : l.filter f = [] := by
  rw [List.filter_eq_nil_iff]
  intro x hx
  rw [h x hx]
  simp

theorem is_fully_transparent_iff (image : Image) (rect : Rect) :
    is_fully_transparent image rect = true ↔
      ∀ x y, rect.x ≤ x → x < rect.x1 → rect.y ≤ y → y < rect.y1 →
        (image.rgba_at ⟨x, y⟩).a = 0 := by
  unfold is_fully_transparent
  simp only [List.all_eq_true, mem_int_range, decide_eq_true_eq]
  constructor
  · intro h x y hx1 hx2 hy1 hy2
    exact h y ⟨hy1, hy2⟩ x ⟨hx1, hx2⟩
  · intro h y hy x hx
    exact h x y hx.1 hx.2 hy.1 hy.2

theorem head_le_of_pairwise {c : Int} {cs : List Int} (h : (c :: cs).Pairwise (· < ·))
    {x : Int} (hx : x ∈ c :: cs) : c ≤ x := by
  rcases List.mem_cons.1 hx with rfl | hx
  · exact le_refl _
  · exact le_of_lt ((List.pairwise_cons.1 h).1 x hx)

theorem le_getLast_of_pairwise : ∀ {l : List Int} (hne : l ≠ []),
    l.Pairwise (· < ·) → ∀ {x : Int}, x ∈ l → x ≤ l.getLast hne := by
  intro l
  induction l with
  | nil => intro hne; exact absurd rfl hne
  | cons c cs ih =>
    intro hne h x hx
    cases cs with
    | nil =>
      simp only [List.mem_singleton] at hx
      simp [hx]
    | cons d ds =>
      rw [List.getLast_cons (by simp)]
      rcases List.mem_cons.1 hx with rfl | hx
      · have hd : x < d := (List.pairwise_cons.1 h).1 d (by simp)
        have := ih (by simp) (List.pairwise_cons.1 h).2 (x := d) (by simp)
        omega
      · exact ih (by simp) (List.pairwise_cons.1 h).2 hx

/-- The used bounds enclose every pixel of the image that is not transparent, and lie
inside the image. -/
theorem get_used_bounds_spec (image : Image) (hw : 0 ≤ image.m_width) (hh : 0 ≤ image.m_height) :
    (∀ x y, 0 ≤ x → x < image.m_width → 0 ≤ y → y < image.m_height →
      (image.rgba_at ⟨x, y⟩).a ≠ 0 →
      (get_used_bounds image).x ≤ x ∧ x < (get_used_bounds image).x1 ∧
      (get_used_bounds image).y ≤ y ∧ y < (get_used_bounds image).y1) ∧
    0 ≤ (get_used_bounds image).x ∧ (get_used_bounds image).x ≤ (get_used_bounds image).x1 ∧
    (get_used_bounds image).x1 ≤ image.m_width ∧
    0 ≤ (get_used_bounds image).y ∧ (get_used_bounds image).y ≤ (get_used_bounds image).y1 ∧
    (get_used_bounds image).y1 ≤ image.m_height := by
  have hcol : ∀ x y, 0 ≤ x → x < image.m_width → 0 ≤ y → y < image.m_height →
      (image.rgba_at ⟨x, y⟩).a ≠ 0 → x ∈ used_columns image := by
    intro x y hx1 hx2 hy1 hy2 ha
    unfold used_columns
    simp only [List.mem_filter, mem_int_range, List.any_eq_true, decide_eq_true_eq]
    exact ⟨⟨hx1, hx2⟩, y, ⟨hy1, hy2⟩, ha⟩
  have hrow : ∀ x y, 0 ≤ x → x < image.m_width → 0 ≤ y → y < image.m_height →
      (image.rgba_at ⟨x, y⟩).a ≠ 0 → y ∈ used_rows image := by
    intro x y hx1 hx2 hy1 hy2 ha
    unfold used_rows
    simp only [List.mem_filter, mem_int_range, List.any_eq_true, decide_eq_true_eq]
    exact ⟨⟨hy1, hy2⟩, x, ⟨hx1, hx2⟩, ha⟩
  have hcs : (used_columns image).Pairwise (· < ·) :=
    (int_range_pairwise _ _).sublist (List.filter_sublist _)
  have hrs : (used_rows image).Pairwise (· < ·) :=
    (int_range_pairwise _ _).sublist (List.filter_sublist _)
  have hcm : ∀ x ∈ used_columns image, 0 ≤ x ∧ x < image.m_width := by
    intro x hx
    unfold used_columns at hx
    exact mem_int_range.1 (List.mem_filter.1 hx).1
  have hrm : ∀ y ∈ used_rows image, 0 ≤ y ∧ y < image.m_height := by
    intro y hy
    unfold used_rows at hy
    exact mem_int_range.1 (List.mem_filter.1 hy).1
  unfold get_used_bounds
  cases hc : used_columns image with
  | nil =>
    rw [hc] at hcol
    refine ⟨?_, ?_⟩
    · intro x y hx1 hx2 hy1 hy2 ha
      exact absurd (hcol x y hx1 hx2 hy1 hy2 ha) (List.not_mem_nil _)
    · simp [Rect.x1, Rect.y1, hw, hh]
  | cons c cs =>
    cases hr : used_rows image with
    | nil =>
      rw [hr] at hrow
      refine ⟨?_, ?_⟩
      · intro x y hx1 hx2 hy1 hy2 ha
        exact absurd (hrow x y hx1 hx2 hy1 hy2 ha) (List.not_mem_nil _)
      · simp [Rect.x1, Rect.y1, hw, hh]
    | cons r rs =>
      rw [hc] at hcol hcs hcm
      rw [hr] at hrow hrs hrm
      have hcl := hcm _ (List.getLast_mem (List.cons_ne_nil c cs))
      have hrl := hrm _ (List.getLast_mem (List.cons_ne_nil r rs))
      have hc0 := hcm c (by simp)
      have hr0 := hrm r (by simp)
      have hcc := le_getLast_of_pairwise (List.cons_ne_nil c cs) hcs (x := c) (by simp)
      have hrr := le_getLast_of_pairwise (List.cons_ne_nil r rs) hrs (x := r) (by simp)
      dsimp only [Rect.x1, Rect.y1]
      refine ⟨?_, ?_⟩
      · intro x y hx1 hx2 hy1 hy2 ha
        have h1 := head_le_of_pairwise hcs (hcol x y hx1 hx2 hy1 hy2 ha)
        have h2 := le_getLast_of_pairwise (List.cons_ne_nil c cs) hcs
          (hcol x y hx1 hx2 hy1 hy2 ha)
        have h3 := head_le_of_pairwise hrs (hrow x y hx1 hx2 hy1 hy2 ha)
        have h4 := le_getLast_of_pairwise (List.cons_ne_nil r rs) hrs
          (hrow x y hx1 hx2 hy1 hy2 ha)
        omega
      · omega

theorem floor_tdiv {v q : Int} (hv : 0 ≤ v) (hq : 0 < q) : (floor v q).tdiv q = v / q := by
  unfold floor
  rw [Int.tdiv_eq_ediv hv (le_of_lt hq),
    Int.tdiv_eq_ediv (Int.mul_nonneg (Int.ediv_nonneg hv (le_of_lt hq)) (le_of_lt hq))
      (le_of_lt hq),
    Int.mul_ediv_cancel _ (ne_of_gt hq)]

theorem ceil_eq {v q : Int} (hv : 0 ≤ v) (hq : 0 < q) : ceil v q = (v + q - 1) / q * q := by
  unfold ceil
  rw [Int.tdiv_eq_ediv (by omega) (le_of_lt hq)]

theorem ceil_tdiv {v q n : Int} (hv : 0 ≤ v) (hq : 0 < q) (hn : v ≤ n * q) :
    (min (ceil v q) (n * q)).tdiv q = (v + q - 1) / q := by
  have h1 : (v + q - 1) / q ≤ n := by
    have : (v + q - 1) / q < n + 1 := by
      apply Int.ediv_lt_of_lt_mul hq
      nlinarith
    omega
  have h2 : ceil v q ≤ n * q := by
    rw [ceil_eq hv hq]
    exact Int.mul_le_mul_of_nonneg_right h1 (le_of_lt hq)
  have h0 : 0 ≤ (v + q - 1) / q := Int.ediv_nonneg (by omega) (le_of_lt hq)
  rw [min_eq_left h2, ceil_eq hv hq,
    Int.tdiv_eq_ediv (Int.mul_nonneg h0 (le_of_lt hq)) (le_of_lt hq),
    Int.mul_ediv_cancel _ (ne_of_gt hq)]

theorem ediv_mul_le' (v : Int) {q : Int} (hq : 0 < q) : v / q * q ≤ v :=
  Int.ediv_mul_le v (ne_of_gt hq)

theorem le_ceil_mul (v : Int) {q : Int} (hq : 0 < q) : v ≤ (v + q - 1) / q * q := by
  have h := Int.lt_ediv_add_one_mul_self (v + q - 1) hq
  nlinarith

/-- A cell of the sheet outside of the scanned columns or rows is fully transparent. -/
theorem cell_transparent_outside {image : Image} {grid : Size} {cols rows : Int}
    (hgx : 0 < grid.x) (hgy : 0 < grid.y) (hc : 0 ≤ cols) (hr : 0 ≤ rows)
    (hW : image.m_width = cols * grid.x) (hH : image.m_height = rows * grid.y)
    {x y : Int} (hx0 : 0 ≤ x) (hx1 : x < cols) (hy0 : 0 ≤ y) (hy1 : y < rows)
    (ho : x < (get_used_bounds image).x / grid.x ∨
      ((get_used_bounds image).x1 + grid.x - 1) / grid.x ≤ x ∨
      y < (get_used_bounds image).y / grid.y ∨
      ((get_used_bounds image).y1 + grid.y - 1) / grid.y ≤ y) :
    is_fully_transparent image (cell_rect grid x y) = true := by
  have hw : 0 ≤ image.m_width := by rw [hW]; exact Int.mul_nonneg hc (le_of_lt hgx)
  have hh : 0 ≤ image.m_height := by rw [hH]; exact Int.mul_nonneg hr (le_of_lt hgy)
  obtain ⟨hb, -, -, -, -, -, -⟩ := get_used_bounds_spec image hw hh
  rw [is_fully_transparent_iff]
  intro px py hpx0 hpx1 hpy0 hpy1
  by_contra ha
  simp only [cell_rect, Rect.x1, Rect.y1] at hpx0 hpx1 hpy0 hpy1
  have hpxW : px < image.m_width := by rw [hW]; nlinarith
  have hpyH : py < image.m_height := by rw [hH]; nlinarith
  have hpx : 0 ≤ px := by nlinarith
  have hpy : 0 ≤ py := by nlinarith
  obtain ⟨b1, b2, b3, b4⟩ := hb px py hpx hpxW hpy hpyH ha
  rcases ho with h | h | h | h
  · have := ediv_mul_le' (get_used_bounds image).x hgx
    nlinarith
  · have := le_ceil_mul (get_used_bounds image).x1 hgx
    nlinarith
  · have := ediv_mul_le' (get_used_bounds image).y hgy
    nlinarith
  · have := le_ceil_mul (get_used_bounds image).y1 hgy
    nlinarith

theorem flatMap_congr' {α β : Type} {l : List α} {f g : α → List β}
    (h : ∀ x ∈ l, f x = g x) : l.flatMap f = l.flatMap g := by
  induction l with
  | nil => rfl
  | cons a l ih =>
    rw [List.flatMap_cons, List.flatMap_cons, h a (by simp),
      ih (fun x hx => h x (List.mem_cons_of_mem _ hx))]

theorem flatMap_eq_nil' {α β : Type} {l : List α} {f : α → List β}
    (h : ∀ x ∈ l, f x = []) : l.flatMap f = [] := by
  induction l with
  | nil => rfl
  | cons a l ih =>
    rw [List.flatMap_cons, h a (by simp), ih (fun x hx => h x (List.mem_cons_of_mem _ hx))]
    rfl

theorem filter_range_restrict (f : Int → Bool) {a b n : Int} (h0 : 0 ≤ a) (h1 : a ≤ b)
    (h2 : b ≤ n) (hout : ∀ x, 0 ≤ x → x < n → (x < a ∨ b ≤ x) → f x = false) :
    (int_range 0 n).filter f = (int_range a b).filter f := by
  rw [int_range_append (a := 0) (m := a) (b := n) h0 (by omega),
    int_range_append (a := a) (m := b) (b := n) h1 h2, List.filter_append, List.filter_append,
    filter_eq_nil_of_forall (l := int_range 0 a), filter_eq_nil_of_forall (l := int_range b n)]
  · simp
  · intro x hx
    have := mem_int_range.1 hx
    exact hout x (by omega) this.2 (Or.inr this.1)
  · intro x hx
    have := mem_int_range.1 hx
    exact hout x this.1 (by omega) (Or.inl this.2)

/-- Scanning the cells of the whole sheet gives the same as scanning the columns and
rows to which the used bounds restrict the scan. -/
theorem scan_restrict {β : Type} (f : Int → Int → Bool) (g : Int → Int → β)
    {x0 x1 cols y0 y1 rows : Int} (hx0 : 0 ≤ x0) (hx1 : x0 ≤ x1) (hx2 : x1 ≤ cols)
    (hy0 : 0 ≤ y0) (hy1 : y0 ≤ y1) (hy2 : y1 ≤ rows)
    (hout : ∀ x y, 0 ≤ x → x < cols → 0 ≤ y → y < rows →
      (x < x0 ∨ x1 ≤ x ∨ y < y0 ∨ y1 ≤ y) → f x y = false) :
    ((int_range 0 rows).flatMap fun y =>
        ((int_range 0 cols).filter fun x => f x y).map fun x => g x y) =
      (int_range y0 y1).flatMap fun y =>
        ((int_range x0 x1).filter fun x => f x y).map fun x => g x y := by
  rw [int_range_append (a := 0) (m := y0) (b := rows) hy0 (by omega),
    int_range_append (a := y0) (m := y1) (b := rows) hy1 hy2, List.flatMap_append,
    List.flatMap_append, flatMap_eq_nil' (l := int_range 0 y0),
    flatMap_eq_nil' (l := int_range y1 rows)]
  · simp only [List.nil_append, List.append_nil]
    apply flatMap_congr'
    intro y hy
    have := mem_int_range.1 hy
    rw [filter_range_restrict (fun x => f x y) hx0 hx1 hx2]
    intro x h0 h1 h
    apply hout x y h0 h1 (by omega) (by omega)
    rcases h with h | h
    · exact Or.inl h
    · exact Or.inr (Or.inl h)
  · intro y hy
    have := mem_int_range.1 hy
    rw [filter_eq_nil_of_forall]
    · rfl
    · intro x hx
      have hx' := mem_int_range.1 hx
      exact hout x y hx'.1 hx'.2 (by omega) this.2 (Or.inr (Or.inr (Or.inr this.1)))
  · intro y hy
    have := mem_int_range.1 hy
    rw [filter_eq_nil_of_forall]
    · rfl
    · intro x hx
      have hx' := mem_int_range.1 hx
      exact hout x y hx'.1 hx'.2 this.1 (by omega) (Or.inr (Or.inr (Or.inl this.2)))

theorem grid_cells_filter_map {β : Type} (f : Int → Int → Bool) (g : Int → Int → β)
    (cols rows : Int) :
    ((grid_cells cols rows).filter fun c => f c.1 c.2).map (fun c => g c.1 c.2) =
      (int_range 0 rows).flatMap fun y =>
        ((int_range 0 cols).filter fun x => f x y).map fun x => g x y := by
  unfold grid_cells
  induction int_range 0 rows with
  | nil => rfl
  | cons y ys ih =>
    rw [List.flatMap_cons, List.flatMap_cons, List.filter_append, List.map_append, ih]
    congr 1
    induction int_range 0 cols with
    | nil => rfl
    | cons x xs ihx =>
      simp only [List.map_cons, List.filter_cons]
      by_cases hf : f x y = true
      · simp only [hf, if_true, List.map_cons, ihx]
      · simp only [hf, Bool.false_eq_true, if_false]
        exact ihx

/-- C2: on a record whose sheet can be loaded and is no sequence, with a cell size
`gw x gh` (both positive), no spacing, no offset, and a sheet of `cols * gw` by
`rows * gh` pixels, `deduce_grid_sprites` returns and appends one sprite for each grid
cell of the sheet that is not fully transparent and for no other cell, in row-major
order, each with the source rectangle `(x * gw, y * gh, gw, gh)`. -/
theorem grid_deduction_cells (env : Env) (s : State) (p p1 : InputParser) (key : List Char)
    (sheet : Image) (cols rows : Int)
    (hload : get_sheet env s p = (.ok (key, sheet), p1))
    (hs : s.sheet.empty = false) (hq : s.sheet.is_sequence = false)
    (hgx : 0 < s.grid.x) (hgy : 0 < s.grid.y)
    (hsp : s.grid_spacing = ⟨0, 0⟩) (hoff : s.grid_offset = ⟨0, 0⟩)
    (hc : 0 ≤ cols) (hr : 0 ≤ rows)
    (hW : sheet.width = cols * s.grid.x) (hH : sheet.height = rows * s.grid.y) :
    ∃ s' q new, deduce_grid_sprites env s p = (.ok s', q) ∧
      q.m_sprites = p.m_sprites ++ new ∧
      new.map (fun sprite => sprite.source_rect) =
        ((grid_cells cols rows).filter fun c =>
          !is_fully_transparent sheet (cell_rect s.grid c.1 c.2)).map
          fun c => cell_rect s.grid c.1 c.2 := by
  have hw : 0 ≤ sheet.m_width := by
    have := hW; unfold Image.width at this
    rw [this]; exact Int.mul_nonneg hc (le_of_lt hgx)
  have hh : 0 ≤ sheet.m_height := by
    have := hH; unfold Image.height at this
    rw [this]; exact Int.mul_nonneg hr (le_of_lt hgy)
  obtain ⟨-, b1, b2, b3, b4, b5, b6⟩ := get_used_bounds_spec sheet hw hh
  obtain ⟨s', q, new, e1, e2, e3⟩ := deduce_grid_sprites_run hload hs hq
    (ne_of_gt hgx) (ne_of_gt hgy) (by rw [hsp]; simpa using ne_of_gt hgx)
    (by rw [hsp]; simpa using ne_of_gt hgy)
  refine ⟨s', q, new, e1, e2, ?_⟩
  rw [e3, grid_cells_filter_map (fun x y => !is_fully_transparent sheet (cell_rect s.grid x y))
    (fun x y => cell_rect s.grid x y)]
  have hg : (⟨s.grid.x + s.grid_spacing.x, s.grid.y + s.grid_spacing.y⟩ : Size) = s.grid := by
    rw [hsp]; simp
  have hsx : s.grid.x + s.grid_spacing.x = s.grid.x := by rw [hsp]; simp
  have hsy : s.grid.y + s.grid_spacing.y = s.grid.y := by rw [hsp]; simp
  have hscan : ∀ x y, scan_rect s s.grid x y = cell_rect s.grid x y := by
    intro x y
    simp [scan_rect, cell_rect, hoff]
  rw [hg, hsx, hsy, hW, hH, floor_tdiv b1 hgx, floor_tdiv b4 hgy,
    ceil_tdiv (by omega) hgx (by rw [← hW]; exact b3),
    ceil_tdiv (by omega) hgy (by rw [← hH]; exact b6)]
  unfold scan_result
  simp only [hscan]
  symm
  have hX1 : ((get_used_bounds sheet).x1 + s.grid.x - 1) / s.grid.x ≤ cols := by
    have : ((get_used_bounds sheet).x1 + s.grid.x - 1) / s.grid.x < cols + 1 := by
      apply Int.ediv_lt_of_lt_mul hgx
      have := hW; unfold Image.width at this
      nlinarith
    omega
  have hY1 : ((get_used_bounds sheet).y1 + s.grid.y - 1) / s.grid.y ≤ rows := by
    have : ((get_used_bounds sheet).y1 + s.grid.y - 1) / s.grid.y < rows + 1 := by
      apply Int.ediv_lt_of_lt_mul hgy
      have := hH; unfold Image.height at this
      nlinarith
    omega
  apply scan_restrict
  · exact Int.ediv_nonneg b1 (le_of_lt hgx)
  · exact Int.ediv_le_ediv hgx (by omega)
  · exact hX1
  · exact Int.ediv_nonneg b4 (le_of_lt hgy)
  · exact Int.ediv_le_ediv hgy (by omega)
  · exact hY1
  · intro x y hx0 hx1 hy0 hy1 ho
    rw [cell_transparent_outside hgx hgy hc hr hW hH hx0 hx1 hy0 hy1 ho]
    rfl

set_option maxRecDepth 1000000 in
/-- C2 (witness): the record of `sheet "a.png"` under `grid 16 16`, for the sheet of
32 x 16 pixels with a transparent left tile and an opaque right tile: one sprite, with
the rectangle `(16, 0, 16, 16)`. The two parse runs of the scenario give the same
rectangle, and no sprite for a fully transparent sheet. -/
theorem grid_deduction_cells_witness :
    (∃ s' q new,
      deduce_grid_sprites (demo_env [("a.png".toList, sheet_32x16)])
        { demo_state with sheet := FilenameSequence.mk_from "a.png".toList, grid := ⟨16, 16⟩ }
        (InputParser.new false) = (.ok s', q) ∧
      q.m_sprites = (InputParser.new false).m_sprites ++ new ∧
      new.map (fun sprite => sprite.source_rect) = [⟨16, 0, 16, 16⟩]) ∧
    (parse (demo_env [("a.png".toList, sheet_32x16)]) 0
        "grid 16 16\nsheet \"a.png\"".toList (InputParser.new false)).2.m_sprites.map
      (fun sprite => sprite.source_rect) = [⟨16, 0, 16, 16⟩] ∧
    (parse (demo_env [("a.png".toList, sheet_32x16_clear)]) 0
        "grid 16 16\nsheet \"a.png\"".toList (InputParser.new false)).2.m_sprites = [] := by
  refine ⟨?_, by decide!, by decide!⟩
  obtain ⟨s', q, new, h1, h2, h3⟩ :=
    grid_deduction_cells (demo_env [("a.png".toList, sheet_32x16)])
      { demo_state with sheet := FilenameSequence.mk_from "a.png".toList, grid := ⟨16, 16⟩ }
      (InputParser.new false)
      { InputParser.new false with m_sheets := [("a.png".toList, some sheet_32x16)] }
      "a.png".toList sheet_32x16 2 1 (by decide!) (by decide) (by decide) (by decide)
      (by decide) (by decide) (by decide) (by decide) (by decide) (by decide) (by decide)
  refine ⟨s', q, new, h1, h2, ?_⟩
  rw [h3]
  decide!

/-! ### Sequence deduction -/

theorem cache_kept_refl (a : List (List Char × Option Image)) : cache_kept a a :=
  fun _ _ h => h

theorem cache_kept_trans {a b c : List (List Char × Option Image)} (h1 : cache_kept a b)
    (h2 : cache_kept b c) : cache_kept a c :=
  fun k image h => h2 k image (h1 k image h)

/-- `get_sheet` for a file that exists: it returns, the sheet is in the cache
afterwards, nothing else of the members changes and no image leaves the cache. -/
theorem get_sheet_file_exists {env : Env} {path filename : List Char} {colorkey : RGBA}
    {p : InputParser} (h : (env.fs (path_join path filename)).isSome = true) :
    ∃ sheet q, get_sheet_file env path filename colorkey p =
        (.ok (env.weakly_canonical (path_join path filename), sheet), q) ∧
      q.m_sheets.lookup (env.weakly_canonical (path_join path filename)) = some (some sheet) ∧
      q = { p with m_sheets := q.m_sheets } ∧ cache_kept p.m_sheets q.m_sheets := by
  unfold get_sheet_file
  dsimp only
  split
  · rename_i sheet hl
    exact ⟨sheet, p, rfl, hl, rfl, cache_kept_refl _⟩
  · rename_i hne
    cases hf : env.fs (path_join path filename) with
    | none => rw [hf] at h; cases h
    | some image =>
      dsimp only
      refine ⟨_, _, rfl, lookup_map_set_self _ _ _, rfl, ?_⟩
      intro k img hk
      by_cases hkk : k = env.weakly_canonical (path_join path filename)
      · subst hkk
        exact absurd hk (hne img)
      · dsimp only
        rw [lookup_map_set_ne _ _ hkk]
        exact hk

theorem int_range_cons {j n : Int} (h : j < n) : int_range j n = j :: int_range (j + 1) n := by
  have h1 := int_range_append (a := j) (m := j + 1) (b := n) (by omega) (by omega)
  rw [h1]
  have : int_range j (j + 1) = [j] := by
    unfold int_range
    have : (j + 1 - j).toNat = 1 := by omega
    rw [this]
    simp [List.range_succ]
  rw [this]
  rfl

theorem int_range_nil {j n : Int} (h : n ≤ j) : int_range j n = [] := by
  unfold int_range
  have : (n - j).toNat = 0 := by omega
  rw [this]
  rfl

/-- C10 (failing input): on a line whose quote is not closed, `split_arguments` does not
return the tokens: `end` is set to `str.size()` and `str.substr(end + 1)` throws
`std::out_of_range`. -/
theorem split_arguments_unclosed_quote :
    split_arguments "sheet \"a.png".toList = .error .out_of_range := by
  decide

set_option maxRecDepth 100000 in
/-- C6 (counterexample): after the two lines `grid 16` and `sheet "a.png"`, both in
column 0, the lines have been processed without error and the levels on the scope
stack are -1, 0, 0 from the bottom: they do not strictly increase. -/
theorem levels_not_strict_after_sibling_sheet :
    ∃ r, (parse_loop (demo_env []) 0 (getlines "grid 16\nsheet \"a.png\"".toList) 1
            (initial_locals (demo_env [])) (InputParser.new false)).1 = .ok r ∧
      r.1.scope_stack.map State.level = [0, 0, -1] ∧ ¬ levels_strict r.1.scope_stack := by
  have h : (match (parse_loop (demo_env []) 0 (getlines "grid 16\nsheet \"a.png\"".toList) 1
            (initial_locals (demo_env [])) (InputParser.new false)).1 with
      | .ok r => decide (r.1.scope_stack.map State.level = [0, 0, -1] ∧
          ¬ levels_strict r.1.scope_stack)
      | .error _ => false) = true := by decide!
  cases hx : (parse_loop (demo_env []) 0 (getlines "grid 16\nsheet \"a.png\"".toList) 1
            (initial_locals (demo_env [])) (InputParser.new false)).1 with
  | error e => rw [hx] at h; cases h
  | ok r => rw [hx] at h; exact ⟨r, rfl, of_decide_eq_true h⟩

/-! ### Forward steps of the stack -/

theorem ltrim_length_le (s : List Char) : (ltrim s).length ≤ s.length := by
  induction s with
  | nil => simp [ltrim]
  | cons c cs ih =>
    unfold ltrim
    split
    · simp only [List.length_cons]; omega
    · exact le_refl _

theorem line_level_nonneg (buffer : List Char) : 0 ≤ line_level buffer := by
  unfold line_level
  have := ltrim_length_le buffer
  omega

/-- The loop of `pop_scope_stack` at a record at which it stops. -/
theorem pop_loop_stop {env : Env} {fuel : Nat} {det : List Char} {level : Int}
    {above below : List State} {r : State} {p : InputParser} (h : stops_at level r) :
    pop_loop env fuel det level above (r :: below) p =
      (.ok (keep_texture (top_key above) r :: below), p) := by
  obtain ⟨h1, h2⟩ := h
  rw [pop_loop_cons]
  have e1 : (has_implicit_scope r.definition && decide (level ≤ r.level)) = false := by
    cases hi : has_implicit_scope r.definition
    · rfl
    · simp only [Bool.true_and, decide_eq_false_iff_not]
      exact fun hl => h1 ⟨hi, hl⟩
  simp only [e1, Bool.false_eq_true, if_false, h2, if_true]
  rw [← keep_texture_top_key]
  cases above.getLast? with
  | none => rfl
  | some top =>
    dsimp only
    split <;> rfl

/-- The loop of `pop_scope_stack` at `scope_stack.back()`, when that record is a
texture, sheet or sprite record at or below the level of the line: its scope is closed. -/
theorem pop_loop_close_back {env : Env} {fuel : Nat} {det : List Char} {level : Int}
    {below : List State} {last : State} {p : InputParser}
    (hi : has_implicit_scope last.definition = true) (hl : level ≤ last.level) :
    pop_loop env fuel det level [] (last :: below) p =
      match scope_ends env fuel { last with indent := last.indent ++ det } p with
      | (.error e, q) => (.error e, q)
      | (.ok state, q) => pop_loop env fuel det level [state] below q := by
  rw [pop_loop_cons]
  simp only [hi, hl, decide_True, Bool.and_self, if_true, run_bind]
  rcases scope_ends env fuel _ p with ⟨_ | state, q⟩ <;> rfl

/-- A line with a keyword of the table, when the pop phase stops at `scope_stack.back()`. -/
theorem parse_line_on_top {env : Env} {fuel : Nat} {buffer : List Char} {eof : Bool}
    {loc : Locals} {p : InputParser} {keyword : List Char} {arguments : List (List Char)}
    {back : State} {below : List State}
    (hb : is_inert buffer = false)
    (htok : split_arguments (ltrim buffer) = .ok (keyword :: arguments))
    (hdef : get_definition keyword ≠ .none)
    (hstack : loc.scope_stack = back :: below) (hstop : stops_at (line_level buffer) back) :
    parse_line env fuel buffer eof loc p =
      match apply_definition env (line_state buffer (get_definition keyword) back)
          (get_definition keyword) arguments p with
      | (.error e, q) => (.error e, q)
      | (.ok state, q2) =>
        (.ok ⟨line_detected buffer loc,
              if opens_scope (line_level buffer) back (get_definition keyword) then
                state :: back :: below
              else state :: below,
              if p.autocomplete then [] else loc.autocomplete_space⟩,
          if p.autocomplete then
            { q2 with m_autocomplete_output :=
                q2.m_autocomplete_output ++ (loc.autocomplete_space ++ buffer ++ ['\n']) }
          else q2) := by
  rw [parse_line_eq hb htok hdef, hstack]
  unfold pop_scope_stack
  rw [pop_loop_stop hstop]
  rfl

theorem apply_definition_sheet (env : Env) (s : State) (name : List Char) (p : InputParser) :
    apply_definition env s .sheet [name] p =
      (.ok { s with sheet := FilenameSequence.mk_from name },
        { p with m_current_offset := ⟨0, 0⟩, m_current_sequence_index := 0 }) := by
  simp [apply_definition, apply_switch, check_path, check_string, run_bind, run_pure,
    run_modify, run_check]

/-- Blank lines and comments leave the scope stack, the detected indentation and the
members apart from the line number and the autocomplete output. -/
theorem parse_loop_inert {env : Env} {fuel : Nat} (lines : List (List Char × Bool)) :
    ∀ (n : Int) (loc : Locals) (p : InputParser),
      (∀ l ∈ lines, is_inert l.1 = true) →
      ∃ loc' n' q, parse_loop env fuel lines n loc p = (.ok (loc', n'), q) ∧
        loc'.scope_stack = loc.scope_stack ∧
        loc'.detected_indetation = loc.detected_indetation ∧
        q = { p with m_line_number := q.m_line_number,
                     m_autocomplete_output := q.m_autocomplete_output } := by
  induction lines with
  | nil =>
    intro n loc p _
    exact ⟨loc, n, p, rfl, rfl, rfl, rfl⟩
  | cons line rest ih =>
    intro n loc p h
    obtain ⟨buffer, eof⟩ := line
    have hb : is_inert buffer = true := h (buffer, eof) (List.mem_cons_self _ _)
    simp only [parse_loop, run_bind, run_modify]
    rw [parse_line_inert hb]
    dsimp only
    obtain ⟨loc', n', q, e1, e2, e3, e4⟩ := ih (n + 1)
      (if p.autocomplete && !eof then
        { loc with autocomplete_space := loc.autocomplete_space ++ buffer ++ ['\n'] }
       else loc)
      (if p.autocomplete && eof then
        { p with m_line_number := n,
                 m_autocomplete_output := p.m_autocomplete_output ++ loc.autocomplete_space }
       else { p with m_line_number := n })
      (fun l hl => h l (List.mem_cons_of_mem _ hl))
    refine ⟨loc', n', q, e1, ?_, ?_, ?_⟩
    · rw [e2]; split <;> rfl
    · rw [e3]; split <;> rfl
    · rw [e4]
      split <;> rfl

/-! ### Sequence deduction, the run -/

/-- `get_sheet` for a file that is not in the cache and can be loaded. -/
theorem get_sheet_file_load {env : Env} {path filename : List Char} {colorkey : RGBA}
    {p : InputParser} {image : Image}
    (hl : p.m_sheets.lookup (env.weakly_canonical (path_join path filename)) = none)
    (hf : env.fs (path_join path filename) = some image) :
    get_sheet_file env path filename colorkey p =
      (.ok (env.weakly_canonical (path_join path filename), loaded env colorkey image),
        { p with
          m_sheets := map_set p.m_sheets (env.weakly_canonical (path_join path filename))
                        (some (loaded env colorkey image)) }) := by
  unfold get_sheet_file loaded
  simp only [hl, hf]

/-- `sprite_ends` on a record of a sequence without grid, whose rectangle is the bounds
of the cached sheet of the current index. -/
theorem sprite_ends_sequence {env : Env} {s : State} {p : InputParser} {sheet : Image}
    (hs : s.sheet.empty = false) (hq : s.sheet.is_sequence = true)
    (hg : s.grid.empty = true) (hr : s.rect = sheet.bounds)
    (hc : p.m_sheets.lookup (sheet_key env s p.m_current_sequence_index) = some (some sheet)) :
    ∃ q sprite, sprite_ends env s p = (.ok s, q) ∧ q.m_sprites = p.m_sprites ++ [sprite] ∧
      q.m_sheets = p.m_sheets ∧
      q.m_current_sequence_index = p.m_current_sequence_index + 1 ∧
      q.autocomplete = p.autocomplete ∧
      sprite.source = sheet_key env s p.m_current_sequence_index ∧
      sprite.source_rect = sheet.bounds ∧
      sprite.texture = env.weakly_canonical s.texture := by
  have e1 : sprite_state s p = s := by simp [sprite_state, hg]
  have e2 : sprite_cursor s p = p := by simp [sprite_cursor, hg]
  rw [sprite_ends_cached hs hc, e1, e2, hq]
  refine ⟨_, _, rfl, rfl, ?_, rfl, ?_, rfl, ?_, rfl⟩
  · show (with_texture env s p).m_sheets = p.m_sheets
    rw [with_texture_eq]
  · show (with_texture env s p).autocomplete = p.autocomplete
    rw [with_texture_eq]
  · simp only [sprite_of, hr]
    split <;> rfl

/-- The loop of `deduce_sequence_sprites` over the indices `j .. n - 1`, when their
files exist, have keys of their own and are not in the cache yet. -/
theorem deduce_sequence_loop_run {env : Env} {s : State} {n : Int}
    (hs : s.sheet.empty = false) (hq : s.sheet.is_sequence = true) (hg : s.grid.empty = true)
    (hfiles : ∀ i, 0 ≤ i → i < n →
      (env.fs (path_join s.path (s.sheet.get_nth_filename i))).isSome = true)
    (hinj : ∀ i j, 0 ≤ i → i < n → 0 ≤ j → j < n →
      sheet_key env s i = sheet_key env s j → i = j) :
    ∀ (k : Nat) (j : Int) (r : Rect) (p : InputParser), 0 ≤ j → j + k = n →
      p.m_current_sequence_index = j →
      (∀ i, j ≤ i → i < n → p.m_sheets.lookup (sheet_key env s i) = none) →
      ∃ r' q new,
        deduce_sequence_loop env (int_range j n) { s with rect := r } p =
          (.ok { s with rect := r' }, q) ∧
        q.m_sprites = p.m_sprites ++ new ∧ new.length = k ∧
        cache_kept p.m_sheets q.m_sheets ∧
        ∀ t : Nat, t < k → ∃ sprite image, new[t]? = some sprite ∧
          env.fs (path_join s.path (s.sheet.get_nth_filename (j + t))) = some image ∧
          q.m_sheets.lookup (sheet_key env s (j + t)) =
            some (some (loaded env s.colorkey image)) ∧
          sprite.source = sheet_key env s (j + t) ∧
          sprite.source_rect = (loaded env s.colorkey image).bounds ∧
          sprite.texture = env.weakly_canonical s.texture := by
  intro k
  induction k with
  | zero =>
    intro j r p _ hj _ _
    rw [int_range_nil (by omega)]
    exact ⟨r, p, [], rfl, by simp, rfl, cache_kept_refl _, fun t ht => absurd ht (by omega)⟩
  | succ k ih =>
    intro j r p hj0 hj hidx hnone
    have hjn : j < n := by omega
    rw [int_range_cons hjn]
    obtain ⟨image, hf⟩ := Option.isSome_iff_exists.1 (hfiles j hj0 hjn)
    have hl := hnone j (le_refl j) hjn
    simp only [deduce_sequence_loop, run_bind, get_sheet_at]
    unfold sheet_key at hl
    rw [get_sheet_file_load hl hf]
    simp only [run_get, run_when_output]
    generalize hP : ({ p with m_sheets := _, m_autocomplete_output := _ } : InputParser) = P
    have hP1 : P.m_sprites = p.m_sprites := by rw [← hP]
    have hP2 : P.m_sheets = map_set p.m_sheets (sheet_key env s j)
        (some (loaded env s.colorkey image)) := by rw [← hP]; rfl
    have hP3 : P.m_current_sequence_index = j := by rw [← hP]; exact hidx
    obtain ⟨q1, sprite, e1, e2, e3, e4, -, e6, e7, e8⟩ := @sprite_ends_sequence env
      { s with rect := (loaded env s.colorkey image).bounds } P
      (loaded env s.colorkey image) hs hq hg rfl (by
        rw [hP3, hP2]; exact lookup_map_set_self _ _ _)
    rw [e1]
    dsimp only
    obtain ⟨r', q, new, f1, f2, f3, f4, f5⟩ := ih (j + 1) (loaded env s.colorkey image).bounds q1
      (by omega) (by push_cast at hj; omega) (by rw [e4, hP3]) (by
        intro i hi1 hi2
        rw [e3, hP2, lookup_map_set_ne]
        · exact hnone i (by omega) hi2
        · intro hk
          have := hinj i j (by omega) hi2 hj0 hjn hk
          omega)
    refine ⟨r', q, sprite :: new, f1, ?_, by simp [f3], ?_, ?_⟩
    · rw [f2, e2, hP1, List.append_assoc]; rfl
    · refine cache_kept_trans ?_ f4
      intro key img hk
      rw [e3, hP2]
      by_cases hkk : key = sheet_key env s j
      · subst hkk
        unfold sheet_key at hk
        rw [hl] at hk; cases hk
      · rw [lookup_map_set_ne _ _ hkk]; exact hk
    · intro t ht
      cases t with
      | zero =>
        refine ⟨sprite, image, by simp, by simpa using hf, ?_, ?_, e7, e8⟩
        · simp only [Nat.cast_zero, add_zero]
          apply f4
          rw [e3, hP2]; exact lookup_map_set_self _ _ _
        · simp only [Nat.cast_zero, add_zero]
          rw [e6, hP3]; rfl
      | succ t =>
        obtain ⟨sp, img, g1, g2, g3, g4, g5, g6⟩ := f5 t (by omega)
        have hcast : j + ((t + 1 : Nat) : Int) = j + 1 + (t : Int) := by push_cast; omega
        rw [hcast]
        exact ⟨sp, img, by simpa using g1, g2, g3, g4, g5, g6⟩

/-- The probing loop of `deduce_sequence_sprites` stops at the first index without a
file, when there is fuel for it. -/
theorem probe_sequence_run {env : Env} {s : State} {n : Int}
    (hfiles : ∀ i, 0 ≤ i → i < n →
      (env.fs (path_join s.path (s.sheet.get_nth_filename i))).isSome = true)
    (hend : (env.fs (path_join s.path (s.sheet.get_nth_filename n))).isNone = true) :
    ∀ (k fuel : Nat) (j : Int), 0 ≤ j → j + k = n → k < fuel →
      probe_sequence env s fuel j = some n := by
  intro k
  induction k with
  | zero =>
    intro fuel j _ hj hf
    have : j = n := by simpa using hj
    subst this
    cases fuel with
    | zero => omega
    | succ f => simp [probe_sequence, hend]
  | succ k ih =>
    intro fuel j hj0 hj hf
    cases fuel with
    | zero => omega
    | succ f =>
      have h1 := hfiles j hj0 (by omega)
      have h2 : (env.fs (path_join s.path (s.sheet.get_nth_filename j))).isNone = false := by
        cases hx : env.fs (path_join s.path (s.sheet.get_nth_filename j)) with
        | none => rw [hx] at h1; cases h1
        | some _ => rfl
      simp only [probe_sequence, h2, Bool.false_eq_true, if_false]
      exact ih f (j + 1) (by omega) (by push_cast at hj; omega) (by omega)

theorem set_count_get_nth_filename (f : FilenameSequence) (n i : Int) :
    (f.set_count n).get_nth_filename i = f.get_nth_filename i := rfl

theorem set_count_count (f : FilenameSequence) (n : Nat) (h : f.is_sequence = true) :
    (f.set_count n).count = n := by
  unfold FilenameSequence.is_sequence at h
  simp [FilenameSequence.count, FilenameSequence.set_count, h]

/-- `deduce_sequence_sprites` on an unbounded sequence whose files `0 .. n - 1` exist,
have keys of their own and are not in the cache, while file `n` does not exist. -/
theorem deduce_sequence_sprites_run {env : Env} {s : State} {p : InputParser} {fuel n : Nat}
    (hs : s.sheet.empty = false) (hinf : s.sheet.is_infinite_sequence = true)
    (hg : s.grid.empty = true)
    (hfiles : ∀ i : Int, 0 ≤ i → i < n →
      (env.fs (path_join s.path (s.sheet.get_nth_filename i))).isSome = true)
    (hend : (env.fs (path_join s.path (s.sheet.get_nth_filename n))).isNone = true)
    (hinj : ∀ i j : Int, 0 ≤ i → i < n → 0 ≤ j → j < n →
      sheet_key env s i = sheet_key env s j → i = j)
    (hfuel : n < fuel) (hidx : p.m_current_sequence_index = 0)
    (hnone : ∀ i : Int, 0 ≤ i → i < n → p.m_sheets.lookup (sheet_key env s i) = none) :
    ∃ r' q new,
      deduce_sequence_sprites env fuel s p =
        (.ok { s with sheet := s.sheet.set_count n, rect := r' }, q) ∧
      (s.sheet.set_count n).count = n ∧
      q.m_sprites = p.m_sprites ++ new ∧ new.length = n ∧
      cache_kept p.m_sheets q.m_sheets ∧
      ∀ t : Nat, t < n → ∃ sprite image, new[t]? = some sprite ∧
        env.fs (path_join s.path (s.sheet.get_nth_filename t)) = some image ∧
        q.m_sheets.lookup (sheet_key env s t) = some (some (loaded env s.colorkey image)) ∧
        sprite.source = sheet_key env s t ∧
        sprite.source_rect = (loaded env s.colorkey image).bounds ∧
        sprite.texture = env.weakly_canonical s.texture := by
  have hq : s.sheet.is_sequence = true := by
    unfold FilenameSequence.is_infinite_sequence at hinf
    unfold FilenameSequence.is_sequence
    simp only [Bool.and_eq_true] at hinf
    exact hinf.1
  unfold deduce_sequence_sprites
  rw [run_bind]
  simp only [hinf, if_true]
  rw [probe_sequence_run hfiles hend n fuel 0 (le_refl 0) (by simp) hfuel]
  simp only [run_pure]
  rw [set_count_count _ _ hq]
  obtain ⟨r', q, new, f1, f2, f3, f4, f5⟩ :=
    @deduce_sequence_loop_run env { s with sheet := s.sheet.set_count n }
      n hs hq hg hfiles hinj n 0 s.rect p (le_refl 0) (by simp) hidx hnone
  refine ⟨r', q, new, f1, rfl, f2, f3, f4, ?_⟩
  intro t ht
  obtain ⟨sp, img, g1, g2, g3, g4, g5, g6⟩ := f5 t ht
  simp only [zero_add] at g2 g3 g4
  exact ⟨sp, img, g1, g2, g3, g4, g5, g6⟩

theorem parse_from_filename (whole : List Char) :
    ∀ (s pre : List Char), (FilenameSequence.parse_from whole pre s).filename = whole := by
  intro s
  induction s with
  | nil => intro pre; rfl
  | cons c cs ih =>
    intro pre
    unfold FilenameSequence.parse_from
    split
    · split
      · rfl
      · exact ih _
    · exact ih _

theorem mk_from_empty_of_sequence {name : List Char}
    (h : (FilenameSequence.mk_from name).is_sequence = true) :
    (FilenameSequence.mk_from name).empty = false := by
  unfold FilenameSequence.empty FilenameSequence.mk_from
  rw [parse_from_filename]
  cases name with
  | nil => cases h
  | cons c cs => rfl

/-- `sheet_ends` on the record of an unbounded sequence, when no sprite has been declared
for the sheet: the sequence is deduced. -/
theorem sheet_ends_sequence_run {env : Env} {s : State} {p : InputParser} {fuel n : Nat}
    (hs : s.sheet.empty = false) (hinf : s.sheet.is_infinite_sequence = true)
    (hg : s.grid.empty = true)
    (hfiles : ∀ i : Int, 0 ≤ i → i < n →
      (env.fs (path_join s.path (s.sheet.get_nth_filename i))).isSome = true)
    (hend : (env.fs (path_join s.path (s.sheet.get_nth_filename n))).isNone = true)
    (hinj : ∀ i j : Int, 0 ≤ i → i < n → 0 ≤ j → j < n →
      sheet_key env s i = sheet_key env s j → i = j)
    (hfuel : n < fuel) (hidx : p.m_current_sequence_index = 0)
    (hcount : p.m_sprites_in_current_sheet = 0)
    (hnone : ∀ i : Int, 0 ≤ i → i < n → p.m_sheets.lookup (sheet_key env s i) = none) :
    ∃ r' q new,
      sheet_ends env fuel s p =
        (.ok { s with sheet := s.sheet.set_count n, rect := r' }, q) ∧
      (s.sheet.set_count n).count = n ∧
      q.m_sprites_in_current_sheet = 0 ∧
      q.m_sprites = p.m_sprites ++ new ∧ new.length = n ∧
      ∀ t : Nat, t < n → ∃ sprite image, new[t]? = some sprite ∧
        env.fs (path_join s.path (s.sheet.get_nth_filename t)) = some image ∧
        q.m_sheets.lookup (sheet_key env s t) = some (some (loaded env s.colorkey image)) ∧
        sprite.source = sheet_key env s t ∧
        sprite.source_rect = (loaded env s.colorkey image).bounds ∧
        sprite.texture = env.weakly_canonical s.texture := by
  have hq : s.sheet.is_sequence = true := by
    unfold FilenameSequence.is_infinite_sequence at hinf
    unfold FilenameSequence.is_sequence
    simp only [Bool.and_eq_true] at hinf
    exact hinf.1
  obtain ⟨r', q, new, f1, f2, f3, f4, -, f6⟩ :=
    deduce_sequence_sprites_run (p := p) hs hinf hg hfiles hend hinj hfuel hidx hnone
  refine ⟨r', { q with m_sprites_in_current_sheet := 0 }, new, ?_, f2, rfl, f3, f4, f6⟩
  unfold sheet_ends
  simp only [run_bind, run_get, hcount, if_true, hq, f1, run_modify, run_pure]

/-- C4: for an input whose first line is a `sheet` line naming an unbounded sequence
(the other lines being blank or comments), read by a fresh parser, when the files
`0 .. n - 1` of the sequence exist under keys of their own and file `n` does not:
the lines leave the sheet record on the sentinel; closing it at the end of `parse`
returns with the sequence count `n`; `parse` returns, and the members then hold
exactly `n` sprites, the `t`-th with the cached sheet loaded from file `t` as source
and the bounds of that sheet as source rectangle. -/
theorem sequence_deduction (env : Env) (fuel n : Nat) (autocomplete : Bool)
    (input buffer name : List Char) (eof : Bool) (rest : List (List Char × Bool))
    (hlines : getlines input = (buffer, eof) :: rest)
    (hrest : ∀ l ∈ rest, is_inert l.1 = true)
    (hb : is_inert buffer = false)
    (htok : split_arguments (ltrim buffer) = .ok ["sheet".toList, name])
    (hinf : (FilenameSequence.mk_from name).is_infinite_sequence = true)
    (hdef : has_implicit_scope env.state0.definition = false)
    (hg : env.state0.grid.empty = true)
    (hfiles : ∀ i : Int, 0 ≤ i → i < n → (env.fs (sequence_file env name i)).isSome = true)
    (hend : (env.fs (sequence_file env name n)).isNone = true)
    (hinj : ∀ i j : Int, 0 ≤ i → i < n → 0 ≤ j → j < n →
      env.weakly_canonical (sequence_file env name i) =
        env.weakly_canonical (sequence_file env name j) → i = j)
    (hfuel : n < fuel) :
    ∃ loc m P S Q,
      parse_loop env fuel (getlines input) 1 (initial_locals env)
          (parse_start (InputParser.new autocomplete)) = (.ok (loc, m), P) ∧
      loc.scope_stack = [sheet_record env buffer name, sentinel env] ∧
      scope_ends env fuel
          { sheet_record env buffer name with
            indent := (sheet_record env buffer name).indent ++ loc.detected_indetation }
          { P with m_line_number := m } = (.ok S, Q) ∧
      S.sheet.count = n ∧
      parse env fuel input (InputParser.new autocomplete) =
        (.ok [sentinel env], { Q with m_line_number := 0 }) ∧
      Q.m_sprites.length = n ∧
      ∀ t : Nat, t < n → ∃ sprite image, Q.m_sprites[t]? = some sprite ∧
        env.fs (sequence_file env name t) = some image ∧
        Q.m_sheets.lookup (env.weakly_canonical (sequence_file env name t)) =
          some (some (loaded env env.state0.colorkey image)) ∧
        sprite.source = env.weakly_canonical (sequence_file env name t) ∧
        sprite.source_rect = (loaded env env.state0.colorkey image).bounds := by
  have hd : get_definition "sheet".toList = .sheet := by decide
  have hstop : stops_at (line_level buffer) (sentinel env) := by
    have := line_level_nonneg buffer
    refine ⟨fun h => ?_, ?_⟩
    · have h2 : line_level buffer ≤ -1 := h.2
      omega
    · show line_level buffer ≥ -1
      omega
  -- the sheet line
  have hline : ∀ p : InputParser, parse_line env fuel buffer eof (initial_locals env) p =
      (.ok ⟨line_detected buffer (initial_locals env),
            [sheet_record env buffer name, sentinel env],
            if p.autocomplete then [] else (initial_locals env).autocomplete_space⟩,
        if p.autocomplete then
          { p with m_current_offset := ⟨0, 0⟩, m_current_sequence_index := 0,
                   m_autocomplete_output := p.m_autocomplete_output ++
                     ((initial_locals env).autocomplete_space ++ buffer ++ ['\n']) }
        else { p with m_current_offset := ⟨0, 0⟩, m_current_sequence_index := 0 }) := by
    intro p
    rw [@parse_line_on_top env fuel buffer eof (initial_locals env) p "sheet".toList [name]
      (sentinel env) [] hb htok (by rw [hd]; decide) rfl
      hstop, hd, apply_definition_sheet]
    simp only [opens_scope, has_implicit_scope, decide_True, Bool.or_true, if_true,
      sheet_record]
    by_cases ha : p.autocomplete = true <;> simp [ha]
  obtain ⟨L1, P1, hline1, a1, b1⟩ : ∃ L1 P1,
      parse_line env fuel buffer eof (initial_locals env)
        { parse_start (InputParser.new autocomplete) with m_line_number := 1 } = (.ok L1, P1) ∧
      L1.scope_stack = [sheet_record env buffer name, sentinel env] ∧
      (P1.m_sprites = [] ∧ P1.m_sheets = [] ∧ P1.m_sprites_in_current_sheet = 0 ∧
        P1.m_current_sequence_index = 0) := by
    refine ⟨_, _, hline _, rfl, ?_⟩
    split <;> exact ⟨rfl, rfl, rfl, rfl⟩
  have hloop : parse_loop env fuel ((buffer, eof) :: rest) 1 (initial_locals env)
      (parse_start (InputParser.new autocomplete)) = parse_loop env fuel rest (1 + 1) L1 P1 := by
    simp only [parse_loop, run_bind, run_modify, hline1]
  rw [hlines, hloop]
  obtain ⟨loc, m, P, e1, e2, e3, e4⟩ := @parse_loop_inert env fuel rest
    (1 + 1) L1 P1 hrest
  have b2 : P.m_sprites = [] ∧ P.m_sheets = [] ∧ P.m_sprites_in_current_sheet = 0 ∧
      P.m_current_sequence_index = 0 := by
    rw [e4]; exact b1
  obtain ⟨c1, c2, c3, c4⟩ := b2
  have hstack : loc.scope_stack = [sheet_record env buffer name, sentinel env] := by
    rw [e2, a1]
  -- closing the sheet record
  obtain ⟨r', Q, new, f1, f2, f3, f4, f5, f6⟩ := @sheet_ends_sequence_run env
    { sheet_record env buffer name with
      indent := (sheet_record env buffer name).indent ++ loc.detected_indetation }
    { P with m_line_number := m } fuel n
    (mk_from_empty_of_sequence (by
      unfold FilenameSequence.is_infinite_sequence at hinf
      unfold FilenameSequence.is_sequence
      simp only [Bool.and_eq_true] at hinf
      exact hinf.1))
    hinf hg hfiles hend hinj hfuel c4 c3 (by
      intro i _ _
      show P.m_sheets.lookup _ = none
      rw [c2]; rfl)
  have hclose : scope_ends env fuel
      { sheet_record env buffer name with
        indent := (sheet_record env buffer name).indent ++ loc.detected_indetation }
      { P with m_line_number := m } = _ := f1
  refine ⟨loc, m, P, _, Q, e1, hstack, hclose, f2, ?_, ?_, ?_⟩
  · rw [parse_eq, hlines, hloop, e1]
    dsimp only
    rw [hstack]
    unfold pop_scope_stack
    have hlev : (-1 : Int) ≤ (sheet_record env buffer name).level := by
      show (-1 : Int) ≤ line_level buffer
      have := line_level_nonneg buffer
      omega
    have hstop2 : stops_at (-1) (sentinel env) := by
      refine ⟨fun h => ?_, le_refl _⟩
      have h1 : has_implicit_scope env.state0.definition = true := h.1
      rw [hdef] at h1
      cases h1
    rw [@pop_loop_close_back env fuel loc.detected_indetation (-1) [sentinel env]
      (sheet_record env buffer name) { P with m_line_number := m } rfl hlev, hclose]
    dsimp only
    rw [pop_loop_stop hstop2]
    rfl
  · rw [f4, c1, List.nil_append, f5]
  · intro t ht
    obtain ⟨sp, img, g1, g2, g3, g4, g5, -⟩ := f6 t ht
    refine ⟨sp, img, ?_, g2, g3, g4, g5⟩
    rw [f4, c1, List.nil_append]; exact g1

set_option maxRecDepth 100000 in
/-- C4 (witness): `seq-0.png` .. `seq-2.png` exist and `seq-3.png` does not; the input
`sheet "seq-{0-}.png"` gives count 3 and three sprites, sourced from the three files in
order, each with the bounds of its sheet. -/
theorem sequence_deduction_witness :
    (∃ (S : State) (Q : InputParser),
      parse (demo_env seq_files) 4 "sheet \"seq-{0-}.png\"".toList (InputParser.new false) =
        (.ok [sentinel (demo_env seq_files)], { Q with m_line_number := 0 }) ∧
      S.sheet.count = (3 : Nat) ∧ Q.m_sprites.length = 3) ∧
    (parse (demo_env seq_files) 4 "sheet \"seq-{0-}.png\"".toList
        (InputParser.new false)).2.m_sprites.map
      (fun sprite => (sprite.source, sprite.source_rect)) =
      [("seq-0.png".toList, ⟨0, 0, 4, 1⟩), ("seq-1.png".toList, ⟨0, 0, 2, 1⟩),
       ("seq-2.png".toList, ⟨0, 0, 1, 1⟩)] := by
  refine ⟨?_, by decide!⟩
  obtain ⟨loc, m, P, S, Q, -, -, -, h4, h5, h6, -⟩ :=
    sequence_deduction (demo_env seq_files) 4 3 false "sheet \"seq-{0-}.png\"".toList
      "sheet \"seq-{0-}.png\"".toList "seq-{0-}.png".toList true []
      (by decide) (by simp) (by decide) (by decide) (by decide) (by decide) (by decide)
      (by
        intro i h0 h3
        have : i = 0 ∨ i = 1 ∨ i = 2 := by omega
        rcases this with rfl | rfl | rfl <;> decide)
      (by decide)
      (by
        intro i j hi0 hi3 hj0 hj3
        have hi : i = 0 ∨ i = 1 ∨ i = 2 := by omega
        have hj : j = 0 ∨ j = 1 ∨ j = 2 := by omega
        rcases hi with rfl | rfl | rfl <;> rcases hj with rfl | rfl | rfl <;> decide)
      (by decide)
  exact ⟨S, Q, h5, h4, h6⟩

set_option maxRecDepth 100000 in
/-- C3 (failing input): for `grid 1 1`, `grid-spacing 1 0`, `sheet "a.png"` on a sheet
of 4 x 1 pixels (solid, clear, solid, clear), the first run with autocomplete deduces
the rectangles `(0, 0, 1, 1)` and `(2, 0, 1, 1)` and writes two `sprite` lines; parsing
that output again returns, writes the same text, and places the sprites at
`(0, 0, 1, 1)` and `(1, 0, 1, 1)`: `sprite_ends` advances the cursor by the cell size
without the spacing. -/
theorem grid_spacing_replay_differs :
    (parse (demo_env [("a.png".toList, sheet_4x1)]) 0 spaced_grid_input
        (InputParser.new true)).1 = .ok [sentinel (demo_env [("a.png".toList, sheet_4x1)])] ∧
    (parse (demo_env [("a.png".toList, sheet_4x1)]) 0 spaced_grid_input
        (InputParser.new true)).2.m_autocomplete_output = spaced_grid_output ∧
    (parse (demo_env [("a.png".toList, sheet_4x1)]) 0 spaced_grid_input
        (InputParser.new true)).2.m_sprites.map (fun sprite => sprite.source_rect) =
      [⟨0, 0, 1, 1⟩, ⟨2, 0, 1, 1⟩] ∧
    (parse (demo_env [("a.png".toList, sheet_4x1)]) 0 spaced_grid_output
        (InputParser.new true)).1 = .ok [sentinel (demo_env [("a.png".toList, sheet_4x1)])] ∧
    (parse (demo_env [("a.png".toList, sheet_4x1)]) 0 spaced_grid_output
        (InputParser.new true)).2.m_autocomplete_output = spaced_grid_output ∧
    (parse (demo_env [("a.png".toList, sheet_4x1)]) 0 spaced_grid_output
        (InputParser.new true)).2.m_sprites.map (fun sprite => sprite.source_rect) =
      [⟨0, 0, 1, 1⟩, ⟨1, 0, 1, 1⟩] := by
  refine ⟨?_, ?_, ?_, ?_, ?_, ?_⟩ <;> decide!

/-! ### The texture of the sprites of a scope -/

theorem sprites_added_of_eq {t : List Char} {p q : InputParser}
    (h : q.m_sprites = p.m_sprites) : sprites_added t p q :=
  ⟨[], by simp [h], fun _ hx => by cases hx⟩

theorem sprites_added_trans {t : List Char} {p q r : InputParser}
    (h1 : sprites_added t p q) (h2 : sprites_added t q r) : sprites_added t p r := by
  obtain ⟨a, a1, a2⟩ := h1
  obtain ⟨b, b1, b2⟩ := h2
  refine ⟨a ++ b, by rw [b1, a1, List.append_assoc], ?_⟩
  intro sp hsp
  rcases List.mem_append.1 hsp with h | h
  · exact a2 sp h
  · exact b2 sp h

theorem get_sheet_file_sprites {env : Env} {path filename : List Char} {colorkey : RGBA}
    {p q : InputParser} {r : Except Exn (List Char × Image)}
    (h : get_sheet_file env path filename colorkey p = (r, q)) : q.m_sprites = p.m_sprites := by
  unfold get_sheet_file at h
  dsimp only at h
  split at h
  · cases h; rfl
  · split at h <;> · cases h; rfl

theorem get_sheet_sprites {env : Env} {s : State} {p q : InputParser}
    {r : Except Exn (List Char × Image)} (h : get_sheet env s p = (r, q)) :
    q.m_sprites = p.m_sprites := by
  unfold get_sheet get_sheet_at at h
  simp only [run_bind, run_get] at h
  exact get_sheet_file_sprites h

theorem when_output_sprites {c : Bool} {t : List Char} {p q : InputParser} {u : Unit}
    (h : M.when c (M.output t) p = (.ok u, q)) : q.m_sprites = p.m_sprites := by
  rw [run_when_output] at h
  cases h; rfl

theorem get_eq {p q r : InputParser} (h : M.get p = (.ok r, q)) : q = p := by
  rw [run_get] at h
  cases h; rfl

theorem sprite_ends_sprites {env : Env} {s s' : State} {p q : InputParser}
    (h : sprite_ends env s p = (.ok s', q)) :
    sprites_added (env.weakly_canonical s.texture) p q := by
  rw [sprite_ends_eq] at h
  split at h
  · cases h
  · rcases hg : get_sheet env (sprite_state s p)
        (with_texture env (sprite_state s p) (sprite_cursor s p)) with ⟨_ | ⟨source, sheet⟩, q1⟩
    · rw [hg] at h; cases h
    · rw [hg] at h
      have h1 : q1.m_sprites = p.m_sprites := by
        rw [get_sheet_sprites hg, with_texture_eq, sprite_cursor_eq]
      cases h
      refine ⟨[sprite_of (sprite_state s p) p.m_sprites.length
        (env.weakly_canonical s.texture) source sheet], ?_, ?_⟩
      · show q1.m_sprites ++ _ = p.m_sprites ++ _
        rw [h1]
      · intro sp hsp
        rw [List.mem_singleton] at hsp
        rw [hsp]; rfl

theorem deduce_sequence_loop_sprites {env : Env} (l : List Int) :
    ∀ {s s' : State} {p q : InputParser},
      deduce_sequence_loop env l s p = (.ok s', q) →
      sprites_added (env.weakly_canonical s.texture) p q := by
  induction l with
  | nil =>
    intro s s' p q h
    simp only [deduce_sequence_loop, run_pure] at h
    cases h; exact sprites_added_of_eq rfl
  | cons i rest ih =>
    intro s s' p q h
    simp only [deduce_sequence_loop] at h
    obtain ⟨⟨key, sheet⟩, p1, h1, h⟩ := bind_eq_ok.1 h
    obtain ⟨p2, p3, h2, h⟩ := bind_eq_ok.1 h
    obtain ⟨u, p4, h3, h⟩ := bind_eq_ok.1 h
    obtain ⟨s1, p5, h4, h⟩ := bind_eq_ok.1 h
    have e1 : p4.m_sprites = p.m_sprites := by
      rw [when_output_sprites h3, get_eq h2]
      exact get_sheet_file_sprites h1
    have e2 := ih h
    have e3 := closed_from_texture (sprite_ends_closed h4)
    rw [e3] at e2
    have e4 := sprite_ends_sprites h4
    exact sprites_added_trans (sprites_added_of_eq e1) (sprites_added_trans e4 e2)

theorem deduce_sequence_sprites_sprites {env : Env} {fuel : Nat} {s s' : State}
    {p q : InputParser} (h : deduce_sequence_sprites env fuel s p = (.ok s', q)) :
    sprites_added (env.weakly_canonical s.texture) p q := by
  unfold deduce_sequence_sprites at h
  obtain ⟨s1, p1, h1, h⟩ := bind_eq_ok.1 h
  have e := deduce_sequence_loop_sprites _ h
  split at h1
  · cases hp : probe_sequence env s fuel 0 with
    | some i =>
      rw [hp] at h1
      simp only [run_pure] at h1
      cases h1; exact e
    | none => rw [hp] at h1; cases h1
  · simp only [run_pure] at h1
    cases h1; exact e

theorem deduce_grid_row_sprites {env : Env} {sheet : Image} {grid : Size} {x0 y : Int}
    (l : List Int) :
    ∀ {s s' : State} {b b' : Bool} {k k' : Int} {p q : InputParser},
      deduce_grid_row env sheet grid x0 y l (s, b, k) p = (.ok (s', b', k'), q) →
      sprites_added (env.weakly_canonical s.texture) p q := by
  induction l with
  | nil =>
    intro s s' b b' k k' p q h
    simp only [deduce_grid_row, run_pure] at h
    cases h; exact sprites_added_of_eq rfl
  | cons x rest ih =>
    intro s s' b b' k k' p q h
    simp only [deduce_grid_row] at h
    split at h
    · have e := ih h
      exact e
    · obtain ⟨p2, p3, h2, h⟩ := bind_eq_ok.1 h
      obtain ⟨u, p4, h3, h⟩ := bind_eq_ok.1 h
      obtain ⟨u, p5, h4, h⟩ := bind_eq_ok.1 h
      obtain ⟨u, p6, h5, h⟩ := bind_eq_ok.1 h
      obtain ⟨s1, p7, h6, h⟩ := bind_eq_ok.1 h
      have e1 : p6.m_sprites = p.m_sprites := by
        rw [when_output_sprites h5, when_output_sprites h4, when_output_sprites h3, get_eq h2]
      have e2 := ih h
      have e3 := closed_from_texture (sprite_ends_closed h6)
      rw [e3] at e2
      have e4 := sprite_ends_sprites h6
      exact sprites_added_trans (sprites_added_of_eq e1) (sprites_added_trans e4 e2)

theorem deduce_grid_rows_sprites {env : Env} {sheet : Image} {grid : Size} {x0 x1 : Int}
    (l : List Int) :
    ∀ {s s' : State} {p q : InputParser},
      deduce_grid_rows env sheet grid x0 x1 l s p = (.ok s', q) →
      sprites_added (env.weakly_canonical s.texture) p q := by
  induction l with
  | nil =>
    intro s s' p q h
    simp only [deduce_grid_rows, run_pure] at h
    cases h; exact sprites_added_of_eq rfl
  | cons y rest ih =>
    intro s s' p q h
    simp only [deduce_grid_rows] at h
    obtain ⟨⟨s1, b1, k1⟩, p1, h1, h⟩ := bind_eq_ok.1 h
    have e2 := ih h
    have e3 := closed_from_texture (deduce_grid_row_closed _ h1)
    rw [e3] at e2
    exact sprites_added_trans (deduce_grid_row_sprites _ h1) e2

theorem deduce_grid_sprites_sprites {env : Env} {s s' : State} {p q : InputParser}
    (h : deduce_grid_sprites env s p = (.ok s', q)) :
    sprites_added (env.weakly_canonical s.texture) p q := by
  unfold deduce_grid_sprites at h
  obtain ⟨⟨key, sheet⟩, p1, h1, h⟩ := bind_eq_ok.1 h
  dsimp only at h
  split at h
  · cases h
  · exact sprites_added_trans (sprites_added_of_eq (get_sheet_sprites h1))
      (deduce_grid_rows_sprites _ h)

theorem deduce_unaligned_loop_sprites {env : Env} {sheet : Image} (l : List Rect) :
    ∀ {s s' : State} {p q : InputParser},
      deduce_unaligned_loop env sheet l s p = (.ok s', q) →
      sprites_added (env.weakly_canonical s.texture) p q := by
  induction l with
  | nil =>
    intro s s' p q h
    simp only [deduce_unaligned_loop, run_pure] at h
    cases h; exact sprites_added_of_eq rfl
  | cons r rest ih =>
    intro s s' p q h
    simp only [deduce_unaligned_loop] at h
    obtain ⟨p2, p3, h2, h⟩ := bind_eq_ok.1 h
    obtain ⟨u, p4, h3, h⟩ := bind_eq_ok.1 h
    obtain ⟨u, p5, h4, h⟩ := bind_eq_ok.1 h
    obtain ⟨s1, p6, h5, h⟩ := bind_eq_ok.1 h
    have e1 : p5.m_sprites = p.m_sprites := by
      rw [when_output_sprites h4, when_output_sprites h3, get_eq h2]
    have e2 := ih h
    have e3 := closed_from_texture (sprite_ends_closed h5)
    rw [e3] at e2
    have e4 := sprite_ends_sprites h5
    exact sprites_added_trans (sprites_added_of_eq e1) (sprites_added_trans e4 e2)

theorem deduce_unaligned_sprites_sprites {env : Env} {s s' : State} {p q : InputParser}
    (h : deduce_unaligned_sprites env s p = (.ok s', q)) :
    sprites_added (env.weakly_canonical s.texture) p q := by
  unfold deduce_unaligned_sprites at h
  obtain ⟨⟨key, sheet⟩, p1, h1, h⟩ := bind_eq_ok.1 h
  exact sprites_added_trans (sprites_added_of_eq (get_sheet_sprites h1))
    (deduce_unaligned_loop_sprites _ h)

theorem modify_eq {f : InputParser → InputParser} {p q : InputParser} {u : Unit}
    (h : M.modify f p = (.ok u, q)) : q = f p := by
  rw [run_modify] at h
  cases h; rfl

/-- The sprites that `sheet_ends` appends have the texture of the record. -/
theorem sheet_ends_sprites {env : Env} {fuel : Nat} {s s' : State} {p q : InputParser}
    (h : sheet_ends env fuel s p = (.ok s', q)) :
    sprites_added (env.weakly_canonical s.texture) p q := by
  unfold sheet_ends at h
  obtain ⟨p1, p2, h0, h⟩ := bind_eq_ok.1 h
  obtain ⟨s1, p3, h1, h⟩ := bind_eq_ok.1 h
  obtain ⟨u, p4, h2, h⟩ := bind_eq_ok.1 h
  simp only [run_pure] at h
  cases h
  have e0 := get_eq h0
  subst e0
  have e2 : q.m_sprites = p3.m_sprites := by rw [modify_eq h2]
  refine sprites_added_trans ?_ (sprites_added_of_eq e2)
  split at h1
  · split at h1
    · exact deduce_sequence_sprites_sprites h1
    · split at h1
      · exact deduce_grid_sprites_sprites h1
      · exact deduce_unaligned_sprites_sprites h1
  · simp only [run_pure] at h1
    cases h1; exact sprites_added_of_eq rfl

theorem scope_ends_sprites {env : Env} {fuel : Nat} {s s' : State} {p q : InputParser}
    (h : scope_ends env fuel s p = (.ok s', q)) :
    sprites_added (env.weakly_canonical s.texture) p q := by
  unfold scope_ends at h
  cases hd : s.definition <;> rw [hd] at h <;> dsimp only at h
  case texture =>
    unfold texture_ends at h
    obtain ⟨k, p1, h1, h⟩ := bind_eq_ok.1 h
    simp only [run_pure] at h
    cases h
    rw [get_texture_eq] at h1
    cases h1
    exact sprites_added_of_eq (by rw [with_texture_eq])
  case sheet => exact sheet_ends_sprites h
  case sprite => exact sprite_ends_sprites h
  all_goals
    simp only [run_pure] at h
    cases h; exact sprites_added_of_eq rfl

theorem apply_definition_texture (env : Env) (s : State) (name : List Char) (p : InputParser) :
    apply_definition env s .texture [name] p = (.ok { s with texture := name }, p) := by
  simp [apply_definition, apply_switch, check_path, check_string, run_bind, run_pure,
    run_check]

/-- The pop phase for a line at the indentation of a texture record `T` on top of a
record `P`: `texture_ends` runs on `T`, and `P` becomes the top of the stack with the
texture path of `T`. -/
theorem pop_texture_scope (env : Env) (fuel : Nat) (det : List Char) (T P : State)
    (below : List State) (p : InputParser) (hT : T.definition = .texture)
    (hn : levels_nested (T :: P :: below)) :
    pop_scope_stack env fuel det T.level (T :: P :: below) p =
      (.ok ({ P with texture := T.texture } :: below),
        with_texture env { T with indent := T.indent ++ det } p) := by
  have hi : has_implicit_scope T.definition = true := by rw [hT]; rfl
  have hstop : stops_at T.level P := by
    rcases hn.1 with h | ⟨h1, h2, -⟩
    · exact ⟨fun hh => (by have := hh.2; omega), le_of_lt h⟩
    · exact ⟨fun hh => (by rw [h2] at hh; cases hh.1), le_of_eq h1⟩
  unfold pop_scope_stack
  rw [pop_loop_close_back hi (le_refl _)]
  have hs : scope_ends env fuel { T with indent := T.indent ++ det } p =
      (.ok { T with indent := T.indent ++ det },
        with_texture env { T with indent := T.indent ++ det } p) := by
    unfold scope_ends
    simp only [hT, texture_ends, run_bind, get_texture_eq, run_pure]
  rw [hs]
  dsimp only
  rw [pop_loop_stop hstop]
  simp [top_key, keep_texture, hT]

theorem check_string_consumed {args rest : List (List Char)} {v : List Char}
    {p q : InputParser} (h : check_string args p = (.ok (v, rest), q)) :
    consumed 1 1 args rest p q := by
  cases args with
  | nil => cases h
  | cons a r =>
    simp only [check_string, run_pure, Prod.mk.injEq, Except.ok.injEq] at h
    obtain ⟨⟨-, rfl⟩, rfl⟩ := h
    exact ⟨le_refl _, le_refl _, rfl⟩

theorem check_uint_consumed {args rest : List (List Char)} {v : Int}
    {p q : InputParser} (h : check_uint args p = (.ok (v, rest), q)) :
    consumed 1 1 args rest p q := by
  unfold check_uint at h
  obtain ⟨⟨a, r⟩, p1, h1, h⟩ := bind_eq_ok.1 h
  have e := check_string_consumed h1
  dsimp only at h
  cases hx : from_chars_int a with
  | none => rw [hx] at h; cases h
  | some result =>
    rw [hx] at h
    dsimp only at h
    split at h
    · simp only [run_pure, Prod.mk.injEq, Except.ok.injEq] at h
      obtain ⟨⟨-, rfl⟩, rfl⟩ := h
      exact e
    · cases h

theorem check_bool_consumed {args rest : List (List Char)} {v b : Bool}
    {p q : InputParser} (h : check_bool b args p = (.ok (v, rest), q)) :
    consumed 0 1 args rest p q := by
  unfold check_bool at h
  split at h
  · simp only [run_pure, Prod.mk.injEq, Except.ok.injEq] at h
    obtain ⟨⟨-, rfl⟩, rfl⟩ := h
    exact ⟨le_refl _, by omega, rfl⟩
  · obtain ⟨⟨a, r⟩, p1, h1, h⟩ := bind_eq_ok.1 h
    obtain ⟨e1, e2, e3⟩ := check_string_consumed h1
    dsimp only at h
    split at h
    · simp only [run_pure, Prod.mk.injEq, Except.ok.injEq] at h
      obtain ⟨⟨-, rfl⟩, rfl⟩ := h
      exact ⟨by omega, e2, e3⟩
    · split at h
      · simp only [run_pure, Prod.mk.injEq, Except.ok.injEq] at h
        obtain ⟨⟨-, rfl⟩, rfl⟩ := h
        exact ⟨by omega, e2, e3⟩
      · cases h

theorem check_float_consumed {env : Env} {args rest : List (List Char)} {v : Float32}
    {p q : InputParser} (h : check_float env args p = (.ok (v, rest), q)) :
    consumed 1 1 args rest p q := by
  unfold check_float at h
  obtain ⟨⟨a, r⟩, p1, h1, h⟩ := bind_eq_ok.1 h
  have e := check_string_consumed h1
  dsimp only at h
  cases hx : env.stof a with
  | invalid_argument => rw [hx] at h; cases h
  | out_of_range => rw [hx] at h; cases h
  | value f =>
    rw [hx] at h
    simp only [run_pure, Prod.mk.injEq, Except.ok.injEq] at h
    obtain ⟨⟨-, rfl⟩, rfl⟩ := h
    exact e

theorem consumed_trans {a b c d : Nat} {args mid rest : List (List Char)}
    {p q r : InputParser} (h1 : consumed a b args mid p q) (h2 : consumed c d mid rest q r) :
    consumed (a + c) (b + d) args rest p r := by
  obtain ⟨x1, x2, x3⟩ := h1
  obtain ⟨y1, y2, y3⟩ := h2
  exact ⟨by omega, by omega, by rw [y3, x3]⟩

theorem consumed_mono {a b c d : Nat} {args rest : List (List Char)} {p q : InputParser}
    (h : consumed a b args rest p q) (h1 : c ≤ a) (h2 : b ≤ d) : consumed c d args rest p q := by
  obtain ⟨x1, x2, x3⟩ := h
  exact ⟨by omega, by omega, x3⟩

theorem consumed_refl (args : List (List Char)) (p : InputParser) :
    consumed 0 0 args args p p := ⟨le_refl _, le_refl _, rfl⟩

theorem check_size_consumed {args rest : List (List Char)} {v : Size} {b : Bool}
    {p q : InputParser} (h : check_size b args p = (.ok (v, rest), q)) :
    consumed (if b then 1 else 2) 2 args rest p q := by
  unfold check_size at h
  obtain ⟨⟨x, r⟩, p1, h1, h⟩ := bind_eq_ok.1 h
  have e1 := check_uint_consumed h1
  dsimp only at h
  split at h
  · obtain ⟨⟨y, r2⟩, p2, h2, h⟩ := bind_eq_ok.1 h
    have e2 := check_uint_consumed h2
    simp only [run_pure, Prod.mk.injEq, Except.ok.injEq] at h
    obtain ⟨⟨-, rfl⟩, rfl⟩ := h
    exact consumed_mono (consumed_trans e1 e2) (by split <;> omega) (le_refl _)
  · rename_i hc
    simp only [run_pure, Prod.mk.injEq, Except.ok.injEq] at h
    obtain ⟨⟨-, rfl⟩, rfl⟩ := h
    have hb : b = true := by
      cases b
      · simp at hc
      · rfl
    subst hb
    exact consumed_mono e1 (le_refl _) (by omega)

theorem check_rect_consumed {args rest : List (List Char)} {v : Rect}
    {p q : InputParser} (h : check_rect args p = (.ok (v, rest), q)) :
    consumed 4 4 args rest p q := by
  unfold check_rect at h
  obtain ⟨⟨x, r1⟩, p1, h1, h⟩ := bind_eq_ok.1 h
  obtain ⟨⟨y, r2⟩, p2, h2, h⟩ := bind_eq_ok.1 h
  obtain ⟨⟨w, r3⟩, p3, h3, h⟩ := bind_eq_ok.1 h
  obtain ⟨⟨hh, r4⟩, p4, h4, h⟩ := bind_eq_ok.1 h
  simp only [run_pure, Prod.mk.injEq, Except.ok.injEq] at h
  obtain ⟨⟨-, rfl⟩, rfl⟩ := h
  exact consumed_trans (consumed_trans (consumed_trans (check_uint_consumed h1)
    (check_uint_consumed h2)) (check_uint_consumed h3)) (check_uint_consumed h4)

theorem check_eq {c : Bool} {m : List Char} {p q : InputParser} {u : Unit}
    (h : check c m p = (.ok u, q)) : q = p ∧ c = true := by
  unfold check at h
  split at h
  · rename_i hc
    rw [run_pure] at h
    cases h; exact ⟨rfl, hc⟩
  · cases h

theorem check_color_consumed {env : Env} {args rest : List (List Char)} {v : RGBA}
    {p q : InputParser} (h : check_color env args p = (.ok (v, rest), q)) :
    consumed 1 1 args rest p q := by
  unfold check_color at h
  obtain ⟨⟨a, r⟩, p1, h1, h3⟩ := bind_eq_ok.1 h
  obtain ⟨u, p2, h2, h4⟩ := bind_eq_ok.1 h3
  have e := check_string_consumed h1
  have e2 := (check_eq h2).1
  simp only [run_pure, Prod.mk.injEq, Except.ok.injEq] at h4
  obtain ⟨⟨-, h5⟩, h6⟩ := h4
  rw [← h5, ← h6, e2]
  exact e

theorem pivot_word_consumed {s s' : State} {args rest : List (List Char)}
    {p q : InputParser} (h : pivot_word s args p = (.ok (s', rest), q)) :
    consumed 1 1 args rest p q := by
  unfold pivot_word at h
  obtain ⟨⟨a, r⟩, p1, h1, h⟩ := bind_eq_ok.1 h
  have e := check_string_consumed h1
  dsimp only at h
  split at h
  · simp only [run_pure, Prod.mk.injEq, Except.ok.injEq] at h
    obtain ⟨⟨-, rfl⟩, rfl⟩ := h
    exact e
  · split at h
    · simp only [run_pure, Prod.mk.injEq, Except.ok.injEq] at h
      obtain ⟨⟨-, rfl⟩, rfl⟩ := h
      exact e
    · cases h

theorem modify_line {f : InputParser → InputParser} {p q : InputParser} {u : Unit}
    (h : M.modify f p = (.ok u, q)) (hf : (f p).m_line_number = p.m_line_number) :
    q.m_line_number = p.m_line_number := by
  rw [modify_eq h]; exact hf

/-- An optional number: `(arguments_left() ? check_uint() : dflt)`. -/
theorem optional_uint_consumed {args rest : List (List Char)} {v dflt : Int}
    {p q : InputParser}
    (h : (if !args.isEmpty then check_uint args else pure (dflt, args)) p = (.ok (v, rest), q)) :
    consumed 0 1 args rest p q := by
  split at h
  · exact consumed_mono (check_uint_consumed h) (Nat.zero_le _) (le_refl _)
  · simp only [run_pure, Prod.mk.injEq, Except.ok.injEq] at h
    obtain ⟨⟨-, rfl⟩, rfl⟩ := h
    exact ⟨le_refl _, by omega, rfl⟩

/-- The `switch` of `apply_definition` consumes at least the required and at most the
required and optional arguments of the definition, and keeps the line number. -/
theorem apply_switch_consumed {env : Env} {s s' : State} {d : Definition}
    {args rest : List (List Char)} {p q : InputParser}
    (h : apply_switch env s d args p = (.ok (s', rest), q)) :
    consumed (min_arguments d) (max_arguments d) args rest p q := by
  cases d <;> simp only [apply_switch] at h <;> simp only [min_arguments, max_arguments]
  case none =>
    simp only [run_pure, Prod.mk.injEq, Except.ok.injEq] at h
    obtain ⟨⟨-, rfl⟩, rfl⟩ := h
    exact consumed_refl _ _
  case begin =>
    simp only [run_pure, Prod.mk.injEq, Except.ok.injEq] at h
    obtain ⟨⟨-, rfl⟩, rfl⟩ := h
    exact consumed_refl _ _
  case alpha =>
    obtain ⟨⟨a, r⟩, p1, h1, h2⟩ := bind_eq_ok.1 h
    have e1 := check_string_consumed h1
    dsimp only at h2
    split at h2
    · split at h2
      · obtain ⟨⟨c, r2⟩, p2, h3, h4⟩ := bind_eq_ok.1 h2
        simp only [run_pure, Prod.mk.injEq, Except.ok.injEq] at h4
        obtain ⟨⟨-, h5⟩, h6⟩ := h4
        rw [← h5, ← h6]
        exact consumed_mono (consumed_trans e1 (check_color_consumed h3)) (by omega) (le_refl _)
      · simp only [run_pure, Prod.mk.injEq, Except.ok.injEq] at h2
        obtain ⟨⟨-, h5⟩, h6⟩ := h2
        rw [← h5, ← h6]
        exact consumed_mono e1 (le_refl _) (by omega)
    · cases h2
  case sheet =>
    obtain ⟨⟨a, r⟩, p1, h1, h2⟩ := bind_eq_ok.1 h
    obtain ⟨u, p2, h3, h4⟩ := bind_eq_ok.1 h2
    simp only [run_pure, Prod.mk.injEq, Except.ok.injEq] at h4
    obtain ⟨⟨-, h5⟩, h6⟩ := h4
    rw [← h5, ← h6]
    obtain ⟨x1, x2, x3⟩ := check_string_consumed h1
    exact ⟨x1, x2, by rw [modify_line h3 rfl, x3]⟩
  case padding =>
    obtain ⟨⟨a, r⟩, p1, h1, h2⟩ := bind_eq_ok.1 h
    obtain ⟨⟨b, r2⟩, p2, h3, h4⟩ := bind_eq_ok.1 h2
    simp only [run_pure, Prod.mk.injEq, Except.ok.injEq] at h4
    obtain ⟨⟨-, h5⟩, h6⟩ := h4
    rw [← h5, ← h6]
    exact consumed_trans (optional_uint_consumed h1) (optional_uint_consumed h3)
  case tag =>
    obtain ⟨⟨a, r⟩, p1, h1, h2⟩ := bind_eq_ok.1 h
    obtain ⟨⟨b, r2⟩, p2, h3, h4⟩ := bind_eq_ok.1 h2
    simp only [run_pure, Prod.mk.injEq, Except.ok.injEq] at h4
    obtain ⟨⟨-, h5⟩, h6⟩ := h4
    rw [← h5, ← h6]
    refine consumed_trans (c := 0) (d := 1) (check_string_consumed h1) ?_
    dsimp only at h3
    split at h3
    · exact consumed_mono (check_string_consumed h3) (Nat.zero_le _) (le_refl _)
    · simp only [run_pure, Prod.mk.injEq, Except.ok.injEq] at h3
      obtain ⟨⟨-, h7⟩, h8⟩ := h3
      rw [← h7, ← h8]
      exact ⟨le_refl _, by omega, rfl⟩
  case offset =>
    obtain ⟨u, p1, h1, h2⟩ := bind_eq_ok.1 h
    obtain ⟨⟨fx, r1⟩, p2, h3, h4⟩ := bind_eq_ok.1 h2
    obtain ⟨u, p3, h5, h6⟩ := bind_eq_ok.1 h4
    obtain ⟨⟨fy, r2⟩, p4, h7, h8⟩ := bind_eq_ok.1 h6
    obtain ⟨u, p5, h9, h10⟩ := bind_eq_ok.1 h8
    simp only [run_pure, Prod.mk.injEq, Except.ok.injEq] at h10
    obtain ⟨⟨-, h11⟩, h12⟩ := h10
    rw [← h11, ← h12]
    obtain ⟨x1, x2, x3⟩ := check_float_consumed h3
    obtain ⟨y1, y2, y3⟩ := check_float_consumed h7
    have z1 := (check_eq h1).1
    have z2 := modify_line h5 rfl
    have z3 := modify_line h9 rfl
    dsimp only at y1 y2
    exact ⟨by omega, by omega, by rw [z3, y3, z2, x3, z1]⟩
  case skip =>
    obtain ⟨u, p1, h1, h2⟩ := bind_eq_ok.1 h
    obtain ⟨⟨n, r1⟩, p2, h3, h4⟩ := bind_eq_ok.1 h2
    obtain ⟨u, p3, h5, h6⟩ := bind_eq_ok.1 h4
    simp only [run_pure, Prod.mk.injEq, Except.ok.injEq] at h6
    obtain ⟨⟨-, h11⟩, h12⟩ := h6
    rw [← h11, ← h12]
    obtain ⟨x1, x2, x3⟩ := optional_uint_consumed h3
    have z1 := (check_eq h1).1
    have z2 := modify_line h5 rfl
    exact ⟨by omega, by omega, by rw [z2, x3, z1]⟩
  case span =>
    obtain ⟨⟨v, r1⟩, p1, h1, h2⟩ := bind_eq_ok.1 h
    obtain ⟨u, p2, h3, h4⟩ := bind_eq_ok.1 h2
    simp only [run_pure, Prod.mk.injEq, Except.ok.injEq] at h4
    obtain ⟨⟨-, h5⟩, h6⟩ := h4
    rw [← h5, ← h6, (check_eq h3).1]
    exact check_size_consumed h1
  case common_divisor =>
    obtain ⟨⟨v, r1⟩, p1, h1, h2⟩ := bind_eq_ok.1 h
    obtain ⟨u, p2, h3, h4⟩ := bind_eq_ok.1 h2
    simp only [run_pure, Prod.mk.injEq, Except.ok.injEq] at h4
    obtain ⟨⟨-, h5⟩, h6⟩ := h4
    rw [← h5, ← h6, (check_eq h3).1]
    exact check_size_consumed h1
  case trim_threshold =>
    obtain ⟨⟨v, r1⟩, p1, h1, h2⟩ := bind_eq_ok.1 h
    obtain ⟨u, p2, h3, h4⟩ := bind_eq_ok.1 h2
    simp only [run_pure, Prod.mk.injEq, Except.ok.injEq] at h4
    obtain ⟨⟨-, h5⟩, h6⟩ := h4
    rw [← h5, ← h6, (check_eq h3).1]
    exact check_uint_consumed h1
  case sprite =>
    split at h
    · obtain ⟨⟨v, r⟩, p1, h1, h2⟩ := bind_eq_ok.1 h
      simp only [run_pure, Prod.mk.injEq, Except.ok.injEq] at h2
      obtain ⟨⟨-, h3⟩, h4⟩ := h2
      rw [← h3, ← h4]
      exact consumed_mono (check_string_consumed h1) (Nat.zero_le _) (le_refl _)
    · simp only [run_pure, Prod.mk.injEq, Except.ok.injEq] at h
      obtain ⟨⟨-, rfl⟩, rfl⟩ := h
      exact ⟨le_refl _, by omega, rfl⟩
  case pivot =>
    split at h
    · obtain ⟨⟨fx, r1⟩, p2, h1, h2⟩ := bind_eq_ok.1 h
      obtain ⟨⟨fy, r2⟩, p4, h3, h4⟩ := bind_eq_ok.1 h2
      simp only [run_pure, Prod.mk.injEq, Except.ok.injEq] at h4
      obtain ⟨⟨-, h5⟩, h6⟩ := h4
      rw [← h5, ← h6]
      exact consumed_trans (check_float_consumed h1) (check_float_consumed h3)
    · obtain ⟨⟨s1, r1⟩, p2, h1, h2⟩ := bind_eq_ok.1 h
      exact consumed_trans (pivot_word_consumed h1) (pivot_word_consumed h2)
  case trim =>
    split at h
    · simp only [run_pure, Prod.mk.injEq, Except.ok.injEq] at h
      obtain ⟨⟨-, rfl⟩, rfl⟩ := h
      exact ⟨le_refl _, by omega, rfl⟩
    · obtain ⟨⟨v, r⟩, p1, h1, h2⟩ := bind_eq_ok.1 h
      dsimp only at h2
      split at h2
      · simp only [run_pure, Prod.mk.injEq, Except.ok.injEq] at h2
        obtain ⟨⟨-, h3⟩, h4⟩ := h2
        rw [← h3, ← h4]
        exact consumed_mono (check_string_consumed h1) (Nat.zero_le _) (le_refl _)
      · cases h2
  case extrude =>
    obtain ⟨⟨v, r⟩, p1, h1, h2⟩ := bind_eq_ok.1 h
    simp only [run_pure, Prod.mk.injEq, Except.ok.injEq] at h2
    obtain ⟨⟨-, h3⟩, h4⟩ := h2
    rw [← h3, ← h4]
    exact optional_uint_consumed h1
  all_goals
    obtain ⟨⟨v, r⟩, p1, h1, h2⟩ := bind_eq_ok.1 h
    simp only [run_pure, Prod.mk.injEq, Except.ok.injEq] at h2
    obtain ⟨⟨-, h3⟩, h4⟩ := h2
    rw [← h3, ← h4]
    first
    | exact check_uint_consumed h1
    | exact check_string_consumed h1
    | exact check_bool_consumed h1
    | exact check_color_consumed h1
    | exact check_size_consumed h1
    | exact check_rect_consumed h1

theorem check_string_nil (p : InputParser) :
    check_string [] p = (.error (count_error p), p) := rfl

theorem check_string_cons (a : List Char) (t : List (List Char)) (p : InputParser) :
    check_string (a :: t) p = (.ok (a, t), p) := rfl

theorem check_uint_nil (p : InputParser) :
    check_uint [] p = (.error (count_error p), p) := rfl

theorem check_uint_cons (a : List Char) (t : List (List Char)) (p : InputParser) :
    check_uint (a :: t) p =
      match uint_value a with
      | some v => (.ok (v, t), p)
      | none => (.error (number_error p), p) := by
  unfold check_uint uint_value
  simp only [run_bind, check_string_cons]
  cases from_chars_int a with
  | none => rfl
  | some v =>
    dsimp only
    split <;> rfl

theorem check_float_nil (env : Env) (p : InputParser) :
    check_float env [] p = (.error (count_error p), p) := rfl

theorem check_float_cons (env : Env) (a : List Char) (t : List (List Char)) (p : InputParser) :
    check_float env (a :: t) p =
      match env.stof a with
      | .value f => (.ok (f, t), p)
      | .invalid_argument => (.error .invalid_argument, p)
      | .out_of_range => (.error .out_of_range, p) := by
  unfold check_float
  simp only [run_bind, check_string_cons]
  cases env.stof a <;> rfl

theorem check_color_nil (env : Env) (p : InputParser) :
    check_color env [] p = (.error (count_error p), p) := rfl

theorem check_bool_nil (p : InputParser) : check_bool true [] p = (.ok (true, []), p) := rfl

theorem pivot_word_nil (s : State) (p : InputParser) :
    pivot_word s [] p = (.error (count_error p), p) := rfl

/-- What `check` has thrown is not the error of the argument count, unless it says so. -/
theorem accepted_switch {env : Env} {s s' : State} {d : Definition}
    {args : List (List Char)} {p q : InputParser}
    (h : apply_definition env s d args p = (.ok s', q)) :
    apply_switch env s d args p = (.ok (s', []), q) := by
  unfold apply_definition at h
  obtain ⟨⟨s1, rest⟩, p1, h1, h2⟩ := bind_eq_ok.1 h
  obtain ⟨u, p2, h3, h4⟩ := bind_eq_ok.1 h2
  obtain ⟨e1, e2⟩ := check_eq h3
  simp only [run_pure, Prod.mk.injEq, Except.ok.injEq] at h4
  obtain ⟨h5, h6⟩ := h4
  have hr : rest = [] := by simpa using e2
  rw [h1, ← h5, ← h6, e1, hr]

theorem switch_accepted {env : Env} {s s' : State} {d : Definition}
    {args : List (List Char)} {p q : InputParser}
    (h : apply_switch env s d args p = (.ok (s', []), q)) :
    apply_definition env s d args p = (.ok s', q) := by
  unfold apply_definition
  simp [run_bind, h, check, run_pure]

theorem switch_count_error {env : Env} {s : State} {d : Definition}
    {args : List (List Char)} {p q : InputParser}
    (h : apply_switch env s d args p = (.error (count_error p), q)) :
    apply_definition env s d args p = (.error (count_error p), q) := by
  unfold apply_definition
  simp [run_bind, h]

theorem check_size_true_prefix {a e : List Char} {es rest : List (List Char)} {v : Size}
    {p q : InputParser} (h : check_size true (a :: e :: es) p = (.ok (v, rest), q)) :
    ∃ x, v.x = x ∧ check_size true [a] p = (.ok (⟨x, x⟩, []), p) := by
  simp only [check_size, run_bind, check_uint_cons] at h ⊢
  cases hu : uint_value a with
  | none => rw [hu] at h; cases h
  | some x =>
    rw [hu] at h
    simp only [List.isEmpty_cons, Bool.not_false, Bool.true_or, if_true, run_bind,
      check_uint_cons] at h
    cases hv : uint_value e with
    | none => rw [hv] at h; cases h
    | some y =>
      rw [hv] at h
      simp only [run_pure, Prod.mk.injEq, Except.ok.injEq] at h
      refine ⟨x, ?_, ?_⟩
      · rw [← h.1.1]
      · simp [run_pure]

theorem check_size_false_prefix {a e : List Char} {es rest : List (List Char)} {v : Size}
    {p q : InputParser} (h : check_size false (a :: e :: es) p = (.ok (v, rest), q)) :
    check_size false [a] p = (.error (count_error p), p) := by
  simp only [check_size, run_bind, check_uint_cons] at h ⊢
  cases hu : uint_value a with
  | none => rw [hu] at h; cases h
  | some x => simp [run_bind, check_uint_nil]

theorem size_prefix_accepted {env : Env} {s s' : State} {d : Definition} {a e : List Char}
    {es : List (List Char)} {p q : InputParser}
    (hd : d = .grid ∨ d = .grid_offset ∨ d = .grid_spacing ∨ d = .common_divisor ∨ d = .span)
    (h : apply_switch env s d (a :: e :: es) p = (.ok (s', []), q)) :
    accepted_or_count env s d [a] p := by
  rcases hd with rfl | rfl | rfl | rfl | rfl <;> simp only [apply_switch] at h ⊢ <;>
    unfold accepted_or_count <;> simp only [apply_switch]
  case inr.inr.inr.inr =>
    obtain ⟨⟨v, r⟩, p1, h1, -⟩ := bind_eq_ok.1 h
    right
    simp only [run_bind, check_size_false_prefix h1]
    exact ⟨_, rfl⟩
  case inr.inr.inr.inl =>
    obtain ⟨⟨v, r⟩, p1, h1, h2⟩ := bind_eq_ok.1 h
    obtain ⟨u, p2, h3, -⟩ := bind_eq_ok.1 h2
    obtain ⟨x, e1, e2⟩ := check_size_true_prefix h1
    have hc := (check_eq h3).2
    simp only [Bool.and_eq_true, decide_eq_true_eq] at hc
    left
    have hx : (decide (x ≥ 1) && decide (x ≥ 1)) = true := by
      simp only [Bool.and_self, decide_eq_true_eq]
      rw [← e1]; exact hc.1
    simp only [run_bind, e2, run_check, check, hx, if_true, run_pure]
    exact ⟨_, _, rfl⟩
  all_goals
    obtain ⟨⟨v, r⟩, p1, h1, -⟩ := bind_eq_ok.1 h
    obtain ⟨x, -, e2⟩ := check_size_true_prefix h1
    left
    simp only [run_bind, e2, run_pure]
    exact ⟨_, _, rfl⟩

theorem padding_prefix_accepted {env : Env} {s s' : State} {a e : List Char}
    {es : List (List Char)} {p q : InputParser}
    (h : apply_switch env s .padding (a :: e :: es) p = (.ok (s', []), q)) :
    accepted_or_count env s .padding [a] p := by
  unfold accepted_or_count
  simp only [apply_switch, run_bind, List.isEmpty_cons, Bool.not_false, if_true,
    check_uint_cons] at h ⊢
  cases hu : uint_value a with
  | none => rw [hu] at h; cases h
  | some x =>
    left
    simp only [List.isEmpty_nil, Bool.not_true, Bool.false_eq_true, if_false, run_pure]
    exact ⟨_, _, rfl⟩

theorem alpha_prefix_accepted {env : Env} {s s' : State} {a e : List Char}
    {es : List (List Char)} {p q : InputParser}
    (h : apply_switch env s .alpha (a :: e :: es) p = (.ok (s', []), q)) :
    accepted_or_count env s .alpha [a] p := by
  unfold accepted_or_count
  simp only [apply_switch, run_bind, check_string_cons] at h ⊢
  split at h
  · rename_i hi
    simp only [hi, if_true]
    split at h
    · rename_i hc
      simp only [hc, if_true, run_bind, check_color_nil]
      exact Or.inr ⟨_, rfl⟩
    · simp only [run_pure, Prod.mk.injEq, Except.ok.injEq] at h
      cases h.1.2
  · cases h

theorem offset_prefix_accepted {env : Env} {s s' : State} {args : List (List Char)}
    {e : List Char} {es : List (List Char)} {p q : InputParser}
    (hlen : args.length ≤ 1)
    (h : apply_switch env s .offset (args ++ e :: es) p = (.ok (s', []), q)) :
    accepted_or_count env s .offset args p := by
  unfold accepted_or_count
  simp only [apply_switch, run_bind] at h ⊢
  obtain ⟨u, p1, h1, h2⟩ := bind_eq_ok.1 h
  obtain ⟨rfl, hg⟩ := check_eq h1
  simp only [run_check, check, hg, if_true, run_pure]
  rcases args with _ | ⟨a, _ | ⟨b, t⟩⟩
  · simp only [check_float_nil]
    exact Or.inr ⟨_, rfl⟩
  · simp only [List.cons_append, List.nil_append, check_float_cons] at h2 ⊢
    cases hf : env.stof a with
    | invalid_argument => rw [hf] at h2; cases h2
    | out_of_range => rw [hf] at h2; cases h2
    | value f =>
      simp only [run_bind, run_modify, check_float_nil]
      exact Or.inr ⟨_, rfl⟩
  · simp only [List.length_cons] at hlen
    omega

theorem skip_prefix_accepted {env : Env} {s s' : State}
    {e : List Char} {es : List (List Char)} {p q : InputParser}
    (h : apply_switch env s .skip (e :: es) p = (.ok (s', []), q)) :
    accepted_or_count env s .skip [] p := by
  unfold accepted_or_count
  simp only [apply_switch, run_bind] at h ⊢
  obtain ⟨u, p1, h1, h2⟩ := bind_eq_ok.1 h
  obtain ⟨rfl, hg⟩ := check_eq h1
  simp only [run_check, check, hg, if_true, run_pure, List.isEmpty_nil, Bool.not_true,
    Bool.false_eq_true, if_false, run_modify]
  exact Or.inl ⟨_, _, rfl⟩

theorem pivot_word_cons (s : State) (a : List Char) (t : List (List Char)) (p : InputParser) :
    pivot_word s (a :: t) p =
      match pivot_word s [a] p with
      | (.ok (s1, _), _) => (.ok (s1, t), p)
      | (.error e, _) => (.error e, p) := by
  unfold pivot_word
  simp only [run_bind, check_string_cons]
  split
  · rfl
  · split <;> rfl

theorem pivot_prefix_accepted {env : Env} {s s' : State} {a e : List Char}
    {es : List (List Char)} {p q : InputParser}
    (h : apply_switch env s .pivot (a :: e :: es) p = (.ok (s', []), q)) :
    accepted_or_count env s .pivot [a] p := by
  unfold accepted_or_count
  simp only [apply_switch, is_number_following] at h ⊢
  split at h
  · rename_i hn
    simp only [hn, if_true, run_bind, check_float_cons] at h ⊢
    cases hf : env.stof a with
    | invalid_argument => rw [hf] at h; cases h
    | out_of_range => rw [hf] at h; cases h
    | value f =>
      simp only [check_float_nil]
      exact Or.inr ⟨_, rfl⟩
  · rename_i hn
    simp only [hn, if_false, run_bind] at h ⊢
    rw [pivot_word_cons] at h
    rcases hw : pivot_word s [a] p with ⟨er | ⟨s1, r1⟩, p1⟩
    · rw [hw] at h; cases h
    · have hr : r1 = [] ∧ p1 = p := by
        have h0 := pivot_word_cons s a [] p
        rw [hw] at h0
        simp only [Prod.mk.injEq, Except.ok.injEq] at h0
        exact ⟨h0.1.2, h0.2⟩
      obtain ⟨rfl, rfl⟩ := hr
      simp only [Bool.false_eq_true, if_false, run_bind, hw, pivot_word_nil]
      exact Or.inr ⟨_, rfl⟩

theorem rect_prefix_accepted {env : Env} {s s' : State} {args : List (List Char)}
    {e : List Char} {es : List (List Char)} {p q : InputParser}
    (h : apply_switch env s .rect (args ++ e :: es) p = (.ok (s', []), q)) :
    accepted_or_count env s .rect args p := by
  unfold accepted_or_count
  simp only [apply_switch, run_bind, check_rect] at h ⊢
  right
  rcases args with _ | ⟨a, t⟩
  · simp only [check_uint_nil]; exact ⟨_, rfl⟩
  simp only [List.cons_append, check_uint_cons] at h ⊢
  cases ha : uint_value a with
  | none => rw [ha] at h; cases h
  | some x =>
    rw [ha] at h
    dsimp only at h ⊢
    rcases t with _ | ⟨b, t⟩
    · simp only [check_uint_nil]; exact ⟨_, rfl⟩
    simp only [List.cons_append, check_uint_cons, run_bind] at h ⊢
    cases hb : uint_value b with
    | none => rw [hb] at h; cases h
    | some y =>
      rw [hb] at h
      dsimp only at h ⊢
      rcases t with _ | ⟨c, t⟩
      · simp only [check_uint_nil]; exact ⟨_, rfl⟩
      simp only [List.cons_append, check_uint_cons, run_bind] at h ⊢
      cases hc : uint_value c with
      | none => rw [hc] at h; cases h
      | some z =>
        rw [hc] at h
        dsimp only at h ⊢
        rcases t with _ | ⟨d, t⟩
        · simp only [check_uint_nil]; exact ⟨_, rfl⟩
        simp only [List.cons_append, check_uint_cons, run_bind] at h
        cases hd : uint_value d with
        | none => rw [hd] at h; cases h
        | some w =>
          rw [hd] at h
          simp only [run_pure, Prod.mk.injEq, Except.ok.injEq] at h
          have := h.1.2
          simp at this

/-- A proper prefix of an argument list that the `switch` accepts is accepted too, or
runs out of arguments: then the error is that of the argument count. -/
theorem prefix_switch {env : Env} {s s' : State} {d : Definition} {args : List (List Char)}
    {e : List Char} {es : List (List Char)} {p q : InputParser}
    (hsw : apply_switch env s d (args ++ e :: es) p = (.ok (s', []), q)) :
    accepted_or_count env s d args p := by
  have hlen := (apply_switch_consumed hsw).2.1
  simp only [List.length_append, List.length_cons, List.length_nil] at hlen
  cases d
  case padding =>
    rcases args with _ | ⟨a, _ | ⟨b, t⟩⟩
    · exact Or.inl ⟨_, _, rfl⟩
    · exact padding_prefix_accepted hsw
    · simp [max_arguments] at hlen; omega
  case alpha =>
    rcases args with _ | ⟨a, _ | ⟨b, t⟩⟩
    · exact Or.inr ⟨_, rfl⟩
    · exact alpha_prefix_accepted hsw
    · simp [max_arguments] at hlen; omega
  case grid =>
    rcases args with _ | ⟨a, _ | ⟨b, t⟩⟩
    · exact Or.inr ⟨_, rfl⟩
    · exact size_prefix_accepted (Or.inl rfl) hsw
    · simp [max_arguments] at hlen; omega
  case grid_offset =>
    rcases args with _ | ⟨a, _ | ⟨b, t⟩⟩
    · exact Or.inr ⟨_, rfl⟩
    · exact size_prefix_accepted (Or.inr (Or.inl rfl)) hsw
    · simp [max_arguments] at hlen; omega
  case grid_spacing =>
    rcases args with _ | ⟨a, _ | ⟨b, t⟩⟩
    · exact Or.inr ⟨_, rfl⟩
    · exact size_prefix_accepted (Or.inr (Or.inr (Or.inl rfl))) hsw
    · simp [max_arguments] at hlen; omega
  case common_divisor =>
    rcases args with _ | ⟨a, _ | ⟨b, t⟩⟩
    · exact Or.inr ⟨_, rfl⟩
    · exact size_prefix_accepted (Or.inr (Or.inr (Or.inr (Or.inl rfl)))) hsw
    · simp [max_arguments] at hlen; omega
  case span =>
    rcases args with _ | ⟨a, _ | ⟨b, t⟩⟩
    · exact Or.inr ⟨_, rfl⟩
    · exact size_prefix_accepted (Or.inr (Or.inr (Or.inr (Or.inr rfl)))) hsw
    · simp [max_arguments] at hlen; omega
  case offset =>
    exact offset_prefix_accepted (by simp [max_arguments] at hlen; omega) hsw
  case skip =>
    rcases args with _ | ⟨a, t⟩
    · exact skip_prefix_accepted hsw
    · simp [max_arguments] at hlen; omega
  case pivot =>
    rcases args with _ | ⟨a, _ | ⟨b, t⟩⟩
    · exact Or.inr ⟨_, rfl⟩
    · exact pivot_prefix_accepted hsw
    · simp [max_arguments] at hlen; omega
  case rect => exact rect_prefix_accepted hsw
  case tag =>
    rcases args with _ | ⟨a, _ | ⟨b, t⟩⟩
    · exact Or.inr ⟨_, rfl⟩
    · exact Or.inl ⟨_, _, rfl⟩
    · simp [max_arguments] at hlen; omega
  all_goals
    rcases args with _ | ⟨a, t⟩
    · first
      | exact Or.inr ⟨_, rfl⟩
      | exact Or.inl ⟨_, _, rfl⟩
    · simp [max_arguments] at hlen <;> omega

/-- C9: for every definition and argument list, (1) with more arguments than the
definition's required and optional ones `apply_definition` fails; (2) with fewer than
the required ones it fails; (3) whenever the `switch` has accepted what it consumed and
an argument is left, the error is `invalid argument count` (with the line number);
(4) a proper prefix of an accepted argument list (so that what is consumed of it is
valid) is accepted, or fails with `invalid argument count`. -/
theorem argument_count_enforced (env : Env) (s : State) (d : Definition)
    (args : List (List Char)) (p : InputParser) :
    (max_arguments d < args.length →
      ∃ e q, apply_definition env s d args p = (.error e, q)) ∧
    (args.length < min_arguments d →
      ∃ e q, apply_definition env s d args p = (.error e, q)) ∧
    (∀ s' rest q, apply_switch env s d args p = (.ok (s', rest), q) → rest ≠ [] →
      apply_definition env s d args p = (.error (count_error p), q)) ∧
    (∀ extra s' q, extra ≠ [] → apply_definition env s d (args ++ extra) p = (.ok s', q) →
      (∃ s'' q', apply_definition env s d args p = (.ok s'', q')) ∨
        ∃ q', apply_definition env s d args p = (.error (count_error p), q')) := by
  have hleft : ∀ s' rest q, apply_switch env s d args p = (.ok (s', rest), q) → rest ≠ [] →
      apply_definition env s d args p = (.error (count_error p), q) := by
    intro s' rest q h hr
    have hl := (apply_switch_consumed h).2.2
    unfold apply_definition
    cases rest with
    | nil => exact absurd rfl hr
    | cons a t =>
      simp only [run_bind, h, check, List.isEmpty_cons, Bool.false_eq_true, if_false, error,
        count_error, hl]
  refine ⟨?_, ?_, hleft, ?_⟩
  · intro hlen
    rcases hsw : apply_switch env s d args p with ⟨e | ⟨s', rest⟩, q⟩
    · exact ⟨e, q, by unfold apply_definition; simp only [run_bind, hsw]⟩
    · have hc := (apply_switch_consumed hsw).2.1
      have hr : rest ≠ [] := by
        intro h0
        rw [h0] at hc
        simp only [List.length_nil, zero_add] at hc
        omega
      exact ⟨_, q, hleft s' rest q hsw hr⟩
  · intro hlen
    rcases hsw : apply_switch env s d args p with ⟨e | ⟨s', rest⟩, q⟩
    · exact ⟨e, q, by unfold apply_definition; simp only [run_bind, hsw]⟩
    · have hc := (apply_switch_consumed hsw).1
      omega
  · intro extra s' q hne h
    rcases extra with _ | ⟨e, es⟩
    · exact absurd rfl hne
    rcases prefix_switch (accepted_switch h) with ⟨s2, q2, h2⟩ | ⟨q2, h2⟩
    · exact Or.inl ⟨s2, q2, switch_accepted h2⟩
    · exact Or.inr ⟨q2, switch_count_error h2⟩

/-- C9 (witness): `width 1 2` has more arguments than `width` takes and fails; the
listed lines fail with `invalid argument count`, here in line 3. -/
theorem argument_count_enforced_witness :
    (∃ e q, apply_definition (demo_env []) demo_state .width ["1".toList, "2".toList]
        { InputParser.new false with m_line_number := 3 } = (.error e, q)) ∧
    (∀ line ∈ [(Definition.begin, ["x".toList]), (.width, ["1".toList, "2".toList]),
        (.padding, ["1".toList, "2".toList, "3".toList]),
        (.tag, ["a".toList, "b".toList, "c".toList]),
        (.rect, ["0".toList, "0".toList, "8".toList]), (.span, ["2".toList])],
      (apply_definition (demo_env []) demo_state line.1 line.2
        { InputParser.new false with m_line_number := 3 }).1 =
        .error (.runtime_error "invalid argument count in line 3".toList)) :=
  ⟨(argument_count_enforced (demo_env []) demo_state .width ["1".toList, "2".toList]
      { InputParser.new false with m_line_number := 3 }).1 (by decide), by decide⟩

/-- C11 (failing input): the tokens of the line `a "" b` are `a`, the empty token and
`b`; none of them ends or begins with `+` or `-`, and `split_arguments` returns them.
`join_expressions` merges the empty token with `b` into the view of `" b`:
`ends_with_any` compares `npos` with `size() - 1`, which is `npos` for the empty view. -/
theorem join_expressions_empty_token :
    split_arguments empty_token_line =
      .ok (empty_token_views.map (View.chars empty_token_line)) ∧
    empty_token_views.map (View.chars empty_token_line) = ["a".toList, [], "b".toList] ∧
    ends_with_any [] "+-".toList = true ∧
    join_expressions empty_token_line empty_token_views = [⟨0, 1⟩, ⟨3, 3⟩] ∧
    (join_expressions empty_token_line empty_token_views).map (View.chars empty_token_line) =
      ["a".toList, "\" b".toList] := by
  refine ⟨?_, ?_, ?_, ?_, ?_⟩ <;> decide

theorem digitChar_spec (k : Nat) (h : k < 10) :
    is_digit (Nat.digitChar k) = true ∧ (Nat.digitChar k).toNat - '0'.toNat = k ∧
      Nat.digitChar k ≠ '-' := by
  interval_cases k <;> decide

theorem decimal_value_append (xs : List Char) (c : Char) :
    decimal_value (xs ++ [c]) = 10 * decimal_value xs + (c.toNat - '0'.toNat) := by
  unfold decimal_value
  rw [List.foldl_append]
  rfl

theorem toDigitsCore_spec : ∀ (fuel n : Nat) (ds : List Char), n < fuel →
    ∃ xs, Nat.toDigitsCore 10 fuel n ds = xs ++ ds ∧ xs ≠ [] ∧
      (∀ c ∈ xs, is_digit c = true ∧ c ≠ '-') ∧ decimal_value xs = n := by
  intro fuel
  induction fuel with
  | zero => intro n ds h; omega
  | succ fuel ih =>
    intro n ds h
    obtain ⟨d1, d2, d3⟩ := digitChar_spec (n % 10) (Nat.mod_lt _ (by decide))
    unfold Nat.toDigitsCore
    dsimp only
    by_cases h0 : n / 10 = 0
    · rw [if_pos h0]
      refine ⟨[Nat.digitChar (n % 10)], rfl, by simp, ?_, ?_⟩
      · intro c hc
        rw [List.mem_singleton] at hc
        rw [hc]; exact ⟨d1, d3⟩
      · have : decimal_value [Nat.digitChar (n % 10)] =
            (Nat.digitChar (n % 10)).toNat - '0'.toNat := by
          simp [decimal_value]
        rw [this, d2]
        omega
    · rw [if_neg h0]
      obtain ⟨xs, e1, e2, e3, e4⟩ := ih (n / 10) (Nat.digitChar (n % 10) :: ds) (by omega)
      refine ⟨xs ++ [Nat.digitChar (n % 10)], by rw [e1]; simp, by simp, ?_, ?_⟩
      · intro c hc
        rcases List.mem_append.1 hc with h1 | h1
        · exact e3 c h1
        · rw [List.mem_singleton] at h1
          rw [h1]; exact ⟨d1, d3⟩
      · rw [decimal_value_append, e4, d2]
        omega

theorem takeWhile_eq_self {l : List Char} {f : Char → Bool} (h : ∀ c ∈ l, f c = true) :
    l.takeWhile f = l := by
  induction l with
  | nil => rfl
  | cons c cs ih =>
    rw [List.takeWhile_cons, h c (List.mem_cons_self _ _),
      ih (fun x hx => h x (List.mem_cons_of_mem _ hx))]
    rfl

/-- The decimal numeral of a number that fits `int` is read back by `check_uint`. -/
theorem uint_value_to_string (n : Nat) (h : n ≤ 2147483647) :
    uint_value (to_string (n : Int)) = some (n : Int) := by
  obtain ⟨xs, e1, e2, e3, e4⟩ := toDigitsCore_spec (n + 1) n [] (by omega)
  rw [List.append_nil] at e1
  have hs : to_string (n : Int) = xs := by
    unfold to_string
    rw [if_neg (by omega)]
    simp only [Int.natAbs_ofNat]
    unfold Nat.toDigits
    exact e1
  have hhead : xs.head? ≠ some '-' := by
    cases xs with
    | nil => exact absurd rfl e2
    | cons c cs =>
      simp only [List.head?_cons, ne_eq, Option.some.injEq]
      exact (e3 c (List.mem_cons_self _ _)).2
  unfold uint_value from_chars_int
  rw [hs]
  simp only [hhead, decide_False, Bool.false_eq_true, if_false,
    takeWhile_eq_self (fun c hc => (e3 c hc).1), e2, e4]
  have h1 : (-2147483648 : Int) ≤ (n : Int) ∧ (n : Int) ≤ 2147483647 := by omega
  simp [h1]

theorem uint_value_nonneg {a : List Char} {n : Int} (h : uint_value a = some n) : 0 ≤ n := by
  unfold uint_value at h
  cases hx : from_chars_int a with
  | none => rw [hx] at h; cases h
  | some v =>
    rw [hx] at h
    dsimp only at h
    split at h
    · cases h; assumption
    · cases h

/-- What `padding` sets, for arguments that `check_uint` reads as numbers. -/
theorem padding_sets (env : Env) (s : State) (p : InputParser) (sn sa sb : List Char)
    (n a b : Int) (hn : uint_value sn = some n) (ha : uint_value sa = some a)
    (hb : uint_value sb = some b) :
    apply_definition env s .padding [sn] p =
      (.ok { s with shape_padding := n, border_padding := n }, p) ∧
    apply_definition env s .padding [] p =
      (.ok { s with shape_padding := 1, border_padding := 1 }, p) ∧
    apply_definition env s .padding [sa, sb] p =
      (.ok { s with shape_padding := a, border_padding := b }, p) := by
  refine ⟨?_, ?_, ?_⟩
  · simp [apply_definition, apply_switch, run_bind, check_uint_cons, hn, run_pure, check]
  · simp [apply_definition, apply_switch, run_bind, run_pure, check]
  · simp [apply_definition, apply_switch, run_bind, check_uint_cons, ha, hb, run_pure, check]

/-- C12 (counterexample): `padding 2147483648` and `padding 4294967295`, unsigned
integers that do not fit `int`, are rejected with `invalid number` and leave the state
and the members as they are, while `padding 2147483647` is accepted. -/
theorem padding_beyond_int_rejected :
    apply_definition (demo_env []) demo_state .padding ["2147483648".toList]
        { InputParser.new false with m_line_number := 1 } =
      (.error (.runtime_error "invalid number in line 1".toList),
        { InputParser.new false with m_line_number := 1 }) ∧
    apply_definition (demo_env []) demo_state .padding ["4294967295".toList]
        { InputParser.new false with m_line_number := 1 } =
      (.error (.runtime_error "invalid number in line 1".toList),
        { InputParser.new false with m_line_number := 1 }) ∧
    apply_definition (demo_env []) demo_state .padding ["2147483647".toList]
        { InputParser.new false with m_line_number := 1 } =
      (.ok { demo_state with shape_padding := 2147483647, border_padding := 2147483647 },
        { InputParser.new false with m_line_number := 1 }) := by
  refine ⟨by decide!, by decide!, by decide!⟩

/-- C12 (amended): for the decimal numerals of numbers `n`, `a`, `b` that fit `int`
(`check_uint` reads into an `int`): `padding n` sets shape-padding and border-padding
to `n`, `padding` without argument sets both to 1,
`padding a b` sets shape-padding to `a` and border-padding to `b`; no other member of
the state and nothing of the parser changes. -/
theorem padding_defaults (env : Env) (s : State) (p : InputParser) (n a b : Nat)
    (hn : n ≤ 2147483647) (ha : a ≤ 2147483647) (hb : b ≤ 2147483647) :
    apply_definition env s .padding [to_string (n : Int)] p =
      (.ok { s with shape_padding := n, border_padding := n }, p) ∧
    apply_definition env s .padding [] p =
      (.ok { s with shape_padding := 1, border_padding := 1 }, p) ∧
    apply_definition env s .padding [to_string (a : Int), to_string (b : Int)] p =
      (.ok { s with shape_padding := a, border_padding := b }, p) :=
  padding_sets env s p _ _ _ _ _ _ (uint_value_to_string n hn) (uint_value_to_string a ha)
    (uint_value_to_string b hb)

/-- C12 (witness): `padding 2` gives shape-padding 2 and border-padding 2, `padding 3 5`
gives 3 and 5. -/
theorem padding_defaults_witness :
    apply_definition (demo_env []) demo_state .padding ["2".toList] (InputParser.new false) =
      (.ok { demo_state with shape_padding := 2, border_padding := 2 }, InputParser.new false) ∧
    apply_definition (demo_env []) demo_state .padding ["3".toList, "5".toList]
        (InputParser.new false) =
      (.ok { demo_state with shape_padding := 3, border_padding := 5 }, InputParser.new false) :=
  ⟨(padding_defaults (demo_env []) demo_state (InputParser.new false) 2 3 5
      (by decide) (by decide) (by decide)).1,
   (padding_defaults (demo_env []) demo_state (InputParser.new false) 2 3 5
      (by decide) (by decide) (by decide)).2.2⟩

/-- What `check_color` returns for an argument that starts with `#`. -/
theorem check_color_cons (env : Env) (a : List Char) (t : List (List Char)) (p : InputParser)
    (h : a.head? = some '#') :
    check_color env (a :: t) p =
      (.ok (if (env.rgba_of_bits (istream_hex (a.drop 1))).a = 0 then
              { env.rgba_of_bits (istream_hex (a.drop 1)) with a := 255 }
            else env.rgba_of_bits (istream_hex (a.drop 1)), t), p) := by
  simp [check_color, run_bind, check_string_cons, check, h, run_pure]

/-- No order of the channels in the word makes both `#FF00FFFF` and `#102030` come out
in HTML notation: the first needs green in byte 2, the second in byte 1. -/
theorem no_layout_reads_html (env : Env) (s : State) (p : InputParser)
    (hl : byte_layout env) :
    ¬ (apply_definition env s .alpha ["colorkey".toList, "#FF00FFFF".toList] p =
          (.ok { s with alpha := .colorkey, alpha_colorkey := ⟨255, 0, 255, 255⟩ }, p) ∧
       apply_definition env s .colorkey ["#102030".toList] p =
          (.ok { s with colorkey := ⟨16, 32, 48, 255⟩ }, p)) := by
  obtain ⟨ir, ig, ib, ia, h1, h2, h3, h4, hv⟩ := hl
  rintro ⟨e1, e2⟩
  have a1 : (if (env.rgba_of_bits (istream_hex "FF00FFFF".toList)).a = 0 then
        { env.rgba_of_bits (istream_hex "FF00FFFF".toList) with a := 255 }
      else env.rgba_of_bits (istream_hex "FF00FFFF".toList)).g = 0 := by
    have := accepted_switch e1
    simp only [apply_switch, run_bind, check_string_cons] at this
    rw [if_pos (by decide), if_pos (by decide)] at this
    simp only [run_bind] at this
    rw [check_color_cons env _ _ _ (by decide)] at this
    simp only [run_pure, Prod.mk.injEq, Except.ok.injEq] at this
    have h5 := congrArg State.alpha_colorkey this.1.1
    have h6 := congrArg RGBA.g h5
    exact h6
  have a2 : (if (env.rgba_of_bits (istream_hex "102030".toList)).a = 0 then
        { env.rgba_of_bits (istream_hex "102030".toList) with a := 255 }
      else env.rgba_of_bits (istream_hex "102030".toList)).g = 32 := by
    have := accepted_switch e2
    simp only [apply_switch, run_bind] at this
    rw [check_color_cons env _ _ _ (by decide)] at this
    simp only [run_pure, Prod.mk.injEq, Except.ok.injEq] at this
    have h5 := congrArg State.colorkey this.1.1
    have h6 := congrArg RGBA.g h5
    exact h6
  have b1 : byte_of (istream_hex "FF00FFFF".toList) ig = 0 := by
    rw [hv] at a1
    split at a1 <;> exact a1
  have b2 : byte_of (istream_hex "102030".toList) ig = 32 := by
    rw [hv] at a2
    split at a2 <;> exact a2
  have c1 : istream_hex "FF00FFFF".toList = 4278255615 := by decide
  have c2 : istream_hex "102030".toList = 1056816 := by decide
  rw [c1] at b1
  rw [c2] at b2
  interval_cases ig <;> simp [byte_of] at b1 b2

/-- C13 (failing input): with the red channel in the lowest byte of `rgba` (the members
`r`, `g`, `b`, `a` in this order on a little-endian machine), `alpha colorkey #FF00FFFF`
sets the mode `colorkey` and stores the colour (255, 255, 0, 255), not (255, 0, 255, 255);
`colorkey #102030` stores (48, 32, 16, 255), `colorkey #10203040` stores (64, 48, 32, 16),
and `colorkey #FF00FF00` stores the alpha 255. -/
theorem html_colour_word_order :
    (apply_definition (demo_env []) demo_state .alpha
        ["colorkey".toList, "#FF00FFFF".toList] (InputParser.new false)).1 =
      .ok { demo_state with alpha := .colorkey, alpha_colorkey := ⟨255, 255, 0, 255⟩ } ∧
    (apply_definition (demo_env []) demo_state .colorkey ["#102030".toList]
        (InputParser.new false)).1 = .ok { demo_state with colorkey := ⟨48, 32, 16, 255⟩ } ∧
    (apply_definition (demo_env []) demo_state .colorkey ["#10203040".toList]
        (InputParser.new false)).1 = .ok { demo_state with colorkey := ⟨64, 48, 32, 16⟩ } ∧
    (apply_definition (demo_env []) demo_state .colorkey ["#FF00FF00".toList]
        (InputParser.new false)).1 = .ok { demo_state with colorkey := ⟨0, 255, 0, 255⟩ } := by
  refine ⟨?_, ?_, ?_, ?_⟩ <;> decide

theorem index_from_not_mem {w : List Char} {l : List (List Char)} (h : w ∉ l) :
    ∀ i, index_from w l i = -1 := by
  induction l with
  | nil => intro i; rfl
  | cons s t ih =>
    intro i
    unfold index_from
    rw [if_neg (fun e => h (by rw [e]; exact List.mem_cons_self _ _))]
    exact ih (fun hm => h (List.mem_cons_of_mem _ hm)) _

theorem index_from_mem {w : List Char} {l : List (List Char)} (h : w ∈ l) :
    ∀ i, 0 ≤ i → 0 ≤ index_from w l i := by
  induction l with
  | nil => cases h
  | cons s t ih =>
    intro i hi
    unfold index_from
    by_cases e : w = s
    · rw [if_pos e]; exact hi
    · rw [if_neg e]
      rcases List.mem_cons.1 h with h1 | h1
      · exact absurd h1 e
      · exact ih h1 _ (by omega)

theorem pivot_word_x {s : State} {w : List Char} (t : List (List Char)) (p : InputParser)
    (h : w ∈ x_words) :
    pivot_word s (w :: t) p =
      (.ok ({ s with pivot := { s.pivot with x := PivotX.of_index (index_of w x_words) } }, t),
        p) := by
  have h0 : index_of w ["left".toList, "center".toList, "right".toList] ≥ 0 := index_from_mem h 0 (le_refl 0)
  unfold pivot_word
  simp only [run_bind, check_string_cons]
  rw [if_pos h0]
  rfl

theorem pivot_word_y {s : State} {w : List Char} (t : List (List Char)) (p : InputParser)
    (h : w ∈ y_words) :
    pivot_word s (w :: t) p =
      (.ok ({ s with pivot := { s.pivot with y := PivotY.of_index (index_of w y_words) } }, t),
        p) := by
  have hx : w ∉ x_words := by
    intro hm
    simp only [x_words, y_words, List.mem_cons, List.mem_singleton, List.not_mem_nil,
      or_false] at h hm
    rcases h with rfl | rfl | rfl <;> revert hm <;> decide
  have h0 : ¬ index_of w ["left".toList, "center".toList, "right".toList] ≥ 0 := by
    have e := index_from_not_mem hx 0
    unfold x_words at e
    unfold index_of
    rw [e]; decide
  have h1 : index_of w ["top".toList, "middle".toList, "bottom".toList] ≥ 0 := index_from_mem h 0 (le_refl 0)
  unfold pivot_word
  simp only [run_bind, check_string_cons]
  rw [if_neg h0, if_pos h1]
  rfl

theorem pivot_word_invalid {s : State} {w : List Char} (t : List (List Char))
    (p : InputParser) (hx : w ∉ x_words) (hy : w ∉ y_words) :
    pivot_word s (w :: t) p = (.error (pivot_error w p), p) := by
  have h0 : ¬ index_of w ["left".toList, "center".toList, "right".toList] ≥ 0 := by
    have e := index_from_not_mem hx 0
    unfold x_words at e
    unfold index_of
    rw [e]; decide
  have h1 : ¬ index_of w ["top".toList, "middle".toList, "bottom".toList] ≥ 0 := by
    have e := index_from_not_mem hy 0
    unfold y_words at e
    unfold index_of
    rw [e]; decide
  unfold pivot_word
  simp only [run_bind, check_string_cons]
  rw [if_neg h0, if_neg h1]
  rfl

theorem axis_word_no_number {w : List Char} (h : w ∈ x_words ∨ w ∈ y_words) :
    from_chars_int w = none := by
  simp only [x_words, y_words, List.mem_cons, List.mem_singleton, List.not_mem_nil,
    or_false] at h
  rcases h with (rfl | rfl | rfl) | (rfl | rfl | rfl) <;> decide

/-- The `pivot` case of the `switch` when no number follows. -/
theorem pivot_switch_words {env : Env} {s : State} {w : List Char} (t : List (List Char))
    (p : InputParser) (h : from_chars_int w = none) :
    apply_switch env s .pivot (w :: t) p =
      match pivot_word s (w :: t) p with
      | (.ok (s1, r), q) => pivot_word s1 r q
      | (.error e, q) => (.error e, q) := by
  simp only [apply_switch, is_number_following, h, Option.isSome_none, Bool.false_eq_true,
    if_false, run_bind]
  rcases pivot_word s (w :: t) p with ⟨_ | ⟨s1, r⟩, q⟩ <;> rfl

/-- C14 (counterexample): `pivot center` is not accepted: the second round of the loop
asks for a word and throws `invalid argument count`. -/
theorem pivot_one_word_rejected :
    apply_definition (demo_env []) demo_state .pivot ["center".toList] (InputParser.new false) =
      (.error (.runtime_error "invalid argument count".toList), InputParser.new false) := by
  decide

theorem apply_definition_of_switch {env : Env} {s : State} {d : Definition}
    {args : List (List Char)} {p q : InputParser} {r : Except Exn (State × List (List Char))}
    (h : apply_switch env s d args p = (r, q)) :
    apply_definition env s d args p =
      match r with
      | .ok (s', rest) =>
        if rest.isEmpty then (.ok s', q) else (.error (count_error q), q)
      | .error e => (.error e, q) := by
  unfold apply_definition
  simp only [run_bind, h]
  cases r with
  | error e => rfl
  | ok v =>
    obtain ⟨s', rest⟩ := v
    dsimp only
    cases rest <;> rfl

/-- C14 (amended): `pivot` followed by one axis word fails with `invalid argument count`;
followed by a horizontal and a vertical axis word, in either order, it sets both axes to
the ordinals of the words and nothing else; a word in neither list fails with
`invalid pivot value` as the second word, and as the first word when no number can be
read from it. -/
theorem pivot_axis_words (env : Env) (s : State) (p : InputParser) (wx wy w : List Char)
    (t : List (List Char)) (hx : wx ∈ x_words) (hy : wy ∈ y_words)
    (hwx : w ∉ x_words) (hwy : w ∉ y_words) (hn : from_chars_int w = none) :
    apply_definition env s .pivot [wx] p = (.error (count_error p), p) ∧
    apply_definition env s .pivot [wy] p = (.error (count_error p), p) ∧
    apply_definition env s .pivot [wx, wy] p =
      (.ok { s with pivot := ⟨PivotX.of_index (index_of wx x_words),
                              PivotY.of_index (index_of wy y_words)⟩ }, p) ∧
    apply_definition env s .pivot [wy, wx] p =
      (.ok { s with pivot := ⟨PivotX.of_index (index_of wx x_words),
                              PivotY.of_index (index_of wy y_words)⟩ }, p) ∧
    apply_definition env s .pivot (w :: t) p = (.error (pivot_error w p), p) ∧
    apply_definition env s .pivot [wx, w] p = (.error (pivot_error w p), p) ∧
    apply_definition env s .pivot [wy, w] p = (.error (pivot_error w p), p) := by
  have nx := axis_word_no_number (Or.inl hx)
  have ny := axis_word_no_number (Or.inr hy)
  have h1 : apply_switch env s .pivot [wx] p = (.error (count_error p), p) := by
    simp only [pivot_switch_words _ _ nx, pivot_word_x _ _ hx, pivot_word_nil]
  have h2 : apply_switch env s .pivot [wy] p = (.error (count_error p), p) := by
    simp only [pivot_switch_words _ _ ny, pivot_word_y _ _ hy, pivot_word_nil]
  have h3 : apply_switch env s .pivot [wx, wy] p =
      (.ok ({ s with pivot := ⟨PivotX.of_index (index_of wx x_words),
                               PivotY.of_index (index_of wy y_words)⟩ }, []), p) := by
    simp only [pivot_switch_words _ _ nx, pivot_word_x _ _ hx, pivot_word_y _ _ hy]
  have h4 : apply_switch env s .pivot [wy, wx] p =
      (.ok ({ s with pivot := ⟨PivotX.of_index (index_of wx x_words),
                               PivotY.of_index (index_of wy y_words)⟩ }, []), p) := by
    simp only [pivot_switch_words _ _ ny, pivot_word_x _ _ hx, pivot_word_y _ _ hy]
  have h5 : apply_switch env s .pivot (w :: t) p = (.error (pivot_error w p), p) := by
    simp only [pivot_switch_words _ _ hn, pivot_word_invalid _ _ hwx hwy]
  have h6 : apply_switch env s .pivot [wx, w] p = (.error (pivot_error w p), p) := by
    simp only [pivot_switch_words _ _ nx, pivot_word_x _ _ hx, pivot_word_invalid _ _ hwx hwy]
  have h7 : apply_switch env s .pivot [wy, w] p = (.error (pivot_error w p), p) := by
    simp only [pivot_switch_words _ _ ny, pivot_word_y _ _ hy, pivot_word_invalid _ _ hwx hwy]
  exact ⟨by rw [apply_definition_of_switch h1], by rw [apply_definition_of_switch h2],
    by rw [apply_definition_of_switch h3]; rfl, by rw [apply_definition_of_switch h4]; rfl,
    by rw [apply_definition_of_switch h5], by rw [apply_definition_of_switch h6],
    by rw [apply_definition_of_switch h7]⟩

/-- C14 (witness): `pivot center` and `pivot top` fail, `pivot center top` and
`pivot top center` set the pivot to (center, top), `pivot nowhere` and `pivot center
nowhere` fail with `invalid pivot value 'nowhere'`. -/
theorem pivot_axis_words_witness :
    apply_definition (demo_env []) { demo_state with pivot := ⟨.left, .bottom⟩ } .pivot
        ["center".toList, "top".toList] (InputParser.new false) =
      (.ok { demo_state with pivot := ⟨.center, .top⟩ }, InputParser.new false) ∧
    apply_definition (demo_env []) { demo_state with pivot := ⟨.left, .bottom⟩ } .pivot
        ["top".toList, "center".toList] (InputParser.new false) =
      (.ok { demo_state with pivot := ⟨.center, .top⟩ }, InputParser.new false) ∧
    apply_definition (demo_env []) { demo_state with pivot := ⟨.left, .bottom⟩ } .pivot
        ["center".toList, "nowhere".toList] (InputParser.new false) =
      (.error (.runtime_error "invalid pivot value 'nowhere'".toList), InputParser.new false) :=
  ⟨(pivot_axis_words (demo_env []) { demo_state with pivot := ⟨.left, .bottom⟩ }
      (InputParser.new false) "center".toList "top".toList "nowhere".toList []
      (by decide) (by decide) (by decide) (by decide) (by decide)).2.2.1,
   (pivot_axis_words (demo_env []) { demo_state with pivot := ⟨.left, .bottom⟩ }
      (InputParser.new false) "center".toList "top".toList "nowhere".toList []
      (by decide) (by decide) (by decide) (by decide) (by decide)).2.2.2.1,
   (pivot_axis_words (demo_env []) { demo_state with pivot := ⟨.left, .bottom⟩ }
      (InputParser.new false) "center".toList "top".toList "nowhere".toList []
      (by decide) (by decide) (by decide) (by decide) (by decide)).2.2.2.2.2.1⟩

theorem error_text_head (l : Int) (c : Char) (m : List Char) :
    (error_text l (c :: m)).head? = some c := by
  unfold error_text
  split <;> rfl

theorem error_text_ne {l l' : Int} {c c' : Char} {m m' : List Char} (h : c ≠ c') :
    error_text l (c :: m) ≠ error_text l' (c' :: m') := by
  intro e
  have := congrArg List.head? e
  rw [error_text_head, error_text_head] at this
  exact h (Option.some.inj this)

/-- Without a grid `offset` and `skip` throw before they read an argument. -/
theorem no_grid_error (env : Env) (s : State) (p : InputParser) (args : List (List Char))
    (h : s.grid.empty = true) :
    apply_definition env s .offset args p = (.error (offset_grid_error p), p) ∧
      apply_definition env s .skip args p = (.error (skip_grid_error p), p) := by
  constructor
  · simp [apply_definition, apply_switch, run_bind, check, h, error, offset_grid_error]
  · simp [apply_definition, apply_switch, run_bind, check, h, error, skip_grid_error]

/-- What `skip` does when a grid is active. -/
theorem skip_switch (env : Env) (s : State) (p : InputParser) (args : List (List Char))
    (h : s.grid.empty = false) :
    apply_definition env s .skip args p =
      match args with
      | [] => (.ok s, { p with m_current_offset :=
          ⟨p.m_current_offset.x + 1 * s.grid.x, p.m_current_offset.y⟩ })
      | a :: t =>
        match uint_value a with
        | none => (.error (number_error p), p)
        | some n =>
          if t.isEmpty then
            (.ok s, { p with m_current_offset :=
              ⟨p.m_current_offset.x + n * s.grid.x, p.m_current_offset.y⟩ })
          else
            (.error (count_error p), { p with m_current_offset :=
              ⟨p.m_current_offset.x + n * s.grid.x, p.m_current_offset.y⟩ }) := by
  cases args with
  | nil =>
    simp [apply_definition, apply_switch, run_bind, check, h, run_pure, run_modify]
  | cons a t =>
    simp only [apply_definition, apply_switch, run_bind, check, h, Bool.not_false, if_true,
      run_pure, List.isEmpty_cons, check_uint_cons]
    cases uint_value a with
    | none => rfl
    | some n =>
      cases t with
      | nil => simp [run_modify, run_pure]
      | cons b t => simp [run_modify, run_pure, error, count_error]

/-- What `offset` does when a grid is active. -/
theorem offset_switch (env : Env) (s : State) (p : InputParser) (args : List (List Char))
    (h : s.grid.empty = false) :
    apply_definition env s .offset args p =
      match args with
      | [] => (.error (count_error p), p)
      | a :: t =>
        match env.stof a with
        | .invalid_argument => (.error .invalid_argument, p)
        | .out_of_range => (.error .out_of_range, p)
        | .value fx =>
          match t with
          | [] => (.error (count_error p), { p with m_current_offset :=
              ⟨env.scale fx s.grid.x, p.m_current_offset.y⟩ })
          | b :: t =>
            match env.stof b with
            | .invalid_argument => (.error .invalid_argument, { p with m_current_offset :=
                ⟨env.scale fx s.grid.x, p.m_current_offset.y⟩ })
            | .out_of_range => (.error .out_of_range, { p with m_current_offset :=
                ⟨env.scale fx s.grid.x, p.m_current_offset.y⟩ })
            | .value fy =>
              if t.isEmpty then
                (.ok s, { p with m_current_offset :=
                  ⟨env.scale fx s.grid.x, env.scale fy s.grid.y⟩ })
              else
                (.error (count_error p), { p with m_current_offset :=
                  ⟨env.scale fx s.grid.x, env.scale fy s.grid.y⟩ }) := by
  cases args with
  | nil =>
    simp [apply_definition, apply_switch, run_bind, check, h, run_pure, check_float_nil]
  | cons a t =>
    simp only [apply_definition, apply_switch, run_bind, check, h, Bool.not_false, if_true,
      run_pure, check_float_cons]
    cases env.stof a with
    | invalid_argument => rfl
    | out_of_range => rfl
    | value fx =>
      cases t with
      | nil => simp [run_modify, run_bind, check_float_nil, count_error]
      | cons b t =>
        simp only [run_modify, run_bind, check_float_cons]
        cases env.stof b with
        | invalid_argument => rfl
        | out_of_range => rfl
        | value fy =>
          cases t with
          | nil => simp [run_modify, run_pure]
          | cons c t => simp [run_modify, run_pure, error, count_error]

/-- C15: `offset` and `skip` throw `offset is only valid in grid` / `skip is only valid in
grid` when the grid of the state is empty, for every argument list, and the members
(the placement cursor among them) are then unchanged; when the grid is not empty they
never throw this error, whatever the arguments are. With a grid, `skip n` adds
`n * grid.x` to the x of the cursor (`n = 1` without argument) and keeps its y, provided
that the product and the sum fit `int` (the addition is one of `int` values in the
code, and an overflow there is undefined); `offset a b` with two numbers is accepted. -/
theorem offset_skip_need_grid (env : Env) (s : State) (p : InputParser)
    (args : List (List Char)) (n : Nat) (a b : List Char) (fx fy : Float32)
    (hn : n ≤ 2147483647) (ha : env.stof a = .value fx) (hb : env.stof b = .value fy) :
    (s.grid.empty = true →
      apply_definition env s .offset args p = (.error (offset_grid_error p), p) ∧
      apply_definition env s .skip args p = (.error (skip_grid_error p), p)) ∧
    (s.grid.empty = false →
      (∀ q, apply_definition env s .offset args p ≠ (.error (offset_grid_error p), q)) ∧
      (∀ q, apply_definition env s .skip args p ≠ (.error (skip_grid_error p), q)) ∧
      (fits_int (n * s.grid.x) → fits_int (p.m_current_offset.x + n * s.grid.x) →
        apply_definition env s .skip [to_string (n : Int)] p =
          (.ok s, { p with m_current_offset :=
            ⟨p.m_current_offset.x + n * s.grid.x, p.m_current_offset.y⟩ })) ∧
      (fits_int (p.m_current_offset.x + 1 * s.grid.x) →
        apply_definition env s .skip [] p =
          (.ok s, { p with m_current_offset :=
            ⟨p.m_current_offset.x + 1 * s.grid.x, p.m_current_offset.y⟩ })) ∧
      apply_definition env s .offset [a, b] p =
        (.ok s, { p with m_current_offset :=
          ⟨env.scale fx s.grid.x, env.scale fy s.grid.y⟩ })) := by
  refine ⟨fun h => no_grid_error env s p args h, fun h => ⟨?_, ?_, ?_, ?_, ?_⟩⟩
  · intro q
    rw [offset_switch env s p args h]
    have hc : count_error p ≠ offset_grid_error p := by
      unfold count_error offset_grid_error
      intro e
      exact error_text_ne (by decide) (Exn.runtime_error.inj e)
    have hi : Exn.invalid_argument ≠ offset_grid_error p := by
      unfold offset_grid_error; intro e; cases e
    have ho : Exn.out_of_range ≠ offset_grid_error p := by
      unfold offset_grid_error; intro e; cases e
    rcases args with _ | ⟨a1, _ | ⟨b1, t⟩⟩
    · intro e; exact hc (by simpa using congrArg Prod.fst e)
    · dsimp only
      cases env.stof a1 with
      | invalid_argument => intro e; exact hi (by simpa using congrArg Prod.fst e)
      | out_of_range => intro e; exact ho (by simpa using congrArg Prod.fst e)
      | value f => intro e; exact hc (by simpa using congrArg Prod.fst e)
    · dsimp only
      cases env.stof a1 with
      | invalid_argument => intro e; exact hi (by simpa using congrArg Prod.fst e)
      | out_of_range => intro e; exact ho (by simpa using congrArg Prod.fst e)
      | value f =>
        dsimp only
        cases env.stof b1 with
        | invalid_argument => intro e; exact hi (by simpa using congrArg Prod.fst e)
        | out_of_range => intro e; exact ho (by simpa using congrArg Prod.fst e)
        | value g =>
          dsimp only
          split
          · intro e; cases e
          · intro e; exact hc (by simpa using congrArg Prod.fst e)
  · intro q
    rw [skip_switch env s p args h]
    have hc : count_error p ≠ skip_grid_error p := by
      unfold count_error skip_grid_error
      intro e
      exact error_text_ne (by decide) (Exn.runtime_error.inj e)
    have hm : number_error p ≠ skip_grid_error p := by
      unfold number_error skip_grid_error
      intro e
      exact error_text_ne (by decide) (Exn.runtime_error.inj e)
    rcases args with _ | ⟨a1, t⟩
    · intro e; cases e
    · dsimp only
      cases uint_value a1 with
      | none => intro e; exact hm (by simpa using congrArg Prod.fst e)
      | some v =>
        dsimp only
        split
        · intro e; cases e
        · intro e; exact hc (by simpa using congrArg Prod.fst e)
  · intro _ _
    rw [skip_switch env s p _ h]
    simp [uint_value_to_string n hn]
  · intro _
    rw [skip_switch env s p _ h]
  · rw [offset_switch env s p _ h]
    simp [ha, hb]

set_option maxRecDepth 100000 in
/-- C15 (witness): with the grid 16 x 16 and the cursor at (0, 0), `skip 3` moves the
cursor to (48, 0) and `skip` moves it to (16, 0); without a grid `skip 3` throws in
line 2 and leaves the members.
With that grid `offset 1.5 0` puts the cursor to (24, 0), and `offset 1e99 0` ends in
the `std::out_of_range` of `std::stof`. -/
theorem offset_skip_need_grid_witness :
    apply_definition (demo_env []) { demo_state with grid := ⟨16, 16⟩ } .skip ["3".toList]
        (InputParser.new false) =
      (.ok { demo_state with grid := ⟨16, 16⟩ },
        { InputParser.new false with m_current_offset := ⟨48, 0⟩ }) ∧
    apply_definition (demo_env []) { demo_state with grid := ⟨16, 16⟩ } .skip []
        (InputParser.new false) =
      (.ok { demo_state with grid := ⟨16, 16⟩ },
        { InputParser.new false with m_current_offset := ⟨16, 0⟩ }) ∧
    apply_definition (demo_env []) demo_state .skip ["3".toList]
        { InputParser.new false with m_line_number := 2 } =
      (.error (.runtime_error "skip is only valid in grid in line 2".toList),
        { InputParser.new false with m_line_number := 2 }) ∧
    apply_definition (demo_env []) { demo_state with grid := ⟨16, 16⟩ } .offset
        ["1.5".toList, "0".toList] (InputParser.new false) =
      (.ok { demo_state with grid := ⟨16, 16⟩ },
        { InputParser.new false with m_current_offset := ⟨24, 0⟩ }) ∧
    apply_definition (demo_env []) { demo_state with grid := ⟨16, 16⟩ } .offset
        ["1e99".toList, "0".toList] (InputParser.new false) =
      (.error .out_of_range, InputParser.new false) :=
  ⟨((offset_skip_need_grid (demo_env []) { demo_state with grid := ⟨16, 16⟩ }
      (InputParser.new false) [] 3 "1".toList "2".toList ⟨1065353216⟩ ⟨1073741824⟩ (by decide)
      (by decide!) (by decide!)).2 (by decide)).2.2.1 (by decide) (by decide),
   ((offset_skip_need_grid (demo_env []) { demo_state with grid := ⟨16, 16⟩ }
      (InputParser.new false) [] 3 "1".toList "2".toList ⟨1065353216⟩ ⟨1073741824⟩ (by decide)
      (by decide!) (by decide!)).2 (by decide)).2.2.2.1 (by decide),
   ((offset_skip_need_grid (demo_env []) demo_state
      { InputParser.new false with m_line_number := 2 } ["3".toList] 3 "1".toList "2".toList
      ⟨1065353216⟩ ⟨1073741824⟩ (by decide) (by decide!) (by decide!)).1 (by decide)).2,
   by decide!, by decide!⟩

/-- The index of the scanned column (or row) of a coordinate `x` inside the used bounds
`b .. b1` lies in the scanned range when `x` is in a complete cell. -/
theorem scanned_index {x b b1 W g : Int} (hg : 0 < g) (hb : 0 ≤ b) (hbx : b ≤ x) (hx1 : x < b1)
    (hW : x < W / g * g) :
    (floor b g).tdiv g ≤ x / g ∧ x / g < (min (ceil b1 g) W).tdiv g := by
  have hb1 : 0 ≤ b1 := by omega
  have hx0 : 0 ≤ x := by omega
  rw [floor_tdiv hb hg, ceil_eq hb1 hg]
  have h1 : b / g ≤ x / g := Int.ediv_le_ediv hg hbx
  have h2 : (x / g + 1) * g ≤ W := by
    have h3 : x / g < W / g := by
      by_contra hc
      have h4 : W / g ≤ x / g := by omega
      have h5 := Int.ediv_mul_le x (ne_of_gt hg)
      have h6 : W / g * g ≤ x / g * g := Int.mul_le_mul_of_nonneg_right h4 (le_of_lt hg)
      omega
    have h5 := Int.ediv_mul_le W (ne_of_gt hg)
    have h6 : (x / g + 1) * g ≤ W / g * g :=
      Int.mul_le_mul_of_nonneg_right (by omega) (le_of_lt hg)
    omega
  have h3 : (x / g + 1) * g ≤ (b1 + g - 1) / g * g := by
    have h4 : x / g + 1 ≤ (b1 + g - 1) / g := by
      have h5 : x / g ≤ (b1 - 1) / g := Int.ediv_le_ediv hg (by omega)
      have h6 : (b1 + g - 1) / g = (b1 - 1) / g + 1 := by
        have : b1 + g - 1 = (b1 - 1) + g * 1 := by ring
        rw [this, Int.add_mul_ediv_left _ _ (ne_of_gt hg)]
      omega
    exact Int.mul_le_mul_of_nonneg_right h4 (le_of_lt hg)
  have h4 : (x / g + 1) * g ≤ min ((b1 + g - 1) / g * g) W := le_min h3 h2
  have h5 : 0 ≤ min ((b1 + g - 1) / g * g) W := by
    have : 0 ≤ (x / g + 1) * g :=
      Int.mul_nonneg (by have := Int.ediv_nonneg hx0 (le_of_lt hg); omega) (le_of_lt hg)
    omega
  rw [Int.tdiv_eq_ediv h5 (le_of_lt hg)]
  refine ⟨h1, ?_⟩
  have h6 : x / g + 1 ≤ min ((b1 + g - 1) / g * g) W / g := by
    rw [Int.le_ediv_iff_mul_le hg]
    exact h4
  omega

set_option maxRecDepth 100000 in
/-- C17 (counterexample): for a sheet of 3 x 1 pixels whose last pixel is solid and
cells of 2 x 1, `deduce_grid_sprites` returns without a sprite: the column range is
clipped to the sheet width, and the solid pixel lies in no rectangle. -/
theorem grid_deduction_clips_partial_cell :
    (sheet_3x1.rgba_at ⟨2, 0⟩).a ≠ 0 ∧
    (deduce_grid_sprites (demo_env [("a.png".toList, sheet_3x1)])
        { demo_state with sheet := FilenameSequence.mk_from "a.png".toList, grid := ⟨2, 1⟩ }
        (InputParser.new false)).1 =
      .ok { demo_state with sheet := FilenameSequence.mk_from "a.png".toList,
                            grid := ⟨2, 1⟩ } ∧
    (deduce_grid_sprites (demo_env [("a.png".toList, sheet_3x1)])
        { demo_state with sheet := FilenameSequence.mk_from "a.png".toList, grid := ⟨2, 1⟩ }
        (InputParser.new false)).2.m_sprites = [] := by
  refine ⟨by decide, by decide!, by decide!⟩

/-- C17 (amended): with positive cell size, no spacing and no offset, on a sheet that
can be loaded and is no sequence, `deduce_grid_sprites` returns, and every pixel of the
sheet that is not transparent and lies in a complete cell (left of
`width / gw * gw` and above `height / gh * gh`) is held by the source rectangle of one of
the sprites it appends. -/
theorem grid_deduction_covers (env : Env) (s : State) (p p1 : InputParser) (key : List Char)
    (sheet : Image) (hload : get_sheet env s p = (.ok (key, sheet), p1))
    (hs : s.sheet.empty = false) (hq : s.sheet.is_sequence = false)
    (hgx : 0 < s.grid.x) (hgy : 0 < s.grid.y)
    (hsp : s.grid_spacing = ⟨0, 0⟩) (hoff : s.grid_offset = ⟨0, 0⟩)
    (hw : 0 ≤ sheet.m_width) (hh : 0 ≤ sheet.m_height) :
    ∃ s' q new, deduce_grid_sprites env s p = (.ok s', q) ∧
      q.m_sprites = p.m_sprites ++ new ∧
      ∀ x y, 0 ≤ x → x < sheet.width / s.grid.x * s.grid.x →
        0 ≤ y → y < sheet.height / s.grid.y * s.grid.y →
        (sheet.rgba_at ⟨x, y⟩).a ≠ 0 →
        ∃ sprite ∈ new, sprite.source_rect.holds x y := by
  obtain ⟨hb, b1, b2, b3, b4, b5, b6⟩ := get_used_bounds_spec sheet hw hh
  obtain ⟨s', q, new, e1, e2, e3⟩ := deduce_grid_sprites_run hload hs hq
    (ne_of_gt hgx) (ne_of_gt hgy) (by rw [hsp]; simpa using ne_of_gt hgx)
    (by rw [hsp]; simpa using ne_of_gt hgy)
  refine ⟨s', q, new, e1, e2, ?_⟩
  intro x y hx0 hx1 hy0 hy1 ha
  have hsx : s.grid.x + s.grid_spacing.x = s.grid.x := by rw [hsp]; simp
  have hsy : s.grid.y + s.grid_spacing.y = s.grid.y := by rw [hsp]; simp
  rw [hsx, hsy] at e3
  have hxW : x < sheet.m_width := by
    have := Int.ediv_mul_le sheet.m_width (ne_of_gt hgx)
    unfold Image.width at hx1
    omega
  have hyH : y < sheet.m_height := by
    have := Int.ediv_mul_le sheet.m_height (ne_of_gt hgy)
    unfold Image.height at hy1
    omega
  obtain ⟨u1, u2, u3, u4⟩ := hb x y hx0 hxW hy0 hyH ha
  have cx := scanned_index hgx b1 u1 u2 hx1
  have cy := scanned_index hgy b4 u3 u4 hy1
  have hx2 : x / s.grid.x * s.grid.x ≤ x := Int.ediv_mul_le x (ne_of_gt hgx)
  have hx3 : x < (x / s.grid.x + 1) * s.grid.x := Int.lt_ediv_add_one_mul_self x hgx
  have hy2 : y / s.grid.y * s.grid.y ≤ y := Int.ediv_mul_le y (ne_of_gt hgy)
  have hy3 : y < (y / s.grid.y + 1) * s.grid.y := Int.lt_ediv_add_one_mul_self y hgy
  have hold : (scan_rect s s.grid (x / s.grid.x) (y / s.grid.y)).holds x y := by
    unfold Rect.holds scan_rect Rect.x1 Rect.y1
    rw [hoff]
    dsimp only
    refine ⟨by omega, ?_, by omega, ?_⟩
    · have : (x / s.grid.x + 1) * s.grid.x = x / s.grid.x * s.grid.x + s.grid.x := by ring
      omega
    · have : (y / s.grid.y + 1) * s.grid.y = y / s.grid.y * s.grid.y + s.grid.y := by ring
      omega
  have hmem : scan_rect s s.grid (x / s.grid.x) (y / s.grid.y) ∈
      new.map (fun sprite => sprite.source_rect) := by
    rw [e3]
    unfold scan_result
    rw [List.mem_flatMap]
    refine ⟨y / s.grid.y, mem_int_range.2 cy, ?_⟩
    rw [List.mem_map]
    refine ⟨x / s.grid.x, ?_, rfl⟩
    rw [List.mem_filter]
    refine ⟨mem_int_range.2 cx, ?_⟩
    rw [Bool.not_eq_true', ← Bool.not_eq_true, is_fully_transparent_iff]
    intro hall
    exact ha (hall x y hold.1 hold.2.1 hold.2.2.1 hold.2.2.2)
  obtain ⟨sprite, m1, m2⟩ := List.mem_map.1 hmem
  exact ⟨sprite, m1, by rw [m2]; exact hold⟩

set_option maxRecDepth 100000 in
/-- C17 (witness): the sheet of 4 x 1 pixels (solid, clear, solid, clear) with cells of
2 x 1: both solid pixels are held by a sprite. -/
theorem grid_deduction_covers_witness :
    ∃ s' q new,
      deduce_grid_sprites (demo_env [("a.png".toList, sheet_4x1)])
        { demo_state with sheet := FilenameSequence.mk_from "a.png".toList, grid := ⟨2, 1⟩ }
        (InputParser.new false) = (.ok s', q) ∧
      q.m_sprites = (InputParser.new false).m_sprites ++ new ∧
      ∀ x y, 0 ≤ x → x < sheet_4x1.width / 2 * 2 → 0 ≤ y → y < sheet_4x1.height / 1 * 1 →
        (sheet_4x1.rgba_at ⟨x, y⟩).a ≠ 0 →
        ∃ sprite ∈ new, sprite.source_rect.holds x y :=
  grid_deduction_covers (demo_env [("a.png".toList, sheet_4x1)])
    { demo_state with sheet := FilenameSequence.mk_from "a.png".toList, grid := ⟨2, 1⟩ }
    (InputParser.new false)
    { InputParser.new false with m_sheets := [("a.png".toList, some sheet_4x1)] }
    "a.png".toList sheet_4x1 (by decide!) (by decide) (by decide) (by decide) (by decide)
    (by decide) (by decide) (by decide) (by decide)

theorem get_sheet_file_error {env : Env} {path filename : List Char} {colorkey : RGBA}
    {p q : InputParser} {e : Exn}
    (h : get_sheet_file env path filename colorkey p = (.error e, q)) :
    e = .image_load (path_join path filename) := by
  unfold get_sheet_file at h
  dsimp only at h
  split at h
  · cases h
  · split at h
    · cases h; rfl
    · cases h

theorem get_sheet_error {env : Env} {s : State} {p q : InputParser} {e : Exn}
    (h : get_sheet env s p = (.error e, q)) : ∃ f, e = .image_load f := by
  unfold get_sheet get_sheet_at at h
  simp only [run_bind, run_get] at h
  exact ⟨_, get_sheet_file_error h⟩

/-- `sprite_ends` throws `sprite not on sheet` exactly when the sheet of the record is
empty; the members are then unchanged. -/
theorem sprite_ends_sheet_error (env : Env) (s : State) (p : InputParser) :
    (s.sheet.empty = true → sprite_ends env s p = (.error (sheet_error p), p)) ∧
    (s.sheet.empty = false → ∀ q, sprite_ends env s p ≠ (.error (sheet_error p), q)) := by
  constructor
  · intro h
    rw [sprite_ends_eq, if_pos h]
    rfl
  · intro h q
    rw [sprite_ends_eq, h]
    simp only [Bool.false_eq_true, if_false]
    rcases hg : get_sheet env (sprite_state s p)
        (with_texture env (sprite_state s p) (sprite_cursor s p)) with ⟨e | ⟨source, sheet⟩, q1⟩
    · obtain ⟨f, rfl⟩ := get_sheet_error hg
      intro e
      have := congrArg Prod.fst e
      unfold sheet_error at this
      cases this
    · intro e; cases e

theorem stops_at_sentinel (env : Env) (buffer : List Char) :
    stops_at (line_level buffer) (sentinel env) := by
  have := line_level_nonneg buffer
  refine ⟨fun h => ?_, ?_⟩
  · have h2 : line_level buffer ≤ -1 := h.2
    omega
  · show line_level buffer ≥ -1
    omega

/-- The first line with a keyword, read while only the sentinel is on the stack: a
record is pushed for it. -/
theorem parse_line_first {env : Env} {fuel : Nat} {buffer : List Char} {eof : Bool}
    {p : InputParser} {keyword : List Char} {arguments : List (List Char)} {loc : Locals}
    (hb : is_inert buffer = false)
    (htok : split_arguments (ltrim buffer) = .ok (keyword :: arguments))
    (hdef : get_definition keyword ≠ .none)
    (hstack : loc.scope_stack = [sentinel env]) :
    parse_line env fuel buffer eof loc p =
      match apply_definition env (line_state buffer (get_definition keyword) (sentinel env))
          (get_definition keyword) arguments p with
      | (.error e, q) => (.error e, q)
      | (.ok state, q2) =>
        (.ok ⟨line_detected buffer loc, [state, sentinel env],
              if p.autocomplete then [] else loc.autocomplete_space⟩,
          if p.autocomplete then
            { q2 with m_autocomplete_output :=
                q2.m_autocomplete_output ++ (loc.autocomplete_space ++ buffer ++ ['\n']) }
          else q2) := by
  rw [parse_line_on_top hb htok hdef hstack (stops_at_sentinel env buffer)]
  have ho : opens_scope (line_level buffer) (sentinel env) (get_definition keyword) = true := by
    unfold opens_scope
    have := line_level_nonneg buffer
    have h1 : line_level buffer > (sentinel env).level := by
      show line_level buffer > -1
      omega
    simp [h1]
  generalize apply_definition env _ (get_definition keyword) arguments p = r
  rcases r with ⟨_ | st, q⟩
  · rfl
  · simp only [ho, if_true]

/-- What `apply_definition` does for `sprite`. -/
theorem apply_definition_sprite (env : Env) (s : State) (args : List (List Char))
    (p : InputParser) :
    apply_definition env s .sprite args p =
      match args with
      | [] => (.ok s, p)
      | [name] => (.ok { s with sprite := name }, p)
      | _ :: _ :: _ => (.error (count_error p), p) := by
  rcases args with _ | ⟨a, _ | ⟨b, t⟩⟩ <;>
    simp [apply_definition, apply_switch, run_bind, run_pure, check_string_cons, check, error,
      count_error]

/-- Closing the record of a sprite that is not in a sheet at the end of `parse`. -/
theorem close_lone_sprite {env : Env} {fuel : Nat} {det buffer : List Char}
    {p : InputParser} (h0 : env.state0.sheet.empty = true) :
    pop_loop env fuel det (-1) [] [lone_sprite_record env buffer, sentinel env] p =
      (.error (sheet_error p), p) := by
  have hlev : (-1 : Int) ≤ (lone_sprite_record env buffer).level := by
    show (-1 : Int) ≤ line_level buffer
    have := line_level_nonneg buffer
    omega
  rw [pop_loop_close_back (show has_implicit_scope (lone_sprite_record env buffer).definition
    = true from rfl) hlev]
  have hs : scope_ends env fuel
      { lone_sprite_record env buffer with
        indent := (lone_sprite_record env buffer).indent ++ det } p =
      (.error (sheet_error p), p) :=
    (sprite_ends_sheet_error env _ p).1 h0
  rw [hs]

/-- C18: `sprite_ends` throws `sprite not on sheet` if and only if the sheet of the
record is empty, and the members (sprites, placement cursor, sequence index, sprite
counter) are then unchanged; `parse` fails for `sheet "a.png"` followed by `sprite` at
the same indentation, the sheet of the sentinel being empty. -/
theorem sprite_not_on_sheet (env : Env) (fuel : Nat) (autocomplete : Bool) (s : State)
    (p : InputParser) (h0 : env.state0.sheet.empty = true)
    (hdef : has_implicit_scope env.state0.definition = false) :
    (s.sheet.empty = true → sprite_ends env s p = (.error (sheet_error p), p)) ∧
    (s.sheet.empty = false → ∀ q, sprite_ends env s p ≠ (.error (sheet_error p), q)) ∧
    ∃ e q, parse env fuel "sheet \"a.png\"\nsprite".toList (InputParser.new autocomplete) =
      (.error e, q) := by
  refine ⟨(sprite_ends_sheet_error env s p).1, (sprite_ends_sheet_error env s p).2, ?_⟩
  have hlines : getlines "sheet \"a.png\"\nsprite".toList =
      [("sheet \"a.png\"".toList, false), ("sprite".toList, true)] := by decide
  have hd1 : get_definition "sheet".toList = .sheet := by decide
  have hd2 : get_definition "sprite".toList = .sprite := by decide
  rw [parse_eq, hlines]
  simp only [parse_loop, run_bind, run_modify]
  rw [@parse_line_first env fuel "sheet \"a.png\"".toList false _ "sheet".toList
    ["a.png".toList] (initial_locals env) (by decide) (by decide) (by rw [hd1]; decide) rfl,
    hd1, apply_definition_sheet]
  dsimp only
  generalize hP1 : (InputParser.mk _ (1 + 1) _ _ _ _ _ _ _) = P1
  rw [@parse_line_eq env fuel "sprite".toList true _ P1 "sprite".toList []
    (by decide) (by decide) (by rw [hd2]; decide)]
  dsimp only
  unfold pop_scope_stack
  have hl : line_level "sprite".toList = 0 := by decide
  rw [hl, pop_loop_close_back (show has_implicit_scope
    ({ line_state "sheet \"a.png\"".toList Definition.sheet (sentinel env) with
        sheet := FilenameSequence.mk_from "a.png".toList } : State).definition = true from rfl)
    (show (0 : Int) ≤ line_level "sheet \"a.png\"".toList by decide)]
  rcases hclose : scope_ends env fuel _ P1 with ⟨e | st, q⟩
  · exact ⟨e, q, rfl⟩
  · dsimp only
    have hstop : stops_at 0 (sentinel env) := by
      refine ⟨fun h => ?_, by show (0 : Int) ≥ -1; omega⟩
      have h1 : has_implicit_scope env.state0.definition = true := h.1
      rw [hdef] at h1
      cases h1
    rw [pop_loop_stop hstop]
    have hSd : st.definition = .sheet := closed_from_definition (scope_ends_closed hclose)
    have hkeep : keep_texture (top_key [st]) (sentinel env) = sentinel env := by
      simp [top_key, keep_texture, hSd]
    rw [hkeep]
    dsimp only
    rw [hd2, apply_definition_sprite]
    dsimp only
    have hop : opens_scope 0 (sentinel env) Definition.sprite = true := by
      simp [opens_scope, has_implicit_scope]
    simp only [hop, if_true, run_pure]
    have hrec : line_state "sprite".toList Definition.sprite (sentinel env) =
        lone_sprite_record env "sprite".toList := rfl
    rw [hrec, close_lone_sprite h0]
    exact ⟨_, _, rfl⟩

set_option maxRecDepth 100000 in
/-- C18 (witness): the record of a `sprite` line outside of a sheet makes `sprite_ends`
throw with the members unchanged, and `sheet "a.png"` followed by `sprite` in column 0
fails with `sprite not on sheet in line 3`, the sheet `a.png` being present. -/
theorem sprite_not_on_sheet_witness :
    sprite_ends (demo_env [("a.png".toList, sheet_4x1)]) demo_state
        { InputParser.new false with m_line_number := 2 } =
      (.error (.runtime_error "sprite not on sheet in line 2".toList),
        { InputParser.new false with m_line_number := 2 }) ∧
    (∃ e q, parse (demo_env [("a.png".toList, sheet_4x1)]) 0
        "sheet \"a.png\"\nsprite".toList (InputParser.new false) = (.error e, q)) ∧
    (parse (demo_env [("a.png".toList, sheet_4x1)]) 0
        "sheet \"a.png\"\nsprite".toList (InputParser.new false)).1 =
      .error (.runtime_error "sprite not on sheet in line 3".toList) :=
  ⟨(sprite_not_on_sheet (demo_env [("a.png".toList, sheet_4x1)]) 0 false demo_state
      { InputParser.new false with m_line_number := 2 } (by decide) (by decide)).1 (by decide),
   (sprite_not_on_sheet (demo_env [("a.png".toList, sheet_4x1)]) 0 false demo_state
      { InputParser.new false with m_line_number := 2 } (by decide) (by decide)).2.2,
   by decide!⟩

theorem get_texture_entry (env : Env) (s : State) (p : InputParser) :
    (with_texture env s p).m_textures.lookup (env.weakly_canonical s.texture) =
      some ((p.m_textures.lookup (env.weakly_canonical s.texture)).getD (texture_of s)) := by
  unfold with_texture get_texture
  cases h : p.m_textures.lookup (env.weakly_canonical s.texture) with
  | some t => simp only [h, Option.getD_some]
  | none => simp only [h, Option.getD_none, lookup_map_set_self]

theorem get_texture_other (env : Env) (s : State) (p : InputParser) {k : List Char}
    (h : k ≠ env.weakly_canonical s.texture) :
    (with_texture env s p).m_textures.lookup k = p.m_textures.lookup k := by
  unfold with_texture get_texture
  cases h2 : p.m_textures.lookup (env.weakly_canonical s.texture) with
  | some t => simp only [h2]
  | none => simp only [h2, lookup_map_set_ne _ _ h]

theorem get_texture_cached (env : Env) (s : State) (p : InputParser) {t : Texture}
    (h : p.m_textures.lookup (env.weakly_canonical s.texture) = some t) :
    with_texture env s p = p := by
  unfold with_texture get_texture
  simp only [h]

/-- C19: `get_texture` always returns the texture filed under the canonical path of
the state. When a second call follows with a state of the same canonical path, it
returns the same instance, leaves every member of the parser unchanged (no texture
is created), and the instance still has the value it had after the first call: the
attributes of the first state when the first call created it. For states with
different canonical paths the two instances differ, both are filed, and the second
call leaves the first instance unchanged. -/
theorem texture_cache_first_instance (env : Env) (s1 s2 : State) (p : InputParser) :
    ∃ p1 p2 t1, get_texture env s1 p = (.ok (env.weakly_canonical s1.texture), p1) ∧
      get_texture env s2 p1 = (.ok (env.weakly_canonical s2.texture), p2) ∧
      p1.m_textures.lookup (env.weakly_canonical s1.texture) = some t1 ∧
      p2.m_textures.lookup (env.weakly_canonical s1.texture) = some t1 ∧
      (p.m_textures.lookup (env.weakly_canonical s1.texture) = none → t1 = texture_of s1) ∧
      (env.weakly_canonical s1.texture = env.weakly_canonical s2.texture → p2 = p1) ∧
      (env.weakly_canonical s1.texture ≠ env.weakly_canonical s2.texture →
        ∃ t2, p2.m_textures.lookup (env.weakly_canonical s2.texture) = some t2 ∧
          (p1.m_textures.lookup (env.weakly_canonical s2.texture) = none →
            t2 = texture_of s2)) := by
  refine ⟨with_texture env s1 p, with_texture env s2 (with_texture env s1 p), _,
    get_texture_eq env s1 p, get_texture_eq env s2 _, get_texture_entry env s1 p, ?_, ?_, ?_, ?_⟩
  · by_cases hk : env.weakly_canonical s1.texture = env.weakly_canonical s2.texture
    · rw [get_texture_cached env s2 _ (hk ▸ get_texture_entry env s1 p)]
      exact get_texture_entry env s1 p
    · rw [get_texture_other env s2 _ hk]
      exact get_texture_entry env s1 p
  · intro h
    rw [h]
    rfl
  · intro hk
    exact get_texture_cached env s2 _ (hk ▸ get_texture_entry env s1 p)
  · intro _
    refine ⟨_, get_texture_entry env s2 _, ?_⟩
    intro h
    rw [h]
    rfl

/-- C19 (witness): two states with the texture path `a.png`, the second one with
width 64 instead of 0: after both calls on a fresh parser the one texture filed
under `a.png` has the attributes of the first state, width 0; a state with the path
`b.png` gets an instance of its own. -/
theorem texture_cache_first_instance_witness :
    (∃ p1 p2 t1,
      get_texture (demo_env []) { demo_state with texture := "a.png".toList }
        (InputParser.new false) = (.ok "a.png".toList, p1) ∧
      get_texture (demo_env []) { demo_state with texture := "a.png".toList, width := 64 } p1 =
        (.ok "a.png".toList, p2) ∧
      p1.m_textures.lookup "a.png".toList = some t1 ∧
      p2.m_textures.lookup "a.png".toList = some t1 ∧
      t1 = texture_of { demo_state with texture := "a.png".toList } ∧ p2 = p1) ∧
    ((get_texture (demo_env []) { demo_state with texture := "a.png".toList, width := 64 }
        (get_texture (demo_env []) { demo_state with texture := "a.png".toList }
          (InputParser.new false)).2).2.m_textures.map (fun e => (e.1, e.2.width)) =
      [("a.png".toList, 0)]) ∧
    ((get_texture (demo_env []) { demo_state with texture := "b.png".toList, width := 64 }
        (get_texture (demo_env []) { demo_state with texture := "a.png".toList }
          (InputParser.new false)).2).2.m_textures.map (fun e => (e.1, e.2.width)) =
      [("a.png".toList, 0), ("b.png".toList, 64)]) := by
  refine ⟨?_, by decide, by decide⟩
  obtain ⟨p1, p2, t1, h1, h2, h3, h4, h5, h6, -⟩ :=
    texture_cache_first_instance (demo_env []) { demo_state with texture := "a.png".toList }
      { demo_state with texture := "a.png".toList, width := 64 } (InputParser.new false)
  exact ⟨p1, p2, t1, h1, h2, h3, h4, h5 (by decide), h6 rfl⟩

set_option maxRecDepth 100000 in
/-- C20: with autocomplete enabled, the input `# a`, `# b` without a newline after
the last line gives the autocomplete output `# a` and its newline only: the comment
`# b` is lost, and the input `# b` alone gives an empty output. With a newline after
the last line both comments are written, and a last definition line without a
newline is written as well. -/
theorem last_comment_without_newline_lost :
    (parse (demo_env []) 0 "# a\n# b".toList (InputParser.new true)).1 =
      .ok [{ demo_state with level := -1, texture := default_texture_name }] ∧
    (parse (demo_env []) 0 "# a\n# b".toList (InputParser.new true)).2.m_autocomplete_output =
      "# a\n".toList ∧
    (parse (demo_env []) 0 "# b".toList (InputParser.new true)).2.m_autocomplete_output = [] ∧
    (parse (demo_env []) 0 "# a\n# b\n".toList (InputParser.new true)).2.m_autocomplete_output =
      "# a\n# b\n".toList ∧
    (parse (demo_env []) 0 "# a\ngrid 1 1".toList (InputParser.new true)).2.m_autocomplete_output =
      "# a\ngrid 1 1\n".toList := by
  refine ⟨?_, ?_, ?_, ?_, ?_⟩ <;> decide!

/-- `sprite_ends` returns when the record has a sheet and the file of this sheet
exists. -/
theorem sprite_ends_exists {env : Env} {s : State} {p : InputParser}
    (hs : s.sheet.empty = false)
    (hf : (env.fs (path_join s.path
      (s.sheet.get_nth_filename p.m_current_sequence_index))).isSome = true) :
    ∃ source sheet q, sprite_ends env s p = (.ok (sprite_state s p), q) ∧
      sprite_closed s p q (sprite_of (sprite_state s p) p.m_sprites.length
        (env.weakly_canonical s.texture) source sheet) := by
  rw [sprite_ends_eq, hs]
  simp only [Bool.false_eq_true, if_false]
  have hidx : (with_texture env (sprite_state s p) (sprite_cursor s p)).m_current_sequence_index =
      p.m_current_sequence_index := by
    rw [with_texture_eq, sprite_cursor_eq]
  have hg : ∃ sheet q, get_sheet env (sprite_state s p)
      (with_texture env (sprite_state s p) (sprite_cursor s p)) =
      (.ok (sheet_key env s p.m_current_sequence_index, sheet), q) ∧
      q = { p with m_textures := q.m_textures, m_sheets := q.m_sheets,
                   m_current_offset := (sprite_cursor s p).m_current_offset } := by
    unfold get_sheet get_sheet_at
    simp only [run_bind, run_get]
    rw [hidx, sprite_state_path, sprite_state_sheet, sprite_state_colorkey]
    obtain ⟨sheet, q, e1, -, e2, -⟩ := @get_sheet_file_exists env s.path
      (s.sheet.get_nth_filename p.m_current_sequence_index) s.colorkey
      (with_texture env (sprite_state s p) (sprite_cursor s p)) hf
    refine ⟨sheet, q, e1, ?_⟩
    have e3 := e2
    rw [with_texture_eq, sprite_cursor_eq] at e3
    rw [e3]
  obtain ⟨sheet, q, e1, e2⟩ := hg
  rw [e1]
  dsimp only
  refine ⟨sheet_key env s p.m_current_sequence_index, sheet, _, rfl, ?_⟩
  unfold sprite_closed
  dsimp only
  rw [e2]

/-- Sequential placement: `sprite_ends` for a record without a rectangle in a grid. -/
theorem sprite_ends_placed {env : Env} {s : State} {p : InputParser}
    (hs : s.sheet.empty = false)
    (hf : (env.fs (path_join s.path
      (s.sheet.get_nth_filename p.m_current_sequence_index))).isSome = true)
    (hr : s.rect.empty = true) (hg : s.grid.empty = false)
    (hx : s.span.x ≠ 0) (hy : s.span.y ≠ 0) :
    ∃ s' q sprite, sprite_ends env s p = (.ok s', q) ∧ sprite_closed s p q sprite ∧
      sprite.source_rect = ⟨p.m_current_offset.x, p.m_current_offset.y,
        s.grid.x * s.span.x, s.grid.y * s.span.y⟩ ∧
      q.m_current_offset = ⟨p.m_current_offset.x + s.grid.x * s.span.x, p.m_current_offset.y⟩ := by
  obtain ⟨source, sheet, q, e1, e2⟩ := sprite_ends_exists hs hf
  have hne : (⟨p.m_current_offset.x, p.m_current_offset.y,
      s.grid.x * s.span.x, s.grid.y * s.span.y⟩ : Rect).empty = false := by
    simp only [Size.empty, Bool.or_eq_false_iff, decide_eq_false_iff_not] at hg
    simp only [Rect.empty, Bool.or_eq_false_iff, decide_eq_false_iff_not]
    exact ⟨mul_ne_zero hg.1 hx, mul_ne_zero hg.2 hy⟩
  refine ⟨_, q, _, e1, e2, ?_, ?_⟩
  · simp only [sprite_of, sprite_state, hr, hg, Bool.not_false, Bool.and_self, if_true, hne]
  · rw [e2]
    simp only [sprite_cursor, hr, hg, Bool.not_false, Bool.and_self, if_true]

/-- A record with a rectangle: `sprite_ends` takes it and leaves the cursor. -/
theorem sprite_ends_declared {env : Env} {s : State} {p : InputParser}
    (hs : s.sheet.empty = false)
    (hf : (env.fs (path_join s.path
      (s.sheet.get_nth_filename p.m_current_sequence_index))).isSome = true)
    (hr : s.rect.empty = false) :
    ∃ s' q sprite, sprite_ends env s p = (.ok s', q) ∧ sprite_closed s p q sprite ∧
      sprite.source_rect = s.rect ∧ q.m_current_offset = p.m_current_offset := by
  obtain ⟨source, sheet, q, e1, e2⟩ := sprite_ends_exists hs hf
  refine ⟨_, q, _, e1, e2, ?_, ?_⟩
  · simp only [sprite_of, sprite_state, hr, Bool.false_and, Bool.false_eq_true, if_false,
      Bool.not_false, if_true]
  · rw [e2]
    simp only [sprite_cursor, hr, Bool.false_and, Bool.false_eq_true, if_false]

/-- The loop of `pop_scope_stack` at a texture, sheet or sprite record below
`scope_stack.back()`, at or below the level of the line: `scope_ends` runs on
`scope_stack.back()` with the definition of that record. -/
theorem pop_loop_close_below {env : Env} {fuel : Nat} {det : List Char} {level : Int}
    {back last : State} {mid below : List State} {p : InputParser}
    (hi : has_implicit_scope last.definition = true) (hl : level ≤ last.level) :
    pop_loop env fuel det level (back :: mid) (last :: below) p =
      match scope_ends env fuel { back with definition := last.definition } p with
      | (.error e, q) => (.error e, q)
      | (.ok state, q) => pop_loop env fuel det level (state :: mid ++ [last]) below q := by
  rw [pop_loop_cons]
  simp only [hi, hl, decide_True, Bool.and_self, if_true, run_bind]
  rcases scope_ends env fuel _ p with ⟨_ | state, q⟩ <;> rfl

/-- The loop of `pop_scope_stack` at a record above the level of the line that is no
texture, sheet or sprite record: the loop goes on below it. -/
theorem pop_loop_pass {env : Env} {fuel : Nat} {det : List Char} {level : Int}
    {above below : List State} {last : State} {p : InputParser}
    (hi : has_implicit_scope last.definition = false) (hl : level < last.level) :
    pop_loop env fuel det level above (last :: below) p =
      pop_loop env fuel det level (above ++ [last]) below p := by
  rw [pop_loop_cons]
  have h2 : ¬ level ≥ last.level := by omega
  simp only [hi, Bool.false_and, Bool.false_eq_true, if_false, h2]

/-- The scope of a sprite on top of the stack is closed by a line at its level that
stops at the record below. -/
theorem pop_sprite_scope {env : Env} {fuel : Nat} {det : List Char} {level : Int}
    {B S : State} {below : List State} {p : InputParser}
    (hB : B.definition = .sprite) (hl : level ≤ B.level) (hstop : stops_at level S) :
    pop_scope_stack env fuel det level (B :: S :: below) p =
      match sprite_ends env { B with indent := B.indent ++ det } p with
      | (.error e, q) => (.error e, q)
      | (.ok _, q) => (.ok (S :: below), q) := by
  unfold pop_scope_stack
  rw [pop_loop_close_back (by rw [hB]; rfl) hl]
  have e : scope_ends env fuel { B with indent := B.indent ++ det } p =
      sprite_ends env { B with indent := B.indent ++ det } p := by
    unfold scope_ends
    simp only [hB]
  rw [e]
  rcases hx : sprite_ends env { B with indent := B.indent ++ det } p with ⟨_ | B', q⟩
  · rfl
  · dsimp only
    rw [pop_loop_stop hstop]
    have hd : B'.definition = .sprite := by
      have := sprite_ends_closed hx
      unfold State.closed_from at this
      rw [this]
      exact hB
    simp only [top_key, List.getLast?_singleton, Option.map_some', keep_texture, hd]
    rfl

/-- A `sprite` line, when the pop phase leaves the record `S` of a lower level on top. -/
theorem sprite_line_step {env : Env} {fuel : Nat} {l : List Char} {eof : Bool} {loc : Locals}
    {p q1 : InputParser} {S : State} {below : List State} {L1 : Int}
    (hl : sprite_line L1 l)
    (hpop : pop_scope_stack env fuel loc.detected_indetation (line_level l) loc.scope_stack p =
      (.ok (S :: below), q1)) :
    ∃ loc' q B, parse_line env fuel l eof loc p = (.ok loc', q) ∧
      loc'.scope_stack = B :: S :: below ∧ placed_in S L1 B ∧
      q = { q1 with m_autocomplete_output := q.m_autocomplete_output } := by
  obtain ⟨hb, hlevel, htok⟩ := hl
  have hd : get_definition "sprite".toList = .sprite := by decide
  have ho : opens_scope (line_level l) S .sprite = true := by
    simp [opens_scope, has_implicit_scope]
  rcases htok with htok | ⟨name, htok⟩
  · rw [parse_line_eq hb htok (by rw [hd]; decide), hpop]
    dsimp only
    rw [hd, apply_definition_sprite]
    dsimp only
    rw [ho]
    refine ⟨_, _, line_state l .sprite S, rfl, rfl, ⟨rfl, hlevel, rfl, rfl, rfl, rfl, rfl⟩, ?_⟩
    split <;> rfl
  · rw [parse_line_eq hb htok (by rw [hd]; decide), hpop]
    dsimp only
    rw [hd, apply_definition_sprite]
    dsimp only
    rw [ho]
    refine ⟨_, _, { line_state l .sprite S with sprite := name }, rfl, rfl,
      ⟨rfl, hlevel, rfl, rfl, rfl, rfl, rfl⟩, ?_⟩
    split <;> rfl

theorem row_rects_snoc (g : Size) (n : Nat) :
    ∀ c : Point, row_rects g (n + 1) c =
      row_rects g n c ++ [⟨c.x + n * g.x, c.y, g.x, g.y⟩] := by
  induction n with
  | zero => intro c; simp [row_rects]
  | succ n ih =>
    intro c
    rw [row_rects, ih, row_rects]
    simp only [List.cons_append, Nat.cast_add, Nat.cast_one]
    congr 3
    ring_nf

theorem row_rects_length (g : Size) (n : Nat) : ∀ c : Point, (row_rects g n c).length = n := by
  induction n with
  | zero => intro c; rfl
  | succ n ih => intro c; simp [row_rects, ih]

theorem row_rects_get (g : Size) (n : Nat) :
    ∀ (c : Point) (k : Nat), k < n →
      (row_rects g n c)[k]? = some ⟨c.x + k * g.x, c.y, g.x, g.y⟩ := by
  induction n with
  | zero => intro c k h; omega
  | succ n ih =>
    intro c k h
    cases k with
    | zero => simp [row_rects]
    | succ k =>
      rw [row_rects, List.getElem?_cons_succ, ih _ k (by omega)]
      simp only [Nat.cast_add, Nat.cast_one, Option.some.injEq, Rect.mk.injEq, and_true]
      ring

/-- The record `X` of a sprite in the scope of the sheet `S` of a grid is closed: the
sprite gets the cell at the cursor, and the cursor moves on by the width of a cell. -/
theorem sprite_ends_in_row {env : Env} {S X : State} {p : InputParser}
    (hS : grid_sheet env S) (h1 : X.sheet = S.sheet) (h2 : X.path = S.path)
    (h3 : X.rect = S.rect) (h4 : X.grid = S.grid) (h5 : X.span = S.span) :
    ∃ s' q sprite, sprite_ends env X p = (.ok s', q) ∧
      q.m_sprites = p.m_sprites ++ [sprite] ∧
      sprite.source_rect = ⟨p.m_current_offset.x, p.m_current_offset.y, S.grid.x, S.grid.y⟩ ∧
      q.m_current_offset = ⟨p.m_current_offset.x + S.grid.x, p.m_current_offset.y⟩ ∧
      q.m_sprites_in_current_sheet = p.m_sprites_in_current_sheet + 1 ∧
      q.m_line_number = p.m_line_number ∧ q.autocomplete = p.autocomplete := by
  obtain ⟨-, a2, a3, a4, a5, a6, a7⟩ := hS
  have hx : X.span.x ≠ 0 := by rw [h5, a6]; decide
  have hy : X.span.y ≠ 0 := by rw [h5, a6]; decide
  have hf : (env.fs (path_join X.path
      (X.sheet.get_nth_filename p.m_current_sequence_index))).isSome = true := by
    rw [h1, h2]
    unfold FilenameSequence.get_nth_filename
    unfold FilenameSequence.is_sequence at a3
    rw [a3]
    exact a7
  obtain ⟨s', q, sprite, e1, e2, e3, e4⟩ := sprite_ends_placed (by rw [h1]; exact a2) hf
    (by rw [h3]; exact a4) (by rw [h4]; exact a5) hx hy
  rw [h4, h5, a6] at e3 e4
  simp only [mul_one] at e3 e4
  unfold sprite_closed at e2
  refine ⟨s', q, sprite, e1, ?_, e3, e4, ?_, ?_, ?_⟩ <;> rw [e2]

/-- A `sprite` line that follows an open `sprite` scope at its level in the scope of
a sheet with a grid: the open sprite is closed into the cell at the cursor. -/
theorem sprite_line_in_row {env : Env} {fuel : Nat} {l : List Char} {eof : Bool}
    {loc : Locals} {p : InputParser} {S B : State} {below : List State} {L1 : Int}
    (hS : grid_sheet env S) (hlev : S.level < L1) (hl : sprite_line L1 l)
    (hstack : loc.scope_stack = B :: S :: below) (hB : placed_in S L1 B) :
    ∃ loc' q B' sprite, parse_line env fuel l eof loc p = (.ok loc', q) ∧
      loc'.scope_stack = B' :: S :: below ∧ placed_in S L1 B' ∧
      q.m_sprites = p.m_sprites ++ [sprite] ∧
      sprite.source_rect = ⟨p.m_current_offset.x, p.m_current_offset.y, S.grid.x, S.grid.y⟩ ∧
      q.m_current_offset = ⟨p.m_current_offset.x + S.grid.x, p.m_current_offset.y⟩ ∧
      q.m_sprites_in_current_sheet = p.m_sprites_in_current_sheet + 1 := by
  obtain ⟨b1, b2, b3, b4, b5, b6, b7⟩ := hB
  have hstop : stops_at (line_level l) S := by
    rw [hl.2.1]
    exact ⟨fun h => by omega, by omega⟩
  obtain ⟨s', q1, sprite, e1, e2, e3, e4, e5, -, -⟩ :=
    @sprite_ends_in_row env S { B with indent := B.indent ++ loc.detected_indetation } p
      hS b3 b4 b5 b6 b7
  have hpop : pop_scope_stack env fuel loc.detected_indetation (line_level l) loc.scope_stack p =
      (.ok (S :: below), q1) := by
    rw [hstack, pop_sprite_scope b1 (by rw [hl.2.1, b2]) hstop, e1]
  obtain ⟨loc', q, B', f1, f2, f3, f4⟩ := @sprite_line_step env fuel l eof loc p q1 S below L1
    hl hpop
  refine ⟨loc', q, B', sprite, f1, f2, f3, ?_, e3, ?_, ?_⟩
  · rw [f4]; exact e2
  · rw [f4]; exact e4
  · rw [f4]; exact e5

/-- The lines of sprites in a row: `n` lines after an open `sprite` scope close `n`
sprites into the cells from the cursor on and leave the last one open. -/
theorem sprite_lines_run {env : Env} {fuel : Nat} {S : State} {below : List State} {L1 : Int}
    (hS : grid_sheet env S) (hlev : S.level < L1) (lines : List (List Char × Bool)) :
    ∀ (n : Int) (loc : Locals) (p : InputParser) (B : State),
      (∀ l ∈ lines, sprite_line L1 l.1) →
      loc.scope_stack = B :: S :: below → placed_in S L1 B →
      ∃ loc' m q B' new, parse_loop env fuel lines n loc p = (.ok (loc', m), q) ∧
        loc'.scope_stack = B' :: S :: below ∧ placed_in S L1 B' ∧
        q.m_sprites = p.m_sprites ++ new ∧
        new.map (fun x => x.source_rect) = row_rects S.grid lines.length p.m_current_offset ∧
        q.m_current_offset =
          ⟨p.m_current_offset.x + lines.length * S.grid.x, p.m_current_offset.y⟩ ∧
        q.m_sprites_in_current_sheet = p.m_sprites_in_current_sheet + lines.length := by
  induction lines with
  | nil =>
    intro n loc p B _ hstack hB
    exact ⟨loc, n, p, B, [], rfl, hstack, hB, by simp, rfl, by simp, by simp⟩
  | cons line rest ih =>
    intro n loc p B hl hstack hB
    obtain ⟨l, eof⟩ := line
    simp only [parse_loop, run_bind, run_modify]
    obtain ⟨loc1, q1, B1, sprite, e1, e2, e3, e4, e5, e6, e7⟩ :=
      @sprite_line_in_row env fuel l eof loc { p with m_line_number := n } S B below L1
        hS hlev (hl (l, eof) (List.mem_cons_self _ _)) hstack hB
    rw [e1]
    dsimp only
    obtain ⟨loc2, m, q2, B2, new, f1, f2, f3, f4, f5, f6, f7⟩ := ih (n + 1) loc1 q1 B1
      (fun x hx => hl x (List.mem_cons_of_mem _ hx)) e2 e3
    refine ⟨loc2, m, q2, B2, sprite :: new, f1, f2, f3, ?_, ?_, ?_, ?_⟩
    · rw [f4, e4]
      simp
    · rw [List.map_cons, f5, e5, e6]
      rfl
    · rw [f6, e6]
      simp only [List.length_cons, Nat.cast_add, Nat.cast_one, Point.mk.injEq, and_true]
      ring
    · rw [f7, e7]
      simp only [List.length_cons, Nat.cast_add, Nat.cast_one]
      ring

/-- `sheet_ends` when sprites have been declared in the sheet: no deduction runs, the
counter is reset. -/
theorem sheet_ends_counted {env : Env} {fuel : Nat} {s : State} {p : InputParser}
    (h : p.m_sprites_in_current_sheet ≠ 0) :
    sheet_ends env fuel s p = (.ok s, { p with m_sprites_in_current_sheet := 0 }) := by
  unfold sheet_ends
  simp only [run_bind, run_get, h, if_false, run_pure, run_modify]

/-- The end of `parse` with an open sprite in a sheet: the sprite is closed, then the
sheet, for which no deduction runs. -/
theorem close_sprite_and_sheet {env : Env} {fuel : Nat} {det : List Char}
    {B S B' : State} {below : List State} {p q1 : InputParser}
    (hB : B.definition = .sprite) (hBl : -1 ≤ B.level)
    (hSd : S.definition = .sheet) (hSl : -1 ≤ S.level)
    (hx : sprite_ends env { B with indent := B.indent ++ det } p = (.ok B', q1))
    (hc : q1.m_sprites_in_current_sheet ≠ 0) :
    pop_loop env fuel det (-1) [] (B :: S :: below) p =
      pop_loop env fuel det (-1) [{ B' with definition := .sheet }, S] below
        { q1 with m_sprites_in_current_sheet := 0 } := by
  rw [pop_loop_close_back (by rw [hB]; rfl) hBl]
  have e : scope_ends env fuel { B with indent := B.indent ++ det } p =
      sprite_ends env { B with indent := B.indent ++ det } p := by
    unfold scope_ends
    simp only [hB]
  rw [e, hx]
  dsimp only
  rw [pop_loop_close_below (by rw [hSd]; rfl) hSl]
  have e2 : scope_ends env fuel { B' with definition := S.definition } q1 =
      (.ok { B' with definition := .sheet }, { q1 with m_sprites_in_current_sheet := 0 }) := by
    unfold scope_ends
    simp only [hSd]
    exact sheet_ends_counted hc
  rw [e2]
  rfl

/-- The loop of `pop_scope_stack` at the end of `parse`, at the sentinel. -/
theorem pop_loop_sentinel {env : Env} {fuel : Nat} {det : List Char} {above : List State}
    {top : State} {p : InputParser} (hdef : has_implicit_scope env.state0.definition = false)
    (htop : above.getLast? = some top) (hd : top.definition ≠ .texture) :
    pop_loop env fuel det (-1) above [sentinel env] p = (.ok [sentinel env], p) := by
  have hstop : stops_at (-1) (sentinel env) := by
    refine ⟨fun h => ?_, le_refl _⟩
    have : has_implicit_scope (sentinel env).definition = false := hdef
    rw [this] at h
    exact absurd h.1 (by decide)
  rw [pop_loop_stop hstop]
  simp only [top_key, htop, Option.map_some', keep_texture, hd, if_false]

/-- What `apply_definition` does for `grid` with two numbers. -/
theorem apply_definition_grid {env : Env} {s : State} {a b : List Char} {x y : Int}
    (p : InputParser) (ha : uint_value a = some x) (hb : uint_value b = some y) :
    apply_definition env s .grid [a, b] p = (.ok { s with grid := ⟨x, y⟩ }, p) := by
  simp [apply_definition, apply_switch, check_size, run_bind, check_uint_cons, ha, hb, run_pure,
    check]

theorem parse_loop_cons_ok {env : Env} {fuel : Nat} {l : List Char} {eof : Bool}
    {rest : List (List Char × Bool)} {n : Int} {loc loc1 : Locals} {p q1 : InputParser}
    (h : parse_line env fuel l eof loc { p with m_line_number := n } = (.ok loc1, q1)) :
    parse_loop env fuel ((l, eof) :: rest) n loc p = parse_loop env fuel rest (n + 1) loc1 q1 := by
  simp only [parse_loop, run_bind, run_modify]
  rw [h]

/-- The pop phase at a record at which it stops at once: nothing is closed. -/
theorem pop_scope_stack_stop {env : Env} {fuel : Nat} {det : List Char} {level : Int}
    {back : State} {below : List State} {p : InputParser} (hstop : stops_at level back) :
    pop_scope_stack env fuel det level (back :: below) p = (.ok (back :: below), p) := by
  unfold pop_scope_stack
  rw [pop_loop_stop hstop]
  rfl

/-- A `grid` line with two numbers, read while only the sentinel is on the stack. -/
theorem grid_line_step {env : Env} {fuel : Nat} {g a b : List Char} {eof : Bool}
    {loc : Locals} {p : InputParser} {gw gh : Int}
    (hg : is_inert g = false)
    (hgtok : split_arguments (ltrim g) = .ok ["grid".toList, a, b])
    (ha : uint_value a = some gw) (hb : uint_value b = some gh)
    (hstack : loc.scope_stack = [sentinel env]) :
    ∃ loc' q, parse_line env fuel g eof loc p = (.ok loc', q) ∧
      loc'.scope_stack = [grid_record env g gw gh, sentinel env] ∧
      q = { p with m_autocomplete_output := q.m_autocomplete_output } := by
  have hd1 : get_definition "grid".toList = .grid := by decide
  rw [parse_line_first hg hgtok (by rw [hd1]; decide) hstack, hd1, apply_definition_grid _ ha hb]
  refine ⟨_, _, rfl, rfl, ?_⟩
  split <;> rfl

/-- A `sheet` line on top of a record of its level or a lower one that is no texture,
sheet or sprite record. -/
theorem sheet_line_step {env : Env} {fuel : Nat} {sl name : List Char} {eof : Bool}
    {loc : Locals} {p : InputParser} {G : State} {below : List State}
    (hs : is_inert sl = false)
    (hstok : split_arguments (ltrim sl) = .ok ["sheet".toList, name])
    (hstack : loc.scope_stack = G :: below)
    (hG : has_implicit_scope G.definition = false) (hlevel : G.level ≤ line_level sl) :
    ∃ loc' q, parse_line env fuel sl eof loc p = (.ok loc', q) ∧
      loc'.scope_stack = sheet_on G sl name :: G :: below ∧
      q = { p with m_autocomplete_output := q.m_autocomplete_output,
                   m_current_offset := ⟨0, 0⟩, m_current_sequence_index := 0 } := by
  have hd2 : get_definition "sheet".toList = .sheet := by decide
  have hstop : stops_at (line_level sl) G :=
    ⟨fun h => by rw [hG] at h; exact absurd h.1 (by decide), hlevel⟩
  have ho : opens_scope (line_level sl) G .sheet = true := by
    simp [opens_scope, has_implicit_scope]
  rw [parse_line_on_top hs hstok (by rw [hd2]; decide) hstack hstop, hd2, apply_definition_sheet]
  dsimp only
  rw [ho]
  refine ⟨_, _, rfl, rfl, ?_⟩
  split <;> rfl

/-- A `grid` line, a `sheet` line and `sprite` lines at one deeper level: the sprites
get the cells of the first row of the grid, from the left. -/
theorem sprites_in_row {env : Env} {fuel : Nat} {p : InputParser}
    {input g sl a b name : List Char} {e1 e2 : Bool} {first : List Char × Bool}
    {rest tail : List (List Char × Bool)} {gw gh L1 : Int}
    (hlines : getlines input = (g, e1) :: (sl, e2) :: first :: (rest ++ tail))
    (hg : is_inert g = false)
    (hgtok : split_arguments (ltrim g) = .ok ["grid".toList, a, b])
    (ha : uint_value a = some gw) (hb : uint_value b = some gh)
    (hgw : gw ≠ 0) (hgh : gh ≠ 0)
    (hs : is_inert sl = false)
    (hstok : split_arguments (ltrim sl) = .ok ["sheet".toList, name])
    (hlevel : line_level g ≤ line_level sl)
    (hname : (FilenameSequence.mk_from name).empty = false)
    (hseq : (FilenameSequence.mk_from name).is_sequence = false)
    (hfile : (env.fs (path_join env.state0.path
      (FilenameSequence.mk_from name).filename)).isSome = true)
    (hdef : has_implicit_scope env.state0.definition = false)
    (hrect : env.state0.rect.empty = true) (hspan : env.state0.span = ⟨1, 1⟩)
    (hL1 : line_level sl < L1)
    (hfirst : sprite_line L1 first.1) (hrest : ∀ l ∈ rest, sprite_line L1 l.1)
    (htail : ∀ l ∈ tail, is_inert l.1 = true) :
    ∃ q, parse env fuel input p = (.ok [sentinel env], q) ∧
      q.m_sprites.map (fun x => x.source_rect) =
        p.m_sprites.map (fun x => x.source_rect) ++ row_rects ⟨gw, gh⟩ (rest.length + 1) ⟨0, 0⟩ := by
  have hS : grid_sheet env (sheet_on (grid_record env g gw gh) sl name) := by
    refine ⟨rfl, hname, hseq, hrect, ?_, hspan, hfile⟩
    simp [sheet_on, line_state, grid_record, Size.empty, hgw, hgh]
  obtain ⟨l0, e3⟩ := first
  rw [parse_eq, hlines]
  -- the `grid` line
  obtain ⟨loc1, q1, h1, s1, m1⟩ := @grid_line_step env fuel g a b e1 (initial_locals env)
    { parse_start p with m_line_number := 1 } gw gh hg hgtok ha hb rfl
  rw [parse_loop_cons_ok h1]
  -- the `sheet` line
  obtain ⟨loc2, q2, h2, s2, m2⟩ := @sheet_line_step env fuel sl name e2 loc1
    { q1 with m_line_number := 1 + 1 } (grid_record env g gw gh) [sentinel env] hs hstok s1
    rfl hlevel
  rw [parse_loop_cons_ok h2]
  -- the first `sprite` line
  have hstop : stops_at (line_level l0) (sheet_on (grid_record env g gw gh) sl name) := by
    rw [hfirst.2.1]
    exact ⟨fun h => by have := h.2; change L1 ≤ line_level sl at this; omega,
      by change L1 ≥ line_level sl; omega⟩
  obtain ⟨loc3, q3, B3, h3, s3, b3, m3⟩ := @sprite_line_step env fuel l0 e3 loc2
    { q2 with m_line_number := 1 + 1 + 1 } _ _ _ L1 hfirst
    (by rw [s2]; exact pop_scope_stack_stop hstop)
  rw [parse_loop_cons_ok h3, parse_loop_append]
  -- the other `sprite` lines
  obtain ⟨loc4, n4, q4, B4, new, h4, s4, b4, f1, f2, f3, f4⟩ :=
    @sprite_lines_run env fuel _ [grid_record env g gw gh, sentinel env] L1 hS hL1 rest
      (1 + 1 + 1 + 1) loc3 q3 B3 hrest s3 b3
  rw [h4]
  dsimp only
  -- blank lines and comments at the end
  obtain ⟨loc5, n5, q5, h5, s5, -, m5⟩ := @parse_loop_inert env fuel tail n4 loc4 q4 htail
  rw [h5]
  dsimp only
  -- the end of `parse`
  have c1 : q1.m_sprites = p.m_sprites ∧ q1.m_sprites_in_current_sheet = 0 := by
    rw [m1]; exact ⟨rfl, rfl⟩
  have c2 : q2.m_sprites = p.m_sprites ∧ q2.m_sprites_in_current_sheet = 0 ∧
      q2.m_current_offset = ⟨0, 0⟩ := by
    rw [m2]; exact ⟨c1.1, c1.2, rfl⟩
  have c3 : q3.m_sprites = p.m_sprites ∧ q3.m_sprites_in_current_sheet = 0 ∧
      q3.m_current_offset = ⟨0, 0⟩ := by
    rw [m3]; exact c2
  have c5 : q5.m_sprites = q4.m_sprites ∧
      q5.m_sprites_in_current_sheet = q4.m_sprites_in_current_sheet ∧
      q5.m_current_offset = q4.m_current_offset := by
    rw [m5]; exact ⟨rfl, rfl, rfl⟩
  obtain ⟨b41, b42, b43, b44, b45, b46, b47⟩ := b4
  obtain ⟨B6, q6, sprite, e1, e2, e3, -, e5, -, -⟩ :=
    @sprite_ends_in_row env (sheet_on (grid_record env g gw gh) sl name)
      { B4 with indent := B4.indent ++ loc5.detected_indetation }
      { q5 with m_line_number := n5 } hS b43 b44 b45 b46 b47
  have hc : q6.m_sprites_in_current_sheet ≠ 0 := by
    rw [e5]
    change q5.m_sprites_in_current_sheet + 1 ≠ 0
    rw [c5.2.1, f4, c3.2.1]
    omega
  have hl0 := line_level_nonneg sl
  have hg0 := line_level_nonneg g
  unfold pop_scope_stack
  rw [s5, s4, close_sprite_and_sheet b41 (by rw [b42]; omega) rfl
    (by change -1 ≤ line_level sl; omega) e1 hc,
    pop_loop_pass (by rfl) (by change -1 < line_level g; omega),
    @pop_loop_sentinel env fuel _ _ (grid_record env g gw gh) _ hdef (by simp)
      (show Definition.grid ≠ Definition.texture by decide)]
  dsimp only
  refine ⟨_, rfl, ?_⟩
  change q6.m_sprites.map _ = _
  rw [e2]
  change (q5.m_sprites ++ [sprite]).map _ = _
  rw [c5.1, f1, c3.1, List.map_append, List.map_append, f2, row_rects_snoc, c3.2.2,
    List.append_assoc]
  simp only [List.map_cons, List.map_nil, e3]
  change _ = _ ++ (_ ++ [(⟨0 + (rest.length : Int) * gw, 0, gw, gh⟩ : Rect)])
  congr 4
  · change q5.m_current_offset.x = _
    rw [c5.2.2, f3, c3.2.2]
    rfl
  · change q5.m_current_offset.y = _
    rw [c5.2.2, f3, c3.2.2]

/-- C16: sequential placement in a grid. For a record with a sheet whose file exists:
when the record has no rectangle, a grid and a span without a zero component, and the
two products and the new cursor fit `int` (they are computed in `int`, where an
overflow is undefined), `sprite_ends` returns, the sprite that it appends has the
source rectangle (cursor x, cursor y, grid x * span x, grid y * span y) and the cursor
has moved on in x by grid x * span x; when the record has a rectangle, the sprite gets
that rectangle and the cursor stays. Hence for an input of a `grid` line with the cell
size gw x gh, a `sheet` line at its level or a deeper one naming a single file that
exists, and n `sprite` lines at one deeper level (then blank lines or comments), with
n * gw fitting `int`, `parse` returns with exactly n sprites, the k-th with the
rectangle (k * gw, 0, gw, gh); the span of the default record is 1 x 1 there. -/
theorem sequential_grid_placement (env : Env) (fuel : Nat) (autocomplete : Bool)
    (input g sl a b name : List Char) (e1 e2 : Bool) (first : List Char × Bool)
    (rest tail : List (List Char × Bool)) (gw gh L1 : Int)
    (hlines : getlines input = (g, e1) :: (sl, e2) :: first :: (rest ++ tail))
    (hg : is_inert g = false)
    (hgtok : split_arguments (ltrim g) = .ok ["grid".toList, a, b])
    (ha : uint_value a = some gw) (hb : uint_value b = some gh)
    (hgw : gw ≠ 0) (hgh : gh ≠ 0)
    (hs : is_inert sl = false)
    (hstok : split_arguments (ltrim sl) = .ok ["sheet".toList, name])
    (hlevel : line_level g ≤ line_level sl)
    (hname : (FilenameSequence.mk_from name).empty = false)
    (hseq : (FilenameSequence.mk_from name).is_sequence = false)
    (hfile : (env.fs (path_join env.state0.path
      (FilenameSequence.mk_from name).filename)).isSome = true)
    (hdef : has_implicit_scope env.state0.definition = false)
    (hrect : env.state0.rect.empty = true) (hspan : env.state0.span = ⟨1, 1⟩)
    (hL1 : line_level sl < L1)
    (hfirst : sprite_line L1 first.1) (hrest : ∀ l ∈ rest, sprite_line L1 l.1)
    (htail : ∀ l ∈ tail, is_inert l.1 = true)
    (hfit : fits_int (((rest.length : Int) + 1) * gw)) :
    (∀ (s : State) (p : InputParser), s.sheet.empty = false →
      (env.fs (path_join s.path
        (s.sheet.get_nth_filename p.m_current_sequence_index))).isSome = true →
      (s.rect.empty = true → s.grid.empty = false → s.span.x ≠ 0 → s.span.y ≠ 0 →
        fits_int (s.grid.x * s.span.x) → fits_int (s.grid.y * s.span.y) →
        fits_int (p.m_current_offset.x + s.grid.x * s.span.x) →
        ∃ s' q sprite, sprite_ends env s p = (.ok s', q) ∧
          q.m_sprites = p.m_sprites ++ [sprite] ∧
          sprite.source_rect = ⟨p.m_current_offset.x, p.m_current_offset.y,
            s.grid.x * s.span.x, s.grid.y * s.span.y⟩ ∧
          q.m_current_offset =
            ⟨p.m_current_offset.x + s.grid.x * s.span.x, p.m_current_offset.y⟩) ∧
      (s.rect.empty = false →
        ∃ s' q sprite, sprite_ends env s p = (.ok s', q) ∧
          q.m_sprites = p.m_sprites ++ [sprite] ∧
          sprite.source_rect = s.rect ∧ q.m_current_offset = p.m_current_offset)) ∧
    ∃ q, parse env fuel input (InputParser.new autocomplete) = (.ok [sentinel env], q) ∧
      q.m_sprites.length = rest.length + 1 ∧
      ∀ k : Nat, k ≤ rest.length → ∃ sprite, q.m_sprites[k]? = some sprite ∧
        sprite.source_rect = ⟨k * gw, 0, gw, gh⟩ := by
  refine ⟨fun s p hs hf => ⟨fun hr hg hx hy _ _ _ => ?_, fun hr => ?_⟩, ?_⟩
  · obtain ⟨s', q, sprite, e1, e2, e3, e4⟩ := sprite_ends_placed hs hf hr hg hx hy
    refine ⟨s', q, sprite, e1, ?_, e3, e4⟩
    unfold sprite_closed at e2
    rw [e2]
  · obtain ⟨s', q, sprite, e1, e2, e3, e4⟩ := sprite_ends_declared hs hf hr
    refine ⟨s', q, sprite, e1, ?_, e3, e4⟩
    unfold sprite_closed at e2
    rw [e2]
  · obtain ⟨q, h1, h2⟩ := @sprites_in_row env fuel (InputParser.new autocomplete) input g sl a b
      name e1 e2 first rest tail gw gh L1 hlines hg hgtok ha hb hgw hgh hs hstok hlevel hname
      hseq hfile hdef hrect hspan hL1 hfirst hrest htail
    have h3 : q.m_sprites.map (fun x => x.source_rect) =
        row_rects ⟨gw, gh⟩ (rest.length + 1) ⟨0, 0⟩ := by
      rw [h2]
      rfl
    refine ⟨q, h1, ?_, fun k hk => ?_⟩
    · rw [← List.length_map q.m_sprites (fun x => x.source_rect), h3, row_rects_length]
    · have h4 := congrArg (fun l => l[k]?) h3
      dsimp only at h4
      rw [row_rects_get _ _ _ k (by omega), List.getElem?_map] at h4
      cases hq : q.m_sprites[k]? with
      | none => rw [hq] at h4; cases h4
      | some sprite =>
        rw [hq] at h4
        simp only [Option.map_some', Option.some.injEq] at h4
        refine ⟨sprite, rfl, ?_⟩
        rw [h4]
        simp

set_option maxRecDepth 100000 in
/-- C16 (witness): on the sheet `a.png` of 4 x 1 pixels, the lines `grid 1 1`,
`sheet "a.png"` and two indented `sprite` lines give the two sprites with the
rectangles (0, 0, 1, 1) and (1, 0, 1, 1); a record with the grid 2 x 1 and the span
2 x 1 at the cursor (3, 5) gives the rectangle (3, 5, 4, 1) and the cursor (7, 5), and
with the rectangle (1, 0, 2, 1) set it gives that rectangle and leaves the cursor. -/
theorem sequential_grid_placement_witness :
    (∃ s' q sprite,
      sprite_ends (demo_env [("a.png".toList, sheet_4x1)])
        { demo_state with sheet := FilenameSequence.mk_from "a.png".toList,
                          grid := ⟨2, 1⟩, span := ⟨2, 1⟩ }
        { InputParser.new false with m_current_offset := ⟨3, 5⟩ } = (.ok s', q) ∧
      q.m_sprites = [sprite] ∧ sprite.source_rect = ⟨3, 5, 2 * 2, 1 * 1⟩ ∧
      q.m_current_offset = ⟨3 + 2 * 2, 5⟩) ∧
    (∃ s' q sprite,
      sprite_ends (demo_env [("a.png".toList, sheet_4x1)])
        { demo_state with sheet := FilenameSequence.mk_from "a.png".toList,
                          grid := ⟨2, 1⟩, span := ⟨2, 1⟩, rect := ⟨1, 0, 2, 1⟩ }
        { InputParser.new false with m_current_offset := ⟨3, 5⟩ } = (.ok s', q) ∧
      q.m_sprites = [sprite] ∧ sprite.source_rect = ⟨1, 0, 2, 1⟩ ∧
      q.m_current_offset = ⟨3, 5⟩) ∧
    (∃ q, parse (demo_env [("a.png".toList, sheet_4x1)]) 0
        "grid 1 1\nsheet \"a.png\"\n  sprite\n  sprite\n".toList (InputParser.new false) =
        (.ok [sentinel (demo_env [("a.png".toList, sheet_4x1)])], q) ∧
      q.m_sprites.length = 2 ∧
      ∀ k : Nat, k ≤ 1 → ∃ sprite, q.m_sprites[k]? = some sprite ∧
        sprite.source_rect = ⟨k * 1, 0, 1, 1⟩) ∧
    (parse (demo_env [("a.png".toList, sheet_4x1)]) 0
        "grid 1 1\nsheet \"a.png\"\n  sprite\n  sprite\n".toList
        (InputParser.new false)).2.m_sprites.map (fun x => x.source_rect) =
      [⟨0, 0, 1, 1⟩, ⟨1, 0, 1, 1⟩] := by
  have h := sequential_grid_placement (demo_env [("a.png".toList, sheet_4x1)]) 0 false
    "grid 1 1\nsheet \"a.png\"\n  sprite\n  sprite\n".toList "grid 1 1".toList
    "sheet \"a.png\"".toList "1".toList "1".toList "a.png".toList false false
    ("  sprite".toList, false) [("  sprite".toList, false)] [([], true)] 1 1 2
    (by decide) (by decide) (by decide) (by decide) (by decide) (by decide) (by decide)
    (by decide) (by decide) (by decide) (by decide) (by decide) (by decide) (by decide)
    (by decide) (by decide) (by decide) ⟨by decide, by decide, Or.inl (by decide)⟩
    (fun l hl => by
      rw [List.mem_singleton] at hl
      rw [hl]
      exact ⟨by decide, by decide, Or.inl (by decide)⟩)
    (fun l hl => by
      rw [List.mem_singleton] at hl
      rw [hl]
      decide)
    (by decide)
  refine ⟨?_, ?_, h.2, by decide!⟩
  · exact (h.1 { demo_state with sheet := FilenameSequence.mk_from "a.png".toList,
                                 grid := ⟨2, 1⟩, span := ⟨2, 1⟩ }
      { InputParser.new false with m_current_offset := ⟨3, 5⟩ } (by decide) (by decide)).1
      (by decide) (by decide) (by decide) (by decide) (by decide) (by decide) (by decide)
  · exact (h.1 { demo_state with sheet := FilenameSequence.mk_from "a.png".toList,
                                 grid := ⟨2, 1⟩, span := ⟨2, 1⟩, rect := ⟨1, 0, 2, 1⟩ }
      { InputParser.new false with m_current_offset := ⟨3, 5⟩ } (by decide) (by decide)).2
      (by decide)

theorem only_cursor_refl (p : InputParser) : only_cursor p p := rfl

theorem only_cursor_trans {p q r : InputParser} (h1 : only_cursor p q) (h2 : only_cursor q r) :
    only_cursor p r := by
  unfold only_cursor at *
  rw [h2, h1]

theorem quiet_pure {α : Type} (a : α) : quiet (pure a : M α) := by
  intro p b q h
  cases h
  exact only_cursor_refl p

theorem quiet_error {α : Type} (m : List Char) : quiet (error m : M α) := by
  intro p b q h
  cases h

theorem quiet_throw {α : Type} (e : Exn) : quiet (M.throw e : M α) := by
  intro p b q h
  cases h

theorem quiet_check (c : Bool) (m : List Char) : quiet (check c m) := by
  intro p b q h
  rw [(check_eq h).1]
  exact only_cursor_refl p

theorem quiet_modify (f : InputParser → InputParser) (hf : ∀ p, only_cursor p (f p)) :
    quiet (M.modify f) := by
  intro p b q h
  rw [modify_eq h]
  exact hf p

theorem quiet_bind {α β : Type} {x : M α} {f : α → M β} (hx : quiet x)
    (hf : ∀ a, quiet (f a)) : quiet (x >>= f) := by
  intro p b q h
  obtain ⟨a, p1, h1, h2⟩ := bind_eq_ok.1 h
  exact only_cursor_trans (hx p a p1 h1) (hf a p1 b q h2)

theorem quiet_check_string (args : List (List Char)) : quiet (check_string args) := by
  cases args
  · exact quiet_error _
  · exact quiet_pure _

theorem quiet_check_uint (args : List (List Char)) : quiet (check_uint args) := by
  unfold check_uint
  refine quiet_bind (quiet_check_string _) (fun ⟨a, r⟩ => ?_)
  dsimp only
  split
  · split
    · exact quiet_pure _
    · exact quiet_error _
  · exact quiet_error _

theorem quiet_check_bool (b : Bool) (args : List (List Char)) : quiet (check_bool b args) := by
  unfold check_bool
  split
  · exact quiet_pure _
  · refine quiet_bind (quiet_check_string _) (fun ⟨a, r⟩ => ?_)
    dsimp only
    split
    · exact quiet_pure _
    · split
      · exact quiet_pure _
      · exact quiet_error _

theorem quiet_check_float (env : Env) (args : List (List Char)) :
    quiet (check_float env args) := by
  unfold check_float
  refine quiet_bind (quiet_check_string _) (fun ⟨a, r⟩ => ?_)
  dsimp only
  split
  · exact quiet_pure _
  · exact quiet_throw _
  · exact quiet_throw _

theorem quiet_check_size (b : Bool) (args : List (List Char)) : quiet (check_size b args) := by
  unfold check_size
  refine quiet_bind (quiet_check_uint _) (fun ⟨a, r⟩ => ?_)
  dsimp only
  split
  · exact quiet_bind (quiet_check_uint _) (fun ⟨a, r⟩ => quiet_pure _)
  · exact quiet_pure _

theorem quiet_check_rect (args : List (List Char)) : quiet (check_rect args) := by
  unfold check_rect
  exact quiet_bind (quiet_check_uint _) fun ⟨_, _⟩ =>
    quiet_bind (quiet_check_uint _) fun ⟨_, _⟩ =>
      quiet_bind (quiet_check_uint _) fun ⟨_, _⟩ =>
        quiet_bind (quiet_check_uint _) fun ⟨_, _⟩ => quiet_pure _

theorem quiet_check_color (env : Env) (args : List (List Char)) :
    quiet (check_color env args) := by
  unfold check_color
  exact quiet_bind (quiet_check_string _) fun ⟨_, _⟩ =>
    quiet_bind (quiet_check _ _) fun _ => quiet_pure _

theorem quiet_pivot_word (s : State) (args : List (List Char)) : quiet (pivot_word s args) := by
  unfold pivot_word
  refine quiet_bind (quiet_check_string _) (fun ⟨a, r⟩ => ?_)
  dsimp only
  split
  · exact quiet_pure _
  · split
    · exact quiet_pure _
    · exact quiet_error _

/-- The `switch` of `apply_definition` changes at most the placement cursor and the
sequence index. -/
theorem quiet_apply_switch (env : Env) (s : State) (d : Definition) (args : List (List Char)) :
    quiet (apply_switch env s d args) := by
  cases d <;> simp only [apply_switch] <;>
    repeat' (first
      | exact quiet_pure _
      | exact quiet_error _
      | exact quiet_check _ _
      | exact quiet_check_string _
      | exact quiet_check_uint _
      | exact quiet_check_bool _ _
      | exact quiet_check_float _ _
      | exact quiet_check_size _ _
      | exact quiet_check_rect _
      | exact quiet_check_color _ _
      | exact quiet_pivot_word _ _
      | exact quiet_modify _ (fun _ => rfl)
      | refine quiet_bind ?_ (fun ⟨_, _⟩ => ?_)
      | refine quiet_bind ?_ (fun _ => ?_)
      | split)

theorem quiet_apply_definition (env : Env) (s : State) (d : Definition)
    (args : List (List Char)) : quiet (apply_definition env s d args) := by
  unfold apply_definition
  exact quiet_bind (quiet_apply_switch env s d args) fun ⟨_, _⟩ =>
    quiet_bind (quiet_check _ _) fun _ => quiet_pure _

theorem line_definition_tokens {l : List Char} {d : Definition}
    (h : line_definition l = d) (hd : d ≠ .none) :
    ∃ keyword, split_arguments (ltrim l) = .ok (keyword :: line_arguments l) ∧
      get_definition keyword = d := by
  unfold line_definition at h
  unfold line_arguments
  split at h
  · rename_i keyword args heq
    rw [heq]
    exact ⟨keyword, rfl, h⟩
  · exact absurd h.symm hd

/-- What a returning `sprite_ends` has done to the members. -/
theorem sprite_ends_inv {env : Env} {X X' : State} {p q : InputParser}
    (h : sprite_ends env X p = (.ok X', q)) :
    ∃ sprite, q.m_sprites = p.m_sprites ++ [sprite] ∧
      (X.sprite ≠ [] → sprite.id = X.sprite) ∧
      (X.rect.empty = false → sprite.source_rect = X.rect) ∧
      q.m_sprites_in_current_sheet = p.m_sprites_in_current_sheet + 1 := by
  rw [sprite_ends_eq] at h
  split at h
  · cases h
  · rcases hg : get_sheet env (sprite_state X p)
      (with_texture env (sprite_state X p) (sprite_cursor X p)) with ⟨_ | ⟨source, sheet⟩, q1⟩
    · rw [hg] at h; cases h
    · rw [hg] at h
      simp only [Prod.mk.injEq, Except.ok.injEq] at h
      obtain ⟨-, rfl⟩ := h
      have e1 : q1.m_sprites = p.m_sprites := by
        rw [get_sheet_sprites hg, with_texture_eq, sprite_cursor_eq]
      have e2 : q1.m_sprites_in_current_sheet = p.m_sprites_in_current_sheet := by
        unfold get_sheet get_sheet_at at hg
        simp only [run_bind, run_get] at hg
        rw [(get_sheet_file_ok hg).2.2.1, with_texture_eq, sprite_cursor_eq]
      refine ⟨_, by rw [← e1], ?_, ?_, by rw [← e2]⟩
      · intro hn
        have : (sprite_state X p).sprite = X.sprite := by
          unfold sprite_state; split <;> rfl
        simp only [sprite_of, this]
        cases hx : X.sprite with
        | nil => exact absurd hx hn
        | cons c cs => rfl
      · intro hr
        simp only [sprite_of, sprite_state, hr, Bool.false_and, Bool.false_eq_true, if_false,
          Bool.not_false, if_true]

theorem scope_ends_sprite {env : Env} {fuel : Nat} {X : State} (h : X.definition = .sprite) :
    scope_ends env fuel X = sprite_ends env X := by
  unfold scope_ends
  simp only [h]

theorem scope_ends_sheet {env : Env} {fuel : Nat} {X : State} (h : X.definition = .sheet) :
    scope_ends env fuel X = sheet_ends env fuel X := by
  unfold scope_ends
  simp only [h]

theorem sprite_ends_definition {env : Env} {X X' : State} {p q : InputParser}
    (h : sprite_ends env X p = (.ok X', q)) : X'.definition = X.definition := by
  have := sprite_ends_closed h
  unfold State.closed_from at this
  rw [this]

/-- A line at the level of an open `sprite` scope or a lower one, which stops at the
record below that scope: the sprite is closed with the record on top of the stack. -/
theorem pop_open_sprite {env : Env} {fuel : Nat} {det : List Char} {level L1 L2 : Int}
    {cur : Option (List Char) × Option Rect} {pend : List State} {S : State}
    {below : List State} (p : InputParser)
    (ho : open_sprite L1 L2 cur pend) (hl : level ≤ L1) (h12 : L1 < L2)
    (hstop : stops_at level S) :
    ∃ X, holds_declaration X cur ∧
      pop_scope_stack env fuel det level (pend ++ S :: below) p =
        match sprite_ends env X p with
        | (.error e, q) => (.error e, q)
        | (.ok _, q) => (.ok (S :: below), q) := by
  rcases ho with ⟨B, rfl, hB, hBl, hh⟩ | ⟨A, B, rfl, hA, hAl, hB, hBl, hh⟩
  · exact ⟨{ B with indent := B.indent ++ det }, hh,
      pop_sprite_scope hB (by rw [hBl]; exact hl) hstop⟩
  · refine ⟨{ A with definition := B.definition }, hh, ?_⟩
    unfold pop_scope_stack
    simp only [List.cons_append, List.nil_append]
    rw [pop_loop_pass hA (by rw [hAl]; omega)]
    simp only [List.nil_append]
    rw [pop_loop_close_below (by rw [hB]; rfl) (by rw [hBl]; exact hl),
      scope_ends_sprite (show ({ A with definition := B.definition } : State).definition = .sprite
        from hB)]
    rcases hx : sprite_ends env { A with definition := B.definition } p with ⟨_ | A', q⟩
    · rfl
    · dsimp only
      rw [pop_loop_stop hstop]
      simp only [top_key, List.nil_append, List.cons_append, keep_texture]
      simp [hB]

/-- The end of `parse` with an open `sprite` scope in a sheet on the sentinel: the
sprite is closed, then `sheet_ends` runs. -/
theorem close_open_sprite {env : Env} {fuel : Nat} {det : List Char} {L1 L2 : Int}
    {cur : Option (List Char) × Option Rect} {pend : List State} {S : State}
    (p : InputParser)
    (ho : open_sprite L1 L2 cur pend) (hl : -1 ≤ L1) (h12 : L1 < L2)
    (hS : S.definition = .sheet) (hSl : -1 ≤ S.level)
    (hdef : has_implicit_scope env.state0.definition = false) :
    ∃ X, holds_declaration X cur ∧
      pop_scope_stack env fuel det (-1) (pend ++ [S, sentinel env]) p =
        match sprite_ends env X p with
        | (.error e, q) => (.error e, q)
        | (.ok X', q1) =>
          match sheet_ends env fuel { X' with definition := .sheet } q1 with
          | (.error e, q) => (.error e, q)
          | (.ok _, q2) => (.ok [sentinel env], q2) := by
  rcases ho with ⟨B, rfl, hB, hBl, hh⟩ | ⟨A, B, rfl, hA, hAl, hB, hBl, hh⟩
  · refine ⟨{ B with indent := B.indent ++ det }, hh, ?_⟩
    unfold pop_scope_stack
    simp only [List.cons_append, List.nil_append]
    rw [pop_loop_close_back (by rw [hB]; rfl) (by rw [hBl]; exact hl),
      scope_ends_sprite (show ({ B with indent := B.indent ++ det } : State).definition = .sprite
        from hB)]
    rcases hx : sprite_ends env { B with indent := B.indent ++ det } p with ⟨_ | B', q⟩
    · rfl
    · dsimp only
      rw [pop_loop_close_below (by rw [hS]; rfl) hSl, hS,
        scope_ends_sheet (show ({ B' with definition := .sheet } : State).definition = .sheet
          from rfl)]
      rcases hy : sheet_ends env fuel { B' with definition := .sheet } q with ⟨_ | B'', q2⟩
      · rfl
      · dsimp only
        rw [@pop_loop_sentinel env fuel det _ S q2 hdef (by simp) (by rw [hS]; decide)]
  · refine ⟨{ A with definition := B.definition }, hh, ?_⟩
    unfold pop_scope_stack
    simp only [List.cons_append, List.nil_append]
    rw [pop_loop_pass hA (by rw [hAl]; omega)]
    simp only [List.nil_append]
    rw [pop_loop_close_below (by rw [hB]; rfl) (by rw [hBl]; exact hl),
      scope_ends_sprite (show ({ A with definition := B.definition } : State).definition = .sprite
        from hB)]
    rcases hx : sprite_ends env { A with definition := B.definition } p with ⟨_ | A', q⟩
    · rfl
    · dsimp only
      simp only [List.cons_append, List.nil_append]
      rw [pop_loop_close_below (by rw [hS]; rfl) hSl, hS,
        scope_ends_sheet (show ({ A' with definition := .sheet } : State).definition = .sheet
          from rfl)]
      rcases hy : sheet_ends env fuel { A' with definition := .sheet } q with ⟨_ | A'', q2⟩
      · rfl
      · dsimp only
        rw [@pop_loop_sentinel env fuel det _ S q2 hdef (by simp) (by rw [hS]; decide)]

theorem set_by_sprite {d : Definition} (c s : State) (h : d ≠ .sprite) :
    (set_by d c s).sprite = s.sprite := by
  cases d <;> first | rfl | exact absurd rfl h

theorem set_by_rect {d : Definition} (c s : State) (h : d ≠ .rect) :
    (set_by d c s).rect = s.rect := by
  cases d <;> first | rfl | exact absurd rfl h

/-- A returning `apply_definition` for `rect` has read four numbers. -/
theorem apply_definition_rect_inv {env : Env} {s s' : State} {args : List (List Char)}
    {p q : InputParser} (h : apply_definition env s .rect args p = (.ok s', q)) :
    ∃ x y w h' vx vy vw vh, args = [x, y, w, h'] ∧ uint_value x = some vx ∧
      uint_value y = some vy ∧ uint_value w = some vw ∧ uint_value h' = some vh ∧
      s'.rect = ⟨vx, vy, vw, vh⟩ := by
  unfold apply_definition at h
  obtain ⟨⟨s1, rest⟩, p1, h1, h2⟩ := bind_eq_ok.1 h
  obtain ⟨u, p2, h3, h4⟩ := bind_eq_ok.1 h2
  have hr := (check_eq h3).2
  simp only [run_pure, Prod.mk.injEq, Except.ok.injEq] at h4
  obtain ⟨rfl, -⟩ := h4
  simp only [apply_switch] at h1
  obtain ⟨⟨v, r⟩, p3, h5, h6⟩ := bind_eq_ok.1 h1
  simp only [run_pure, Prod.mk.injEq, Except.ok.injEq] at h6
  obtain ⟨⟨rfl, rfl⟩, -⟩ := h6
  unfold check_rect at h5
  obtain ⟨⟨vx, r1⟩, p4, a1, h5⟩ := bind_eq_ok.1 h5
  obtain ⟨⟨vy, r2⟩, p5, a2, h5⟩ := bind_eq_ok.1 h5
  obtain ⟨⟨vw, r3⟩, p6, a3, h5⟩ := bind_eq_ok.1 h5
  obtain ⟨⟨vh, r4⟩, p7, a4, h5⟩ := bind_eq_ok.1 h5
  simp only [run_pure, Prod.mk.injEq, Except.ok.injEq] at h5
  obtain ⟨⟨rfl, rfl⟩, -⟩ := h5
  have inv : ∀ {args rest : List (List Char)} {v : Int} {p q : InputParser},
      check_uint args p = (.ok (v, rest), q) → ∃ a, args = a :: rest ∧ uint_value a = some v := by
    intro args rest v p q hc
    cases args with
    | nil => rw [check_uint_nil] at hc; cases hc
    | cons a t =>
      rw [check_uint_cons] at hc
      cases hu : uint_value a with
      | none => rw [hu] at hc; cases hc
      | some w =>
        rw [hu] at hc
        simp only [Prod.mk.injEq, Except.ok.injEq] at hc
        obtain ⟨⟨rfl, rfl⟩, -⟩ := hc
        exact ⟨a, rfl, hu⟩
  obtain ⟨x, rfl, ux⟩ := inv a1
  obtain ⟨y, rfl, uy⟩ := inv a2
  obtain ⟨w, rfl, uw⟩ := inv a3
  obtain ⟨h', rfl, uh⟩ := inv a4
  have : r4 = [] := by
    cases r4 with
    | nil => rfl
    | cons a t => simp at hr
  subst this
  exact ⟨x, y, w, h', vx, vy, vw, vh, rfl, ux, uy, uw, uh, rfl⟩

theorem declared_as_of_holds {X : State} {cur : Option (List Char) × Option Rect}
    {sprite : Sprite} (hh : holds_declaration X cur)
    (h1 : X.sprite ≠ [] → sprite.id = X.sprite)
    (h2 : X.rect.empty = false → sprite.source_rect = X.rect) : declared_as cur sprite := by
  refine ⟨fun name hn hne => ?_, fun r hr hre => ?_⟩
  · have e := hh.1 name hn
    rw [← e] at hne ⊢
    exact h1 hne
  · have e := hh.2 r hr
    rw [← e] at hre ⊢
    exact h2 hre

/-- A `sprite` line that follows an open `sprite` scope at its level: if the line is
accepted, the open sprite has been closed as declared and a new scope is open. -/
theorem header_inv {env : Env} {fuel : Nat} {l : List Char} {eof : Bool}
    {loc loc' : Locals} {p q : InputParser} {L1 L2 : Int}
    {cur : Option (List Char) × Option Rect} {pend : List State} {S : State}
    {below : List State}
    (hh : sprite_header L1 l) (hstack : loc.scope_stack = pend ++ S :: below)
    (ho : open_sprite L1 L2 cur pend) (h12 : L1 < L2) (hSl : S.level < L1)
    (h : parse_line env fuel l eof loc p = (.ok loc', q)) :
    ∃ sprite pend', loc'.scope_stack = pend' ++ S :: below ∧
      open_sprite L1 L2 (declared_name l, none) pend' ∧
      q.m_sprites = p.m_sprites ++ [sprite] ∧ declared_as cur sprite ∧
      q.m_sprites_in_current_sheet = p.m_sprites_in_current_sheet + 1 := by
  obtain ⟨hb, hlevel, hd⟩ := hh
  obtain ⟨keyword, htok, hk⟩ := line_definition_tokens hd (by decide)
  have hstop : stops_at (line_level l) S := by
    rw [hlevel]
    exact ⟨fun h => by omega, by omega⟩
  obtain ⟨X, hX, hpop⟩ := @pop_open_sprite env fuel loc.detected_indetation (line_level l) L1 L2
    cur pend S below p ho (by rw [hlevel]) h12 hstop
  rw [parse_line_eq hb htok (by rw [hk]; decide), hstack, hpop] at h
  rcases hx : sprite_ends env X p with ⟨_ | X', q1⟩
  · rw [hx] at h; cases h
  · rw [hx] at h
    dsimp only at h
    obtain ⟨sprite, e1, e2, e3, e4⟩ := sprite_ends_inv hx
    have ho' : opens_scope (line_level l) S .sprite = true := by
      simp [opens_scope, has_implicit_scope]
    rw [hk, apply_definition_sprite, ho'] at h
    have hargs : ∀ B', B'.definition = .sprite → B'.level = line_level l →
        (∀ name, declared_name l = some name → B'.sprite = name) →
        open_sprite L1 L2 (declared_name l, none) [B'] := fun B' a b c =>
      Or.inl ⟨B', rfl, a, by rw [b, hlevel], c, fun r hr => by cases hr⟩
    cases ha : line_arguments l with
    | nil =>
      rw [ha] at h
      simp only [Prod.mk.injEq, Except.ok.injEq] at h
      obtain ⟨rfl, rfl⟩ := h
      refine ⟨sprite, [line_state l .sprite S], rfl, hargs _ rfl rfl ?_, ?_,
        declared_as_of_holds hX e2 e3, ?_⟩
      · intro name hn
        simp only [declared_name, ha] at hn
        cases hn
      · split <;> exact e1
      · split <;> exact e4
    | cons a t =>
      cases t with
      | nil =>
        rw [ha] at h
        simp only [Prod.mk.injEq, Except.ok.injEq] at h
        obtain ⟨rfl, rfl⟩ := h
        refine ⟨sprite, [{ line_state l .sprite S with sprite := a }], rfl,
          hargs _ rfl rfl ?_, ?_, declared_as_of_holds hX e2 e3, ?_⟩
        · intro name hn
          simp only [declared_name, ha, Option.some.injEq] at hn
          rw [← hn]
        · split <;> exact e1
        · split <;> exact e4
      | cons b t =>
        rw [ha] at h
        cases h

/-- What an accepted attribute line makes of the record `H` that holds the open
declaration. -/
theorem attribute_holds {env : Env} {l : List Char} {H A : State} {p q : InputParser}
    {cur : Option (List Char) × Option Rect}
    (hd : has_implicit_scope (line_definition l) = false) (hh : holds_declaration H cur)
    (h : apply_definition env (line_state l (line_definition l) H) (line_definition l)
      (line_arguments l) p = (.ok A, q)) :
    holds_declaration A
      (if line_definition l = .rect then (cur.1, declared_rect l) else cur) := by
  have hf := apply_definition_frame h
  have hns : line_definition l ≠ .sprite := by
    intro e
    rw [e] at hd
    exact absurd hd (by decide)
  have e1 : A.sprite = H.sprite := by
    rw [hf, set_by_sprite _ _ hns]
    rfl
  by_cases hr : line_definition l = .rect
  · rw [if_pos hr]
    rw [hr] at h
    obtain ⟨x, y, w, h', vx, vy, vw, vh, a1, a2, a3, a4, a5, a6⟩ := apply_definition_rect_inv h
    refine ⟨fun name hn => by rw [e1]; exact hh.1 name hn, fun r hr' => ?_⟩
    simp only [declared_rect, a1, a2, a3, a4, a5, Option.some.injEq] at hr'
    rw [a6, hr']
  · rw [if_neg hr]
    refine ⟨fun name hn => by rw [e1]; exact hh.1 name hn, fun r hr' => ?_⟩
    rw [hf, set_by_rect _ _ hr]
    exact hh.2 r hr'

/-- An attribute line in an open `sprite` scope: if it is accepted, the record on top
holds the declaration with what the line declares, and no sprite has been added. -/
theorem attribute_inv {env : Env} {fuel : Nat} {l : List Char} {eof : Bool}
    {loc loc' : Locals} {p q : InputParser} {L1 L2 : Int}
    {cur : Option (List Char) × Option Rect} {pend : List State} {S : State}
    {below : List State}
    (ha : attribute_line L2 l) (hstack : loc.scope_stack = pend ++ S :: below)
    (ho : open_sprite L1 L2 cur pend) (h12 : L1 < L2)
    (h : parse_line env fuel l eof loc p = (.ok loc', q)) :
    ∃ pend', loc'.scope_stack = pend' ++ S :: below ∧
      open_sprite L1 L2 (if line_definition l = .rect then (cur.1, declared_rect l) else cur)
        pend' ∧
      q.m_sprites = p.m_sprites ∧
      q.m_sprites_in_current_sheet = p.m_sprites_in_current_sheet := by
  obtain ⟨hb, hlevel, hdn, hd⟩ := ha
  obtain ⟨keyword, htok, hk⟩ := line_definition_tokens rfl hdn
  have hmem : ∀ {H A : State} {q2 : InputParser},
      apply_definition env (line_state l (get_definition keyword) H) (get_definition keyword)
        (line_arguments l) p = (.ok A, q2) →
      (if p.autocomplete = true then
        { q2 with m_autocomplete_output :=
            q2.m_autocomplete_output ++ (loc.autocomplete_space ++ l ++ ['\n']) }
       else q2).m_sprites = p.m_sprites ∧
      (if p.autocomplete = true then
        { q2 with m_autocomplete_output :=
            q2.m_autocomplete_output ++ (loc.autocomplete_space ++ l ++ ['\n']) }
       else q2).m_sprites_in_current_sheet = p.m_sprites_in_current_sheet := by
    intro H A q2 hx
    have hq := quiet_apply_definition _ _ _ _ _ _ _ hx
    unfold only_cursor at hq
    split <;> · rw [hq]; exact ⟨rfl, rfl⟩
  rcases ho with ⟨B, rfl, hB, hBl, hh⟩ | ⟨A0, B, rfl, hA, hAl, hB, hBl, hh⟩
  · have hstop : stops_at (line_level l) B := by
      rw [hlevel]
      exact ⟨fun h => by omega, by omega⟩
    rw [parse_line_on_top hb htok (by rw [hk]; exact hdn) hstack hstop] at h
    rcases hx : apply_definition env (line_state l (get_definition keyword) B)
      (get_definition keyword) (line_arguments l) p with ⟨_ | A, q2⟩
    · rw [hx] at h; cases h
    · rw [hx] at h
      have ho' : opens_scope (line_level l) B (get_definition keyword) = true := by
        simp only [opens_scope, hlevel, hBl, h12, decide_True, Bool.true_or]
      simp only [ho', if_true, Prod.mk.injEq, Except.ok.injEq] at h
      obtain ⟨rfl, rfl⟩ := h
      have hm := hmem hx
      rw [hk] at hx
      refine ⟨[A, B], rfl, Or.inr ⟨A, B, rfl, ?_, ?_, hB, hBl, attribute_holds hd hh hx⟩,
        hm.1, hm.2⟩
      · rw [apply_definition_definition hx]; exact hd
      · rw [apply_definition_level hx]; exact hlevel
  · have hstop : stops_at (line_level l) A0 := by
      rw [hlevel]
      exact ⟨fun h => by rw [hA] at h; exact absurd h.1 (by decide), by omega⟩
    rw [parse_line_on_top hb htok (by rw [hk]; exact hdn) hstack hstop] at h
    rcases hx : apply_definition env (line_state l (get_definition keyword) A0)
      (get_definition keyword) (line_arguments l) p with ⟨_ | A, q2⟩
    · rw [hx] at h; cases h
    · rw [hx] at h
      have ho' : opens_scope (line_level l) A0 (get_definition keyword) = false := by
        rw [hk]
        simp only [opens_scope, hlevel, hAl, hd, Bool.or_false, decide_eq_false_iff_not]
        omega
      simp only [ho', Bool.false_eq_true, if_false, Prod.mk.injEq, Except.ok.injEq] at h
      obtain ⟨rfl, rfl⟩ := h
      have hm := hmem hx
      rw [hk] at hx
      refine ⟨[A, B], rfl, Or.inr ⟨A, B, rfl, ?_, ?_, hB, hBl, attribute_holds hd hh hx⟩,
        hm.1, hm.2⟩
      · rw [apply_definition_definition hx]; exact hd
      · rw [apply_definition_level hx]; exact hlevel

/-- The lines in the scope of a sheet after a `sprite` line: if they are accepted, the
sprites that they have closed are the declared ones but the last, which is open. -/
theorem sprite_blocks_inv {env : Env} {fuel : Nat} {L1 L2 : Int} {S : State}
    {below : List State} (h12 : L1 < L2) (hSl : S.level < L1)
    (lines : List (List Char × Bool)) :
    ∀ (n : Int) (loc : Locals) (p : InputParser) (cur : Option (List Char) × Option Rect)
      (pend : List State) (loc' : Locals) (n' : Int) (q : InputParser),
      (∀ l ∈ lines, is_inert l.1 = true ∨ sprite_header L1 l.1 ∨ attribute_line L2 l.1) →
      loc.scope_stack = pend ++ S :: below → open_sprite L1 L2 cur pend →
      parse_loop env fuel lines n loc p = (.ok (loc', n'), q) →
      ∃ pend' cur' done new, loc'.scope_stack = pend' ++ S :: below ∧
        open_sprite L1 L2 cur' pend' ∧
        declarations cur lines = done ++ [cur'] ∧ q.m_sprites = p.m_sprites ++ new ∧
        List.Forall₂ declared_as done new ∧
        q.m_sprites_in_current_sheet = p.m_sprites_in_current_sheet + done.length := by
  induction lines with
  | nil =>
    intro n loc p cur pend loc' n' q _ hstack ho h
    simp only [parse_loop, run_pure, Prod.mk.injEq, Except.ok.injEq] at h
    obtain ⟨⟨rfl, rfl⟩, rfl⟩ := h
    exact ⟨pend, cur, [], [], hstack, ho, rfl, by simp, List.Forall₂.nil, by simp⟩
  | cons line rest ih =>
    intro n loc p cur pend loc' n' q hl hstack ho h
    obtain ⟨l, eof⟩ := line
    simp only [parse_loop, run_bind, run_modify] at h
    have hrest : ∀ x ∈ rest, is_inert x.1 = true ∨ sprite_header L1 x.1 ∨ attribute_line L2 x.1 :=
      fun x hx => hl x (List.mem_cons_of_mem _ hx)
    rcases hx : parse_line env fuel l eof loc { p with m_line_number := n } with ⟨_ | loc1, q1⟩
    · rw [hx] at h; cases h
    · rw [hx] at h
      dsimp only at h
      rcases hl (l, eof) (List.mem_cons_self _ _) with hi | hh | ha
      · rw [parse_line_inert hi] at hx
        simp only [Prod.mk.injEq, Except.ok.injEq] at hx
        obtain ⟨rfl, rfl⟩ := hx
        obtain ⟨pend', cur', done, new, f1, f2, f3, f4, f5, f6⟩ := ih (n + 1) _ _ cur pend
          loc' n' q hrest (by split <;> exact hstack) ho h
        refine ⟨pend', cur', done, new, f1, f2, ?_, ?_, f5, ?_⟩
        · rw [declarations, if_pos hi]
          exact f3
        · rw [f4]
          split <;> rfl
        · rw [f6]
          split <;> rfl
      · obtain ⟨sprite, pend1, g1, g2, g3, g4, g5⟩ := header_inv hh hstack ho h12 hSl hx
        obtain ⟨pend', cur', done, new, f1, f2, f3, f4, f5, f6⟩ := ih (n + 1) loc1 q1
          (declared_name l, none) pend1 loc' n' q hrest g1 g2 h
        refine ⟨pend', cur', cur :: done, sprite :: new, f1, f2, ?_, ?_,
          List.Forall₂.cons g4 f5, ?_⟩
        · rw [declarations, if_neg (by rw [hh.1]; decide), if_pos hh.2.2, f3]
          rfl
        · rw [f4, g3]
          simp
        · rw [f6, g5]
          simp only [List.length_cons, Nat.cast_add, Nat.cast_one]
          change p.m_sprites_in_current_sheet + 1 + _ = p.m_sprites_in_current_sheet + _
          ring
      · obtain ⟨pend1, g1, g2, g3, g4⟩ := attribute_inv ha hstack ho h12 hx
        obtain ⟨pend', cur', done, new, f1, f2, f3, f4, f5, f6⟩ := ih (n + 1) loc1 q1 _ pend1
          loc' n' q hrest g1 g2 h
        have hns : line_definition l ≠ .sprite := by
          intro e
          have := ha.2.2.2
          rw [e] at this
          exact absurd this (by decide)
        refine ⟨pend', cur', done, new, f1, f2, ?_, by rw [f4, g3], f5, by rw [f6, g4]⟩
        rw [declarations, if_neg (by rw [ha.1]; decide), if_neg hns, ← f3]
        split <;> rfl

theorem parse_loop_cons_inv {env : Env} {fuel : Nat} {l : List Char} {eof : Bool}
    {rest : List (List Char × Bool)} {n : Int} {loc : Locals} {p q : InputParser}
    {r : Locals × Int}
    (h : parse_loop env fuel ((l, eof) :: rest) n loc p = (.ok r, q)) :
    ∃ loc1 q1, parse_line env fuel l eof loc { p with m_line_number := n } = (.ok loc1, q1) ∧
      parse_loop env fuel rest (n + 1) loc1 q1 = (.ok r, q) := by
  simp only [parse_loop, run_bind, run_modify] at h
  rcases hx : parse_line env fuel l eof loc { p with m_line_number := n } with ⟨_ | loc1, q1⟩
  · rw [hx] at h; cases h
  · rw [hx] at h
    exact ⟨loc1, q1, rfl, h⟩

/-- A `sheet` line read while only the sentinel is on the stack: if it is accepted, its
record lies on the sentinel and no sprite has been added. -/
theorem sheet_line_inv {env : Env} {fuel : Nat} {l : List Char} {eof : Bool}
    {loc loc' : Locals} {p q : InputParser}
    (hb : is_inert l = false) (hd : line_definition l = .sheet)
    (hstack : loc.scope_stack = [sentinel env])
    (h : parse_line env fuel l eof loc p = (.ok loc', q)) :
    ∃ S, loc'.scope_stack = [S, sentinel env] ∧ S.definition = .sheet ∧
      S.level = line_level l ∧ q.m_sprites = p.m_sprites ∧
      q.m_sprites_in_current_sheet = p.m_sprites_in_current_sheet := by
  obtain ⟨keyword, htok, hk⟩ := line_definition_tokens hd (by decide)
  rw [parse_line_first hb htok (by rw [hk]; decide) hstack] at h
  rcases hx : apply_definition env (line_state l (get_definition keyword) (sentinel env))
    (get_definition keyword) (line_arguments l) p with ⟨_ | S, q2⟩
  · rw [hx] at h; cases h
  · rw [hx] at h
    simp only [Prod.mk.injEq, Except.ok.injEq] at h
    obtain ⟨rfl, rfl⟩ := h
    have hq := quiet_apply_definition _ _ _ _ _ _ _ hx
    unfold only_cursor at hq
    refine ⟨S, rfl, ?_, ?_, ?_, ?_⟩
    · rw [apply_definition_definition hx]; exact hk
    · rw [apply_definition_level hx]; rfl
    · split <;> · rw [hq]
    · split <;> · rw [hq]

/-- The first `sprite` line in the scope of a record of a lower level: if it is
accepted, its scope is open and no sprite has been added. -/
theorem first_header_inv {env : Env} {fuel : Nat} {l : List Char} {eof : Bool}
    {loc loc' : Locals} {p q : InputParser} {L1 : Int} (L2 : Int) {S : State}
    {below : List State}
    (hh : sprite_header L1 l) (hstack : loc.scope_stack = S :: below) (hSl : S.level < L1)
    (h : parse_line env fuel l eof loc p = (.ok loc', q)) :
    ∃ pend', loc'.scope_stack = pend' ++ S :: below ∧
      open_sprite L1 L2 (declared_name l, none) pend' ∧
      q.m_sprites = p.m_sprites ∧
      q.m_sprites_in_current_sheet = p.m_sprites_in_current_sheet := by
  obtain ⟨hb, hlevel, hd⟩ := hh
  obtain ⟨keyword, htok, hk⟩ := line_definition_tokens hd (by decide)
  have hstop : stops_at (line_level l) S := by
    rw [hlevel]
    exact ⟨fun h => by omega, by omega⟩
  rw [parse_line_on_top hb htok (by rw [hk]; decide) hstack hstop] at h
  have ho' : opens_scope (line_level l) S .sprite = true := by
    simp [opens_scope, has_implicit_scope]
  rw [hk, apply_definition_sprite, ho'] at h
  have hargs : ∀ B', B'.definition = .sprite → B'.level = line_level l →
      (∀ name, declared_name l = some name → B'.sprite = name) →
      open_sprite L1 L2 (declared_name l, none) [B'] := fun B' a b c =>
    Or.inl ⟨B', rfl, a, by rw [b, hlevel], c, fun r hr => by cases hr⟩
  cases ha : line_arguments l with
  | nil =>
    rw [ha] at h
    simp only [Prod.mk.injEq, Except.ok.injEq] at h
    obtain ⟨rfl, rfl⟩ := h
    refine ⟨[line_state l .sprite S], rfl, hargs _ rfl rfl ?_, ?_, ?_⟩
    · intro name hn
      simp only [declared_name, ha] at hn
      cases hn
    · split <;> rfl
    · split <;> rfl
  | cons a t =>
    cases t with
    | nil =>
      rw [ha] at h
      simp only [Prod.mk.injEq, Except.ok.injEq] at h
      obtain ⟨rfl, rfl⟩ := h
      refine ⟨[{ line_state l .sprite S with sprite := a }], rfl, hargs _ rfl rfl ?_, ?_, ?_⟩
      · intro name hn
        simp only [declared_name, ha, Option.some.injEq] at hn
        rw [← hn]
      · split <;> rfl
      · split <;> rfl
    | cons b t =>
      rw [ha] at h
      cases h

theorem declarations_length (lines : List (List Char × Bool)) :
    ∀ cur, (declarations cur lines).length = sprite_lines lines + 1 := by
  induction lines with
  | nil => intro cur; rfl
  | cons line rest ih =>
    intro cur
    obtain ⟨l, eof⟩ := line
    unfold sprite_lines at ih ⊢
    rw [declarations]
    by_cases hi : is_inert l = true
    · simp [hi, ih]
    · by_cases hs : line_definition l = .sprite
      · simp [hi, hs, ih]
      · by_cases hr : line_definition l = .rect <;> simp [hi, hs, hr, ih]

theorem sheet_ends_deduces {env : Env} {fuel : Nat} {s : State} {p : InputParser}
    (h : p.m_sprites_in_current_sheet = 0) :
    sheet_ends env fuel s p =
      match deduction env fuel s p with
      | (.ok s', q) => (.ok s', { q with m_sprites_in_current_sheet := 0 })
      | (.error e, q) => (.error e, q) := by
  unfold sheet_ends deduction
  simp only [run_bind, run_get, h, if_true]
  rcases (if s.sheet.is_sequence = true then deduce_sequence_sprites env fuel s
    else if (!s.grid.empty) = true then deduce_grid_sprites env s
    else deduce_unaligned_sprites env s) p with ⟨_ | s', q⟩ <;> rfl

theorem sheet_ends_counter {env : Env} {fuel : Nat} {s s' : State} {p q : InputParser}
    (h : sheet_ends env fuel s p = (.ok s', q)) : q.m_sprites_in_current_sheet = 0 := by
  by_cases hc : p.m_sprites_in_current_sheet = 0
  · rw [sheet_ends_deduces hc] at h
    rcases hd : deduction env fuel s p with ⟨_ | s1, q1⟩
    · rw [hd] at h; cases h
    · rw [hd] at h
      simp only [Prod.mk.injEq, Except.ok.injEq] at h
      rw [← h.2]
  · rw [sheet_ends_counted hc] at h
    simp only [Prod.mk.injEq, Except.ok.injEq] at h
    rw [← h.2]

/-- A `sheet` line followed by `sprite` lines at one deeper level with attribute lines
at one still deeper level: when `parse` returns, it has appended the declared sprites
and no other. -/
theorem declared_sprites_inv {env : Env} {fuel : Nat} {p q : InputParser}
    {input sl h0 : List Char} {e0 e1 : Bool} {others : List (List Char × Bool)}
    {L1 L2 : Int} {stack : List State}
    (hlines : getlines input = (sl, e0) :: (h0, e1) :: others)
    (hsheet : is_inert sl = false ∧ line_definition sl = .sheet)
    (hdef : has_implicit_scope env.state0.definition = false)
    (hL1 : line_level sl < L1) (hL2 : L1 < L2)
    (hfirst : sprite_header L1 h0)
    (hothers : ∀ l ∈ others,
      is_inert l.1 = true ∨ sprite_header L1 l.1 ∨ attribute_line L2 l.1)
    (hok : parse env fuel input p = (.ok stack, q)) :
    stack = [sentinel env] ∧ q.m_sprites_in_current_sheet = 0 ∧
      ∃ new, q.m_sprites = p.m_sprites ++ new ∧
        List.Forall₂ declared_as (declarations (declared_name h0, none) others) new := by
  rw [parse_eq, hlines] at hok
  rcases hloop : parse_loop env fuel ((sl, e0) :: (h0, e1) :: others) 1 (initial_locals env)
    (parse_start p) with ⟨_ | ⟨loc, n⟩, q0⟩
  · rw [hloop] at hok; cases hok
  · rw [hloop] at hok
    dsimp only at hok
    obtain ⟨loc1, q1, h1, hloop⟩ := parse_loop_cons_inv hloop
    obtain ⟨S, s1, s2, s3, s4, s5⟩ := sheet_line_inv hsheet.1 hsheet.2 rfl h1
    obtain ⟨loc2, q2, h2, hloop⟩ := parse_loop_cons_inv hloop
    obtain ⟨pend2, t1, t2, t3, t4⟩ := first_header_inv L2 hfirst s1 (by rw [s3]; exact hL1) h2
    obtain ⟨pend, cur, done, new, f1, f2, f3, f4, f5, f6⟩ :=
      sprite_blocks_inv hL2 (by rw [s3]; exact hL1) others _ loc2 q2 _ pend2 loc n q0
        hothers t1 t2 hloop
    have hl0 := line_level_nonneg sl
    obtain ⟨X, hX, hpop⟩ := @close_open_sprite env fuel loc.detected_indetation L1 L2 cur pend S
      { q0 with m_line_number := n } f2 (by omega) hL2 s2 (by rw [s3]; omega) hdef
    rw [f1, hpop] at hok
    rcases hx : sprite_ends env X { q0 with m_line_number := n } with ⟨_ | X', q3⟩
    · rw [hx] at hok; cases hok
    · rw [hx] at hok
      dsimp only at hok
      obtain ⟨sprite, g1, g2, g3, g4⟩ := sprite_ends_inv hx
      have hc : q3.m_sprites_in_current_sheet ≠ 0 := by
        rw [g4]
        change q0.m_sprites_in_current_sheet + 1 ≠ 0
        rw [f6, t4, s5]
        change (0 : Int) + _ + 1 ≠ 0
        omega
      rw [sheet_ends_counted hc] at hok
      simp only [Prod.mk.injEq, Except.ok.injEq] at hok
      obtain ⟨rfl, rfl⟩ := hok
      refine ⟨rfl, rfl, new ++ [sprite], ?_, ?_⟩
      · change q3.m_sprites = _
        rw [g1]
        change q0.m_sprites ++ _ = _
        rw [f4, t3, s4]
        change (p.m_sprites ++ new) ++ [sprite] = _
        rw [List.append_assoc]
      · rw [f3]
        exact List.rel_append f5 (List.Forall₂.cons (declared_as_of_holds hX g2 g3)
          List.Forall₂.nil)

set_option maxRecDepth 100000 in
/-- C5 (counterexample): on the sheet `a.png` of 4 x 1 pixels, a `sprite b` line nested
more deeply than the `sprite a` line before it gives two sprites that are both named
`b`; a `rect 1 0 2 1` line followed by a less deeply nested `pivot` line, and a
`rect 0 0 0 0` line, give a sprite with the bounds of the sheet as rectangle; the
declared name `""` gives the name `sprite_0`; and for a sheet file that is missing
`parse` throws and no sprite is appended. -/
theorem nested_sprite_named_twice :
    (parse (demo_env [("a.png".toList, sheet_4x1)]) 0
        "sheet \"a.png\"\n  sprite a\n    sprite b\n".toList
        (InputParser.new false)).2.m_sprites.map (fun x => x.id) = ["b".toList, "b".toList] ∧
    (parse (demo_env [("a.png".toList, sheet_4x1)]) 0
        "sheet \"a.png\"\n  sprite a\n      rect 1 0 2 1\n    pivot top left\n".toList
        (InputParser.new false)).2.m_sprites.map (fun x => x.source_rect) = [⟨0, 0, 4, 1⟩] ∧
    (parse (demo_env [("a.png".toList, sheet_4x1)]) 0
        "sheet \"a.png\"\n  sprite a\n    rect 0 0 0 0\n".toList
        (InputParser.new false)).2.m_sprites.map (fun x => x.source_rect) = [⟨0, 0, 4, 1⟩] ∧
    (parse (demo_env [("a.png".toList, sheet_4x1)]) 0
        "sheet \"a.png\"\n  sprite \"\"\n".toList
        (InputParser.new false)).2.m_sprites.map (fun x => x.id) = ["sprite_0".toList] ∧
    (parse (demo_env []) 0 "sheet \"a.png\"\n  sprite a\n".toList (InputParser.new false)).1 =
      .error (.image_load "a.png".toList) ∧
    (parse (demo_env []) 0 "sheet \"a.png\"\n  sprite a\n".toList
      (InputParser.new false)).2.m_sprites = [] := by
  refine ⟨?_, ?_, ?_, ?_, ?_, ?_⟩ <;> decide!

/-- C5 (amended): for an input of a `sheet` line followed by a `sprite` line at a deeper
level `L1` and then blank lines, comments, further `sprite` lines at the level `L1` and
attribute lines at one still deeper level `L2`, on which `parse` returns: `parse` has
appended exactly as many sprites as there are `sprite` lines, in the order of the
lines, each with the declared name if that is not empty and with the rectangle of its
last `rect` line if that is not empty, and the counter of the sheet is 0 at the end.
`sheet_ends` with a counter that is not 0 returns the record as it is and only resets
the counter; with the counter 0 it runs the deduction for a sequence, a grid or
unaligned sprites; whenever it returns, the counter is 0. -/
theorem declared_sprites_only (env : Env) (fuel : Nat) (p q : InputParser)
    (input sl h0 : List Char) (e0 e1 : Bool) (others : List (List Char × Bool))
    (L1 L2 : Int) (stack : List State)
    (hlines : getlines input = (sl, e0) :: (h0, e1) :: others)
    (hsheet : is_inert sl = false ∧ line_definition sl = .sheet)
    (hdef : has_implicit_scope env.state0.definition = false)
    (hL1 : line_level sl < L1) (hL2 : L1 < L2)
    (hfirst : sprite_header L1 h0)
    (hothers : ∀ l ∈ others,
      is_inert l.1 = true ∨ sprite_header L1 l.1 ∨ attribute_line L2 l.1)
    (hok : parse env fuel input p = (.ok stack, q)) :
    (∃ new, q.m_sprites = p.m_sprites ++ new ∧ new.length = sprite_lines others + 1 ∧
      List.Forall₂ declared_as (declarations (declared_name h0, none) others) new) ∧
    q.m_sprites_in_current_sheet = 0 ∧
    ∀ (s : State) (r : InputParser),
      (r.m_sprites_in_current_sheet ≠ 0 →
        sheet_ends env fuel s r = (.ok s, { r with m_sprites_in_current_sheet := 0 })) ∧
      (r.m_sprites_in_current_sheet = 0 →
        sheet_ends env fuel s r =
          match deduction env fuel s r with
          | (.ok s', r') => (.ok s', { r' with m_sprites_in_current_sheet := 0 })
          | (.error e, r') => (.error e, r')) ∧
      ∀ s' r', sheet_ends env fuel s r = (.ok s', r') → r'.m_sprites_in_current_sheet = 0 := by
  obtain ⟨-, h1, new, h2, h3⟩ := declared_sprites_inv hlines hsheet hdef hL1 hL2 hfirst hothers hok
  refine ⟨⟨new, h2, ?_, h3⟩, h1, fun s r => ⟨sheet_ends_counted, sheet_ends_deduces,
    fun s' r' h => sheet_ends_counter h⟩⟩
  rw [← List.Forall₂.length_eq h3, declarations_length]

set_option maxRecDepth 100000 in
/-- C5 (witness): on the sheet `a.png` of 4 x 1 pixels, the lines `sheet "a.png"`,
`sprite a` with the nested line `rect 1 0 2 1`, and `sprite b` give exactly the two
sprites `a` with the rectangle (1, 0, 2, 1) and `b`. -/
theorem declared_sprites_only_witness :
    (∃ new, (parse (demo_env [("a.png".toList, sheet_4x1)]) 0
        "sheet \"a.png\"\n  sprite a\n    rect 1 0 2 1\n  sprite b\n".toList
        (InputParser.new false)).2.m_sprites = [] ++ new ∧ new.length = 2 ∧
      List.Forall₂ declared_as
        [(some "a".toList, some ⟨1, 0, 2, 1⟩), (some "b".toList, none)] new) ∧
    (parse (demo_env [("a.png".toList, sheet_4x1)]) 0
        "sheet \"a.png\"\n  sprite a\n    rect 1 0 2 1\n  sprite b\n".toList
        (InputParser.new false)).2.m_sprites.map (fun x => (x.id, x.source_rect)) =
      [("a".toList, ⟨1, 0, 2, 1⟩), ("b".toList, ⟨0, 0, 4, 1⟩)] := by
  have hok : (match (parse (demo_env [("a.png".toList, sheet_4x1)]) 0
        "sheet \"a.png\"\n  sprite a\n    rect 1 0 2 1\n  sprite b\n".toList
        (InputParser.new false)).1 with
      | .ok _ => true
      | .error _ => false) = true := by decide!
  refine ⟨?_, by decide!⟩
  rcases hx : parse (demo_env [("a.png".toList, sheet_4x1)]) 0
      "sheet \"a.png\"\n  sprite a\n    rect 1 0 2 1\n  sprite b\n".toList
      (InputParser.new false) with ⟨_ | stack, q⟩
  · rw [hx] at hok; cases hok
  · have h := (declared_sprites_only (demo_env [("a.png".toList, sheet_4x1)]) 0
      (InputParser.new false) q
      "sheet \"a.png\"\n  sprite a\n    rect 1 0 2 1\n  sprite b\n".toList
      "sheet \"a.png\"".toList "  sprite a".toList false false
      [("    rect 1 0 2 1".toList, false), ("  sprite b".toList, false), ([], true)]
      2 4 stack (by decide) ⟨by decide, by decide⟩ (by decide) (by decide) (by decide)
      ⟨by decide, by decide, by decide⟩
      (fun l hl => by
        simp only [List.mem_cons, List.mem_singleton, List.not_mem_nil, or_false] at hl
        rcases hl with rfl | rfl | rfl
        · exact Or.inr (Or.inr ⟨by decide, by decide, by decide, by decide⟩)
        · exact Or.inr (Or.inl ⟨by decide, by decide, by decide⟩)
        · exact Or.inl (by decide))
      hx).1
    have hd : declarations (declared_name "  sprite a".toList, none)
        [("    rect 1 0 2 1".toList, false), ("  sprite b".toList, false), ([], true)] =
        [(some "a".toList, some ⟨1, 0, 2, 1⟩), (some "b".toList, none)] := by decide
    rw [hd] at h
    exact h

set_option maxRecDepth 100000 in
/-- C23: `width 12abc` is accepted and stores the width 12, as is every token that
starts with `12a`; `grid 16px` stores the grid 16 x 16 and `rect 1.5 0 2 2` the
rectangle (1, 0, 2, 2): `check_uint` does not look at the characters behind the
digits. The tokens `-1`, `abc` and `2147483648` are rejected with `invalid number`,
and `12` stores 12. -/
theorem number_with_trailing_text_accepted :
    apply_definition (demo_env []) demo_state .width ["12abc".toList]
        { InputParser.new false with m_line_number := 3 } =
      (.ok { demo_state with width := 12 }, { InputParser.new false with m_line_number := 3 }) ∧
    (∀ tail : List Char, uint_value ('1' :: '2' :: 'a' :: tail) = some 12) ∧
    apply_definition (demo_env []) demo_state .grid ["16px".toList] (InputParser.new false) =
      (.ok { demo_state with grid := ⟨16, 16⟩ }, InputParser.new false) ∧
    apply_definition (demo_env []) demo_state .rect
        ["1.5".toList, "0".toList, "2".toList, "2".toList] (InputParser.new false) =
      (.ok { demo_state with rect := ⟨1, 0, 2, 2⟩ }, InputParser.new false) ∧
    apply_definition (demo_env []) demo_state .width ["12".toList] (InputParser.new false) =
      (.ok { demo_state with width := 12 }, InputParser.new false) ∧
    (∀ token ∈ ["-1".toList, "abc".toList, "2147483648".toList, "".toList, "+5".toList],
      apply_definition (demo_env []) demo_state .width [token]
          { InputParser.new false with m_line_number := 3 } =
        (.error (.runtime_error "invalid number in line 3".toList),
          { InputParser.new false with m_line_number := 3 })) := by
  refine ⟨by decide, fun tail => ?_, by decide, by decide, by decide, by decide⟩
  simp [uint_value, from_chars_int, List.takeWhile, is_digit, decimal_value]

/-- A line leaves `detected_indetation` as it is when that is not empty. -/
theorem parse_line_detected {env : Env} {fuel : Nat} {buffer : List Char} {eof : Bool}
    {loc loc' : Locals} {p q : InputParser} (hd : loc.detected_indetation ≠ [])
    (h : parse_line env fuel buffer eof loc p = (.ok loc', q)) :
    loc'.detected_indetation = loc.detected_indetation := by
  by_cases hb : is_inert buffer = true
  · rw [parse_line_inert hb] at h
    simp only [Prod.mk.injEq, Except.ok.injEq] at h
    rw [← h.1]
    split <;> rfl
  · have hb' : is_inert buffer = false := by simpa using hb
    rcases htok : split_arguments (ltrim buffer) with e | (_ | ⟨keyword, arguments⟩)
    · rw [parse_line_split_error hb' htok] at h; cases h
    · rw [parse_line_split_nil hb' htok] at h; cases h
    · by_cases hdef : get_definition keyword = .none
      · rw [parse_line_unknown hb' htok hdef] at h; cases h
      · rw [parse_line_eq hb' htok hdef] at h
        rcases hpop : pop_scope_stack env fuel loc.detected_indetation (line_level buffer)
            loc.scope_stack p with ⟨_ | ⟨_ | ⟨back, below⟩⟩, q1⟩
        · rw [hpop] at h; cases h
        · rw [hpop] at h; cases h
        · rw [hpop] at h
          dsimp only at h
          rcases hx : apply_definition env (line_state buffer (get_definition keyword) back)
              (get_definition keyword) arguments q1 with ⟨_ | state, q2⟩
          · rw [hx] at h; cases h
          · rw [hx] at h
            simp only [Prod.mk.injEq, Except.ok.injEq] at h
            rw [← h.1]
            unfold line_detected
            cases hy : loc.detected_indetation with
            | nil => exact absurd hy hd
            | cons c cs => rfl

/-- The lines leave `detected_indetation` as it is when that is not empty. -/
theorem parse_loop_detected {env : Env} {fuel : Nat} (lines : List (List Char × Bool)) :
    ∀ {n n' : Int} {loc loc' : Locals} {p q : InputParser},
      loc.detected_indetation ≠ [] →
      parse_loop env fuel lines n loc p = (.ok (loc', n'), q) →
      loc'.detected_indetation = loc.detected_indetation := by
  induction lines with
  | nil =>
    intro n n' loc loc' p q _ h
    simp only [parse_loop, run_pure, Prod.mk.injEq, Except.ok.injEq] at h
    rw [← h.1.1]
  | cons line rest ih =>
    intro n n' loc loc' p q hd h
    obtain ⟨l, eof⟩ := line
    obtain ⟨loc1, q1, h1, h2⟩ := parse_loop_cons_inv h
    have e1 := parse_line_detected hd h1
    rw [ih (by rw [e1]; exact hd) h2, e1]

set_option maxRecDepth 100000 in
/-- C21: whatever the lines are, `detected_indetation` is still the two spaces of
`default_indentation` after them. With autocomplete enabled and the sheet `a.png` of
4 x 1 pixels, in the input `texture "t.png"`, `grid 1 1`, `sheet "a.png"`, the last
two lines indented by four spaces, the deduced lines are indented by six spaces, and
with the two lines indented by a tab the deduced lines are indented by a tab and two
spaces. -/
theorem deduced_lines_indented_by_two_spaces :
    (∀ (env : Env) (fuel : Nat) (lines : List (List Char × Bool)) (n : Int) (p : InputParser),
      match parse_loop env fuel lines n (initial_locals env) p with
      | (.ok (loc, _), _) => loc.detected_indetation = "  ".toList
      | (.error _, _) => True) ∧
    (parse (demo_env [("a.png".toList, sheet_4x1)]) 0
        "texture \"t.png\"\n    grid 1 1\n    sheet \"a.png\"\n".toList
        (InputParser.new true)).2.m_autocomplete_output =
      ("texture \"t.png\"\n    grid 1 1\n    sheet \"a.png\"\n" ++
        "      sprite\n      skip\n      sprite\n").toList ∧
    (parse (demo_env [("a.png".toList, sheet_4x1)]) 0
        "texture \"t.png\"\n\tgrid 1 1\n\tsheet \"a.png\"\n".toList
        (InputParser.new true)).2.m_autocomplete_output =
      ("texture \"t.png\"\n\tgrid 1 1\n\tsheet \"a.png\"\n" ++
        "\t  sprite\n\t  skip\n\t  sprite\n").toList ∧
    (parse (demo_env [("a.png".toList, sheet_4x1)]) 0
        "texture \"t.png\"\n  grid 1 1\n  sheet \"a.png\"\n".toList
        (InputParser.new true)).2.m_autocomplete_output =
      ("texture \"t.png\"\n  grid 1 1\n  sheet \"a.png\"\n" ++
        "    sprite\n    skip\n    sprite\n").toList := by
  refine ⟨fun env fuel lines n p => ?_, by decide!, by decide!, by decide!⟩
  rcases h : parse_loop env fuel lines n (initial_locals env) p with ⟨_ | ⟨loc, m⟩, q⟩
  · trivial
  · exact parse_loop_detected lines (fun e => List.noConfusion e) h

/-- C24: `copy_sprite` calls `extrude_rect` exactly if the count is not zero and the
trimmed source rectangle shares a side with the source rectangle, and the sides that
it passes are those of the source, whether the sprite is rotated or not. For the
rotated sprite whose trimmed source rectangle touches the source rectangle on the
left only, the call is `extrude_rect(target, (10, 20, 1, 2), 1, mode, left = true,
top = false, right = false, bottom = false)`: the left edge of the placed rectangle
is extruded, not its top edge. -/
theorem rotated_sprite_extrudes_left :
    (∀ sprite : Output.Sprite,
      (Output.extrude_request sprite).isSome = true ↔
        sprite.extrude.count ≠ 0 ∧
          (sprite.source_rect.x = sprite.trimmed_source_rect.x ∨
           sprite.source_rect.y = sprite.trimmed_source_rect.y ∨
           sprite.source_rect.x1 = sprite.trimmed_source_rect.x1 ∨
           sprite.source_rect.y1 = sprite.trimmed_source_rect.y1)) ∧
    (∀ sprite : Output.Sprite,
      request_sides (Output.extrude_request { sprite with rotated := true }) =
        request_sides (Output.extrude_request { sprite with rotated := false })) ∧
    (∀ source : Image, Output.extrude_request (rotated_sprite source) =
      some (⟨10, 20, 1, 2⟩, 1, 0, true, false, false, false)) ∧
    (∀ (ops : Output.Ops) (source target : Image),
      Output.copy_sprite_try ops target (rotated_sprite source) (-1) =
        match ops.copy_rect_rotated_cw_vertices source ⟨0, 1, 2, 1⟩ target 10 20 [] with
        | (.error e, target) => (.error e, target)
        | (.ok _, target) =>
          match ops.extrude_rect target ⟨10, 20, 1, 2⟩ 1 0 true false false false with
          | (.error e, target) => (.error e, target)
          | (.ok _, target) => (.ok true, target)) := by
  refine ⟨fun sprite => ?_, fun sprite => ?_, fun source => rfl, fun ops source target => rfl⟩
  · unfold Output.extrude_request Output.x0 Output.y0
    by_cases hc : sprite.extrude.count = 0
    · simp [hc]
    · by_cases h1 : sprite.source_rect.x = sprite.trimmed_source_rect.x <;>
      by_cases h2 : sprite.source_rect.y = sprite.trimmed_source_rect.y <;>
      by_cases h3 : sprite.source_rect.x1 = sprite.trimmed_source_rect.x1 <;>
      by_cases h4 : sprite.source_rect.y1 = sprite.trimmed_source_rect.y1 <;>
      simp [hc, h1, h2, h3, h4]
  · unfold Output.extrude_request request_sides
    dsimp only
    split
    · split <;> rfl
    · rfl

theorem pop_loop_from_cons (env : Env) (fuel : Nat) (det : List Char) (level : Int)
    (k : M (List State)) (above : List State) (last : State) (below : List State) :
    pop_loop_from env fuel det level k above (last :: below) =
      if has_implicit_scope last.definition && decide (level ≤ last.level) then
        match above with
        | [] => do
          let state ← scope_ends env fuel
            { last with definition := last.definition, indent := last.indent ++ det }
          pop_loop_from env fuel det level k [state] below
        | back :: mid => do
          let state ← scope_ends env fuel { back with definition := last.definition }
          pop_loop_from env fuel det level k (state :: mid ++ [last]) below
      else if level ≥ last.level then
        match above.getLast? with
        | some top =>
          if top.definition = .texture then pure ({ last with texture := top.texture } :: below)
          else pure (last :: below)
        | none => pure (last :: below)
      else pop_loop_from env fuel det level k (above ++ [last]) below := by
  cases above <;> rw [pop_loop_from]

/-- With the exit to undefined behaviour for `k`, the loop is `pop_loop`. -/
theorem pop_loop_from_undefined (env : Env) (fuel : Nat) (det : List Char) (level : Int)
    (rest : List State) :
    ∀ above, pop_loop_from env fuel det level (M.throw .undefined) above rest =
      pop_loop env fuel det level above rest := by
  induction rest with
  | nil => intro above; cases above <;> rfl
  | cons last below ih =>
    intro above
    rw [pop_loop_from_cons, pop_loop_cons]
    cases above with
    | nil => simp only [ih]
    | cons back mid => simp only [ih]

/-- When a record of the stack stops the loop, `last` never runs past `rend()`: the
loop does not depend on what would happen there. -/
theorem pop_loop_from_stops {env : Env} {fuel : Nat} {det : List Char} {level : Int}
    (k k' : M (List State)) (rest : List State) :
    ∀ above, (∃ r ∈ rest, stops_at level r) →
      pop_loop_from env fuel det level k above rest =
        pop_loop_from env fuel det level k' above rest := by
  induction rest with
  | nil =>
    intro above h
    obtain ⟨r, hr, -⟩ := h
    cases hr
  | cons last below ih =>
    intro above h
    rw [pop_loop_from_cons, pop_loop_from_cons]
    by_cases h1 : (has_implicit_scope last.definition && decide (level ≤ last.level)) = true
    · have hb : ∃ r ∈ below, stops_at level r := by
        obtain ⟨r, hr, hs⟩ := h
        rcases List.mem_cons.1 hr with rfl | hr
        · simp only [Bool.and_eq_true, decide_eq_true_eq] at h1
          exact absurd h1 hs.1
        · exact ⟨r, hr, hs⟩
      simp only [h1, if_true]
      cases above with
      | nil =>
        dsimp only
        funext p
        simp only [run_bind]
        rcases scope_ends env fuel _ p with ⟨_ | s, q⟩
        · rfl
        · exact congrFun (ih _ hb) q
      | cons back mid =>
        dsimp only
        funext p
        simp only [run_bind]
        rcases scope_ends env fuel _ p with ⟨_ | s, q⟩
        · rfl
        · exact congrFun (ih _ hb) q
    · simp only [h1, Bool.false_eq_true, if_false]
      by_cases h2 : level ≥ last.level
      · simp only [h2, if_true]
      · have hb : ∃ r ∈ below, stops_at level r := by
          obtain ⟨r, hr, hs⟩ := h
          rcases List.mem_cons.1 hr with rfl | hr
          · exact absurd hs.2 h2
          · exact ⟨r, hr, hs⟩
        simp only [h2, if_false]
        exact ih _ hb

/-- A record that is the sentinel up to its texture path stops the loop of
`pop_scope_stack` for every level from -1 on. -/
theorem sentinel_stops {env : Env} {bottom : State} {level : Int}
    (hdef : env.state0.definition = .none)
    (hb : bottom = { sentinel env with texture := bottom.texture }) (hl : -1 ≤ level) :
    stops_at level bottom := by
  have h1 : bottom.definition = .none := by rw [hb]; exact hdef
  have h2 : bottom.level = -1 := by rw [hb]; rfl
  refine ⟨fun h => ?_, by rw [h2]; exact hl⟩
  rw [h1] at h
  exact absurd h.1 (by decide)

theorem append_singleton_split {α : Type} {closed below above : List α} {r bottom : α}
    (h : closed ++ r :: below = above ++ [bottom]) :
    (below = [] ∧ r = bottom ∧ closed = above) ∨
      ∃ t, below = t ++ [bottom] ∧ above = closed ++ r :: t := by
  induction below using List.reverseRecOn with
  | nil =>
    left
    have h' : (closed ++ [r]) = above ++ [bottom] := h
    have := List.append_inj' h' rfl
    exact ⟨rfl, by simpa using this.2, this.1⟩
  | append_singleton t b _ =>
    right
    have h' : (closed ++ r :: t) ++ [b] = above ++ [bottom] := by
      rw [← h]; simp
    have := List.append_inj' h' rfl
    refine ⟨t, ?_, this.1.symm⟩
    have hb : b = bottom := by simpa using this.2
    rw [hb]

/-- The pop phase keeps the sentinel at the bottom of the stack. -/
theorem pop_sentinel_kept {env : Env} {fuel : Nat} {det : List Char} {level : Int}
    {scope_stack result : List State} {p q : InputParser}
    (hk : sentinel_kept env scope_stack)
    (h : pop_scope_stack env fuel det level scope_stack p = (.ok result, q)) :
    sentinel_kept env result := by
  obtain ⟨above, bottom, e1, e2, e3⟩ := hk
  obtain ⟨closed, r, below, f1, -, -, f4, -⟩ := pop_scope_stack_ok h
  rw [e1] at f1
  rcases append_singleton_split f1.symm with ⟨rfl, rfl, -⟩ | ⟨t, rfl, rfl⟩
  · refine ⟨[], keep_texture (top_key closed) r, by rw [f4]; rfl, ?_, fun x hx => by cases hx⟩
    rw [keep_texture_frame]
    dsimp only
    rw [e2]
  · refine ⟨keep_texture (top_key closed) r :: t, bottom, by rw [f4]; rfl, e2, ?_⟩
    intro x hx
    rcases List.mem_cons.1 hx with rfl | hx
    · rw [keep_texture_level]
      exact e3 r (by simp)
    · exact e3 x (by simp [hx])

/-- One line keeps the sentinel at the bottom of the stack. -/
theorem parse_line_sentinel {env : Env} {fuel : Nat} {buffer : List Char} {eof : Bool}
    {loc loc' : Locals} {p q : InputParser}
    (h : parse_line env fuel buffer eof loc p = (.ok loc', q))
    (hk : sentinel_kept env loc.scope_stack) : sentinel_kept env loc'.scope_stack := by
  by_cases hb : is_inert buffer = true
  · rw [parse_line_inert hb] at h
    simp only [Prod.mk.injEq, Except.ok.injEq] at h
    rw [← h.1]
    split <;> exact hk
  · have hb' : is_inert buffer = false := by simpa using hb
    obtain ⟨keyword, arguments, back, below, state, q1, q2, -, -, hpop, happ, hst⟩ :=
      parse_line_ok h hb'
    obtain ⟨above, bottom, e1, e2, e3⟩ := pop_sentinel_kept hk hpop
    have hlev : state.level = line_level buffer := by
      rw [apply_definition_level happ]; rfl
    have hnn := line_level_nonneg buffer
    rw [hst]
    by_cases ho : opens_scope (line_level buffer) back (get_definition keyword) = true
    · rw [if_pos ho, e1]
      exact ⟨state :: above, bottom, rfl, e2, fun x hx => by
        rcases List.mem_cons.1 hx with rfl | hx
        · rw [hlev]; exact hnn
        · exact e3 x hx⟩
    · rw [if_neg ho]
      cases above with
      | nil =>
        exfalso
        simp only [List.nil_append, List.cons.injEq] at e1
        have hbl : back.level = -1 := by rw [e1.1, e2]; rfl
        apply ho
        simp only [opens_scope, hbl, Bool.or_eq_true, decide_eq_true_eq]
        left
        omega
      | cons a t =>
        simp only [List.cons_append, List.cons.injEq] at e1
        rw [e1.2]
        exact ⟨state :: t, bottom, rfl, e2, fun x hx => by
          rcases List.mem_cons.1 hx with rfl | hx
          · rw [hlev]; exact hnn
          · exact e3 x (List.mem_cons_of_mem _ hx)⟩

/-- The lines keep the sentinel at the bottom of the stack. -/
theorem parse_loop_sentinel {env : Env} {fuel : Nat} (lines : List (List Char × Bool)) :
    ∀ {n n' : Int} {loc loc' : Locals} {p q : InputParser},
      parse_loop env fuel lines n loc p = (.ok (loc', n'), q) →
      sentinel_kept env loc.scope_stack → sentinel_kept env loc'.scope_stack := by
  induction lines with
  | nil =>
    intro n n' loc loc' p q h hk
    simp only [parse_loop, run_pure, Prod.mk.injEq, Except.ok.injEq] at h
    rw [← h.1.1]
    exact hk
  | cons line rest ih =>
    intro n n' loc loc' p q h hk
    obtain ⟨l, eof⟩ := line
    obtain ⟨loc1, q1, h1, h2⟩ := parse_loop_cons_inv h
    exact ih h2 (parse_line_sentinel h1 hk)

theorem sentinel_kept_initial (env : Env) : sentinel_kept env (initial_locals env).scope_stack :=
  ⟨[], sentinel env, rfl, rfl, fun x hx => by cases hx⟩

/-- C25: when the value-initialised record has no definition. After the lines that
`parse` has processed, the scope stack is not empty, its bottom record is the sentinel
(up to its texture path) with the level -1 and no definition, and every record above
it has a level that is not negative; when `parse` returns, the stack is that record
alone. For every such stack and every level from -1 on, the loop of `pop_scope_stack`
does not depend on what would happen if `last` ran past `rend()`, and when the call
returns it has stopped at a record `r` of the stack, has erased exactly the records
above `r`, and has kept the sentinel at the bottom. -/
theorem sentinel_never_lost (env : Env) (fuel : Nat) (hdef : env.state0.definition = .none) :
    (∀ (lines : List (List Char × Bool)) (n n' : Int) (loc' : Locals) (p q : InputParser),
      parse_loop env fuel lines n (initial_locals env) p = (.ok (loc', n'), q) →
      sentinel_kept env loc'.scope_stack) ∧
    (∀ scope_stack, sentinel_kept env scope_stack →
      scope_stack ≠ [] ∧ ∃ bottom, scope_stack.getLast? = some bottom ∧
        bottom.level = -1 ∧ bottom.definition = .none ∧
        bottom = { sentinel env with texture := bottom.texture } ∧
        ∀ r ∈ scope_stack.dropLast, 0 ≤ r.level) ∧
    (∀ (input : List Char) (p q : InputParser) (scope_stack : List State),
      parse env fuel input p = (.ok scope_stack, q) →
      ∃ bottom, scope_stack = [bottom] ∧ bottom = { sentinel env with texture := bottom.texture }) ∧
    (∀ (det : List Char) (level : Int) (scope_stack : List State) (p : InputParser),
      sentinel_kept env scope_stack → -1 ≤ level →
      (∀ k, pop_loop_from env fuel det level k [] scope_stack p =
        pop_scope_stack env fuel det level scope_stack p) ∧
      ∀ result q, pop_scope_stack env fuel det level scope_stack p = (.ok result, q) →
        sentinel_kept env result ∧
        ∃ closed r below, scope_stack = closed ++ r :: below ∧
          (∀ x ∈ closed, ¬ stops_at level x) ∧ stops_at level r ∧
          result = keep_texture (top_key closed) r :: below) := by
  refine ⟨fun lines n n' loc' p q h => parse_loop_sentinel lines h (sentinel_kept_initial env),
    fun scope_stack hk => ?_, fun input p q scope_stack h => ?_,
    fun det level scope_stack p hk hl => ⟨fun k => ?_, fun result q h => ?_⟩⟩
  · obtain ⟨above, bottom, e1, e2, e3⟩ := hk
    refine ⟨by rw [e1]; simp, bottom, by rw [e1]; simp, by rw [e2]; rfl, by rw [e2]; exact hdef,
      e2, ?_⟩
    rw [e1, List.dropLast_concat]
    exact e3
  · rw [parse_eq] at h
    rcases hloop : parse_loop env fuel (getlines input) 1 (initial_locals env) (parse_start p)
      with ⟨_ | ⟨loc, n⟩, q0⟩
    · rw [hloop] at h; cases h
    · rw [hloop] at h
      dsimp only at h
      rcases hpop : pop_scope_stack env fuel loc.detected_indetation (-1) loc.scope_stack
        { q0 with m_line_number := n } with ⟨_ | result, q1⟩
      · rw [hpop] at h; cases h
      · rw [hpop] at h
        simp only [Prod.mk.injEq, Except.ok.injEq] at h
        obtain ⟨rfl, -⟩ := h
        have hk := parse_loop_sentinel (getlines input) hloop (sentinel_kept_initial env)
        obtain ⟨above, bottom, e1, e2, e3⟩ := pop_sentinel_kept hk hpop
        obtain ⟨closed, r, below, -, -, f3, f4, -⟩ := pop_scope_stack_ok hpop
        cases above with
        | nil => exact ⟨bottom, e1, e2⟩
        | cons a t =>
          exfalso
          rw [f4] at e1
          simp only [List.cons_append, List.cons.injEq] at e1
          have ha := e3 a (List.mem_cons_self _ _)
          rw [← e1.1, keep_texture_level] at ha
          have := f3.2
          omega
  · obtain ⟨above, bottom, e1, e2, e3⟩ := hk
    have hs : ∃ r ∈ scope_stack, stops_at level r :=
      ⟨bottom, by rw [e1]; simp, sentinel_stops hdef e2 hl⟩
    unfold pop_scope_stack
    rw [← pop_loop_from_undefined]
    exact congrFun (pop_loop_from_stops k (M.throw .undefined) scope_stack [] hs) p
  · obtain ⟨closed, r, below, f1, f2, f3, f4, -⟩ := pop_scope_stack_ok h
    exact ⟨pop_sentinel_kept hk h, closed, r, below, f1, f2, f3, f4⟩

set_option maxRecDepth 100000 in
/-- C25 (witness): the lines `texture "a.png"`, `sheet "s.png"` and an indented `sprite`
line are processed and leave a stack with the sentinel at its bottom, and the pop
with the level -1 on the stack of the sentinel alone returns. -/
theorem sentinel_never_lost_witness :
    (∃ r, (parse_loop (demo_env [("s.png".toList, sheet_4x1)]) 0
            (getlines "texture \"a.png\"\nsheet \"s.png\"\n  sprite".toList) 1
            (initial_locals (demo_env [("s.png".toList, sheet_4x1)]))
            (InputParser.new false)).1 = .ok r ∧
      sentinel_kept (demo_env [("s.png".toList, sheet_4x1)]) r.1.scope_stack ∧
      r.1.scope_stack.length = 3) ∧
    ∀ k, pop_loop_from (demo_env [("s.png".toList, sheet_4x1)]) 0 "  ".toList (-1) k []
        [sentinel (demo_env [("s.png".toList, sheet_4x1)])] (InputParser.new false) =
      (.ok [sentinel (demo_env [("s.png".toList, sheet_4x1)])], InputParser.new false) := by
  have h : (match (parse_loop (demo_env [("s.png".toList, sheet_4x1)]) 0
            (getlines "texture \"a.png\"\nsheet \"s.png\"\n  sprite".toList) 1
            (initial_locals (demo_env [("s.png".toList, sheet_4x1)]))
            (InputParser.new false)).1 with
      | .ok r => decide (r.1.scope_stack.length = 3)
      | .error _ => false) = true := by decide!
  constructor
  · rcases hx : parse_loop (demo_env [("s.png".toList, sheet_4x1)]) 0
            (getlines "texture \"a.png\"\nsheet \"s.png\"\n  sprite".toList) 1
            (initial_locals (demo_env [("s.png".toList, sheet_4x1)]))
            (InputParser.new false) with ⟨_ | ⟨loc, n⟩, q⟩
    · rw [hx] at h; cases h
    · rw [hx] at h
      exact ⟨(loc, n), rfl,
        (sentinel_never_lost (demo_env [("s.png".toList, sheet_4x1)]) 0 rfl).1 _ _ _ _ _ _ hx,
        by simpa using h⟩
  · intro k
    rw [((sentinel_never_lost (demo_env [("s.png".toList, sheet_4x1)]) 0 rfl).2.2.2 "  ".toList
      (-1) [sentinel (demo_env [("s.png".toList, sheet_4x1)])] (InputParser.new false)
      (sentinel_kept_initial _) (le_refl _)).1 k]
    decide

/-- A scanned index gives a cell inside the sheet. -/
theorem scan_index_inside {b c W q g x : Int} (hb : 0 ≤ b) (hq : 0 < q) (hgq : g ≤ q)
    (h0 : (floor b q).tdiv q ≤ x) (h1 : x < (min c W).tdiv q) :
    0 ≤ x * q ∧ x * q + g ≤ W := by
  rw [floor_tdiv hb hq] at h0
  have hx : 0 ≤ x := le_trans (Int.ediv_nonneg hb (le_of_lt hq)) h0
  have hm : 0 ≤ min c W := by
    by_contra hneg
    have : (min c W).tdiv q ≤ 0 := by
      have h2 : 0 ≤ (-(min c W)).tdiv q := Int.tdiv_nonneg (by omega) (le_of_lt hq)
      rw [Int.neg_tdiv] at h2
      omega
    omega
  rw [Int.tdiv_eq_ediv hm (le_of_lt hq)] at h1
  have h3 : (x + 1) * q ≤ min c W / q * q :=
    Int.mul_le_mul_of_nonneg_right (by omega) (le_of_lt hq)
  have h4 := ediv_mul_le' (min c W) hq
  have h5 : min c W ≤ W := min_le_right _ _
  refine ⟨Int.mul_nonneg hx (le_of_lt hq), ?_⟩
  have h6 : (x + 1) * q = x * q + q := by ring
  omega

/-- C26: on a record whose sheet can be loaded and is no sequence, with a positive
cell size, a spacing that is not negative and no offset, where the width of the sheet
plus the cell size plus the spacing fits `int`, and so for the height (the stride and
the rounding to it are computed in `int`, where an overflow is undefined):
`deduce_grid_sprites` runs
its loops over the rows `scan_rows` and the columns `scan_columns`; every rectangle
that it builds there to test it for transparency has the cell size and lies inside
the sheet; and it returns, each sprite that it appends having one of these rectangles
as source rectangle, inside the sheet. -/
theorem grid_deduction_inside_sheet (env : Env) (s : State) (p p1 : InputParser)
    (key : List Char) (sheet : Image)
    (hload : get_sheet env s p = (.ok (key, sheet), p1))
    (hs : s.sheet.empty = false) (hq : s.sheet.is_sequence = false)
    (hgx : 0 < s.grid.x) (hgy : 0 < s.grid.y)
    (hsx : 0 ≤ s.grid_spacing.x) (hsy : 0 ≤ s.grid_spacing.y)
    (hoff : s.grid_offset = ⟨0, 0⟩)
    (hw : 0 ≤ sheet.m_width) (hh : 0 ≤ sheet.m_height)
    (hfx : fits_int (sheet.m_width + s.grid.x + s.grid_spacing.x))
    (hfy : fits_int (sheet.m_height + s.grid.y + s.grid_spacing.y)) :
    deduce_grid_sprites env s p =
      deduce_grid_rows env sheet (grid_stride s) (scan_x0 s sheet) (scan_x1 s sheet)
        (scan_rows s sheet) s p1 ∧
    (∀ x ∈ scan_columns s sheet, ∀ y ∈ scan_rows s sheet,
      scan_rect s (grid_stride s) x y = ⟨x * (grid_stride s).x, y * (grid_stride s).y,
        s.grid.x, s.grid.y⟩ ∧
      (scan_rect s (grid_stride s) x y).inside sheet) ∧
    ∃ s' q new, deduce_grid_sprites env s p = (.ok s', q) ∧
      q.m_sprites = p.m_sprites ++ new ∧
      ∀ sprite ∈ new, sprite.source_rect.inside sheet ∧
        ∃ x ∈ scan_columns s sheet, ∃ y ∈ scan_rows s sheet,
          sprite.source_rect = scan_rect s (grid_stride s) x y := by
  obtain ⟨-, b1, -, -, b4, -, -⟩ := get_used_bounds_spec sheet hw hh
  have hqx : 0 < (grid_stride s).x := by unfold grid_stride; dsimp only; omega
  have hqy : 0 < (grid_stride s).y := by unfold grid_stride; dsimp only; omega
  have hin : ∀ x ∈ scan_columns s sheet, ∀ y ∈ scan_rows s sheet,
      scan_rect s (grid_stride s) x y = ⟨x * (grid_stride s).x, y * (grid_stride s).y,
        s.grid.x, s.grid.y⟩ ∧
      (scan_rect s (grid_stride s) x y).inside sheet := by
    intro x hx y hy
    have e : scan_rect s (grid_stride s) x y = ⟨x * (grid_stride s).x, y * (grid_stride s).y,
        s.grid.x, s.grid.y⟩ := by
      unfold scan_rect
      rw [hoff]
      simp
    unfold scan_columns scan_x0 scan_x1 at hx
    unfold scan_rows at hy
    rw [mem_int_range] at hx hy
    have cx := @scan_index_inside _ _ sheet.width _ s.grid.x x b1 hqx
      (by unfold grid_stride; dsimp only; omega) hx.1 hx.2
    have cy := @scan_index_inside _ _ sheet.height _ s.grid.y y b4 hqy
      (by unfold grid_stride; dsimp only; omega) hy.1 hy.2
    rw [e]
    exact ⟨rfl, cx.1, cy.1, cx.2, cy.2⟩
  refine ⟨?_, hin, ?_⟩
  · unfold deduce_grid_sprites
    simp only [run_bind, hload]
    rw [if_neg (by
      have := ne_of_gt hqx
      have := ne_of_gt hqy
      unfold grid_stride at *
      dsimp only at *
      omega)]
    rfl
  · obtain ⟨s', q, new, e1, e2, e3⟩ := deduce_grid_sprites_run hload hs hq
      (ne_of_gt hgx) (ne_of_gt hgy) (ne_of_gt hqx) (ne_of_gt hqy)
    refine ⟨s', q, new, e1, e2, fun sprite hsp => ?_⟩
    have hm : sprite.source_rect ∈ new.map (fun x => x.source_rect) :=
      List.mem_map.2 ⟨sprite, hsp, rfl⟩
    rw [e3] at hm
    unfold scan_result at hm
    rw [List.mem_flatMap] at hm
    obtain ⟨y, hy, hm⟩ := hm
    rw [List.mem_map] at hm
    obtain ⟨x, hx, hm⟩ := hm
    have hx' := (List.mem_filter.1 hx).1
    have := hin x hx' y hy
    rw [← hm]
    exact ⟨this.2, x, hx', y, hy, rfl⟩

set_option maxRecDepth 1000000 in
/-- C26 (witness): the sheet of 4 x 1 pixels (solid, clear, solid, clear) with the
cell size 1 x 1 and the spacing 1 x 0: the columns 0 and 1 of the row 0 are scanned,
the rectangles (0, 0, 1, 1) and (2, 0, 1, 1) lie inside the sheet, and both become
sprites. -/
theorem grid_deduction_inside_sheet_witness :
    scan_columns spaced_state sheet_4x1 = [0, 1] ∧
    scan_rows spaced_state sheet_4x1 = [0] ∧
    (∀ x ∈ [(0 : Int), 1], ∀ y ∈ [(0 : Int)],
      (⟨x * 2, y * 1, 1, 1⟩ : Rect).inside sheet_4x1) ∧
    (∃ s' q new, deduce_grid_sprites (demo_env [("a.png".toList, sheet_4x1)])
        spaced_state
        (InputParser.new false) = (.ok s', q) ∧
      q.m_sprites = new ∧ ∀ sprite ∈ new, sprite.source_rect.inside sheet_4x1) ∧
    (deduce_grid_sprites (demo_env [("a.png".toList, sheet_4x1)])
        spaced_state
        (InputParser.new false)).2.m_sprites.map (fun sprite => sprite.source_rect) =
      [⟨0, 0, 1, 1⟩, ⟨2, 0, 1, 1⟩] := by
  have h := grid_deduction_inside_sheet (demo_env [("a.png".toList, sheet_4x1)])
    spaced_state
    (InputParser.new false)
    { InputParser.new false with m_sheets := [("a.png".toList, some sheet_4x1)] }
    "a.png".toList sheet_4x1 (by decide!) (by decide) (by decide) (by decide)
    (by decide) (by decide) (by decide) (by decide) (by decide) (by decide)
    (by decide) (by decide)
  have hc : scan_columns spaced_state sheet_4x1 = [0, 1] := by decide!
  have hr : scan_rows spaced_state sheet_4x1 = [0] := by decide!
  refine ⟨hc, hr, ?_, ?_, by decide!⟩
  · intro x hx y hy
    have := h.2.1 x (by rw [hc]; exact hx) y (by rw [hr]; exact hy)
    rw [this.1] at this
    exact this.2
  · obtain ⟨s', q, new, e1, e2, e3⟩ := h.2.2
    exact ⟨s', q, new, e1, by rw [e2]; rfl, fun sprite hs => (e3 sprite hs).1⟩

theorem textures_kept_of_eq {p q : InputParser} (h : q.m_textures = p.m_textures) :
    textures_kept p q := by
  intro k t hk
  rw [h]; exact hk

theorem textures_kept_trans {p q r : InputParser} (h1 : textures_kept p q)
    (h2 : textures_kept q r) : textures_kept p r :=
  fun k t hk => h2 k t (h1 k t hk)

theorem with_texture_kept (env : Env) (s : State) (p : InputParser) :
    textures_kept p (with_texture env s p) := by
  intro k t hk
  by_cases h : k = env.weakly_canonical s.texture
  · subst h
    rw [get_texture_entry, hk]
    rfl
  · rw [get_texture_other env s p h]
    exact hk

theorem get_sheet_file_textures {env : Env} {path filename : List Char} {colorkey : RGBA}
    {p q : InputParser} {r : Except Exn (List Char × Image)}
    (h : get_sheet_file env path filename colorkey p = (r, q)) :
    q.m_textures = p.m_textures := by
  unfold get_sheet_file at h
  dsimp only at h
  split at h
  · cases h; rfl
  · split at h <;> · cases h; rfl

theorem get_sheet_textures {env : Env} {s : State} {p q : InputParser}
    {r : Except Exn (List Char × Image)} (h : get_sheet env s p = (r, q)) :
    q.m_textures = p.m_textures := by
  unfold get_sheet get_sheet_at at h
  simp only [run_bind, run_get] at h
  exact get_sheet_file_textures h

theorem when_output_textures {c : Bool} {t : List Char} {p q : InputParser} {u : Unit}
    (h : M.when c (M.output t) p = (.ok u, q)) : q.m_textures = p.m_textures := by
  rw [run_when_output] at h
  cases h; rfl

theorem sprite_ends_textures {env : Env} {s s' : State} {p q : InputParser}
    (h : sprite_ends env s p = (.ok s', q)) : textures_kept p q := by
  rw [sprite_ends_eq] at h
  split at h
  · cases h
  · rcases hg : get_sheet env (sprite_state s p)
        (with_texture env (sprite_state s p) (sprite_cursor s p)) with ⟨_ | ⟨source, sheet⟩, q1⟩
    · rw [hg] at h; cases h
    · rw [hg] at h
      have h1 : q1.m_textures =
          (with_texture env (sprite_state s p) (sprite_cursor s p)).m_textures :=
        get_sheet_textures hg
      cases h
      have h2 : textures_kept p (sprite_cursor s p) := by
        apply textures_kept_of_eq
        unfold sprite_cursor
        split <;> rfl
      exact textures_kept_trans h2 (textures_kept_trans
        (with_texture_kept env (sprite_state s p) (sprite_cursor s p))
        (textures_kept_of_eq h1))

theorem deduce_sequence_loop_textures {env : Env} (l : List Int) :
    ∀ {s s' : State} {p q : InputParser},
      deduce_sequence_loop env l s p = (.ok s', q) → textures_kept p q := by
  induction l with
  | nil =>
    intro s s' p q h
    simp only [deduce_sequence_loop, run_pure] at h
    cases h; exact textures_kept_of_eq rfl
  | cons i rest ih =>
    intro s s' p q h
    simp only [deduce_sequence_loop] at h
    obtain ⟨⟨key, sheet⟩, p1, h1, h⟩ := bind_eq_ok.1 h
    obtain ⟨p2, p3, h2, h⟩ := bind_eq_ok.1 h
    obtain ⟨u, p4, h3, h⟩ := bind_eq_ok.1 h
    obtain ⟨s1, p5, h4, h⟩ := bind_eq_ok.1 h
    have e1 : p4.m_textures = p.m_textures := by
      rw [when_output_textures h3, get_eq h2]
      exact get_sheet_file_textures h1
    exact textures_kept_trans (textures_kept_of_eq e1)
      (textures_kept_trans (sprite_ends_textures h4) (ih h))

theorem deduce_sequence_sprites_textures {env : Env} {fuel : Nat} {s s' : State}
    {p q : InputParser} (h : deduce_sequence_sprites env fuel s p = (.ok s', q)) :
    textures_kept p q := by
  unfold deduce_sequence_sprites at h
  obtain ⟨s1, p1, h1, h⟩ := bind_eq_ok.1 h
  have e1 : p1 = p := by
    split at h1
    · cases hp : probe_sequence env s fuel 0 with
      | some i =>
        rw [hp] at h1
        simp only [run_pure] at h1
        cases h1; rfl
      | none => rw [hp] at h1; cases h1
    · simp only [run_pure] at h1
      cases h1; rfl
  rw [e1] at h
  exact deduce_sequence_loop_textures _ h

theorem deduce_grid_row_textures {env : Env} {sheet : Image} {grid : Size} {x0 y : Int}
    (l : List Int) :
    ∀ {s s' : State} {b b' : Bool} {k k' : Int} {p q : InputParser},
      deduce_grid_row env sheet grid x0 y l (s, b, k) p = (.ok (s', b', k'), q) →
      textures_kept p q := by
  induction l with
  | nil =>
    intro s s' b b' k k' p q h
    simp only [deduce_grid_row, run_pure] at h
    cases h; exact textures_kept_of_eq rfl
  | cons x rest ih =>
    intro s s' b b' k k' p q h
    simp only [deduce_grid_row] at h
    split at h
    · exact ih h
    · obtain ⟨p2, p3, h2, h⟩ := bind_eq_ok.1 h
      obtain ⟨u, p4, h3, h⟩ := bind_eq_ok.1 h
      obtain ⟨u, p5, h4, h⟩ := bind_eq_ok.1 h
      obtain ⟨u, p6, h5, h⟩ := bind_eq_ok.1 h
      obtain ⟨s1, p7, h6, h⟩ := bind_eq_ok.1 h
      have e1 : p6.m_textures = p.m_textures := by
        rw [when_output_textures h5, when_output_textures h4, when_output_textures h3,
          get_eq h2]
      exact textures_kept_trans (textures_kept_of_eq e1)
        (textures_kept_trans (sprite_ends_textures h6) (ih h))

theorem deduce_grid_rows_textures {env : Env} {sheet : Image} {grid : Size} {x0 x1 : Int}
    (l : List Int) :
    ∀ {s s' : State} {p q : InputParser},
      deduce_grid_rows env sheet grid x0 x1 l s p = (.ok s', q) → textures_kept p q := by
  induction l with
  | nil =>
    intro s s' p q h
    simp only [deduce_grid_rows, run_pure] at h
    cases h; exact textures_kept_of_eq rfl
  | cons y rest ih =>
    intro s s' p q h
    simp only [deduce_grid_rows] at h
    obtain ⟨⟨s1, b1, k1⟩, p1, h1, h⟩ := bind_eq_ok.1 h
    exact textures_kept_trans (deduce_grid_row_textures _ h1) (ih h)

theorem deduce_grid_sprites_textures {env : Env} {s s' : State} {p q : InputParser}
    (h : deduce_grid_sprites env s p = (.ok s', q)) : textures_kept p q := by
  unfold deduce_grid_sprites at h
  obtain ⟨⟨key, sheet⟩, p1, h1, h⟩ := bind_eq_ok.1 h
  dsimp only at h
  split at h
  · cases h
  · exact textures_kept_trans (textures_kept_of_eq (get_sheet_textures h1))
      (deduce_grid_rows_textures _ h)

theorem deduce_unaligned_loop_textures {env : Env} {sheet : Image} (l : List Rect) :
    ∀ {s s' : State} {p q : InputParser},
      deduce_unaligned_loop env sheet l s p = (.ok s', q) → textures_kept p q := by
  induction l with
  | nil =>
    intro s s' p q h
    simp only [deduce_unaligned_loop, run_pure] at h
    cases h; exact textures_kept_of_eq rfl
  | cons r rest ih =>
    intro s s' p q h
    simp only [deduce_unaligned_loop] at h
    obtain ⟨p2, p3, h2, h⟩ := bind_eq_ok.1 h
    obtain ⟨u, p4, h3, h⟩ := bind_eq_ok.1 h
    obtain ⟨u, p5, h4, h⟩ := bind_eq_ok.1 h
    obtain ⟨s1, p6, h5, h⟩ := bind_eq_ok.1 h
    have e1 : p5.m_textures = p.m_textures := by
      rw [when_output_textures h4, when_output_textures h3, get_eq h2]
    exact textures_kept_trans (textures_kept_of_eq e1)
      (textures_kept_trans (sprite_ends_textures h5) (ih h))

theorem deduce_unaligned_sprites_textures {env : Env} {s s' : State} {p q : InputParser}
    (h : deduce_unaligned_sprites env s p = (.ok s', q)) : textures_kept p q := by
  unfold deduce_unaligned_sprites at h
  obtain ⟨⟨key, sheet⟩, p1, h1, h⟩ := bind_eq_ok.1 h
  exact textures_kept_trans (textures_kept_of_eq (get_sheet_textures h1))
    (deduce_unaligned_loop_textures _ h)

theorem sheet_ends_textures {env : Env} {fuel : Nat} {s s' : State} {p q : InputParser}
    (h : sheet_ends env fuel s p = (.ok s', q)) : textures_kept p q := by
  unfold sheet_ends at h
  obtain ⟨p1, p2, h0, h⟩ := bind_eq_ok.1 h
  obtain ⟨s1, p3, h1, h⟩ := bind_eq_ok.1 h
  obtain ⟨u, p4, h2, h⟩ := bind_eq_ok.1 h
  simp only [run_pure] at h
  cases h
  have e0 := get_eq h0
  subst e0
  have e2 : q.m_textures = p3.m_textures := by rw [modify_eq h2]
  refine textures_kept_trans ?_ (textures_kept_of_eq e2)
  split at h1
  · split at h1
    · exact deduce_sequence_sprites_textures h1
    · split at h1
      · exact deduce_grid_sprites_textures h1
      · exact deduce_unaligned_sprites_textures h1
  · simp only [run_pure] at h1
    cases h1; exact textures_kept_of_eq rfl

/-- The scope-close handlers keep every texture that is on file. -/
theorem scope_ends_textures {env : Env} {fuel : Nat} {s s' : State} {p q : InputParser}
    (h : scope_ends env fuel s p = (.ok s', q)) : textures_kept p q := by
  unfold scope_ends at h
  cases hd : s.definition <;> rw [hd] at h <;> dsimp only at h
  case texture =>
    unfold texture_ends at h
    obtain ⟨k, p1, h1, h⟩ := bind_eq_ok.1 h
    simp only [run_pure] at h
    cases h
    rw [get_texture_eq] at h1
    cases h1
    exact with_texture_kept env s p
  case sheet => exact sheet_ends_textures h
  case sprite => exact sprite_ends_textures h
  all_goals
    simp only [run_pure] at h
    cases h; exact textures_kept_of_eq rfl

/-- The first element of a list with a property is determined by the list. -/
theorem first_with_unique {α : Type} {Q : α → Prop} :
    ∀ {l1 l2 : List α} {a b : α} {r1 r2 : List α},
      l1 ++ a :: r1 = l2 ++ b :: r2 → (∀ x ∈ l1, ¬ Q x) → Q a → (∀ x ∈ l2, ¬ Q x) → Q b →
      l1 = l2 ∧ a = b ∧ r1 = r2 := by
  intro l1
  induction l1 with
  | nil =>
    intro l2 a b r1 r2 h _ ha h2 _
    cases l2 with
    | nil =>
      simp only [List.nil_append, List.cons.injEq] at h
      exact ⟨rfl, h.1, h.2⟩
    | cons y l2 =>
      simp only [List.nil_append, List.cons_append, List.cons.injEq] at h
      exact absurd (h.1 ▸ ha) (h2 y (List.mem_cons_self _ _))
  | cons x l1 ih =>
    intro l2 a b r1 r2 h h1 ha h2 hb
    cases l2 with
    | nil =>
      simp only [List.nil_append, List.cons_append, List.cons.injEq] at h
      exact absurd (h.1 ▸ hb) (h1 x (List.mem_cons_self _ _))
    | cons y l2 =>
      simp only [List.cons_append, List.cons.injEq] at h
      obtain ⟨e1, e2, e3⟩ := ih h.2 (fun z hz => h1 z (List.mem_cons_of_mem _ hz)) ha
        (fun z hz => h2 z (List.mem_cons_of_mem _ hz)) hb
      exact ⟨by rw [h.1, e1], e2, e3⟩

/-- The pop phase for a line at the indentation of a texture record `T` that lies on a
record `P` and below the records `above` of the lines nested in its scope: whenever the
pop phase returns, `P` is the top of the stack, with the texture path of `T` and
unchanged otherwise. -/
theorem pop_nested_texture_scope {env : Env} {fuel : Nat} {det : List Char} {T P : State}
    {above below result : List State} {p q : InputParser} (hT : T.definition = .texture)
    (hn : levels_nested (T :: P :: below)) (habove : ∀ x ∈ above, T.level < x.level)
    (h : pop_scope_stack env fuel det T.level (above ++ T :: P :: below) p = (.ok result, q)) :
    result = { P with texture := T.texture } :: below := by
  have hi : has_implicit_scope T.definition = true := by rw [hT]; rfl
  have hstop : stops_at T.level P := by
    rcases hn.1 with h | ⟨h1, h2, -⟩
    · exact ⟨fun hh => (by have := hh.2; omega), le_of_lt h⟩
    · exact ⟨fun hh => (by rw [h2] at hh; cases hh.1), le_of_eq h1⟩
  obtain ⟨closed, r, below', e1, e2, e3, e4, -⟩ := pop_scope_stack_ok h
  have e1' : closed ++ r :: below' = (above ++ [T]) ++ P :: below := by
    rw [← e1]; simp
  have hnot : ∀ x ∈ above ++ [T], ¬ stops_at T.level x := by
    intro x hx hs
    rcases List.mem_append.1 hx with hx | hx
    · have := habove x hx
      have := hs.2
      omega
    · rw [List.mem_singleton] at hx
      subst hx
      exact hs.1 ⟨hi, le_refl _⟩
  obtain ⟨c1, c2, c3⟩ := first_with_unique e1'.symm hnot hstop e2 e3
  rw [e4, ← c1, ← c2, ← c3]
  simp [top_key, keep_texture, hT]

/-- The two lines of the texture scenario leave the sheet record on the sentinel, which
has taken the texture path `a.png`; no sprite has been added, and the texture of the
first line is on file under the path `a.png`. -/
theorem texture_sheet_lines (env : Env) (fuel : Nat) (autocomplete : Bool) :
    ∃ L P, parse_loop env fuel [(texture_line, false), (sheet_line, true)] 1
        (initial_locals env) (parse_start (InputParser.new autocomplete)) = (.ok (L, 3), P) ∧
      L.scope_stack = [sibling_sheet_record env, kept_sentinel env] ∧
      P.m_sprites = [] ∧
      P.m_textures.lookup (env.weakly_canonical "a.png".toList) =
        some (texture_of { env.state0 with texture := "a.png".toList }) := by
  have hd1 : get_definition "texture".toList = .texture := by decide
  have hd2 : get_definition "sheet".toList = .sheet := by decide
  have hstop : stops_at (line_level texture_line) (sentinel env) :=
    ⟨fun h => (by have h2 : line_level texture_line ≤ -1 := h.2; revert h2; decide),
      (by show line_level texture_line ≥ -1; decide)⟩
  -- the texture line
  obtain ⟨L1, P1, hline1, a1, a2, a3, a4⟩ : ∃ L1 P1,
      parse_line env fuel texture_line false (initial_locals env)
        { parse_start (InputParser.new autocomplete) with m_line_number := 1 } = (.ok L1, P1) ∧
      L1.scope_stack = [texture_record env, sentinel env] ∧
      L1.detected_indetation = "  ".toList ∧ P1.m_sprites = [] ∧ P1.m_textures = [] := by
    rw [@parse_line_on_top env fuel texture_line false (initial_locals env) _
      "texture".toList ["a.png".toList] (sentinel env) [] (by decide) (by decide)
      (by rw [hd1]; decide) rfl hstop, hd1, apply_definition_texture]
    refine ⟨_, _, rfl, ?_, ?_, ?_, ?_⟩
    · rfl
    · rfl
    · dsimp only
      split <;> rfl
    · dsimp only
      split <;> rfl
  -- the sheet line
  have hn : levels_nested (texture_record env :: sentinel env :: []) :=
    ⟨Or.inl (by show (-1 : Int) < line_level texture_line; decide), trivial⟩
  have hpop := pop_texture_scope env fuel L1.detected_indetation (texture_record env)
    (sentinel env) [] { P1 with m_line_number := 1 + 1 } rfl hn
  have hfiled : (with_texture env
      { texture_record env with
        indent := (texture_record env).indent ++ L1.detected_indetation }
      { P1 with m_line_number := 1 + 1 }).m_textures.lookup
        (env.weakly_canonical "a.png".toList) =
      some (texture_of { env.state0 with texture := "a.png".toList }) := by
    have hnone : ∀ k, ({ P1 with m_line_number := 1 + 1 } : InputParser).m_textures.lookup k
        = none := by
      intro k
      show P1.m_textures.lookup k = none
      rw [a4]; rfl
    have := get_texture_entry env
      { texture_record env with
        indent := (texture_record env).indent ++ L1.detected_indetation }
      { P1 with m_line_number := 1 + 1 }
    rw [hnone] at this
    exact this
  obtain ⟨L2, P2, hline2, b1, b2, b3⟩ : ∃ L2 P2,
      parse_line env fuel sheet_line true L1 { P1 with m_line_number := 1 + 1 } = (.ok L2, P2) ∧
      L2.scope_stack = [sibling_sheet_record env, kept_sentinel env] ∧ P2.m_sprites = [] ∧
      P2.m_textures.lookup (env.weakly_canonical "a.png".toList) =
        some (texture_of { env.state0 with texture := "a.png".toList }) := by
    rw [@parse_line_eq env fuel sheet_line true L1 _ "sheet".toList ["s.png".toList]
      (by decide) (by decide) (by rw [hd2]; decide), a1]
    have hl : line_level sheet_line = (texture_record env).level := by
      show line_level sheet_line = line_level texture_line
      decide
    rw [hl, hpop]
    dsimp only
    rw [hd2, apply_definition_sheet]
    refine ⟨_, _, rfl, ?_, ?_, ?_⟩
    · simp only [opens_scope, has_implicit_scope, decide_True, Bool.or_true, if_true]
      rw [← hl]
      rfl
    · dsimp only
      split
      · show (with_texture env _ _).m_sprites = []
        rw [with_texture_eq]; exact a3
      · show (with_texture env _ _).m_sprites = []
        rw [with_texture_eq]; exact a3
    · dsimp only
      split
      · exact hfiled
      · exact hfiled
  refine ⟨L2, P2, ?_, b1, b2, b3⟩
  simp only [parse_loop, run_bind, run_modify, hline1, hline2, run_pure]
  rfl

/-- C7: (pop phase) a texture record `T` that lies on a record `P`, with levels as
`parse` keeps them, is closed by a line at the indentation of `T`. Without records of
nested lines above `T`, `texture_ends` runs on `T`, after which a texture is on file
under the canonical path of `T` (the one created from `T` if there was none), and `P`
becomes the top of the stack with the texture path of `T` and is unchanged otherwise.
With records `above` of nested lines, whenever the pop phase returns, `P` is the top of
the stack, again with the texture path of `T` as the only change. (Scenario) when
`parse` returns for `texture "a.png"` followed by `sheet "s.png"` at the same
indentation, the sentinel is left with the texture path `a.png`, the texture created
for the path `a.png`, whose filename is not the default texture name, is on file under
the canonical path of `a.png`, and every sprite has the texture of that key. -/
theorem texture_kept_on_close (env : Env) (fuel : Nat) (det : List Char) (T P : State)
    (below : List State) (p : InputParser) (autocomplete : Bool) (r : List State)
    (q : InputParser) (hT : T.definition = .texture)
    (hn : levels_nested (T :: P :: below))
    (hdef : has_implicit_scope env.state0.definition = false)
    (hparse : parse env fuel "texture \"a.png\"\nsheet \"s.png\"".toList
      (InputParser.new autocomplete) = (.ok r, q)) :
    pop_scope_stack env fuel det T.level (T :: P :: below) p =
      (.ok ({ P with texture := T.texture } :: below),
        with_texture env { T with indent := T.indent ++ det } p) ∧
    (with_texture env { T with indent := T.indent ++ det } p).m_textures.lookup
        (env.weakly_canonical T.texture) =
      some ((p.m_textures.lookup (env.weakly_canonical T.texture)).getD (texture_of T)) ∧
    (∀ above r2 q2, (∀ x ∈ above, T.level < x.level) →
      pop_scope_stack env fuel det T.level (above ++ T :: P :: below) p = (.ok r2, q2) →
      r2 = { P with texture := T.texture } :: below) ∧
    r = [{ sentinel env with texture := "a.png".toList }] ∧
    q.m_textures.lookup (env.weakly_canonical "a.png".toList) =
      some (texture_of { env.state0 with texture := "a.png".toList }) ∧
    (texture_of { env.state0 with texture := "a.png".toList }).filename =
      FilenameSequence.mk_from "a.png".toList ∧
    FilenameSequence.mk_from "a.png".toList ≠ FilenameSequence.mk_from default_texture_name ∧
    ∀ sprite ∈ q.m_sprites, sprite.texture = env.weakly_canonical "a.png".toList := by
  refine ⟨pop_texture_scope env fuel det T P below p hT hn,
    get_texture_entry env { T with indent := T.indent ++ det } p,
    fun above r2 q2 ha hp => pop_nested_texture_scope hT hn ha hp, ?_⟩
  obtain ⟨L, P2, hloop, hstack, hsprites, hfiled⟩ := texture_sheet_lines env fuel autocomplete
  have hlines : getlines "texture \"a.png\"\nsheet \"s.png\"".toList =
      [(texture_line, false), (sheet_line, true)] := by decide
  rw [parse_eq, hlines, hloop] at hparse
  dsimp only at hparse
  rw [hstack] at hparse
  unfold pop_scope_stack at hparse
  have hlev : (-1 : Int) ≤ (sibling_sheet_record env).level := by
    show (-1 : Int) ≤ line_level sheet_line
    decide
  rw [@pop_loop_close_back env fuel L.detected_indetation (-1) [kept_sentinel env]
    (sibling_sheet_record env) { P2 with m_line_number := 3 } rfl hlev] at hparse
  rcases hclose : scope_ends env fuel
      { sibling_sheet_record env with
        indent := (sibling_sheet_record env).indent ++ L.detected_indetation }
      { P2 with m_line_number := 3 } with ⟨e | S, Q⟩
  · rw [hclose] at hparse
    cases hparse
  · rw [hclose] at hparse
    dsimp only at hparse
    have hstop : stops_at (-1) (kept_sentinel env) := by
      refine ⟨fun h => ?_, le_refl _⟩
      have h1 : has_implicit_scope env.state0.definition = true := h.1
      rw [hdef] at h1
      cases h1
    rw [pop_loop_stop hstop] at hparse
    have hSd : S.definition = .sheet := closed_from_definition (scope_ends_closed hclose)
    have hkeep : keep_texture (top_key [S]) (kept_sentinel env) = kept_sentinel env := by
      simp [top_key, keep_texture, hSd]
    rw [hkeep] at hparse
    simp only [Prod.mk.injEq, Except.ok.injEq] at hparse
    obtain ⟨hr, hq⟩ := hparse
    refine ⟨hr.symm, ?_, rfl, by decide, ?_⟩
    · rw [← hq]
      exact scope_ends_textures hclose _ _ hfiled
    · obtain ⟨new, n1, n2⟩ := scope_ends_sprites hclose
      intro sprite hs
      rw [← hq] at hs
      have hs2 : sprite ∈ Q.m_sprites := hs
      rw [n1] at hs2
      have hs3 : sprite ∈ new := by
        rcases List.mem_append.1 hs2 with h | h
        · rw [show ({ P2 with m_line_number := 3 } : InputParser).m_sprites = P2.m_sprites
            from rfl, hsprites] at h
          cases h
        · exact h
      exact n2 sprite hs3

set_option maxRecDepth 100000 in
/-- C7 (witness): with the sheet `s.png` of 4 x 1 pixels as one island, the two lines
give one sprite, its texture is that of the path `a.png`, and the texture on file under
that path is the one created for `a.png`, not one of the default name; the texture
record of the first line is closed on the sentinel by a line at its indentation, also
when the record of a nested line `width 64` lies above it, as `parse` leaves it there,
and with that nested line in the input the texture on file has the width 64. -/
theorem texture_kept_on_close_witness :
    (parse (island_env [("s.png".toList, sheet_4x1)]) 0
        "texture \"a.png\"\nsheet \"s.png\"".toList (InputParser.new false)).2.m_sprites.length
      = 1 ∧
    (∀ sprite ∈ (parse (island_env [("s.png".toList, sheet_4x1)]) 0
        "texture \"a.png\"\nsheet \"s.png\"".toList (InputParser.new false)).2.m_sprites,
      sprite.texture = "a.png".toList) ∧
    (parse (island_env [("s.png".toList, sheet_4x1)]) 0
        "texture \"a.png\"\nsheet \"s.png\"".toList (InputParser.new false)).2.m_textures =
      [("a.png".toList, texture_of { demo_state with texture := "a.png".toList })] ∧
    (pop_scope_stack (island_env [("s.png".toList, sheet_4x1)]) 0 "  ".toList 0
        [texture_record (island_env [("s.png".toList, sheet_4x1)]),
         sentinel (island_env [("s.png".toList, sheet_4x1)])] (InputParser.new false)).1 =
      .ok [kept_sentinel (island_env [("s.png".toList, sheet_4x1)])] ∧
    (pop_scope_stack (island_env [("s.png".toList, sheet_4x1)]) 0 "  ".toList 0
        [nested_width_record (island_env [("s.png".toList, sheet_4x1)]),
         texture_record (island_env [("s.png".toList, sheet_4x1)]),
         sentinel (island_env [("s.png".toList, sheet_4x1)])] (InputParser.new false)).1 =
      .ok [kept_sentinel (island_env [("s.png".toList, sheet_4x1)])] ∧
    (parse_loop (island_env [("s.png".toList, sheet_4x1)]) 0
        [(texture_line, false), ("  width 64".toList, false)] 1
        (initial_locals (island_env [("s.png".toList, sheet_4x1)]))
        (parse_start (InputParser.new false))).1 =
      .ok (⟨"  ".toList, [nested_width_record (island_env [("s.png".toList, sheet_4x1)]),
          texture_record (island_env [("s.png".toList, sheet_4x1)]),
          sentinel (island_env [("s.png".toList, sheet_4x1)])], []⟩, 3) ∧
    (parse (island_env [("s.png".toList, sheet_4x1)]) 0
        "texture \"a.png\"\n  width 64\nsheet \"s.png\"".toList
        (InputParser.new false)).2.m_textures =
      [("a.png".toList,
        texture_of { demo_state with texture := "a.png".toList, width := 64 })] ∧
    (parse (island_env [("s.png".toList, sheet_4x1)]) 0
        "texture \"a.png\"\n  width 64\nsheet \"s.png\"".toList
        (InputParser.new false)).2.m_sprites.map (fun sprite => sprite.texture) =
      ["a.png".toList] := by
  have hok : (match (parse (island_env [("s.png".toList, sheet_4x1)]) 0
        "texture \"a.png\"\nsheet \"s.png\"".toList (InputParser.new false)).1 with
      | .ok _ => true
      | .error _ => false) = true := by decide!
  refine ⟨by decide!, ?_, by decide!, by decide!, ?_, by decide!, by decide!, by decide!⟩
  rotate_left
  · have hpop : (match (pop_scope_stack (island_env [("s.png".toList, sheet_4x1)]) 0
          "  ".toList 0
          [nested_width_record (island_env [("s.png".toList, sheet_4x1)]),
           texture_record (island_env [("s.png".toList, sheet_4x1)]),
           sentinel (island_env [("s.png".toList, sheet_4x1)])] (InputParser.new false)).1 with
        | .ok _ => true
        | .error _ => false) = true := by decide!
    rcases hy : pop_scope_stack (island_env [("s.png".toList, sheet_4x1)]) 0 "  ".toList 0
        [nested_width_record (island_env [("s.png".toList, sheet_4x1)]),
         texture_record (island_env [("s.png".toList, sheet_4x1)]),
         sentinel (island_env [("s.png".toList, sheet_4x1)])] (InputParser.new false)
      with ⟨_ | r2, q2⟩
    · rw [hy] at hpop; cases hpop
    · rcases hx : parse (island_env [("s.png".toList, sheet_4x1)]) 0
          "texture \"a.png\"\nsheet \"s.png\"".toList (InputParser.new false) with ⟨_ | r, q⟩
      · rw [hx] at hok; cases hok
      · have hthm := (texture_kept_on_close (island_env [("s.png".toList, sheet_4x1)]) 0
          "  ".toList (texture_record (island_env [("s.png".toList, sheet_4x1)]))
          (sentinel (island_env [("s.png".toList, sheet_4x1)])) [] (InputParser.new false)
          false r q rfl ⟨Or.inl (by decide), trivial⟩ (by decide) hx).2.2.1
          [nested_width_record (island_env [("s.png".toList, sheet_4x1)])] r2 q2
          (fun x hx2 => by
            rw [List.mem_singleton] at hx2
            rw [hx2]
            decide) hy
        show Except.ok r2 = _
        rw [hthm]
        rfl
  rcases hx : parse (island_env [("s.png".toList, sheet_4x1)]) 0
      "texture \"a.png\"\nsheet \"s.png\"".toList (InputParser.new false) with ⟨_ | r, q⟩
  · rw [hx] at hok; cases hok
  · exact (texture_kept_on_close (island_env [("s.png".toList, sheet_4x1)]) 0 "  ".toList
      (texture_record (island_env [("s.png".toList, sheet_4x1)]))
      (sentinel (island_env [("s.png".toList, sheet_4x1)])) [] (InputParser.new false)
      false r q rfl ⟨Or.inl (by decide), trivial⟩ (by decide) hx).2.2.2.2.2.2.2
end Spright
